import Mathlib

/-!
Smallbrain: board make/unmake, history tables, transposition table, search

A shallow embedding of the parts of the Smallbrain chess engine
(`board.h`, `tt.h`, `search.cpp`) that the properties below are about.

Conventions of the embedding

* Machine integers are `Nat`/`Int` with explicit wrap-around where a C++
  conversion narrows (`toInt16`, `toUInt8`, `% 65536`).
* C++ arrays are total functions on their index type; `std::vector` used as a
  stack is a `List` whose last element is `back()`.
* `types.h`, `helper.h`, `history.h`, `tt.cpp`, `movepick.h`, `evaluation.h`
  are not among the sources; what is needed from them is either a parameter
  or a definition marked `Modelled from the spec`.
-/

namespace Smallbrain

/-! ## Machine integers -/

/-- Conversion of an `int` to `int16_t` (two's complement wrap-around). -/
def toInt16 (x : Int) : Int := (x + 32768) % 65536 - 32768

/-- Conversion of an `int` to `uint8_t` (reduction modulo 256). -/
def toUInt8 (x : Int) : Int := x % 256

/-! ## Basic types (`types.h`) -/

/-- Modelled from the spec: `Color` of `types.h`, used as an array index
(`pieces_bb[p + c * 6]`), White = 0 and Black = 1. -/
inductive Color where
  | White
  | Black
  deriving DecidableEq, Repr

/-- Index value of a colour (`static_cast<int>(color)`). -/
def Color.toNat : Color → Nat
  | .White => 0
  | .Black => 1

/-- The operator `~` on colours. -/
def Color.flip : Color → Color
  | .White => .Black
  | .Black => .White

/-- Squares are 0..63 (a1 = 0, h8 = 63); `NO_SQ` is 64. -/
abbrev Square := Nat

/-- Modelled from the spec: `NO_SQ` of `types.h`, the square one past h8. -/
def NO_SQ : Square := 64

/-- Piece types, `PAWN = 0 .. KING = 5`, `NONETYPE = 6`. -/
abbrev PieceType := Nat

/-- Pieces, `WhitePawn = 0 .. BlackKing = 11`, `None = 12`; a piece is
`type + 6 * color`, as `pieces_bb[p + c * 6]` in `board.h` shows. -/
abbrev Piece := Nat

def PAWN : PieceType := 0
def KNIGHT : PieceType := 1
def BISHOP : PieceType := 2
def ROOK : PieceType := 3
def QUEEN : PieceType := 4
def KING : PieceType := 5
def NONETYPE : PieceType := 6

def WhiteRook : Piece := 3
def BlackRook : Piece := 9
/-- The empty-square piece `None` (`NONE` in `search.cpp`). -/
def NONE : Piece := 12

/-- Modelled from the spec: `type_of_piece` of `helper.h`. -/
def type_of_piece (p : Piece) : PieceType := if p = NONE then NONETYPE else p % 6

/-- Modelled from the spec: `makePiece` of `helper.h`. -/
def makePiece (pt : PieceType) (c : Color) : Piece :=
  if pt = NONETYPE then NONE else pt + 6 * c.toNat

/-- Move kinds. -/
inductive MoveType where
  | NORMAL
  | PROMOTION
  | ENPASSANT
  | CASTLING
  deriving DecidableEq, Repr

/-- Modelled from the spec: a `Move` packs from-square, to-square, move kind
and promotion piece type; the accessors `from`, `to`, `typeOf`,
`promotionType` of `types.h` are the projections. -/
structure Move where
  from_sq : Square
  to_sq : Square
  kind : MoveType
  promo : PieceType
  deriving DecidableEq, Repr

/-- Modelled from the spec: the sentinel `NO_MOVE` (all bits zero). -/
def NO_MOVE : Move := ⟨0, 0, .NORMAL, KNIGHT⟩

/-- Modelled from the spec: the sentinel `NULL_MOVE` (tag 65: b1 to b1). -/
def NULL_MOVE : Move := ⟨1, 1, .NORMAL, KNIGHT⟩

/-- Accessor `from(move)`. -/
def Move.from (m : Move) : Square := m.from_sq
/-- Accessor `to(move)`. -/
def Move.to (m : Move) : Square := m.to_sq
/-- Accessor `typeOf(move)`. -/
def typeOf (m : Move) : MoveType := m.kind
/-- Accessor `promotionType(move)`. -/
def promotionType (m : Move) : PieceType := m.promo

/-- Modelled from the spec: `MAX_PLY` (design notes of the spec: 128). -/
def MAX_PLY : Int := 128

/-- Modelled from the spec: `VALUE_MATE`, one below `VALUE_INFINITE`. -/
def VALUE_MATE : Int := 32000
/-- Modelled from the spec: `VALUE_INFINITE` = 32001. -/
def VALUE_INFINITE : Int := 32001
/-- Modelled from the spec: `VALUE_NONE` = 32002. -/
def VALUE_NONE : Int := 32002
/-- Modelled from the spec: mate threshold `VALUE_MATE - MAX_PLY`. -/
def VALUE_MATE_IN_PLY : Int := VALUE_MATE - MAX_PLY
def VALUE_MATED_IN_PLY : Int := -VALUE_MATE_IN_PLY
def VALUE_TB_WIN : Int := VALUE_MATE_IN_PLY
def VALUE_TB_LOSS : Int := -VALUE_TB_WIN
def VALUE_TB_WIN_IN_MAX_PLY : Int := VALUE_TB_WIN - MAX_PLY
def VALUE_TB_LOSS_IN_MAX_PLY : Int := -VALUE_TB_WIN_IN_MAX_PLY

/-- Score of being mated in `ply` plies: `-VALUE_MATE + ply`. -/
def mated_in (ply : Int) : Int := ply - VALUE_MATE
/-- Score of mating in `ply` plies: `VALUE_MATE - ply`. -/
def mate_in (ply : Int) : Int := VALUE_MATE - ply

/-! ## Castling rights (`board.h`, lines 20-118) -/

/-- `BitField16`: four groups of four bits in a `uint16_t`. -/
structure BitField16 where
  value_ : Nat
  deriving DecidableEq, Repr

/-- `BitField16::setGroupValue`. -/
def BitField16.setGroupValue (b : BitField16) (group_index group_value : Nat) : BitField16 :=
  let startBit := group_index * 4
  let setMask := (group_value <<< startBit) % 65536
  ⟨(b.value_ &&& (65535 ^^^ ((15 <<< startBit) % 65536))) ||| setMask⟩

/-- `BitField16::getGroup`. -/
def BitField16.getGroup (b : BitField16) (group_index : Nat) : Nat :=
  (b.value_ >>> (group_index * 4)) &&& 15

inductive CastleSide where
  | KING_SIDE
  | QUEEN_SIDE
  deriving DecidableEq, Repr

def CastleSide.toNat : CastleSide → Nat
  | .KING_SIDE => 0
  | .QUEEN_SIDE => 1

/-- `CastlingRights`: the rook file + 1 for each (colour, side), 0 if absent. -/
structure CastlingRights where
  castling_rights : BitField16
  deriving DecidableEq, Repr

/-- `CastlingRights::setCastlingRight(color, castle, rook_file)`. -/
def CastlingRights.setCastlingRight (cr : CastlingRights) (color : Color) (castle : CastleSide)
    (rook_file : Nat) : CastlingRights :=
  ⟨cr.castling_rights.setGroupValue (2 * color.toNat + castle.toNat) ((rook_file + 1) % 65536)⟩

/-- `CastlingRights::clearCastlingRight(color, castle)`. -/
def CastlingRights.clearCastlingRight (cr : CastlingRights) (color : Color) (castle : CastleSide) :
    CastlingRights :=
  ⟨cr.castling_rights.setGroupValue (2 * color.toNat + castle.toNat) 0⟩

/-- `CastlingRights::clearCastlingRight(color)`: both sides of one colour. -/
def CastlingRights.clearCastlingRightColor (cr : CastlingRights) (color : Color) : CastlingRights :=
  ⟨(cr.castling_rights.setGroupValue (2 * color.toNat) 0).setGroupValue (2 * color.toNat + 1) 0⟩

/-- `CastlingRights::hasCastlingRight(color, castle)`. -/
def CastlingRights.hasCastlingRight (cr : CastlingRights) (color : Color) (castle : CastleSide) :
    Bool :=
  cr.castling_rights.getGroup (2 * color.toNat + castle.toNat) != 0

/-- `CastlingRights::getHashIndex`. -/
def CastlingRights.getHashIndex (cr : CastlingRights) : Nat :=
  (cr.hasCastlingRight .White .KING_SIDE).toNat +
    2 * (cr.hasCastlingRight .White .QUEEN_SIDE).toNat +
    4 * (cr.hasCastlingRight .Black .KING_SIDE).toNat +
    8 * (cr.hasCastlingRight .Black .QUEEN_SIDE).toNat

/-! ## Board (`board.h`, lines 120-598) -/

/-- `State`: what `makeMove` saves for `unmakeMove`. -/
structure State where
  en_passant : Square
  castling : CastlingRights
  half_move : Nat
  captured_piece : Piece
  deriving DecidableEq, Repr

/-- The fields of `Board` other than the NNUE accumulator and its stack
(`nnue.h` is not among the sources; no field below depends on them). -/
structure Board where
  chess960 : Bool
  side_to_move : Color
  en_passant_square : Square
  castling_rights : CastlingRights
  half_move_clock : Nat
  full_move_number : Nat
  hash_history : List Nat
  hash_key : Nat
  state_history : List State
  pieces_bb : Nat → Nat
  board : Square → Piece

/-- Modelled from the spec: `Board::at(sq)` / `pieceAtB(sq)`, the piece on a
square read from the `board` array. -/
def Board.pieceAtB (b : Board) (sq : Square) : Piece := b.board sq

/-- `Board::pieces(PieceType, Color)`. -/
def Board.pieces (b : Board) (pt : PieceType) (c : Color) : Nat := b.pieces_bb (pt + c.toNat * 6)

/-! ## History tables (`search.cpp`, lines 29-88) -/

/-- One frame of the search stack (`Stack` of `search.h`). -/
structure Stack where
  ply : Int
  eval : Int
  currentmove : Move
  excluded_move : Move

/-- The history tables of a search worker together with its board.
`history[stm][from][to]` and `consthist[piece][to][piece][to]` hold
`int16_t`, `counters[from][to]` and `killers[slot][ply]` hold moves. -/
structure Tables where
  board : Board
  history : Color → Square → Square → Int
  consthist : Piece → Square → Piece → Square → Int
  counters : Square → Square → Move
  killers : Nat → Int → Move

/-- Kind of history table (`History::HH`, `History::CONST`). -/
inductive History where
  | HH
  | CONST
  deriving DecidableEq, Repr

/-- `bonus(depth)`: `std::min(2000, depth * 155)`. -/
def bonus (depth : Int) : Int := min 2000 (depth * 155)

/-- Write `v` at `history[c][f][t]`. -/
def setHistory (h : Color → Square → Square → Int) (c : Color) (f t : Square) (v : Int) :
    Color → Square → Square → Int :=
  fun c2 f2 t2 => if c2 = c ∧ f2 = f ∧ t2 = t then v else h c2 f2 t2

/-- Write `v` at `consthist[p1][t1][p2][t2]`. -/
def setConsthist (h : Piece → Square → Piece → Square → Int) (p1 : Piece) (t1 : Square)
    (p2 : Piece) (t2 : Square) (v : Int) : Piece → Square → Piece → Square → Int :=
  fun a b c d => if a = p1 ∧ b = t1 ∧ c = p2 ∧ d = t2 then v else h a b c d

/-- Modelled from the spec: `getHistory<type>(move, secondmove, search)` of
`history.h`, the entry that `updateHistoryBonus<type>` is about to change. -/
def getHistory (type : History) (move secondmove : Move) (s : Tables) : Int :=
  match type with
  | .HH => s.history s.board.side_to_move move.from move.to
  | .CONST =>
    s.consthist (s.board.pieceAtB secondmove.from) secondmove.to
      (s.board.pieceAtB move.from) move.to

/-- `Search::updateHistoryBonus<type>`: the gravity update of one entry.
The division is C++ `int` division (truncating); `+=` on an `int16_t`
entry narrows the sum back to 16 bits. -/
def updateHistoryBonus (type : History) (s : Tables) (move secondmove : Move) (bonus : Int) :
    Tables :=
  let hh_bonus := bonus - Int.tdiv (getHistory type move secondmove s * |bonus|) 16384
  match type with
  | .HH =>
    let v := toInt16 (s.history s.board.side_to_move move.from move.to + hh_bonus)
    { s with history := setHistory s.history s.board.side_to_move move.from move.to v }
  | .CONST =>
    let v := toInt16 (s.consthist (s.board.pieceAtB secondmove.from) secondmove.to
      (s.board.pieceAtB move.from) move.to + hh_bonus)
    let t := setConsthist s.consthist (s.board.pieceAtB secondmove.from) secondmove.to
      (s.board.pieceAtB move.from) move.to v
    { s with consthist := t }

/-- The two conditional continuation-history updates of one move: at the
previous ply when `ss->ply > 0` and two plies back when `ss->ply > 1`. -/
def updateConst (s : Tables) (stack : Int → Stack) (ss : Int) (move : Move) (bonus : Int) :
    Tables :=
  if (stack ss).ply > 0 then
    let s1 := updateHistoryBonus .CONST s move (stack (ss - 1)).currentmove bonus
    if (stack ss).ply > 1 then
      updateHistoryBonus .CONST s1 move (stack (ss - 2)).currentmove bonus
    else s1
  else s

/-- `Search::updateHistory<type>`: the best move gets `bonus`, each of
`moves[0..move_count)` gets `-bonus`. The stack is `stack`, the frame
pointer `ss` is its index. -/
def updateHistory (type : History) (s : Tables) (bestmove : Move) (bonus depth : Int)
    (moves : Nat → Move) (move_count : Nat) (stack : Int → Stack) (ss : Int) : Tables :=
  let s1 :=
    match type with
    | .HH => if depth > 1 then updateHistoryBonus .HH s bestmove NO_MOVE bonus else s
    | .CONST => updateConst s stack ss bestmove bonus
  (List.range move_count).foldl
    (fun acc i =>
      match type with
      | .CONST => updateConst acc stack ss (moves i) (-bonus)
      | .HH => updateHistoryBonus .HH acc (moves i) NO_MOVE (-bonus))
    s1

/-- `Search::updateAllHistories`. The product `4 * depth^3` is the `int`
product of the source (no overflow for the depths the search asserts,
`0 < depth < MAX_PLY`). -/
def updateAllHistories (s : Tables) (bestmove : Move) (depth : Int) (quiets : Nat → Move)
    (quiet_count : Nat) (stack : Int → Stack) (ss : Int) : Tables :=
  let depth_bonus := bonus depth
  let prev := (stack (ss - 1)).currentmove
  let s1 : Tables :=
    { s with counters := fun f t => if f = prev.from ∧ t = prev.to then bestmove else s.counters f t }
  if s1.board.pieceAtB bestmove.to = NONE then
    let k0 := s1.killers 0 (stack ss).ply
    let s2 : Tables :=
      { s1 with killers := fun i p => if i = 1 ∧ p = (stack ss).ply then k0 else s1.killers i p }
    let s3 : Tables :=
      { s2 with killers := fun i p => if i = 0 ∧ p = (stack ss).ply then bestmove else s2.killers i p }
    let s4 := updateHistory .HH s3 bestmove depth_bonus depth quiets quiet_count stack ss
    let constbonus := min (4 * depth * depth * depth) 1500
    updateHistory .CONST s4 bestmove constbonus depth quiets quiet_count stack ss
  else s1

/-! ## Transposition table (`tt.h`; `tt.cpp` is not among the sources) -/

/-- Bound kinds of a TT entry (`Flag`, an 8-bit enumeration). -/
inductive Flag where
  | NONEBOUND
  | UPPERBOUND
  | LOWERBOUND
  | EXACTBOUND
  deriving DecidableEq, Repr

/-- Numeric value of a flag, for the bit test `flag & LOWERBOUND`. -/
def Flag.toNat : Flag → Nat
  | .NONEBOUND => 0
  | .UPPERBOUND => 1
  | .LOWERBOUND => 2
  | .EXACTBOUND => 3

/-- `TEntry` (`tt.h`, lines 7-13): `key` is 64 bits, `score` an `int16_t`,
`depth` a `uint8_t`. -/
structure TEntry where
  key : Nat
  score : Int
  move : Move
  depth : Int
  flag : Flag
  deriving DecidableEq, Repr

/-- The default-initialised entry of `tt.h`. -/
def TEntry.empty : TEntry := ⟨0, 0, NO_MOVE, 0, .NONEBOUND⟩

/-- `TranspositionTable`: the vector `entries_`. -/
structure TranspositionTable where
  entries_ : List TEntry

/-- Modelled from the spec: `TranspositionTable::index`, the fastrange
`(hash * size) >> 64` of a 64-bit hash into `entries_`. -/
def TranspositionTable.index (tt : TranspositionTable) (key : Nat) : Nat :=
  (key * tt.entries_.length) >>> 64

/-- Modelled from the spec: `TranspositionTable::store` (its body is in
`tt.cpp`, which is missing). The slot at `index(hash)` is overwritten;
the move is kept when the slot already holds this hash and the incoming
move is `NO_MOVE`. The `int` depth narrows to the `uint8_t` field. -/
def TranspositionTable.store (tt : TranspositionTable) (depth : Int) (bestvalue : Int) (b : Flag)
    (key : Nat) (move : Move) : TranspositionTable :=
  let i := tt.index key
  let old := tt.entries_.getD i TEntry.empty
  let mv := if old.key = key ∧ move = NO_MOVE then old.move else move
  ⟨tt.entries_.set i ⟨key, bestvalue, mv, toUInt8 depth, b⟩⟩

/-- Modelled from the spec: `TranspositionTable::probe` (body in the missing
`tt.cpp`): the entry at `index(hash)`, a hit iff its key equals the hash,
and the stored move as a hint even on a miss. Returns
`(tt_hit, ttmove, entry)`. -/
def TranspositionTable.probe (tt : TranspositionTable) (key : Nat) : Bool × Move × TEntry :=
  let tte := tt.entries_.getD (tt.index key) TEntry.empty
  (decide (tte.key = key), tte.move, tte)

/-- Modelled from the spec: `scoreToTT` (declared outside the sources): add
`plies` to scores at or above `VALUE_TB_WIN_IN_MAX_PLY`, subtract it from
scores at or below `VALUE_TB_LOSS_IN_MAX_PLY`; the result is a `Score`
(`int16_t`). -/
def scoreToTT (s plies : Int) : Int :=
  toInt16 (if s ≥ VALUE_TB_WIN_IN_MAX_PLY then s + plies
    else if s ≤ VALUE_TB_LOSS_IN_MAX_PLY then s - plies else s)

/-- Modelled from the spec: `scoreFromTT`, which `inverts the above`:
subtract `plies` from scores at or above `VALUE_TB_WIN_IN_MAX_PLY`, add it
to scores at or below `VALUE_TB_LOSS_IN_MAX_PLY`. -/
def scoreFromTT (s plies : Int) : Int :=
  toInt16 (if s ≥ VALUE_TB_WIN_IN_MAX_PLY then s - plies
    else if s ≤ VALUE_TB_LOSS_IN_MAX_PLY then s + plies else s)


/-! ## History tables: update sequences and the wording of the spec -/

/-- Spec wording (section 4.5): the gravity formula
`h += bonus - h * |bonus| / 16384` on one `int16_t` entry. -/
def specGravity (h b : Int) : Int := toInt16 (h + (b - Int.tdiv (h * |b|) 16384))

/-- Spec wording: gravity update of the butterfly entry of `move`. -/
def specButterflyAt (hist : Color → Square → Square → Int) (stm : Color) (move : Move) (b : Int) :
    Color → Square → Square → Int :=
  setHistory hist stm move.from move.to (specGravity (hist stm move.from move.to) b)

/-- Spec wording: `for each searched-quiet loser, update with -bonus`. -/
def specButterflyLosers (hist : Color → Square → Square → Int) (stm : Color) (b : Int)
    (losers : List Move) : Color → Square → Square → Int :=
  losers.foldl (fun h q => specButterflyAt h stm q (-b)) hist

/-- Spec wording: gravity update of the continuation entry of `move` keyed
by the earlier move `prev`. -/
def specContAt (ch : Piece → Square → Piece → Square → Int) (board : Board) (prev move : Move)
    (b : Int) : Piece → Square → Piece → Square → Int :=
  setConsthist ch (board.pieceAtB prev.from) prev.to (board.pieceAtB move.from) move.to
    (specGravity (ch (board.pieceAtB prev.from) prev.to (board.pieceAtB move.from) move.to) b)

/-- Spec wording: continuation history `at offsets ply-1 and ply-2 (when
valid)`: the entry keyed by `prev1` is updated iff `p ≥ 1`, the one keyed by
`prev2` iff `p ≥ 2`. -/
def specContMove (ch : Piece → Square → Piece → Square → Int) (board : Board) (p : Int)
    (prev1 prev2 move : Move) (b : Int) : Piece → Square → Piece → Square → Int :=
  let c1 := if 1 ≤ p then specContAt ch board prev1 move b else ch
  if 2 ≤ p then specContAt c1 board prev2 move b else c1

/-- Spec wording: continuation history after a cutoff: the best move with
`+bonus`, then every recorded quiet loser with `-bonus`. -/
def specContAfterCutoff (ch : Piece → Square → Piece → Square → Int) (board : Board) (p : Int)
    (prev1 prev2 best : Move) (b : Int) (losers : List Move) :
    Piece → Square → Piece → Square → Int :=
  losers.foldl (fun c q => specContMove c board p prev1 prev2 q (-b))
    (specContMove ch board p prev1 prev2 best b)

/-! ## Sample data -/

/-- A small position: white king e1, white pawn e2, black king e8, black
knight d3; White to move. -/
def sampleBoard : Board where
  chess960 := false
  side_to_move := .White
  en_passant_square := NO_SQ
  castling_rights := ⟨⟨0⟩⟩
  half_move_clock := 3
  full_move_number := 7
  hash_history := [11]
  hash_key := 5
  state_history := []
  pieces_bb := fun p =>
    if p = 0 then 2 ^ 12 else if p = 5 then 2 ^ 4 else if p = 11 then 2 ^ 60
    else if p = 7 then 2 ^ 19 else 0
  board := fun sq =>
    if sq = 12 then 0 else if sq = 4 then 5 else if sq = 60 then 11
    else if sq = 19 then 7 else NONE

/-- All-zero history tables on the sample position. -/
def sampleTables : Tables where
  board := sampleBoard
  history := fun _ _ _ => 0
  consthist := fun _ _ _ _ => 0
  counters := fun _ _ => NO_MOVE
  killers := fun _ _ => NO_MOVE

/-- The stack as `iterativeDeepening` initialises it: `(ss + i)->ply = i`. -/
def sampleStack : Int → Stack := fun i => ⟨i, 0, NO_MOVE, NO_MOVE⟩

/-- The quiet move e2-e4. -/
def sampleQuiet : Move := ⟨12, 28, .NORMAL, KNIGHT⟩

/-- The capture e2xd3. -/
def sampleCapture : Move := ⟨12, 19, .NORMAL, KNIGHT⟩

/-- A table of four empty entries. -/
def sampleTT : TranspositionTable := ⟨[TEntry.empty, TEntry.empty, TEntry.empty, TEntry.empty]⟩

/-! ## Board: hashing, make and unmake (`board.h`, lines 317-598) -/

/-- The functions and tables that `board.h` uses but that are defined outside
the sources (`board.cpp`, `helper.h`, `attacks.h`): the Zobrist key
functions (const members, so they may read the board), the pawn attack
table, the bit scan, and the square arithmetic. -/
structure Helpers where
  updateKeyPiece : Board → Piece → Square → Nat
  updateKeyCastling : Board → Nat
  updateKeyEnPassant : Board → Square → Nat
  updateKeySideToMove : Board → Nat
  pawnAttacks : Square → Color → Nat
  lsb : Nat → Square
  square_rank : Square → Nat
  file_rank_square : Nat → Nat → Square

def FILE_C : Nat := 2
def FILE_D : Nat := 3
def FILE_F : Nat := 5
def FILE_G : Nat := 6
def RANK_1 : Nat := 0
def RANK_8 : Nat := 7

/-- All 64 bits set. -/
def U64_MAX : Nat := 2 ^ 64 - 1

/-- `Board::removePiece<false>`: `pieces_bb[piece] &= ~(1ULL << sq)`,
`board[sq] = None`. -/
def Board.removePiece (b : Board) (piece : Piece) (sq : Square) : Board :=
  { b with
    pieces_bb := fun p =>
      if p = piece then b.pieces_bb p &&& (U64_MAX ^^^ (1 <<< sq)) else b.pieces_bb p
    board := fun s => if s = sq then NONE else b.board s }

/-- `Board::placePiece<false>`: `pieces_bb[piece] |= (1ULL << sq)`,
`board[sq] = piece`. -/
def Board.placePiece (b : Board) (piece : Piece) (sq : Square) : Board :=
  { b with
    pieces_bb := fun p => if p = piece then b.pieces_bb p ||| (1 <<< sq) else b.pieces_bb p
    board := fun s => if s = sq then piece else b.board s }

/-- `Board::movePiece<false>`: clear the from-bit, set the to-bit,
`board[fromSq] = None`, `board[toSq] = piece`. -/
def Board.movePiece (b : Board) (piece : Piece) (fromSq toSq : Square) : Board :=
  { b with
    pieces_bb := fun p =>
      if p = piece then (b.pieces_bb p &&& (U64_MAX ^^^ (1 <<< fromSq))) ||| (1 <<< toSq)
      else b.pieces_bb p
    board := fun s => if s = toSq then piece else if s = fromSq then NONE else b.board s }

/-- `Board::updateHash`, lines 412-435: the part after the piece-type
cases (capture, promotion or plain move, side and castling keys). -/
def updateHashTail (H : Helpers) (b : Board) (move : Move) (p capture : Piece) (rank : Nat) :
    Board :=
  let from_sq := move.from
  let to_sq := move.to
  let b1 :=
    if capture ≠ NONE then
      let c1 := { b with half_move_clock := 0 }
      let c2 := { c1 with hash_key := c1.hash_key ^^^ H.updateKeyPiece c1 capture to_sq }
      if type_of_piece capture = ROOK ∧
          ((rank = RANK_1 ∧ c2.side_to_move = .Black) ∨
            (rank = RANK_8 ∧ c2.side_to_move = .White)) then
        let king_sq := H.lsb (c2.pieces KING c2.side_to_move.flip)
        let side : CastleSide := if to_sq > king_sq then .KING_SIDE else .QUEEN_SIDE
        { c2 with castling_rights := c2.castling_rights.clearCastlingRight c2.side_to_move.flip side }
      else c2
    else b
  let b2 :=
    if typeOf move = .PROMOTION then
      let c1 := { b1 with half_move_clock := 0 }
      let k1 := H.updateKeyPiece c1 (makePiece PAWN c1.side_to_move) from_sq
      let c2 := { c1 with hash_key := c1.hash_key ^^^ k1 }
      let k2 := H.updateKeyPiece c2 (makePiece (promotionType move) c2.side_to_move) to_sq
      { c2 with hash_key := c2.hash_key ^^^ k2 }
    else
      let c1 := { b1 with hash_key := b1.hash_key ^^^ H.updateKeyPiece b1 p from_sq }
      { c1 with hash_key := c1.hash_key ^^^ H.updateKeyPiece c1 p to_sq }
  let b3 := { b2 with hash_key := b2.hash_key ^^^ H.updateKeySideToMove b2 }
  { b3 with hash_key := b3.hash_key ^^^ H.updateKeyCastling b3 }

/-- `Board::updateHash` (lines 353-436). -/
def updateHash (H : Helpers) (b0 : Board) (move : Move) : Board :=
  let pt := type_of_piece (b0.pieceAtB move.from)
  let p := makePiece pt b0.side_to_move
  let from_sq := move.from
  let to_sq := move.to
  let capture := b0.board to_sq
  let rank := H.square_rank to_sq
  let b1 := { b0 with hash_history := b0.hash_history ++ [b0.hash_key] }
  let b2 :=
    if b1.en_passant_square ≠ NO_SQ then
      { b1 with hash_key := b1.hash_key ^^^ H.updateKeyEnPassant b1 b1.en_passant_square }
    else b1
  let b3 := { b2 with hash_key := b2.hash_key ^^^ H.updateKeyCastling b2 }
  let b := { b3 with en_passant_square := NO_SQ }
  if pt = KING then
    let c := { b with castling_rights := b.castling_rights.clearCastlingRightColor b.side_to_move }
    if typeOf move = .CASTLING then
      let rook := if c.side_to_move = .White then WhiteRook else BlackRook
      let rookSQ :=
        H.file_rank_square (if to_sq > from_sq then FILE_F else FILE_D) (H.square_rank from_sq)
      let kingToSq :=
        H.file_rank_square (if to_sq > from_sq then FILE_G else FILE_C) (H.square_rank from_sq)
      let c1 := { c with hash_key := c.hash_key ^^^ H.updateKeyPiece c rook to_sq }
      let c2 := { c1 with hash_key := c1.hash_key ^^^ H.updateKeyPiece c1 rook rookSQ }
      let c3 := { c2 with hash_key := c2.hash_key ^^^ H.updateKeyPiece c2 p from_sq }
      let c4 := { c3 with hash_key := c3.hash_key ^^^ H.updateKeyPiece c3 p kingToSq }
      let c5 := { c4 with hash_key := c4.hash_key ^^^ H.updateKeySideToMove c4 }
      { c5 with hash_key := c5.hash_key ^^^ H.updateKeyCastling c5 }
    else updateHashTail H c move p capture rank
  else if pt = ROOK ∧ ((H.square_rank from_sq = RANK_8 ∧ b.side_to_move = .Black) ∨
      (H.square_rank from_sq = RANK_1 ∧ b.side_to_move = .White)) then
    let king_sq := H.lsb (b.pieces KING b.side_to_move)
    let side : CastleSide := if from_sq > king_sq then .KING_SIDE else .QUEEN_SIDE
    let c := { b with castling_rights := b.castling_rights.clearCastlingRight b.side_to_move side }
    updateHashTail H c move p capture rank
  else if pt = PAWN then
    let c := { b with half_move_clock := 0 }
    if typeOf move = .ENPASSANT then
      let k := H.updateKeyPiece c (makePiece PAWN c.side_to_move.flip) (to_sq ^^^ 8)
      let c1 := { c with hash_key := c.hash_key ^^^ k }
      updateHashTail H c1 move p capture rank
    else if |(from_sq : Int) - (to_sq : Int)| = 16 then
      let epMask := H.pawnAttacks (to_sq ^^^ 8) c.side_to_move
      if epMask &&& c.pieces PAWN c.side_to_move.flip ≠ 0 then
        let c1 := { c with en_passant_square := to_sq ^^^ 8 }
        let c2 := { c1 with hash_key := c1.hash_key ^^^ H.updateKeyEnPassant c1 c1.en_passant_square }
        updateHashTail H c2 move p capture rank
      else updateHashTail H c move p capture rank
    else updateHashTail H c move p capture rank
  else updateHashTail H b move p capture rank

/-- `Board::makeMove`, lines 488-536: the piece updates after the hash
update (`UPDATE PIECES AND NNUE`), with `pt`, `p`, `capture` and `ep` as
computed at the top of `makeMove`. -/
def makeMovePieces (H : Helpers) (b3 : Board) (move : Move) (pt : PieceType) (p capture : Piece)
    (ep : Bool) : Board :=
  let from_sq := move.from
  let to_sq := move.to
  if typeOf move = .CASTLING then
    let rook := if b3.side_to_move = .White then WhiteRook else BlackRook
    let rookToSq :=
      H.file_rank_square (if to_sq > from_sq then FILE_F else FILE_D) (H.square_rank from_sq)
    let kingToSq :=
      H.file_rank_square (if to_sq > from_sq then FILE_G else FILE_C) (H.square_rank from_sq)
    let b4 := (((b3.removePiece p from_sq).removePiece rook to_sq).placePiece p kingToSq).placePiece
      rook rookToSq
    { b4 with side_to_move := b4.side_to_move.flip }
  else
    let b4 :=
      if pt = PAWN ∧ ep = true then
        b3.removePiece (makePiece PAWN b3.side_to_move.flip) (to_sq ^^^ 8)
      else if capture ≠ NONE then b3.removePiece capture to_sq
      else b3
    let b5 :=
      if typeOf move = .PROMOTION then
        (b4.removePiece (makePiece PAWN b4.side_to_move) from_sq).placePiece
          (makePiece (promotionType move) b4.side_to_move) to_sq
      else b4.movePiece p from_sq to_sq
    { b5 with side_to_move := b5.side_to_move.flip }

/-- `Board::makeMove<false>` (lines 441-537). The half-move clock is a
`uint8_t`, the full-move number a `uint16_t`. -/
def makeMove (H : Helpers) (b : Board) (move : Move) : Board :=
  let pt := type_of_piece (b.pieceAtB move.from)
  let p := b.pieceAtB move.from
  let to_sq := move.to
  let capture := b.board to_sq
  let st : State := ⟨b.en_passant_square, b.castling_rights, b.half_move_clock, capture⟩
  let b1 := { b with state_history := b.state_history ++ [st] }
  let b2 := { b1 with half_move_clock := (b1.half_move_clock + 1) % 256
                      full_move_number := (b1.full_move_number + 1) % 65536 }
  let ep : Bool := decide (to_sq = b2.en_passant_square)
  let b3 := updateHash H b2 move
  makeMovePieces H b3 move pt p capture ep

/-- `Board::unmakeMove`, lines 559-597: the piece updates once the saved
state is restored and the side to move is flipped back. -/
def unmakeMovePieces (H : Helpers) (b5 : Board) (move : Move) (capture : Piece) : Board :=
  let from_sq := move.from
  let to_sq := move.to
  let promotion : Bool := decide (typeOf move = .PROMOTION)
  let pt := type_of_piece (b5.pieceAtB to_sq)
  let p := makePiece pt b5.side_to_move
  if typeOf move = .CASTLING then
    let rookToSq := to_sq
    let rook := if b5.side_to_move = .White then WhiteRook else BlackRook
    let rookFromSq :=
      H.file_rank_square (if to_sq > from_sq then FILE_F else FILE_D) (H.square_rank from_sq)
    let kingToSq :=
      H.file_rank_square (if to_sq > from_sq then FILE_G else FILE_C) (H.square_rank from_sq)
    let king := makePiece KING b5.side_to_move
    (((b5.removePiece rook rookFromSq).removePiece king kingToSq).placePiece king
      from_sq).placePiece rook rookToSq
  else if promotion = true then
    let b6 := (b5.removePiece (makePiece (promotionType move) b5.side_to_move) to_sq).placePiece
      (makePiece PAWN b5.side_to_move) from_sq
    if capture ≠ NONE then b6.placePiece capture to_sq else b6
  else
    let b6 := b5.movePiece p to_sq from_sq
    if to_sq = b6.en_passant_square ∧ pt = PAWN then
      b6.placePiece (makePiece PAWN b6.side_to_move.flip) (b6.en_passant_square ^^^ 8)
    else if capture ≠ NONE then b6.placePiece capture to_sq
    else b6

/-- `Board::unmakeMove<false>` (lines 539-598). `back()` on an empty
history vector is undefined behaviour in the source; here it is `none`. -/
def unmakeMove (H : Helpers) (b : Board) (move : Move) : Option Board :=
  match b.state_history.getLast?, b.hash_history.getLast? with
  | some restore, some hk =>
    let b1 := { b with state_history := b.state_history.dropLast }
    let b2 := { b1 with hash_key := hk, hash_history := b1.hash_history.dropLast }
    let b3 := { b2 with en_passant_square := restore.en_passant
                        castling_rights := restore.castling
                        half_move_clock := restore.half_move }
    let capture := restore.captured_piece
    let b4 := { b3 with full_move_number := (b3.full_move_number + 65535) % 65536 }
    let b5 := { b4 with side_to_move := b4.side_to_move.flip }
    some (unmakeMovePieces H b5 move capture)
  | _, _ => none

/-- Type and consistency invariant of a board: bitboards are 64-bit, the
`board` array holds pieces (or `None`), a bit of `pieces_bb[p]` is set
exactly where the array holds `p`, and the move number is a `uint16_t`. -/
structure Board.Consistent (b : Board) : Prop where
  bb_lt : ∀ p, p < 12 → b.pieces_bb p < 2 ^ 64
  board_le : ∀ sq, b.board sq ≤ 12
  agree : ∀ p, p < 12 → ∀ sq, sq < 64 → ((b.pieces_bb p).testBit sq = true ↔ b.board sq = p)
  move_number_lt : b.full_move_number < 65536

/-- King destination of a castling move (`kingToSq` in `makeMove`). -/
def kingToSq (H : Helpers) (m : Move) : Square :=
  H.file_rank_square (if m.to > m.from then FILE_G else FILE_C) (H.square_rank m.from)

/-- Rook destination of a castling move (`rookToSq` in `makeMove`). -/
def rookToSq (H : Helpers) (m : Move) : Square :=
  H.file_rank_square (if m.to > m.from then FILE_F else FILE_D) (H.square_rank m.from)

/-- What the legality of `m` on `b` gives (the move generator is not among
the sources): the squares are on the board, a piece of the side to move
stands on the from-square; a castling move is the king taking its own rook
with both destination squares free (or vacated by king and rook); a pawn
move onto the en-passant square is an en-passant capture of the enemy pawn
behind it; a promotion is a pawn move to a piece type below `KING + 1`. -/
structure Board.Playable (H : Helpers) (b : Board) (m : Move) : Prop where
  from_lt : m.from < 64
  to_lt : m.to < 64
  from_ne_to : m.from ≠ m.to
  own_lt : b.board m.from < 12
  own_color : b.board m.from = makePiece (type_of_piece (b.board m.from)) b.side_to_move
  castle : typeOf m = .CASTLING →
    type_of_piece (b.board m.from) = KING ∧
    b.board m.to = (if b.side_to_move = .White then WhiteRook else BlackRook) ∧
    kingToSq H m < 64 ∧ rookToSq H m < 64 ∧ kingToSq H m ≠ rookToSq H m ∧
    (b.board (kingToSq H m) = NONE ∨ kingToSq H m = m.from ∨ kingToSq H m = m.to) ∧
    (b.board (rookToSq H m) = NONE ∨ rookToSq H m = m.from ∨ rookToSq H m = m.to)
  enpassant : typeOf m ≠ .CASTLING → type_of_piece (b.board m.from) = PAWN →
    m.to = b.en_passant_square →
    typeOf m ≠ .PROMOTION ∧ b.board m.to = NONE ∧
    b.board (m.to ^^^ 8) = makePiece PAWN b.side_to_move.flip ∧ m.to ^^^ 8 ≠ m.from
  promotion : typeOf m = .PROMOTION →
    type_of_piece (b.board m.from) = PAWN ∧ promotionType m < 6

/-- Standard helpers on squares numbered a1 = 0 .. h8 = 63, with all
Zobrist keys derived from the arguments. -/
def sampleHelpers : Helpers where
  updateKeyPiece := fun _ p sq => 1000 * p + sq
  updateKeyCastling := fun b => b.castling_rights.getHashIndex
  updateKeyEnPassant := fun _ sq => 77 + sq
  updateKeySideToMove := fun _ => 99
  pawnAttacks := fun sq c =>
    match c with
    | .White => (if sq % 8 ≠ 0 then 1 <<< (sq + 7) else 0) ||| (if sq % 8 ≠ 7 then 1 <<< (sq + 9) else 0)
    | .Black => (if sq % 8 ≠ 0 then 1 <<< (sq - 9) else 0) ||| (if sq % 8 ≠ 7 then 1 <<< (sq - 7) else 0)
  lsb := fun x => (List.range 64).findIdx (fun i => x.testBit i)
  square_rank := fun sq => sq >>> 3
  file_rank_square := fun f r => (r <<< 3) ^^^ f

/-- A second position: white king e1, rook h1, pawns e5 and a7; black king
e8, pawn d5, rook b8; White to move, en-passant square d6, White may castle
king side. -/
def sampleBoard2 : Board where
  chess960 := false
  side_to_move := .White
  en_passant_square := 43
  castling_rights := ⟨⟨8⟩⟩
  half_move_clock := 0
  full_move_number := 65535
  hash_history := [3, 4]
  hash_key := 9
  state_history := [⟨NO_SQ, ⟨⟨8⟩⟩, 2, NONE⟩]
  pieces_bb := fun p =>
    if p = 0 then 2 ^ 36 + 2 ^ 48 else if p = 3 then 2 ^ 7 else if p = 5 then 2 ^ 4
    else if p = 6 then 2 ^ 35 else if p = 9 then 2 ^ 57 else if p = 11 then 2 ^ 60 else 0
  board := fun sq =>
    if sq = 4 then 5 else if sq = 7 then 3 else if sq = 36 then 0 else if sq = 48 then 0
    else if sq = 35 then 6 else if sq = 57 then 9 else if sq = 60 then 11 else NONE

/-- King-side castling, encoded as king e1 takes rook h1. -/
def sampleCastle : Move := ⟨4, 7, .CASTLING, KNIGHT⟩

/-- The en-passant capture e5xd6. -/
def sampleEnPassant : Move := ⟨36, 43, .ENPASSANT, KNIGHT⟩

/-- The capturing promotion a7xb8=Q. -/
def samplePromotion : Move := ⟨48, 57, .PROMOTION, QUEEN⟩

/-! ## Search (`search.cpp`, lines 90-611 and 795-816) -/

/-- Node kinds, the template parameter of `qsearch` and `absearch`. -/
inductive Node where
  | ROOT
  | PV
  | NONPV
  deriving DecidableEq, Repr

/-- Result of `Board::isDrawn`. -/
inductive Result where
  | NONE
  | DRAWN
  | LOST
  deriving DecidableEq, Repr

/-- `Limits` (spec section 6). -/
structure Limits where
  depth : Int
  nodes : Nat
  time_optimum : Int
  time_maximum : Int
  infinite : Bool

/-- The mutable state of one search worker. `tb` holds the board and the
history tables; `stop` is the shared stop flag as this worker has written
it; `tick` counts the reads of inputs that other threads or the clock
determine; `tt` receives the worker's own stores; `assert_failed` records
that one of the score assertions of `qsearch` and `absearch` (lines 181,
205, 552, 609) or one of their window assertions (lines 103, 257) did not
hold; `zero_window_failed` records that one of the assertions
`pv_node || (alpha == beta - 1)` (lines 104, 258) did not hold;
`early_return` records that a call of `absearch` has returned at its limit
guard or its ply guard (lines 211, 228), before it set
`pv_length_[ss->ply]`. -/
structure SearchState where
  tb : Tables
  nodes : Nat
  tbhits : Nat
  check_time_ : Int
  stop : Bool
  tick : Nat
  seldepth_ : Int
  stack : Int → Stack
  pv_table_ : Int → Int → Move
  pv_length_ : Int → Int
  node_effort : Square → Square → Nat
  tt : TranspositionTable
  limit : Limits
  assert_failed : Bool
  zero_window_failed : Bool
  early_return : Bool

/-- What the search takes from outside `search.cpp`: the worker constants
(`id`, `silent`, `use_tb`), the board queries, evaluation, SEE, tablebase
probe, reduction table and move pickers that are defined outside the
sources, and the inputs that other threads or the clock determine (the
shared stop flag, the wall clock, what a probe of the shared transposition
table returns), indexed by `tick`. `nextMoveAB st ss root ttmove i` is the
move returned by the `i`-th call of `MovePicker<ABSEARCH>::nextMove`. -/
structure Env where
  H : Helpers
  id : Int
  silent : Bool
  use_tb : Bool
  evaluation : Board → Int
  inCheck : Board → Bool
  isRepetition : Board → Int → Bool
  isDrawn : Board → Bool → Result
  hash : Board → Nat
  nonPawnMat : Board → Color → Bool
  makeNullMove : Board → Board
  unmakeNullMove : Board → Board
  see : Board → Move → Int → Bool
  probeWDL : Board → Int
  piece_values_EG : PieceType → Int
  reductions : Int → Int → Int
  nextMoveAB : SearchState → Int → Bool → Move → Nat → Move
  nextMoveQ : SearchState → Int → Move → Nat → Move
  ttProbe : Nat → Nat → Bool × Move × TEntry
  stopAt : Nat → Bool
  getTime : Nat → Int

/-- `Threads.stop.load(std::memory_order_relaxed)`: set by this worker or,
at this moment, by another thread. -/
def readStop (env : Env) (st : SearchState) : Bool × SearchState :=
  (st.stop || env.stopAt st.tick, { st with tick := st.tick + 1 })

/-- `Search::limitReached` (lines 795-816). -/
def limitReached (env : Env) (st : SearchState) : Bool × SearchState :=
  let r := if env.silent then (false, st) else readStop env st
  if !env.silent && r.1 then (true, r.2)
  else
    let st1 := r.2
    if env.id ≠ 0 then (false, st1)
    else if st1.limit.nodes ≠ 0 ∧ st1.nodes ≥ st1.limit.nodes then (true, st1)
    else
      let st2 := { st1 with check_time_ := st1.check_time_ - 1 }
      if st2.check_time_ > 0 then (false, st2)
      else
        let st3 := { st2 with check_time_ := 2047 }
        if st3.limit.time_maximum ≠ 0 then
          let ms := env.getTime st3.tick
          let st4 := { st3 with tick := st3.tick + 1 }
          if ms ≥ st4.limit.time_maximum then (true, { st4 with stop := true })
          else (false, st4)
        else (false, st3)

/-- Write `(ss + 0)->excluded_move` of frame `i`. -/
def setExcluded (stack : Int → Stack) (i : Int) (m : Move) : Int → Stack :=
  fun j => if j = i then { stack j with excluded_move := m } else stack j

/-- Write `currentmove` of frame `i`. -/
def setCurrent (stack : Int → Stack) (i : Int) (m : Move) : Int → Stack :=
  fun j => if j = i then { stack j with currentmove := m } else stack j

/-- Write `eval` of frame `i`. -/
def setEval (stack : Int → Stack) (i : Int) (v : Int) : Int → Stack :=
  fun j => if j = i then { stack j with eval := v } else stack j

/-- `board.makeMove<true>(move)` on the worker's board. -/
def SearchState.makeMove (env : Env) (st : SearchState) (move : Move) : SearchState :=
  { st with tb := { st.tb with board := Smallbrain.makeMove env.H st.tb.board move } }

/-- `board.unmakeMove<false>(move)` on the worker's board (the board is
left as it is where the source would read an empty history). -/
def SearchState.unmakeMove (env : Env) (st : SearchState) (move : Move) : SearchState :=
  { st with tb := { st.tb with
      board := (Smallbrain.unmakeMove env.H st.tb.board move).getD st.tb.board } }

/-- The local variables of `qsearch` inside its move loop. -/
structure QFrame where
  node : Node
  alpha : Int
  beta : Int
  ss : Int
  color : Color
  in_check : Bool
  best_value : Int
  bestmove : Move
  ttmove : Move
  idx : Nat

/-- The local variables of `absearch` from the label `moves:` on. -/
structure ABFrame where
  node : Node
  depth : Int
  alpha : Int
  beta : Int
  ss : Int
  color : Color
  in_check : Bool
  improving : Bool
  excluded_move : Move
  tt_hit : Bool
  ttmove : Move
  tt_score : Int
  key : Nat
  best : Int
  maxValue : Int
  quiets : Nat → Move
  quiet_count : Nat
  made_moves : Nat
  score : Int
  bestmove : Move
  idx : Nat

/-- The pending computations of the search: an entry into `qsearch` or
`absearch`, one of their move loops about to fetch its next move, or the
`absearch` loop body from `newDepth` on (line 486) for a move that was
neither skipped nor pruned. -/
inductive Call where
  | q (node : Node) (alpha beta : Int) (ss : Int)
  | qloop (f : QFrame)
  | ab (node : Node) (depth alpha beta : Int) (ss : Int)
  | abloop (f : ABFrame)
  | abmove (f : ABFrame) (move : Move) (capture : Bool) (extension : Int)

/-- The statement `assert(score > -VALUE_INFINITE && score < VALUE_INFINITE)`:
a failing assertion is recorded in the state. -/
def assertBand (score : Int) (st : SearchState) : SearchState :=
  if score > -VALUE_INFINITE ∧ score < VALUE_INFINITE then st
  else { st with assert_failed := true }

/-- The statement
`assert(alpha >= -VALUE_INFINITE && alpha < beta && beta <= VALUE_INFINITE)`
of lines 103 and 257: a failing assertion is recorded in the state. -/
def assertWindow (alpha beta : Int) (st : SearchState) : SearchState :=
  if alpha ≥ -VALUE_INFINITE ∧ alpha < beta ∧ beta ≤ VALUE_INFINITE then st
  else { st with assert_failed := true }

/-- The statement `assert(pv_node || (alpha == beta - 1))` of lines 104 and
258: a failing assertion is recorded in the state. -/
def assertZero (pv_node : Bool) (alpha beta : Int) (st : SearchState) : SearchState :=
  if pv_node = true ∨ alpha = beta - 1 then st
  else { st with zero_window_failed := true }

/-- End of `qsearch` (lines 196-206): store and return `best_value`. -/
def qFinish (env : Env) (f : QFrame) (st : SearchState) : Int × SearchState :=
  let b : Flag := if f.best_value ≥ f.beta then .LOWERBOUND else .UPPERBOUND
  let r := readStop env st
  let st1 := r.2
  let tt1 := st1.tt.store 0 (scoreToTT f.best_value (st1.stack f.ss).ply) b
    (env.hash st1.tb.board) f.bestmove
  let st2 := if !r.1 then { st1 with tt := tt1 } else st1
  (f.best_value, assertBand f.best_value st2)

/-- End of `absearch` (lines 592-610): terminal score, cap by `maxValue`,
store and return `best`. -/
def abFinish (env : Env) (f : ABFrame) (st : SearchState) : Int × SearchState :=
  let pv_node := decide (f.node ≠ .NONPV)
  let ply := (st.stack f.ss).ply
  let best1 :=
    if f.made_moves = 0 then
      (if f.excluded_move ≠ NO_MOVE then f.alpha else if f.in_check then mated_in ply else 0)
    else f.best
  let best2 := if pv_node then min best1 f.maxValue else best1
  let b : Flag :=
    if best2 ≥ f.beta then .LOWERBOUND
    else if pv_node ∧ f.bestmove ≠ NO_MOVE then .EXACTBOUND else .UPPERBOUND
  if f.excluded_move = NO_MOVE then
    let r := readStop env st
    let st1 := r.2
    let tt1 := st1.tt.store f.depth (scoreToTT best2 ply) b (env.hash st1.tb.board) f.bestmove
    if !r.1 then (best2, assertBand best2 { st1 with tt := tt1 })
    else (best2, assertBand best2 st1)
  else (best2, assertBand best2 st)

/-- The value `-1 + (nodes & 0x2)` returned on a repetition: unsigned
64-bit arithmetic narrowed to `Score`. -/
def repetitionScore (nodes : Nat) : Int :=
  toInt16 (((2 ^ 64 - 1 + (nodes &&& 2)) % 2 ^ 64 : Nat) : Int)

/-- How the part of `absearch` before the move loop ends: a `return` of a
value, a `return qsearch<node>(alpha, beta, ss)`, the null-move search with
reduction `R`, or the label `moves:`. -/
inductive Step where
  | ret (v : Int) (st : SearchState)
  | tailQ (node : Node) (alpha beta : Int) (ss : Int) (st : SearchState)
  | nmp (f : ABFrame) (R : Int) (st : SearchState)
  | moves (f : ABFrame) (st : SearchState)

/-- Lines 299-338 of `absearch`: the tablebase probe. Returns the value to
return at once, if any, and otherwise `best`, `alpha`, `maxValue`. -/
def tbProbe (env : Env) (root_node pv_node : Bool) (depth alpha beta ply : Int)
    (st : SearchState) : (Option Int × Int × Int × Int) × SearchState :=
  let tb_res := if !root_node && !env.silent && env.use_tb then env.probeWDL st.tb.board
    else VALUE_NONE
  if tb_res ≠ VALUE_NONE then
    let st1 := { st with tbhits := (st.tbhits + 1) % 2 ^ 64 }
    let flag : Flag :=
      if tb_res = VALUE_TB_WIN then .LOWERBOUND
      else if tb_res = VALUE_TB_LOSS then .UPPERBOUND else .EXACTBOUND
    let res : Int :=
      if tb_res = VALUE_TB_WIN then VALUE_MATE_IN_PLY - ply - 1
      else if tb_res = VALUE_TB_LOSS then VALUE_MATED_IN_PLY + ply + 1 else 0
    if flag = .EXACTBOUND ∨ (flag = .LOWERBOUND ∧ res ≥ beta) ∨
        (flag = .UPPERBOUND ∧ res ≤ alpha) then
      let tt1 := st1.tt.store (depth + 6) (scoreToTT res ply) flag (env.hash st1.tb.board) NO_MOVE
      ((some res, -VALUE_INFINITE, alpha, VALUE_INFINITE), { st1 with tt := tt1 })
    else if pv_node then
      if flag = .LOWERBOUND then ((none, res, max alpha res, VALUE_INFINITE), st1)
      else ((none, -VALUE_INFINITE, alpha, res), st1)
    else ((none, -VALUE_INFINITE, alpha, VALUE_INFINITE), st1)
  else ((none, -VALUE_INFINITE, alpha, VALUE_INFINITE), st)

/-- Lines 355-402 of `absearch` up to the null-move search, for a non-root
node that is not in check: internal iterative reductions done (`d2`),
then the drop into `qsearch<PV>`, razoring, reverse futility pruning and
the null-move condition. `ev` is `ss->eval`. -/
def abPrune (env : Env) (f : ABFrame) (st1 : SearchState) (ev : Int) (improving : Bool)
    (d2 : Int) : Step :=
  let pv_node := decide (f.node ≠ .NONPV)
  let f2 := { f with improving := improving, depth := d2 }
  if d2 ≤ 0 then .tailQ .PV f.alpha f.beta f.ss st1
  else if pv_node then .moves f2 st1
  else if d2 < 3 ∧ ev + 129 < f.alpha then .tailQ .NONPV f.alpha f.beta f.ss st1
  else if |f.beta| < VALUE_TB_WIN_IN_MAX_PLY ∧ d2 < 7 ∧
      ev - 64 * d2 + 71 * (if improving then 1 else 0) ≥ f.beta then .ret f.beta st1
  else if env.nonPawnMat st1.tb.board f.color = true ∧ f.excluded_move = NO_MOVE ∧
      (st1.stack (f.ss - 1)).currentmove ≠ NULL_MOVE ∧ d2 ≥ 3 ∧ ev ≥ f.beta then
    .nmp f2 (5 + min 4 (Int.tdiv d2 5) + min 3 (Int.tdiv (ev - f.beta) 214)) st1
  else .moves f2 st1

/-- Lines 340-366 of `absearch`: static evaluation, `improving`, internal
iterative reductions; continued by `abPrune`. `f` holds the locals so far
(with `alpha`, `beta`, `depth` after the transposition-table and tablebase
steps). -/
def abStatic (env : Env) (f : ABFrame) (st : SearchState) : Step :=
  if f.in_check then
    .moves { f with improving := false } { st with stack := setEval st.stack f.ss VALUE_NONE }
  else
    let ev := if f.tt_hit then f.tt_score else env.evaluation st.tb.board
    let st1 := { st with stack := setEval st.stack f.ss ev }
    let improving : Bool :=
      if (st1.stack (f.ss - 2)).eval ≠ VALUE_NONE then decide (ev > (st1.stack (f.ss - 2)).eval)
      else false
    if f.node = .ROOT then .moves { f with improving := improving } st1
    else
      let d1 := if f.depth ≥ 3 ∧ f.tt_hit = false then f.depth - 1 else f.depth
      let d2 := if f.node ≠ .NONPV ∧ f.tt_hit = false then d1 - 1 else d1
      abPrune env f st1 ev improving d2

/-- Lines 299-338 of `absearch`, continued by `abStatic`: the tablebase
probe on the window left by the transposition-table step. -/
def abTb (env : Env) (node : Node) (depth1 alpha2 beta2 : Int) (ss : Int) (color : Color)
    (in_check : Bool) (excluded_move : Move) (key : Nat) (tt_hit : Bool) (ttmove : Move)
    (tt_score : Int) (st4 : SearchState) : Step :=
  let root_node := decide (node = .ROOT)
  let pv_node := decide (node ≠ .NONPV)
  let ply := (st4.stack ss).ply
  let tb := tbProbe env root_node pv_node depth1 alpha2 beta2 ply st4
  match tb.1.1 with
  | some v => .ret v tb.2
  | none =>
    abStatic env
      { node := node, depth := depth1, alpha := tb.1.2.2.1, beta := beta2, ss := ss,
        color := color, in_check := in_check, improving := false,
        excluded_move := excluded_move, tt_hit := tt_hit, ttmove := ttmove,
        tt_score := tt_score, key := key, best := tb.1.2.1,
        maxValue := tb.1.2.2.2, quiets := fun _ => NO_MOVE, quiet_count := 0,
        made_moves := 0, score := VALUE_NONE, bestmove := NO_MOVE, idx := 0 }
      tb.2

/-- Lines 269-297 of `absearch`, continued by `abTb`: the
transposition-table cutoff on the probed entry. -/
def abCut (env : Env) (node : Node) (depth1 alpha1 beta1 : Int) (ss : Int) (color : Color)
    (in_check : Bool) (excluded_move : Move) (key : Nat) (tt_hit : Bool) (ttmove : Move)
    (tte : TEntry) (tt_score : Int) (st4 : SearchState) : Step :=
  let root_node := decide (node = .ROOT)
  let pv_node := decide (node ≠ .NONPV)
  let cut : Bool := root_node = false ∧ excluded_move = NO_MOVE ∧ pv_node = false ∧
    tt_hit = true ∧ tt_score ≠ VALUE_NONE ∧ tte.depth ≥ depth1 ∧
    (st4.stack (ss - 1)).currentmove ≠ NULL_MOVE
  if cut ∧ tte.flag = .EXACTBOUND then .ret tt_score st4
  else
    let alpha2 := if cut ∧ tte.flag = .LOWERBOUND then max alpha1 tt_score else alpha1
    let beta2 := if cut ∧ tte.flag = .UPPERBOUND then min beta1 tt_score else beta1
    if cut ∧ alpha2 ≥ beta2 then .ret tt_score st4
    else
      abTb env node depth1 alpha2 beta2 ss color in_check excluded_move key tt_hit ttmove
        tt_score st4

/-- Lines 246-274 of `absearch`, continued by `abCut`: check extension,
drop into `qsearch`, the window assertion, reset of the child's excluded
move, selective depth and the transposition-table probe. -/
def abProbe (env : Env) (node : Node) (depth0 alpha1 beta1 : Int) (ss : Int) (color : Color)
    (in_check : Bool) (excluded_move : Move) (st1 : SearchState) : Step :=
  let pv_node := decide (node ≠ .NONPV)
  let ply := (st1.stack ss).ply
  let depth1 := if in_check then depth0 + 1 else depth0
  if depth1 ≤ 0 then .tailQ node alpha1 beta1 ss st1
  else
    let st1a := assertZero pv_node alpha1 beta1 (assertWindow alpha1 beta1 st1)
    let st2 := { st1a with stack := setExcluded st1a.stack (ss + 1) NO_MOVE }
    let st3 := if pv_node ∧ ply > st2.seldepth_ then { st2 with seldepth_ := ply } else st2
    let key := env.hash st3.tb.board
    let pr := env.ttProbe st3.tick key
    let st4 := { st3 with tick := st3.tick + 1 }
    abCut env node depth1 alpha1 beta1 ss color in_check excluded_move key pr.1 pr.2.1 pr.2.2
      (if pr.1 then scoreFromTT pr.2.2.score ply else VALUE_NONE) st4

/-- Lines 211-244 of `absearch`, continued by `abProbe`: the limit and ply
guards, repetition and draw detection and mate distance pruning. -/
def abEntry (env : Env) (node : Node) (depth0 alpha0 beta0 : Int) (ss : Int)
    (st0 : SearchState) : Step :=
  let lr := limitReached env st0
  if lr.1 then .ret 0 { lr.2 with early_return := true }
  else
    let st := lr.2
    let root_node := decide (node = .ROOT)
    let pv_node := decide (node ≠ .NONPV)
    let color := st.tb.board.side_to_move
    let excluded_move := (st.stack ss).excluded_move
    let in_check := env.inCheck st.tb.board
    let ply := (st.stack ss).ply
    if ply ≥ MAX_PLY then
      .ret (if ply ≥ MAX_PLY ∧ in_check = false then env.evaluation st.tb.board else 0)
        { st with early_return := true }
    else
      let st1 := { st with pv_length_ := fun i => if i = ply then ply else st.pv_length_ i }
      if root_node then abProbe env node depth0 alpha0 beta0 ss color in_check excluded_move st1
      else if env.isRepetition st1.tb.board (1 + (if pv_node then 1 else 0)) then
        .ret (repetitionScore st1.nodes) st1
      else if env.isDrawn st1.tb.board in_check ≠ .NONE then
        .ret (if env.isDrawn st1.tb.board in_check = .LOST then mated_in ply else 0) st1
      else if max alpha0 (mated_in ply) ≥ min beta0 (mate_in (ply + 1)) then
        .ret (max alpha0 (mated_in ply)) st1
      else
        abProbe env node depth0 (max alpha0 (mated_in ply)) (min beta0 (mate_in (ply + 1))) ss
          color in_check excluded_move st1

/-- Lines 92-148 of `qsearch`: guards, window assertion,
transposition-table cutoff and stand pat; either the value returned at once
or the locals at the move loop. -/
def qEntry (env : Env) (node : Node) (alpha beta : Int) (ss : Int) (st0 : SearchState) :
    (Int × SearchState) ⊕ (QFrame × SearchState) :=
  let lr := limitReached env st0
  if lr.1 then .inl (0, lr.2)
  else
    let pv_node := decide (node = .PV)
    let st := assertZero pv_node alpha beta (assertWindow alpha beta lr.2)
    let color := st.tb.board.side_to_move
    let in_check := env.inCheck st.tb.board
    let ply := (st.stack ss).ply
    if ply ≥ MAX_PLY then .inl (env.evaluation st.tb.board, st)
    else if env.isRepetition st.tb.board (1 + (if pv_node then 1 else 0)) then
      .inl (repetitionScore st.nodes, st)
    else if env.isDrawn st.tb.board in_check ≠ .NONE then
      .inl (if env.isDrawn st.tb.board in_check = .LOST then mated_in ply else 0, st)
    else
      let pr := env.ttProbe st.tick (env.hash st.tb.board)
      let st1 := { st with tick := st.tick + 1 }
      let tt_hit := pr.1
      let ttmove := pr.2.1
      let tte := pr.2.2
      let tt_score :=
        if tt_hit = true ∧ tte.score ≠ VALUE_NONE then scoreFromTT tte.score ply else VALUE_NONE
      if tt_hit = true ∧ pv_node = false ∧ tt_score ≠ VALUE_NONE ∧ tte.flag ≠ .NONEBOUND ∧
          (tte.flag = .EXACTBOUND ∨ (tte.flag = .LOWERBOUND ∧ tt_score ≥ beta) ∨
            (tte.flag = .UPPERBOUND ∧ tt_score ≤ alpha)) then
        .inl (tt_score, st1)
      else
        let best_value := env.evaluation st1.tb.board
        if best_value ≥ beta then .inl (best_value, st1)
        else
          .inr ({ node := node, alpha := if best_value > alpha then best_value else alpha,
                  beta := beta, ss := ss, color := color, in_check := in_check,
                  best_value := best_value, bestmove := NO_MOVE, ttmove := ttmove, idx := 0 },
            st1)

/-- Lines 155-171 of `qsearch`: delta pruning and SEE pruning of `move`. -/
def qPruned (env : Env) (f : QFrame) (st : SearchState) (move : Move) : Bool :=
  let captured := type_of_piece (st.tb.board.pieceAtB move.to)
  decide (f.best_value > VALUE_TB_LOSS_IN_MAX_PLY ∧
    ((captured ≠ NONETYPE ∧ f.in_check = false ∧
        f.best_value + 400 + env.piece_values_EG captured < f.alpha ∧
        typeOf move ≠ .PROMOTION ∧ env.nonPawnMat st.tb.board f.color = true) ∨
      (f.in_check = false ∧ env.see st.tb.board move 0 = false)))

/-- Lines 434-459 of `absearch`: SEE and late-move pruning of `move`
(`f.made_moves` already counts it). -/
def abPruned (env : Env) (f : ABFrame) (st : SearchState) (move : Move) (capture : Bool) : Bool :=
  let pv_node := decide (f.node ≠ .NONPV)
  decide (f.node ≠ .ROOT ∧ f.best > VALUE_TB_LOSS_IN_MAX_PLY ∧
    (if capture then f.depth < 6 ∧ env.see st.tb.board move (-(f.depth * 92)) = false
     else (f.in_check = false ∧ pv_node = false ∧ typeOf move ≠ .PROMOTION ∧ f.depth ≤ 5 ∧
            (f.quiet_count : Int) > 4 + f.depth * f.depth) ∨
          (f.depth < 7 ∧ env.see st.tb.board move (-(f.depth * 93)) = false)))

/-- `std::clamp(v, lo, hi)`. -/
def clamp (v lo hi : Int) : Int := if v < lo then lo else if hi < v then hi else v

/-- Lines 516-527 of `absearch`: the reduced depth of late-move reduction. -/
def lmrDepth (env : Env) (f : ABFrame) (capture : Bool) (newDepth : Int) : Int :=
  let pv_node := decide (f.node ≠ .NONPV)
  let r0 := env.reductions f.depth f.made_moves
  let r1 := r0 - Int.tmod env.id 2
  let r2 := r1 + (if f.improving then 1 else 0)
  let r3 := r2 - (if pv_node then 1 else 0)
  let r4 := r3 - (if capture then 1 else 0)
  clamp (newDepth - r4) 1 (newDepth + 1)

/-- Lines 550-589 of `absearch`: unmake the move, node effort, best score,
principal variation, history update on a cutoff, list of quiets. Returns
the new locals and state and whether the loop is left by `break`. -/
def abUpdate (env : Env) (f : ABFrame) (st0 : SearchState) (move : Move) (capture : Bool)
    (score : Int) (node_count : Nat) : ABFrame × SearchState × Bool :=
  let st1 := assertBand score (st0.unmakeMove env move)
  let st2 :=
    if env.id = 0 then
      { st1 with node_effort := fun a b =>
          if a = move.from ∧ b = move.to then
            (st1.node_effort a b + (st1.nodes + 2 ^ 64 - node_count) % 2 ^ 64) % 2 ^ 64
          else st1.node_effort a b }
    else st1
  let ply := (st2.stack f.ss).ply
  let f0 := { f with score := score }
  if score > f0.best then
    let f1 := { f0 with best := score }
    if score > f1.alpha then
      let f2 := { f1 with alpha := score, bestmove := move }
      let st3 := { st2 with
        pv_table_ := fun i j =>
          if i = ply then
            (if j = ply then move
             else if ply + 1 ≤ j ∧ j < st2.pv_length_ (ply + 1) then st2.pv_table_ (ply + 1) j
             else st2.pv_table_ i j)
          else st2.pv_table_ i j
        pv_length_ := fun i => if i = ply then st2.pv_length_ (ply + 1) else st2.pv_length_ i }
      if score ≥ f2.beta then
        let tb1 := updateAllHistories st3.tb f2.bestmove f2.depth f2.quiets f2.quiet_count
          st3.stack f2.ss
        (f2, { st3 with tb := tb1 }, true)
      else if capture then (f2, st3, false)
      else
        ({ f2 with quiets := fun i => if i = f2.quiet_count then move else f2.quiets i
                   quiet_count := (f2.quiet_count + 1) % 256 }, st3, false)
    else if capture then (f1, st2, false)
    else
      ({ f1 with quiets := fun i => if i = f1.quiet_count then move else f1.quiets i
                 quiet_count := (f1.quiet_count + 1) % 256 }, st2, false)
  else if capture then (f0, st2, false)
  else
    ({ f0 with quiets := fun i => if i = f0.quiet_count then move else f0.quiets i
               quiet_count := (f0.quiet_count + 1) % 256 }, st2, false)

/-- Lines 463-470 of `absearch`: the part of the singular-extension
condition that does not read the table entry. -/
def singularPre (f : ABFrame) (move : Move) : Bool :=
  decide (f.node ≠ .ROOT ∧ f.depth ≥ 8 ∧ f.tt_hit = true ∧ f.ttmove = move ∧
    f.excluded_move = NO_MOVE ∧ |f.tt_score| < 10000)

/-- One turn of the `qsearch` move loop (lines 150-194): fetch the next
move, prune it or search it with `-qsearch<node>(-beta, -alpha, ss + 1)`,
update the best value. `rec` runs a pending computation (the recursive
calls and the continuation of the loop). -/
def qLoop (env : Env) (rec : Call → SearchState → Option (Int × SearchState)) (f : QFrame)
    (st : SearchState) : Option (Int × SearchState) :=
  let move := env.nextMoveQ st f.ss f.ttmove f.idx
  if move = NO_MOVE then some (qFinish env f st)
  else if qPruned env f st move then rec (.qloop { f with idx := f.idx + 1 }) st
  else
    let st1 := { st with nodes := (st.nodes + 1) % 2 ^ 64 }
    let st2 := st1.makeMove env move
    match rec (.q f.node (toInt16 (-f.beta)) (toInt16 (-f.alpha)) (f.ss + 1)) st2 with
    | none => none
    | some (r, st3) =>
      let score := toInt16 (-r)
      let st4 := assertBand score (st3.unmakeMove env move)
      let f1 := { f with idx := f.idx + 1 }
      if score > f1.best_value then
        let f2 := { f1 with best_value := score }
        if score > f2.alpha then
          let f3 := { f2 with alpha := score, bestmove := move }
          if score ≥ f3.beta then some (qFinish env f3 st4)
          else rec (.qloop f3) st4
        else rec (.qloop f2) st4
      else rec (.qloop f1) st4

/-- Lines 404-416 of `absearch`: the null-move search with reduction `R`,
then the move loop unless the null move failed high. -/
def abNull (env : Env) (rec : Call → SearchState → Option (Int × SearchState)) (f : ABFrame)
    (R : Int) (st1 : SearchState) : Option (Int × SearchState) :=
  let st2 := { st1 with tb := { st1.tb with board := env.makeNullMove st1.tb.board }
                        stack := setCurrent st1.stack f.ss NULL_MOVE }
  match rec (.ab .NONPV (f.depth - R) (toInt16 (-f.beta)) (toInt16 (-f.beta + 1)) (f.ss + 1))
      st2 with
  | none => none
  | some (r, st3) =>
    let score := toInt16 (-r)
    let st4 := { st3 with tb := { st3.tb with board := env.unmakeNullMove st3.tb.board } }
    if score ≥ f.beta then
      some (if score ≥ VALUE_TB_WIN_IN_MAX_PLY then f.beta else score, st4)
    else rec (.abloop f) st4

/-- Lines 461-484 of `absearch`: the singular-extension search of `move`
(the entry `tte` is read again from the table); continues with the move
and its extension, or returns `singular_beta`. -/
def abSingular (env : Env) (rec : Call → SearchState → Option (Int × SearchState))
    (f1 : ABFrame) (move : Move) (capture : Bool) (st : SearchState) :
    Option (Int × SearchState) :=
  let tte := (env.ttProbe st.tick f1.key).2.2
  let st1 := { st with tick := st.tick + 1 }
  if tte.flag.toNat &&& Flag.LOWERBOUND.toNat ≠ 0 ∧ tte.depth ≥ f1.depth - 3 then
    let singular_beta := f1.tt_score - 3 * f1.depth
    let singular_depth := Int.tdiv (f1.depth - 1) 2
    let st2 := { st1 with stack := setExcluded st1.stack f1.ss move }
    match rec (.ab .NONPV singular_depth (toInt16 (singular_beta - 1))
        (toInt16 singular_beta) f1.ss) st2 with
    | none => none
    | some (value, st3) =>
      let st4 := { st3 with stack := setExcluded st3.stack f1.ss NO_MOVE }
      if value < singular_beta then rec (.abmove f1 move capture 1) st4
      else if singular_beta ≥ f1.beta then some (toInt16 singular_beta, st4)
      else rec (.abmove f1 move capture 0) st4
  else rec (.abmove f1 move capture 0) st1

/-- One turn of the `absearch` move loop up to the extension (lines
418-484): fetch the next move, skip the excluded move, count the move,
prune it, or go on with it. -/
def abLoop (env : Env) (rec : Call → SearchState → Option (Int × SearchState)) (f : ABFrame)
    (st : SearchState) : Option (Int × SearchState) :=
  let move := env.nextMoveAB st f.ss (decide (f.node = .ROOT))
    (if f.tt_hit then f.ttmove else NO_MOVE) f.idx
  if move = NO_MOVE then some (abFinish env f st)
  else if move = f.excluded_move then rec (.abloop { f with idx := f.idx + 1 }) st
  else
    let f1 := { f with made_moves := (f.made_moves + 1) % 256, idx := f.idx + 1 }
    let capture := decide (st.tb.board.pieceAtB move.to ≠ NONE)
    if abPruned env f1 st move capture then rec (.abloop f1) st
    else if singularPre f1 move then abSingular env rec f1 move capture st
    else rec (.abmove f1 move capture 0) st

/-- Lines 517-531 of `absearch`: late-move reduction. Returns `score`, the
state and `do_full_search`. -/
def abLmr (env : Env) (rec : Call → SearchState → Option (Int × SearchState)) (f : ABFrame)
    (capture : Bool) (newDepth : Int) (st3 : SearchState) : Option (Int × SearchState × Bool) :=
  let pv_node := decide (f.node ≠ .NONPV)
  let lmr : Bool := decide (f.depth ≥ 3 ∧ f.in_check = false ∧
    (f.made_moves : Int) > 3 + 2 * (if pv_node then 1 else 0))
  let rdepth := lmrDepth env f capture newDepth
  if lmr then
    match rec (.ab .NONPV rdepth (toInt16 (-f.alpha - 1)) (toInt16 (-f.alpha)) (f.ss + 1)) st3 with
    | none => none
    | some (r, s) => some (toInt16 (-r), s, decide (toInt16 (-r) > f.alpha ∧ rdepth < newDepth))
  else some (f.score, st3, decide (pv_node = false ∨ f.made_moves > 1))

/-- Lines 536-538 of `absearch`: the full-depth zero-window search. -/
def abFull (rec : Call → SearchState → Option (Int × SearchState)) (f : ABFrame)
    (newDepth : Int) (score1 : Int) (st4 : SearchState) (do_full_search : Bool) :
    Option (Int × SearchState) :=
  if do_full_search then
    match rec (.ab .NONPV newDepth (toInt16 (-f.alpha - 1)) (toInt16 (-f.alpha)) (f.ss + 1))
        st4 with
    | none => none
    | some (r, s) => some (toInt16 (-r), s)
  else some (score1, st4)

/-- Lines 545-547 of `absearch`: the principal-variation search. -/
def abPvs (rec : Call → SearchState → Option (Int × SearchState)) (f : ABFrame)
    (newDepth : Int) (score2 : Int) (st5 : SearchState) : Option (Int × SearchState) :=
  let pv_node := decide (f.node ≠ .NONPV)
  if pv_node = true ∧ ((score2 > f.alpha ∧ score2 < f.beta) ∨ f.made_moves = 1) then
    match rec (.ab .PV newDepth (toInt16 (-f.beta)) (toInt16 (-f.alpha)) (f.ss + 1)) st5 with
    | none => none
    | some (r, s) => some (toInt16 (-r), s)
  else some (score2, st5)

/-- The `absearch` loop body from `newDepth` on (lines 486-589): make the
move, late-move reduction, full search, PVS search, unmake and update; then
the end of `absearch` on a `break`, the next turn of the loop otherwise. -/
def abMove (env : Env) (rec : Call → SearchState → Option (Int × SearchState)) (f : ABFrame)
    (move : Move) (capture : Bool) (extension : Int) (st : SearchState) :
    Option (Int × SearchState) :=
  let newDepth := f.depth - 1 + extension
  let st1 := { st with nodes := (st.nodes + 1) % 2 ^ 64 }
  let st2 := st1.makeMove env move
  let node_count := st2.nodes
  let st3 := { st2 with stack := setCurrent st2.stack f.ss move }
  match abLmr env rec f capture newDepth st3 with
  | none => none
  | some (score1, st4, do_full_search) =>
    match abFull rec f newDepth score1 st4 do_full_search with
    | none => none
    | some (score2, st5) =>
      match abPvs rec f newDepth score2 st5 with
      | none => none
      | some (score3, st6) =>
        let u := abUpdate env f st6 move capture score3 node_count
        if u.2.2 then some (abFinish env u.1 u.2.1) else rec (.abloop u.1) u.2.1

/-- One step of a pending computation; `rec` runs the computations it
starts. -/
def searchStep (env : Env) (rec : Call → SearchState → Option (Int × SearchState)) :
    Call → SearchState → Option (Int × SearchState)
  | .q node alpha beta ss, st =>
    match qEntry env node alpha beta ss st with
    | .inl r => some r
    | .inr (f, st1) => rec (.qloop f) st1
  | .qloop f, st => qLoop env rec f st
  | .ab node depth alpha beta ss, st =>
    match abEntry env node depth alpha beta ss st with
    | .ret v st1 => some (v, st1)
    | .tailQ node1 a b ss1 st1 => rec (.q node1 a b ss1) st1
    | .moves f st1 => rec (.abloop f) st1
    | .nmp f R st1 => abNull env rec f R st1
  | .abloop f, st => abLoop env rec f st
  | .abmove f move capture extension, st => abMove env rec f move capture extension st

/-- The search: `qsearch`, `absearch` and their move loops, by recursion on
a fuel bound (`none` when the fuel runs out). A `return` inside a loop ends
the call; `Score` parameters and results computed in `int` are narrowed
with `toInt16`. The `info currmove` output of the root is not modelled. -/
def search (env : Env) : Nat → Call → SearchState → Option (Int × SearchState)
  | 0, _, _ => none
  | n + 1, call, st => searchStep env (search env n) call st

/-- A score strictly inside `(-VALUE_INFINITE, VALUE_INFINITE)`. -/
def Band (s : Int) : Prop := -VALUE_INFINITE < s ∧ s < VALUE_INFINITE

/-- A search window: `-VALUE_INFINITE <= alpha < beta <= VALUE_INFINITE`. -/
def Window (alpha beta : Int) : Prop :=
  -VALUE_INFINITE ≤ alpha ∧ alpha < beta ∧ beta ≤ VALUE_INFINITE

/-- The stack as `iterativeDeepening` initialises it and the search keeps
it: `(ss + i)->ply = i`. -/
def PlyOK (st : SearchState) : Prop := ∀ i, (st.stack i).ply = i

/-- A state of the search in which the stack is as initialised and no
score assertion has failed. -/
structure StateOK (st : SearchState) : Prop where
  ply : PlyOK st
  asserts : st.assert_failed = false

/-- What is assumed of the environment: `evaluate` returns a value strictly
between `-VALUE_TB_WIN_IN_MAX_PLY` and `VALUE_TB_WIN_IN_MAX_PLY`; an entry
read from the transposition table has a score strictly inside
`(-VALUE_INFINITE, VALUE_INFINITE)` and a depth that fits its 8-bit field;
a move picker yields fewer than 256 moves at one node. -/
structure Env.Sane (env : Env) : Prop where
  eval_band : ∀ b, -VALUE_TB_WIN_IN_MAX_PLY < env.evaluation b ∧
    env.evaluation b < VALUE_TB_WIN_IN_MAX_PLY
  tt_band : ∀ t h, Band (env.ttProbe t h).2.2.score ∧
    0 ≤ (env.ttProbe t h).2.2.depth ∧ (env.ttProbe t h).2.2.depth ≤ 255
  picker : ∀ st ss root ttm i, 255 ≤ i → env.nextMoveAB st ss root ttm i = NO_MOVE

/-- Invariant of the `absearch` move loop. -/
structure ABFrame.Inv (f : ABFrame) : Prop where
  window : Window f.alpha f.beta
  alpha_gt : f.node ≠ .ROOT → -VALUE_INFINITE < f.alpha
  root_excl : f.node = .ROOT → f.excluded_move = NO_MOVE
  best : Band f.best ∨ f.best = -VALUE_INFINITE
  maxv : -VALUE_INFINITE < f.maxValue ∧ f.maxValue ≤ VALUE_INFINITE
  made_le : f.made_moves ≤ f.idx
  ss_ge : 0 ≤ f.ss
  ss_lt : f.ss < MAX_PLY

/-- Invariant of the `absearch` move loop where the next move is fetched:
once a move has been counted and not skipped, `best` is a searched score. -/
def ABFrame.LoopInv (f : ABFrame) : Prop := f.Inv ∧ (f.made_moves ≠ 0 → Band f.best)

/-- What the end of `absearch` needs of the locals. -/
structure ABFrame.FinishInv (f : ABFrame) : Prop where
  none_made : f.made_moves = 0 → f.excluded_move ≠ NO_MOVE → Band f.alpha
  some_made : f.made_moves ≠ 0 → Band f.best
  maxv : -VALUE_INFINITE < f.maxValue ∧ f.maxValue ≤ VALUE_INFINITE
  ss_ge : 0 ≤ f.ss
  ss_lt : f.ss < MAX_PLY

/-- Precondition of a pending computation: the window of an entry into
`qsearch` or `absearch` (with no excluded move at the root), the loop
invariant of a move loop. -/
def Call.Pre (st : SearchState) : Call → Prop
  | .q _ alpha beta ss => Window alpha beta ∧ 0 ≤ ss
  | .qloop f => Window f.alpha f.beta ∧ Band f.best_value ∧ 0 ≤ f.ss
  | .ab node _ alpha beta ss =>
    Window alpha beta ∧ 0 ≤ ss ∧ (node = .ROOT → (st.stack ss).excluded_move = NO_MOVE)
  | .abloop f => f.LoopInv
  | .abmove f _ _ _ => f.Inv ∧ 1 ≤ f.made_moves

/-- A runner of pending computations is sound if what it returns from a
good state and a computation that meets its precondition is a score inside
the band, in a good state (so no score assertion failed on the way). -/
def Sound (rec : Call → SearchState → Option (Int × SearchState)) : Prop :=
  ∀ call st v st2, StateOK st → call.Pre st → rec call st = some (v, st2) →
    Band v ∧ StateOK st2

/-- What holds where the part of `absearch` before the move loop ends. -/
def Step.Post : Step → Prop
  | .ret v st => Band v ∧ StateOK st
  | .tailQ _ alpha beta ss st => (Window alpha beta ∧ 0 ≤ ss) ∧ StateOK st
  | .nmp f _ st => f.LoopInv ∧ StateOK st
  | .moves f st => f.LoopInv ∧ StateOK st

/-- A single worker that is not the main thread, without tablebases: the
evaluation is 30 for the side to move if it is White and -30 otherwise,
every probe of the shared table misses, and the move picker offers the one
move e2-e4 at the root (`go searchmoves e2e4`) and none elsewhere. -/
def sampleEnv : Env where
  H := sampleHelpers
  id := 1
  silent := true
  use_tb := false
  evaluation := fun b => if b.side_to_move = .White then 30 else -30
  inCheck := fun _ => false
  isRepetition := fun _ _ => false
  isDrawn := fun _ _ => .NONE
  hash := fun b => b.hash_key
  nonPawnMat := fun _ _ => false
  makeNullMove := fun b => b
  unmakeNullMove := fun b => b
  see := fun _ _ _ => true
  probeWDL := fun _ => VALUE_NONE
  piece_values_EG := fun _ => 100
  reductions := fun _ _ => 0
  nextMoveAB := fun _ _ root _ i => if root = true ∧ i = 0 then sampleQuiet else NO_MOVE
  nextMoveQ := fun _ _ _ _ => NO_MOVE
  ttProbe := fun _ _ => (false, NO_MOVE, TEntry.empty)
  stopAt := fun _ => false
  getTime := fun _ => 0

/-- The state of a worker at the start of `iterativeDeepening` on
`sampleBoard`. -/
def sampleState : SearchState where
  tb := sampleTables
  nodes := 0
  tbhits := 0
  check_time_ := 0
  stop := false
  tick := 0
  seldepth_ := 0
  stack := sampleStack
  pv_table_ := fun _ _ => NO_MOVE
  pv_length_ := fun _ => 0
  node_effort := fun _ _ => 0
  tt := sampleTT
  limit := ⟨1, 0, 0, 0, false⟩
  assert_failed := false
  zero_window_failed := false
  early_return := false

/-! ## Aspiration windows (`search.cpp`, lines 613-664) -/

/-- Arithmetic in `int`: two's complement wrap-around to 32 bits. -/
def toInt32 (x : Int) : Int := (x + 2147483648) % 4294967296 - 2147483648

/-- Lines 633-634 of `aspirationSearch`: before a search, a bound beyond
±3500 becomes infinite. -/
def aspirationClamp (alpha beta : Int) : Int × Int :=
  (if alpha < -3500 then -VALUE_INFINITE else alpha,
   if beta > 3500 then VALUE_INFINITE else beta)

/-- Lines 646-656 of `aspirationSearch`: `alpha`, `beta` and `delta` for
the next search after a root search that returned `result`, or `none`
where the loop is left by `break`. `delta` is an `int`, the bounds are
narrowed to `Score`; `beta` is computed from the old `alpha`. -/
def aspirationNext (alpha beta delta result : Int) : Option (Int × Int × Int) :=
  if result ≤ alpha then
    some (toInt16 (max (toInt32 (alpha - delta)) (-VALUE_INFINITE)),
      toInt16 (Int.tdiv (alpha + beta) 2), toInt32 (delta + Int.tdiv delta 2))
  else if result ≥ beta then
    some (alpha, toInt16 (min (toInt32 (beta + delta)) VALUE_INFINITE),
      toInt32 (delta + Int.tdiv delta 2))
  else none

/-- The loop of `aspirationSearch` (lines 632-657), by recursion on a bound
`k` on its iterations; `n` is the fuel of each root search. The output of
the result (lines 659-662) is not modelled. -/
def aspirationLoop (env : Env) (n : Nat) (depth ss : Int) :
    Nat → Int → Int → Int → SearchState → Option (Int × SearchState)
  | 0, _, _, _, _ => none
  | k + 1, alpha, beta, delta, st =>
    let w := aspirationClamp alpha beta
    match search env n (.ab .ROOT depth w.1 w.2 ss) st with
    | none => none
    | some (result, st1) =>
      let r := readStop env st1
      if r.1 then some (0, r.2)
      else if env.id = 0 ∧ r.2.limit.nodes ≠ 0 ∧ r.2.nodes ≥ r.2.limit.nodes then some (0, r.2)
      else
        match aspirationNext w.1 w.2 delta result with
        | some (alpha1, beta1, delta1) => aspirationLoop env n depth ss k alpha1 beta1 delta1 r.2
        | none => some (result, r.2)

/-- `Search::aspirationSearch` (lines 613-664): the full window below
depth 9, `prev_eval ± 30` from depth 9 on. -/
def aspirationSearch (env : Env) (n k : Nat) (depth prev_eval ss : Int) (st : SearchState) :
    Option (Int × SearchState) :=
  let delta : Int := 30
  let alpha := if depth ≥ 9 then toInt16 (prev_eval - delta) else -VALUE_INFINITE
  let beta := if depth ≥ 9 then toInt16 (prev_eval + delta) else VALUE_INFINITE
  aspirationLoop env n depth ss k alpha beta delta st

/-- The stack frame `ss` of a pending computation. -/
def Call.frame : Call → Int
  | .q _ _ _ ss => ss
  | .qloop f => f.ss
  | .ab _ _ _ _ ss => ss
  | .abloop f => f.ss
  | .abmove f _ _ _ => f.ss

/-- Whether a pending computation is one that never writes the excluded
move of its own frame: `qsearch`, and `absearch<ROOT>` (no singular
extension at the root). -/
def Call.keepsOwn : Call → Bool
  | .q _ _ _ _ => true
  | .qloop _ => true
  | .ab node _ _ _ _ => decide (node = .ROOT)
  | .abloop f => decide (f.node = .ROOT)
  | .abmove f _ _ _ => decide (f.node = .ROOT)

/-- A runner of pending computations keeps the excluded moves of the
frames below the one it runs in, and of that frame itself where it never
writes it. -/
def Keeps (rec : Call → SearchState → Option (Int × SearchState)) : Prop :=
  ∀ call st v st2 j, (j < call.frame ∨ (j = call.frame ∧ call.keepsOwn = true)) →
    rec call st = some (v, st2) → (st2.stack j).excluded_move = (st.stack j).excluded_move

/-- What the part of `absearch` before the move loop keeps: the frame
`ss` and node kind of the locals, and every excluded move but that of the
child frame `ss + 1`. -/
def Step.Kept (st0 : SearchState) (node : Node) (ss : Int) : Step → Prop
  | .ret _ st => ∀ j, j ≠ ss + 1 → (st.stack j).excluded_move = (st0.stack j).excluded_move
  | .tailQ _ _ _ ss1 st => ss1 = ss ∧
    ∀ j, j ≠ ss + 1 → (st.stack j).excluded_move = (st0.stack j).excluded_move
  | .nmp f _ st => (f.node = node ∧ f.ss = ss) ∧
    ∀ j, j ≠ ss + 1 → (st.stack j).excluded_move = (st0.stack j).excluded_move
  | .moves f st => (f.node = node ∧ f.ss = ss) ∧
    ∀ j, j ≠ ss + 1 → (st.stack j).excluded_move = (st0.stack j).excluded_move

/-- Invariant of the loop of `aspirationSearch`, on the bounds as clamped
for the next search: a window whose finite bounds are within ±3500, and a
`delta` that is positive and small (once it exceeds 53253 each failed
search makes one more bound infinite). -/
def AspInv (alpha beta delta : Int) : Prop :=
  Window alpha beta ∧ (alpha = -VALUE_INFINITE ∨ -3500 ≤ alpha) ∧
  (beta = VALUE_INFINITE ∨ beta ≤ 3500) ∧ 1 ≤ delta ∧
  (delta ≤ 53253 ∨ (delta ≤ 79880 ∧ (alpha = -VALUE_INFINITE ∨ beta = VALUE_INFINITE)) ∨
    (delta ≤ 119820 ∧ alpha = -VALUE_INFINITE ∧ beta = VALUE_INFINITE))

/-- One turn of the loop of `aspirationSearch` in the words of the spec:
bounds beyond ±3500 become infinite; after the root search the loop is
aborted with 0 on the stop flag or the node limit; on `result <= alpha`
the next turn has `beta = (alpha + beta) / 2` (C++ division),
`alpha = alpha - delta` (not below `-VALUE_INFINITE`) and
`delta = delta + delta / 2`; on `result >= beta` it has the same `alpha`,
`beta = beta + delta` (not above `VALUE_INFINITE`) and
`delta = delta + delta / 2`; otherwise `result` is returned. -/
def specAspirationTurn (env : Env) (n : Nat) (depth ss : Int) (k : Nat) (alpha beta delta : Int)
    (st : SearchState) : Option (Int × SearchState) :=
  let a := if alpha < -3500 then -VALUE_INFINITE else alpha
  let b := if beta > 3500 then VALUE_INFINITE else beta
  (search env n (.ab .ROOT depth a b ss) st).bind fun r =>
    let st2 := (readStop env r.2).2
    if (readStop env r.2).1 = true ∨
        (env.id = 0 ∧ r.2.limit.nodes ≠ 0 ∧ r.2.nodes ≥ r.2.limit.nodes) then some (0, st2)
    else if r.1 ≤ a then
      aspirationLoop env n depth ss k (max (a - delta) (-VALUE_INFINITE)) (Int.tdiv (a + b) 2)
        (delta + delta / 2) st2
    else if r.1 ≥ b then
      aspirationLoop env n depth ss k a (min (b + delta) VALUE_INFINITE) (delta + delta / 2) st2
    else some (r.1, st2)

/-! ## Polling of the limits (`search.cpp`, lines 795-816) -/

/-- The number of reads of the clock in one call of `limitReached`: the
reads of outside inputs (`tick`) of that call other than its one read of
the stop flag, which a silent worker does not make. -/
def clockReads (env : Env) (st : SearchState) : Nat :=
  (limitReached env st).2.tick - st.tick - (if env.silent then 0 else 1)

/-- The state after `n` consecutive calls of `limitReached`. -/
def limitReachedIter (env : Env) : Nat → SearchState → SearchState
  | 0, st => st
  | n + 1, st => limitReachedIter env n (limitReached env st).2

/-- The number of reads of the clock in `n` consecutive calls of
`limitReached`. -/
def pollCount (env : Env) : Nat → SearchState → Nat
  | 0, _ => 0
  | n + 1, st => clockReads env st + pollCount env n (limitReached env st).2

/-- What consecutive calls of `limitReached` keep of a state of the main
worker: no node limit, the time limit `M`, and a stop flag of its own that
is clear unless the worker is silent. -/
def PollInv (env : Env) (M : Int) (st : SearchState) : Prop :=
  st.limit.nodes = 0 ∧ st.limit.time_maximum = M ∧ (env.silent = true ∨ st.stop = false)

/-! ## Thread pool (`thread.cpp`, lines 27-75) -/

/-- The members of a worker's `Search` object that `startThreads` sets or
resets, with its board and history tables in `tb`. -/
structure Worker where
  id : Int
  tb : Tables
  limit : Limits
  use_tb : Bool
  nodes : Nat
  tbhits : Nat
  node_effort : Square → Square → Nat
  searchmoves : List Move

/-- `ThreadPool`: the stop flag, the workers `pool_`, and the workers that
the threads of `running_threads_` run on (their indexes in `pool_`). -/
structure ThreadPool where
  stop : Bool
  pool_ : List Worker
  running_threads_ : List Nat

/-- Modelled from the spec: `Table::reset()` of the three tables that
`startThreads` resets (`helper.h` is missing): every entry becomes the
default value, 0 for a score and `NO_MOVE` for a move. -/
def resetTables (t : Tables) : Tables :=
  { t with consthist := fun _ _ _ _ => 0, history := fun _ _ _ => 0,
           counters := fun _ _ => NO_MOVE }

/-- `ThreadPool::startThreads` (lines 27-65). `fresh` is a
default-constructed `Thread` and copying a `Thread` clones its `Search`
(`thread.h` is missing; the spec speaks of clones). The assertion
`running_threads_.size() == 0` of line 29 is not enforced. -/
def startThreads (fresh : Worker) (p : ThreadPool) (board : Board) (limit : Limits)
    (searchmoves : List Move) (worker_count : Nat) (use_tb : Bool) : ThreadPool :=
  let mainThread0 := if p.pool_.length > 0 then p.pool_.headD fresh else fresh
  let mainThread1 : Worker :=
    { id := 0, tb := { mainThread0.tb with board := board }, limit := limit, use_tb := use_tb,
      nodes := 0, tbhits := 0, node_effort := fun _ _ => 0, searchmoves := searchmoves }
  let mainThread2 : Worker := { mainThread1 with tb := resetTables mainThread1.tb }
  let helpers := (List.range (worker_count - 1)).map
    (fun i => { mainThread2 with id := ((i + 1 : Nat) : Int) })
  { stop := false, pool_ := mainThread1 :: helpers, running_threads_ := List.range worker_count }

/-- The effect on the pool of its threads running to their end: each
running thread has searched on its worker (`std::ref(pool_[i])`); `run` is
what a search leaves of a worker. -/
def joinThreads (run : Worker → Worker) (p : ThreadPool) : ThreadPool :=
  let searched := List.zipWith (fun i w => if i ∈ p.running_threads_ then run w else w)
    (List.range p.pool_.length) p.pool_
  { p with pool_ := searched }

/-- `ThreadPool::stopThreads` (lines 67-75): set the stop flag, join the
threads, clear the pool and the list of threads. -/
def stopThreads (run : Worker → Worker) (p : ThreadPool) : ThreadPool :=
  let joined := joinThreads run { p with stop := true }
  { joined with pool_ := [], running_threads_ := [] }

/-! ## Terminal nodes (`search.cpp`, lines 592-597) -/

/-- The value of `best` at the end of `absearch` where no move was made,
in the words of the spec: `alpha` with an excluded move, else
`mated_in(ply)` in check and 0 without, capped by `maxValue` in a PV node. -/
def terminalValue (f : ABFrame) (ply : Int) : Int :=
  let best := if f.excluded_move ≠ NO_MOVE then f.alpha
    else if f.in_check then mated_in ply else 0
  if f.node ≠ .NONPV then min best f.maxValue else best

/-! ## Sample values -/

/-- A helper worker with tablebases whose stop flag is set by another
thread right after its first read: clear at tick 0, set from tick 1 on.
The tablebase probe reports a win. -/
def raceEnv : Env :=
  { sampleEnv with silent := false, use_tb := true, probeWDL := fun _ => VALUE_TB_WIN,
                   stopAt := fun t => decide (1 ≤ t) }

/-- A worker that is not silent whose stop flag is set by another thread
after its seventh read of an outside input, where the root search of depth
1 on the sample position has just returned. -/
def lateStopEnv : Env := { sampleEnv with silent := false, stopAt := fun t => decide (7 ≤ t) }

/-- A worker that reads the stop flag (not silent). -/
def stopEnv : Env := { sampleEnv with silent := false }

/-- A state in which the stop flag is set, with `pv_length_[i] = i` as
line 230 leaves it. -/
def stoppedState : SearchState :=
  { sampleState with stop := true, pv_length_ := fun i => i }

/-- The locals of `absearch<ROOT>` at depth 1 on the full window, in the
move loop with its first move counted. -/
def rootFrame : ABFrame where
  node := .ROOT
  depth := 1
  alpha := -VALUE_INFINITE
  beta := VALUE_INFINITE
  ss := 0
  color := .White
  in_check := false
  improving := false
  excluded_move := NO_MOVE
  tt_hit := false
  ttmove := NO_MOVE
  tt_score := VALUE_NONE
  key := 5
  best := -VALUE_INFINITE
  maxValue := VALUE_INFINITE
  quiets := fun _ => NO_MOVE
  quiet_count := 0
  made_moves := 1
  score := VALUE_NONE
  bestmove := NO_MOVE
  idx := 1

/-- The state in which the child of `rootFrame` is entered for the move
e2-e4 from `stoppedState` (lines 501-505). -/
def stoppedChild : SearchState :=
  let st2 := SearchState.makeMove stopEnv { stoppedState with nodes := 1 } sampleQuiet
  { st2 with stack := setCurrent st2.stack 0 sampleQuiet }

/-- The state in which the child of `rootFrame` returns from
`stoppedChild`, at its limit guard. -/
def stoppedReturn : SearchState :=
  { (limitReached stopEnv stoppedChild).2 with early_return := true }

/-- The main worker (id 0), silent, with a clock that stays at 0. -/
def mainEnv : Env := { sampleEnv with id := 0, getTime := fun _ => 0 }

/-- The state of the main worker as `startThinking` leaves it
(`check_time_ = 0`), with `movetime 1000` and no node limit. -/
def mainState : SearchState := { sampleState with limit := ⟨1, 0, 1000, 1000, false⟩ }

/-- The sample worker on positions in which the side to move is in check. -/
def checkEnv : Env := { sampleEnv with inCheck := fun _ => true }

/-- The `i`-th of a run of quiet moves (from square 0 to square `i + 1`). -/
def quietMove (i : Nat) : Move := ⟨0, i + 1, .NORMAL, KNIGHT⟩

/-- The locals of `rootFrame` after `n` further quiet moves that were
searched with score 0 and did not raise `best` (lines 550-589). -/
def afterQuiets : Nat → ABFrame
  | 0 => { rootFrame with best := 30, alpha := 30 }
  | n + 1 => (abUpdate sampleEnv (afterQuiets n) sampleState (quietMove n) false 0 0).1

/-- Scenario B of the spec, `7k/5Q2/6K1/8/8/8/8/8 b - - 0 1`: black king
h8, white queen f7, white king g6, Black to move and stalemated. -/
def stalemateBoard : Board where
  chess960 := false
  side_to_move := .Black
  en_passant_square := NO_SQ
  castling_rights := ⟨⟨0⟩⟩
  half_move_clock := 0
  full_move_number := 1
  hash_history := []
  hash_key := 17
  state_history := []
  pieces_bb := fun p =>
    if p = 4 then 2 ^ 53 else if p = 5 then 2 ^ 46 else if p = 11 then 2 ^ 63 else 0
  board := fun sq =>
    if sq = 53 then 4 else if sq = 46 then 5 else if sq = 63 then 11 else NONE

/-- The start of a search on `stalemateBoard`. -/
def stalemateState : SearchState :=
  { sampleState with tb := { sampleTables with board := stalemateBoard } }

/-- A default-constructed worker: empty tables on the sample position. -/
def freshWorker : Worker where
  id := 0
  tb := sampleTables
  limit := ⟨1, 0, 0, 0, false⟩
  use_tb := false
  nodes := 0
  tbhits := 0
  node_effort := fun _ _ => 0
  searchmoves := []

/-- A search that leaves 155 in the butterfly entry of e2-e4 for White,
and e2-e4 as a counter move and as first killer of ply 0. -/
def sampleRun (w : Worker) : Worker :=
  let history := fun (c : Color) (f t : Square) =>
    if c = .White ∧ f = 12 ∧ t = 28 then 155 else w.tb.history c f t
  let counters := fun (f t : Square) => if f = 0 ∧ t = 0 then sampleQuiet else w.tb.counters f t
  let killers := fun (k : Nat) (ply : Int) =>
    if k = 0 ∧ ply = 0 then sampleQuiet else w.tb.killers k ply
  { w with nodes := w.nodes + 1
           tb := { w.tb with history := history, counters := counters, killers := killers } }

/-- The sample worker with a picker that yields no move at the root (a
position without legal moves) and the one move e2-e4 elsewhere. -/
def terminalEnv : Env :=
  { sampleEnv with
      nextMoveAB := fun _ _ root _ i => if root = false ∧ i = 0 then sampleQuiet else NO_MOVE }

/-- The locals of a singular-extension search (`absearch<NONPV>` on the
window (12, 13) with e2-e4 excluded) on entry to its move loop. -/
def excludedFrame : ABFrame :=
  { rootFrame with node := .NONPV, alpha := 12, beta := 13, ss := 1, excluded_move := sampleQuiet,
                   made_moves := 0, idx := 0 }

/-- The pool before the first search: no workers, no threads. -/
def emptyPool : ThreadPool := ⟨false, [], []⟩

/-- The pool at the end of a first search on the sample position with one
worker: started from `emptyPool`, its thread run to the end. -/
def searchedPool : ThreadPool :=
  joinThreads sampleRun
    (startThreads freshWorker emptyPool sampleBoard ⟨1, 0, 0, 0, false⟩ [] 1 false)

/-! ## Transposition-table cutoff and store (`search.cpp`, lines 273-297, 599-610) -/

/-- The transposition-table step of a node in the words of the spec: an
exact entry returns the table score; a lower bound raises `alpha` to
`max(alpha, tt_score)`, an upper bound lowers `beta` to
`min(beta, tt_score)`; the table score is returned if `alpha >= beta`
afterwards. `.inl v` is `return v`, `.inr (alpha, beta)` the window the
node goes on with. -/
def specTTCut (flag : Flag) (alpha beta tt_score : Int) : Int ⊕ (Int × Int) :=
  if flag = .EXACTBOUND then .inl tt_score
  else
    let a := if flag = .LOWERBOUND then max alpha tt_score else alpha
    let b := if flag = .UPPERBOUND then min beta tt_score else beta
    if a ≥ b then .inl tt_score else .inr (a, b)

/-- The bound that the end of `absearch` stores, in the words of the spec:
a lower bound if `best >= beta`, else exact in a PV node with a best move,
else an upper bound. -/
def specStoreFlag (best beta : Int) (pv_node : Bool) (bestmove : Move) : Flag :=
  if best ≥ beta then .LOWERBOUND
  else if pv_node = true ∧ bestmove ≠ NO_MOVE then .EXACTBOUND
  else .UPPERBOUND

/-- The value returned by a step, if it returns one. -/
def Step.value : Step → Option Int
  | .ret v _ => some v
  | _ => none

/-- A worker whose probes of the table all hit an exact entry of depth 10
with score 50 (tablebases off, no moves below the root). -/
def hitEnv : Env :=
  { sampleEnv with ttProbe := fun _ _ => (true, NO_MOVE, ⟨5, 50, NO_MOVE, 10, .EXACTBOUND⟩) }

/-- A worker whose probes all hit an exact entry of depth 10 with the score
32003, which `scoreFromTT` turns into `VALUE_NONE` at ply 1. -/
def noneEnv : Env :=
  { sampleEnv with ttProbe := fun _ _ => (true, NO_MOVE, ⟨5, 32003, NO_MOVE, 10, .EXACTBOUND⟩) }

/-- The sample state inside a singular-extension search at frame 1: the
move e2-e4 is excluded there. -/
def excludedState : SearchState :=
  { sampleState with stack := setExcluded sampleStack 1 sampleQuiet }

/-! ## Null-move pruning (`search.cpp`, lines 383-402) -/

/-- A worker at a node with window (31899, 31900): the probe of the node
(White to move, hash 5) hits a lower bound 31950 of depth 0, the probe
after the null move (Black to move, hash 6) hits an exact entry -31950;
the side to move has non-pawn material; there are no moves. -/
def nullEnv : Env :=
  { sampleEnv with
      hash := fun b => if b.side_to_move = .White then 5 else 6
      nonPawnMat := fun _ _ => true
      makeNullMove := fun b => { b with side_to_move := b.side_to_move.flip }
      unmakeNullMove := fun b => { b with side_to_move := b.side_to_move.flip }
      nextMoveAB := fun _ _ _ _ _ => NO_MOVE
      ttProbe := fun _ k =>
        if k = 5 then (true, NO_MOVE, ⟨5, 31951, NO_MOVE, 0, .LOWERBOUND⟩)
        else (true, NO_MOVE, ⟨6, -31952, NO_MOVE, 0, .EXACTBOUND⟩) }

/-- The locals of `absearch<NONPV>` at depth 4 on the window (100, 101) at
frame 1, in the move loop with its fifth move counted. -/
def lmrFrame : ABFrame :=
  { rootFrame with node := .NONPV, depth := 4, alpha := 100, beta := 101, ss := 1,
                   made_moves := 5, idx := 5 }

/-- The locals with which a step reaches the null-move search or the move
loop (`rootFrame` for a step that returns). -/
def Step.frame : Step → ABFrame
  | .nmp f _ _ => f
  | .moves f _ => f
  | _ => rootFrame

/-- The state in which a step ends. -/
def Step.state : Step → SearchState
  | .ret _ st => st
  | .tailQ _ _ _ _ st => st
  | .nmp _ _ st => st
  | .moves _ st => st

/-- The reduction `R` of a step that reaches the null-move search. -/
def Step.reduction : Step → Option Int
  | .nmp _ R _ => some R
  | _ => none

/-- The step of `absearch<NONPV>` at depth 3 on the window (31899, 31900)
with `nullEnv`: it reaches the null-move search. -/
def nullStep : Step := abEntry nullEnv .NONPV 3 31899 31900 1 sampleState

/-- The value `best` at the end of `absearch` (lines 592-597): the terminal
score where no move was made, capped by `maxValue` in a PV node. -/
def abFinishValue (f : ABFrame) (ply : Int) : Int :=
  let best1 :=
    if f.made_moves = 0 then
      (if f.excluded_move ≠ NO_MOVE then f.alpha else if f.in_check then mated_in ply else 0)
    else f.best
  if decide (f.node ≠ .NONPV) then min best1 f.maxValue else best1

/-! ## Iterative deepening (`search.cpp`, lines 666-758) -/

/-- The locals of `iterativeDeepening`. -/
structure IDLocals where
  bestmove : Move
  result : Int
  depth : Int
  bestmove_changes : Int
  eval_average : Int

/-- Lines 711-729 of `iterativeDeepening`: the time management of the main
worker after an iteration, entered when `limit.time.optimum != 0`. Returns
whether the loop is left by `break`, and the state. `mul110` and `mul075`
stand for the products `x * 1.10` and `x * 0.75`, computed in `double` and
converted back to the integer type of the time limits; the times are
integers without wrap-around; a division by a node count of 0 is taken to
give 0. -/
def idTimeControl (env : Env) (mul110 mul075 : Int → Int) (l : IDLocals)
    (previousResult : Int) (st : SearchState) : Bool × SearchState :=
  let now := env.getTime st.tick
  let st1 := { st with tick := st.tick + 1 }
  let effort : Int :=
    toInt32 (((st1.node_effort l.bestmove.from l.bestmove.to * 100) % 2 ^ 64 / st1.nodes : Nat) : Int)
  if l.depth > 10 ∧ Int.tdiv (st1.limit.time_optimum * (110 - min effort 90)) 100 < now then
    (true, st1)
  else
    let o1 := if l.result + 30 < Int.tdiv l.eval_average l.depth then
      mul110 st1.limit.time_optimum else st1.limit.time_optimum
    let o2 := if l.result > -200 ∧ l.result - previousResult < -20 then mul110 o1 else o1
    let o3 := if l.bestmove_changes > 4 then mul075 st1.limit.time_maximum else o2
    let st2 := { st1 with limit := { st1.limit with time_optimum := o3 } }
    if l.depth > 10 ∧ now * 10 > st2.limit.time_maximum * 6 then (true, st2) else (false, st2)

/-- The loop of `iterativeDeepening` (lines 692-730), by recursion on a
bound `m` on its iterations; `n` and `k` are the fuel of the root searches
and of the aspiration loop. Returns the locals and the state where the loop
is left (`depth` is `limit.depth + 1` if it ran to its end). -/
def iterativeDeepeningLoop (env : Env) (mul110 mul075 : Int → Int) (n k : Nat) (ss : Int) :
    Nat → IDLocals → SearchState → Option (IDLocals × SearchState)
  | 0, _, _ => none
  | m + 1, l, st =>
    if l.depth ≤ st.limit.depth then
      let st1 := { st with seldepth_ := 0 }
      let previousResult := l.result
      match aspirationSearch env n k l.depth l.result ss st1 with
      | none => none
      | some (result, st2) =>
        let l1 := { l with result := result, eval_average := toInt32 (l.eval_average + result) }
        let lr := limitReached env st2
        if lr.1 then some (l1, lr.2)
        else if env.id ≠ 0 then
          iterativeDeepeningLoop env mul110 mul075 n k ss m { l1 with depth := l1.depth + 1 } lr.2
        else
          let pv00 := lr.2.pv_table_ 0 0
          let l2 := { l1 with
            bestmove_changes :=
              if l1.bestmove ≠ pv00 then toInt32 (l1.bestmove_changes + 1) else l1.bestmove_changes
            bestmove := pv00 }
          if lr.2.limit.time_optimum ≠ 0 then
            let tc := idTimeControl env mul110 mul075 l2 previousResult lr.2
            if tc.1 then some (l2, tc.2)
            else
              iterativeDeepeningLoop env mul110 mul075 n k ss m { l2 with depth := l2.depth + 1 }
                tc.2
          else
            iterativeDeepeningLoop env mul110 mul075 n k ss m { l2 with depth := l2.depth + 1 }
              lr.2
    else some (l, st)

/-- The state in which the loop of `iterativeDeepening` starts (lines
673-686): the stack with `(ss + i)->ply = i` and no moves, the principal
variation and the node effort reset. -/
def iterativeDeepeningInit (st : SearchState) : SearchState :=
  { st with stack := fun i => ⟨i, 0, NO_MOVE, NO_MOVE⟩
            pv_table_ := fun _ _ => NO_MOVE
            pv_length_ := fun _ => 0
            node_effort := fun _ _ => 0 }

/-- `Search::iterativeDeepening` up to the choice of the best move (lines
666-742), with `ss` as frame 0. The wait for the stop flag in infinite mode
and the output are not modelled. -/
def iterativeDeepening (env : Env) (mul110 mul075 : Int → Int) (n k m : Nat)
    (st : SearchState) : Option (IDLocals × SearchState) :=
  match iterativeDeepeningLoop env mul110 mul075 n k 0 m ⟨NO_MOVE, -VALUE_INFINITE, 1, 0, 0⟩
      (iterativeDeepeningInit st) with
  | none => none
  | some (l, st1) =>
    some (if l.depth = 1 then { l with bestmove := st1.pv_table_ 0 0 } else l, st1)

/-- The main worker in UCI mode (not silent) on a position without legal
moves. -/
def deepEnv : Env := { terminalEnv with id := 0, silent := false }

/-- The state of the main worker after `go` on `stalemateBoard`: the
default limits `depth = MAX_PLY`, no node limit, no time limit. -/
def deepState : SearchState := { stalemateState with limit := ⟨MAX_PLY, 0, 0, 0, false⟩ }

/-- The main worker with a clock that reads 70 ms. -/
def clockEnv : Env := { mainEnv with getTime := fun _ => 70 }

/-- The state of the main worker after `go movetime 100`, 1000 nodes into
the search. -/
def clockState : SearchState :=
  { sampleState with limit := ⟨MAX_PLY, 0, 100, 100, false⟩, nodes := 1000 }

/-- The locals of `iterativeDeepening` after its iteration of depth 11,
with a steady score of 0. -/
def clockLocals : IDLocals := ⟨sampleQuiet, 0, 11, 0, 0⟩

/-! ## Length of the principal variation (`search.cpp`, lines 230, 565-576) -/

/-- The entry `pv_length_[p]` is at least `p`, unless a call of `absearch`
has returned before it set its entry. -/
def PvAt (st : SearchState) (p : Int) : Prop := st.early_return = false → p ≤ st.pv_length_ p

/-- The entries of `pv_length_` that a pending computation leaves alone:
all of them in `qsearch`, those below its own ply in `absearch`. -/
def Call.pvFree : Call → Int → Prop
  | .q _ _ _ _, _ => True
  | .qloop _, _ => True
  | .ab _ _ _ _ ss, j => j < ss
  | .abloop f, j => j < f.ss
  | .abmove f _ _ _, j => j < f.ss

/-- What a pending computation of `absearch` needs for its entry of
`pv_length_`: nothing on entry (line 230 sets it); in the move loop the
entry as set, and the count of moves made not above the count of moves
fetched. -/
def Call.PvPre (st : SearchState) : Call → Prop
  | .q _ _ _ _ => True
  | .qloop _ => True
  | .ab _ _ _ _ _ => True
  | .abloop f => PvAt st f.ss ∧ f.made_moves ≤ f.idx
  | .abmove f _ _ _ => PvAt st f.ss ∧ 1 ≤ f.made_moves ∧ f.made_moves ≤ f.idx

/-- What a pending computation of `absearch` returns with: its entry of
`pv_length_` is at least its ply. -/
def Call.PvPost (st2 : SearchState) : Call → Prop
  | .q _ _ _ _ => True
  | .qloop _ => True
  | .ab _ _ _ _ ss => PvAt st2 ss
  | .abloop f => PvAt st2 f.ss
  | .abmove f _ _ _ => PvAt st2 f.ss

/-- From `st` to `st2` the plies of the stack are kept, a recorded early
return stays recorded, and the entries `j` of `pv_length_` with `P j`
are unchanged. -/
def PvRel (P : Int → Prop) (st st2 : SearchState) : Prop :=
  PlyOK st2 ∧ (st.early_return = true → st2.early_return = true) ∧
  ∀ j, P j → st2.pv_length_ j = st.pv_length_ j

/-- A runner of pending computations keeps `pv_length_` in order. -/
def PvOK (rec : Call → SearchState → Option (Int × SearchState)) : Prop :=
  ∀ call st v st2, PlyOK st → call.PvPre st → rec call st = some (v, st2) →
    PvRel call.pvFree st st2 ∧ call.PvPost st2

/-- The stack, the record of early returns and `pv_length_` are the same
in two states. -/
def SamePv (st st2 : SearchState) : Prop :=
  st2.stack = st.stack ∧ st2.early_return = st.early_return ∧ st2.pv_length_ = st.pv_length_

/-- A move picker of `absearch` yields fewer than 256 moves at a node. -/
def Env.PickerBounded (env : Env) : Prop :=
  ∀ st ss root ttm i, 255 ≤ i → env.nextMoveAB st ss root ttm i = NO_MOVE

/-- What holds where the part of `absearch` before the move loop ends,
entered at frame `ss` in state `st0`. -/
def Step.PvKept (st0 : SearchState) (ss : Int) : Step → Prop
  | .ret _ st => PvRel (fun j => j < ss) st0 st ∧ PvAt st ss
  | .tailQ _ _ _ ss1 st => ss1 = ss ∧ PvRel (fun j => j < ss) st0 st ∧ PvAt st ss
  | .nmp f _ st => (f.ss = ss ∧ f.made_moves ≤ f.idx) ∧ PvRel (fun j => j < ss) st0 st ∧ PvAt st ss
  | .moves f st =>
    (f.ss = ss ∧ f.made_moves ≤ f.idx) ∧ PvRel (fun j => j < ss) st0 st ∧ PvAt st ss

/-- A worker that reads the stop flag, set by another thread from its
third read of an outside input on, with the one move e2-e4 at every node. -/
def midStopEnv : Env :=
  { sampleEnv with silent := false, stopAt := fun t => decide (2 ≤ t),
                   nextMoveAB := fun _ _ _ _ i => if i = 0 then sampleQuiet else NO_MOVE }

/-- The sample worker with the one move e2-e4 at every node. -/
def lineEnv : Env :=
  { sampleEnv with nextMoveAB := fun _ _ _ _ i => if i = 0 then sampleQuiet else NO_MOVE }

/-- The result of `absearch<PV>` at depth 2 and frame 1 on the sample
position with `lineEnv`. -/
def lineResult : Int × SearchState :=
  (search lineEnv 8 (.ab .PV 2 (-VALUE_INFINITE) VALUE_INFINITE 1)
    (iterativeDeepeningInit sampleState)).getD (0, sampleState)

/-! ## Zero windows at non-PV nodes (`search.cpp`, lines 104, 258) -/

/-- What the zero-window assertions need of a pending computation: a
window, of width one where the node is not a PV node (`qsearch` tells `PV`
from the rest, `absearch` tells `NONPV` from the rest), and a depth of at
least 1 for `absearch<ROOT>`, which then never drops into `qsearch<ROOT>`. -/
def Call.Zero : Call → Prop
  | .q node alpha beta _ => Window alpha beta ∧ (node ≠ .PV → alpha = beta - 1)
  | .qloop f => Window f.alpha f.beta ∧ (f.node ≠ .PV → f.alpha = f.beta - 1)
  | .ab node depth alpha beta _ =>
    Window alpha beta ∧ (node = .NONPV → alpha = beta - 1) ∧ (node = .ROOT → 1 ≤ depth)
  | .abloop f => Window f.alpha f.beta ∧ (f.node = .NONPV → f.alpha = f.beta - 1)
  | .abmove f _ _ _ => Window f.alpha f.beta ∧ (f.node = .NONPV → f.alpha = f.beta - 1)

/-- A runner of pending computations lets no zero-window assertion fail:
started on a computation with `Call.Zero` in a state in which none has
failed, it returns in such a state. -/
def ZeroOK (rec : Call → SearchState → Option (Int × SearchState)) : Prop :=
  ∀ call st v st2, call.Zero → st.zero_window_failed = false →
    rec call st = some (v, st2) → st2.zero_window_failed = false

/-- What holds where the part of `absearch` before the move loop ends:
the record of the zero-window assertions is `b`, and what is started next
has a window, of width one at a non-PV node. -/
def Step.ZeroKept (b : Bool) : Step → Prop
  | .ret _ st => st.zero_window_failed = b
  | .tailQ node alpha beta _ st =>
    (Window alpha beta ∧ (node ≠ .PV → alpha = beta - 1)) ∧ st.zero_window_failed = b
  | .nmp f _ st =>
    (Window f.alpha f.beta ∧ (f.node = .NONPV → f.alpha = f.beta - 1)) ∧
      st.zero_window_failed = b
  | .moves f st =>
    (Window f.alpha f.beta ∧ (f.node = .NONPV → f.alpha = f.beta - 1)) ∧
      st.zero_window_failed = b

/-- The depth of an entry read from the transposition table fits its 8-bit
field. -/
def Env.DepthByte (env : Env) : Prop := ∀ t h, (env.ttProbe t h).2.2.depth ≤ 255

instance Window.decidable (alpha beta : Int) : Decidable (Window alpha beta) :=
  inferInstanceAs (Decidable (-VALUE_INFINITE ≤ alpha ∧ alpha < beta ∧ beta ≤ VALUE_INFINITE))

instance Call.decidableZero : (c : Call) → Decidable c.Zero
  | .q node alpha beta _ =>
    inferInstanceAs (Decidable (Window alpha beta ∧ (node ≠ .PV → alpha = beta - 1)))
  | .qloop f =>
    inferInstanceAs (Decidable (Window f.alpha f.beta ∧ (f.node ≠ .PV → f.alpha = f.beta - 1)))
  | .ab node depth alpha beta _ =>
    inferInstanceAs (Decidable (Window alpha beta ∧ (node = .NONPV → alpha = beta - 1) ∧
      (node = .ROOT → 1 ≤ depth)))
  | .abloop f =>
    inferInstanceAs
      (Decidable (Window f.alpha f.beta ∧ (f.node = .NONPV → f.alpha = f.beta - 1)))
  | .abmove f _ _ _ =>
    inferInstanceAs
      (Decidable (Window f.alpha f.beta ∧ (f.node = .NONPV → f.alpha = f.beta - 1)))

/-- A runner that refuses (with `none`) every pending computation that
does not meet `Call.Zero`, and runs the others with `rec`. -/
def zeroGuard (rec : Call → SearchState → Option (Int × SearchState)) (call : Call)
    (st : SearchState) : Option (Int × SearchState) :=
  if call.Zero then rec call st else none

/-- The search in which every computation that is started (a recursive
call, a drop into `qsearch`, a continuation of a move loop) is refused
unless it meets `Call.Zero`. -/
def searchZ (env : Env) : Nat → Call → SearchState → Option (Int × SearchState)
  | 0, _, _ => none
  | n + 1, call, st => searchStep env (zeroGuard (searchZ env n)) call st

/-- Two runners of pending computations agree on the computations that
meet `Call.Zero`. -/
def ZeroAgree (r1 r2 : Call → SearchState → Option (Int × SearchState)) : Prop :=
  ∀ call st, call.Zero → r1 call st = r2 call st

/-- The sample worker with the two moves e2-e4 and a1-b1 at every node. -/
def zeroEnv : Env :=
  { sampleEnv with nextMoveAB := fun _ _ _ _ i =>
      if i = 0 then sampleQuiet else if i = 1 then quietMove 0 else NO_MOVE }

/-- The result of `absearch<ROOT>` at depth 3 on the sample position with
`zeroEnv` and the full window. -/
def zeroResult : Int × SearchState :=
  (search zeroEnv 60 (.ab .ROOT 3 (-VALUE_INFINITE) VALUE_INFINITE 0) sampleState).getD
    (0, sampleState)

/-! ## Castling rights: reading (`board.h`, lines 41-107) -/

/-- `BitField16::get`. -/
def BitField16.get (b : BitField16) : Nat := b.value_

/-- The range of the field `value_`, a `uint16_t`. -/
def BitField16.InRange (b : BitField16) : Prop := b.value_ < 65536

/-- Modelled from the spec: `FILE_A` of `types.h`, the first value of `File`
(`setCastlingRight` stores `rook_file + 1`, keeping 0 for no right). -/
def FILE_A : Nat := 0
/-- Modelled from the spec: `FILE_H` of `types.h`, the eighth file. -/
def FILE_H : Nat := 7

/-- `CastlingRights::isEmpty`. -/
def CastlingRights.isEmpty (cr : CastlingRights) : Bool := cr.castling_rights.get == 0

/-- `CastlingRights::getRookFile(color, castle)`: the value
`getGroup(...) - 1` computed in `int`; its cast to `File` (an enumeration of
`types.h` with `FILE_A` = 0 to `FILE_H` = 7) keeps a value from 0 to 7. -/
def CastlingRights.getRookFile (cr : CastlingRights) (color : Color) (castle : CastleSide) :
    Int :=
  (cr.castling_rights.getGroup (2 * color.toNat + castle.toNat) : Int) - 1

/-! ## Half-move clock and en-passant square after `makeMove` -/

/-- The sample position with the half-move clock at 255. -/
def clockBoard : Board := { sampleBoard with half_move_clock := 255 }

/-- The king move e1-d1. -/
def kingStep : Move := ⟨4, 3, .NORMAL, KNIGHT⟩

/-- A position for a double pawn push: white king e1, white pawn e2, black
king e8, black pawn d4; White to move, a stale en-passant square a6. -/
def epBoard : Board :=
  { sampleBoard with
    en_passant_square := 40
    pieces_bb := fun p =>
      if p = 0 then 2 ^ 12 else if p = 5 then 2 ^ 4 else if p = 11 then 2 ^ 60
      else if p = 6 then 2 ^ 27 else 0
    board := fun sq =>
      if sq = 12 then 0 else if sq = 4 then 5 else if sq = 60 then 11
      else if sq = 27 then 6 else NONE }

/-! ## Depth after internal iterative reductions (`search.cpp`, lines 255-366) -/

/-- The node kind with which a step drops into `qsearch`, if it does. -/
def Step.dropNode : Step → Option Node
  | .tailQ node _ _ _ _ => some node
  | _ => none

/-- What holds where the part of `absearch` before the move loop ends at a
node that is not a PV node: a drop into `qsearch` is not one into
`qsearch<PV>`, and the null-move search and the move loop are reached with
a depth of at least 1. -/
def Step.NoPvDrop : Step → Prop
  | .ret _ _ => True
  | .tailQ node _ _ _ _ => node ≠ .PV
  | .nmp f _ _ => 1 ≤ f.depth
  | .moves f _ => 1 ≤ f.depth

/-! ## Searches of a made move (`search.cpp`, lines 505-552) -/

/-- A runner that never returns from a call of `absearch` and returns 0 at
once from every other pending computation. -/
def noSearch : Call → SearchState → Option (Int × SearchState)
  | .ab _ _ _ _ _, _ => none
  | _, st => some (0, st)

/-- A runner that returns 7 at once from every pending computation. -/
def sevenSearch : Call → SearchState → Option (Int × SearchState) :=
  fun _ st => some (7, st)

/-- The locals of a PV node at depth 2 with its first move counted. -/
def pvFirstFrame : ABFrame := { rootFrame with node := .PV, depth := 2, made_moves := 1 }

/-- The locals of a PV node at depth 2 with the counter of made moves at 0,
as after it has wrapped. -/
def uncountedFrame : ABFrame := { rootFrame with node := .PV, depth := 2, made_moves := 0 }

/-! ## Termination of the aspiration loop (`search.cpp`, lines 613-664) -/

/-- The value of `delta` in `aspirationSearch` after `j` failed searches:
30 at first, `delta + delta / 2` (in `int`) after each. -/
def aspirationDelta : Nat → Int
  | 0 => 30
  | j + 1 => toInt32 (aspirationDelta j + Int.tdiv (aspirationDelta j) 2)

/-- What holds of the bounds of `aspirationSearch` at the head of its loop
after `j` failed searches: they are values of `Score`, and of the two
bounds at most `20 - j` are still finite after the clamp of lines 633-634
(`alpha >= -3500`, `beta <= 3500`). -/
def AspBound (j : Nat) (alpha beta : Int) : Prop :=
  (-32768 ≤ alpha ∧ alpha ≤ 32767) ∧ (-32768 ≤ beta ∧ beta ≤ 32767) ∧
  (19 ≤ j → alpha < -3500 ∨ beta > 3500) ∧ (20 ≤ j → alpha < -3500 ∧ beta > 3500)

/-- The part of `absearch` before the move loop does not end in the
null-move search. -/
def Step.NoNull : Step → Prop
  | .nmp _ _ _ => False
  | _ => True

/-- A worker that reads the stop flag and finds it set at every read. -/
def haltEnv : Env := { sampleEnv with silent := false, stopAt := fun _ => true }

/-! ## Indices of the principal-variation tables (`search.cpp`, lines 228-230, 569-576) -/

/-- The state in which the loop of `iterativeDeepening` starts on the
sample position, with the value `x` where `pv_length_[MAX_PLY]` is read. -/
def pastEndState (x : Int) : SearchState :=
  { iterativeDeepeningInit sampleState with pv_length_ := fun i => if i = MAX_PLY then x else 0 }

/-! ## Singular-extension search (`search.cpp`, lines 461-486) -/

/-- What the part of `absearch` before the move loop hands on: the frame
`ss` it was entered at and, in the locals, the excluded move `m` that it
read from that frame. -/
def Step.Carries (ss : Int) (m : Move) : Step → Prop
  | .ret _ _ => True
  | .tailQ _ _ _ ss1 _ => ss1 = ss
  | .nmp f _ _ => f.ss = ss ∧ f.excluded_move = m
  | .moves f _ => f.ss = ss ∧ f.excluded_move = m

/-- The pending computations that a call of `absearch` at frame `ss`
entered with the excluded move `m` may start, directly or not: those of
frames above `ss`, `qsearch` at `ss`, and the move loop at `ss` with the
excluded move `m` in its locals; not a call of `absearch` at frame `ss`
(which only a singular-extension search at `ss` would be). -/
def Call.Under (ss : Int) (m : Move) : Call → Prop
  | .q _ _ _ s => ss ≤ s
  | .qloop f => ss ≤ f.ss
  | .ab _ _ _ _ s => ss < s
  | .abloop f => ss < f.ss ∨ (f.ss = ss ∧ f.excluded_move = m)
  | .abmove f _ _ _ => ss < f.ss ∨ (f.ss = ss ∧ f.excluded_move = m)

instance Call.decidableUnder (ss : Int) (m : Move) : (c : Call) → Decidable (c.Under ss m)
  | .q _ _ _ s => inferInstanceAs (Decidable (ss ≤ s))
  | .qloop f => inferInstanceAs (Decidable (ss ≤ f.ss))
  | .ab _ _ _ _ s => inferInstanceAs (Decidable (ss < s))
  | .abloop f => inferInstanceAs (Decidable (ss < f.ss ∨ (f.ss = ss ∧ f.excluded_move = m)))
  | .abmove f _ _ _ =>
    inferInstanceAs (Decidable (ss < f.ss ∨ (f.ss = ss ∧ f.excluded_move = m)))

/-- A runner that refuses (with `none`) every pending computation that
does not meet `Call.Under`, and runs the others with `rec`. -/
def underGuard (ss : Int) (m : Move) (rec : Call → SearchState → Option (Int × SearchState))
    (call : Call) (st : SearchState) : Option (Int × SearchState) :=
  if call.Under ss m then rec call st else none

/-- The search in which every computation that is started is refused
unless it meets `Call.Under`. -/
def searchU (env : Env) (ss : Int) (m : Move) :
    Nat → Call → SearchState → Option (Int × SearchState)
  | 0, _, _ => none
  | n + 1, call, st => searchStep env (underGuard ss m (searchU env ss m n)) call st

/-- Two runners of pending computations agree on the computations that
meet `Call.Under`. -/
def UnderAgree (ss : Int) (m : Move)
    (r1 r2 : Call → SearchState → Option (Int × SearchState)) : Prop :=
  ∀ call st, call.Under ss m → r1 call st = r2 call st

/-- A runner that refuses (with `none`) a call of `absearch` other than the
singular-extension search of `move` for the locals `f` (`absearch<NONPV>`
at depth `(depth - 1) / 2` on the window `(singular_beta - 1,
singular_beta)` at the frame of `f`, with `move` as the excluded move of
that frame), and a continuation of the loop body in a state in which the
excluded move of that frame is not `NO_MOVE`; it runs the others with
`rec`. -/
def singularGuard (f : ABFrame) (move : Move)
    (rec : Call → SearchState → Option (Int × SearchState)) :
    Call → SearchState → Option (Int × SearchState)
  | .ab node d a b ss, st =>
    if node = .NONPV ∧ d = Int.tdiv (f.depth - 1) 2 ∧ a = f.tt_score - 3 * f.depth - 1 ∧
        b = f.tt_score - 3 * f.depth ∧ ss = f.ss ∧ (st.stack f.ss).excluded_move = move then
      rec (.ab node d a b ss) st
    else none
  | .abmove g m c e, st =>
    if g.ss = f.ss ∧ (st.stack f.ss).excluded_move = NO_MOVE then rec (.abmove g m c e) st
    else none
  | call, st => rec call st

/-- A runner that returns `value` from every call of `absearch`, in the
state it is given, and does not return from other pending computations. -/
def fixedSearch (value : Int) : Call → SearchState → Option (Int × SearchState)
  | .ab _ _ _ _ _, st => some (value, st)
  | _, _ => none

/-- The locals of a PV node at depth 8 whose table move e2-e4 has the score
100 (so `singular_beta` is 76), on the window (50, 60). -/
def singularFrame : ABFrame :=
  { rootFrame with node := .PV, depth := 8, alpha := 50, beta := 60, ss := 1, tt_hit := true,
                   ttmove := sampleQuiet, tt_score := 100, made_moves := 1, idx := 1 }

/-- A worker whose probes of the table all hit a lower bound of depth 10. -/
def boundEnv : Env :=
  { sampleEnv with ttProbe := fun _ _ => (true, sampleQuiet, ⟨5, 100, sampleQuiet, 10, .LOWERBOUND⟩) }

/-- The state in which the singular-extension search of e2-e4 at
`singularFrame` is started from the sample state. -/
def singularState : SearchState :=
  { sampleState with tick := sampleState.tick + 1
                     stack := setExcluded sampleState.stack 1 sampleQuiet }

/-! ## Depths beyond the 8-bit field of the table (`uci.cpp`, line 121; `search.cpp`, lines 607, 692) -/

/-- The state of the main worker after `go depth 300` on `stalemateBoard`. -/
def deepState300 : SearchState := { stalemateState with limit := ⟨300, 0, 0, 0, false⟩ }

/-! ## A stop in the first iteration (`search.cpp`, lines 211, 565-576, 742) -/

/-- The main worker in UCI mode whose stop flag is set by another thread
from its second read of an outside input on, with the one move e2-e4 at
every node. -/
def earlyStopEnv : Env :=
  { sampleEnv with id := 0, silent := false, stopAt := fun t => decide (1 ≤ t),
                   nextMoveAB := fun _ _ _ _ i => if i = 0 then sampleQuiet else NO_MOVE }

/-! # Theorems -/

/-! ## Gravity update -/

theorem updateHistoryBonus_HH_history (s : Tables) (move sm : Move) (b : Int) :
    (updateHistoryBonus .HH s move sm b).history =
      specButterflyAt s.history s.board.side_to_move move b := rfl

theorem updateHistoryBonus_board (type : History) (s : Tables) (move sm : Move) (b : Int) :
    (updateHistoryBonus type s move sm b).board = s.board := by
  cases type <;> rfl

theorem updateHistoryBonus_CONST_history (s : Tables) (move sm : Move) (b : Int) :
    (updateHistoryBonus .CONST s move sm b).history = s.history := rfl

theorem updateHistoryBonus_HH_consthist (s : Tables) (move sm : Move) (b : Int) :
    (updateHistoryBonus .HH s move sm b).consthist = s.consthist := rfl

theorem updateHistoryBonus_CONST_consthist (s : Tables) (move sm : Move) (b : Int) :
    (updateHistoryBonus .CONST s move sm b).consthist = specContAt s.consthist s.board sm move b :=
  rfl

theorem updateHistoryBonus_killers (type : History) (s : Tables) (move sm : Move) (b : Int) :
    (updateHistoryBonus type s move sm b).killers = s.killers := by
  cases type <;> rfl

theorem updateHistoryBonus_counters (type : History) (s : Tables) (move sm : Move) (b : Int) :
    (updateHistoryBonus type s move sm b).counters = s.counters := by
  cases type <;> rfl

theorem updateConst_board (s : Tables) (stack : Int → Stack) (ss : Int) (move : Move) (b : Int) :
    (updateConst s stack ss move b).board = s.board := by
  unfold updateConst
  split
  · split <;> simp [updateHistoryBonus_board]
  · rfl

theorem updateConst_history (s : Tables) (stack : Int → Stack) (ss : Int) (move : Move) (b : Int) :
    (updateConst s stack ss move b).history = s.history := by
  unfold updateConst
  split
  · split <;> simp [updateHistoryBonus_CONST_history]
  · rfl

theorem updateConst_killers (s : Tables) (stack : Int → Stack) (ss : Int) (move : Move) (b : Int) :
    (updateConst s stack ss move b).killers = s.killers := by
  unfold updateConst
  split
  · split <;> simp [updateHistoryBonus_killers]
  · rfl

theorem updateConst_counters (s : Tables) (stack : Int → Stack) (ss : Int) (move : Move) (b : Int) :
    (updateConst s stack ss move b).counters = s.counters := by
  unfold updateConst
  split
  · split <;> simp [updateHistoryBonus_counters]
  · rfl

theorem updateConst_consthist (s : Tables) (stack : Int → Stack) (ss : Int) (move : Move)
    (b : Int) :
    (updateConst s stack ss move b).consthist =
      specContMove s.consthist s.board (stack ss).ply (stack (ss - 1)).currentmove
        (stack (ss - 2)).currentmove move b := by
  unfold updateConst specContMove
  by_cases h0 : (stack ss).ply > 0
  · have h1 : 1 ≤ (stack ss).ply := by omega
    by_cases h2 : (stack ss).ply > 1
    · have h3 : 2 ≤ (stack ss).ply := by omega
      simp only [h0, h2, h1, h3, if_true, updateHistoryBonus_CONST_consthist,
        updateHistoryBonus_board]
    · have h3 : ¬ 2 ≤ (stack ss).ply := by omega
      simp only [h0, h2, h1, h3, if_true, if_false, updateHistoryBonus_CONST_consthist]
  · have h1 : ¬ 1 ≤ (stack ss).ply := by omega
    have h3 : ¬ 2 ≤ (stack ss).ply := by omega
    simp only [h0, h1, h3, if_false]

/-- The loop of `updateHistory<HH>` over the recorded quiets. -/
theorem foldl_HH (moves : Nat → Move) (b : Int) (l : List Nat) :
    ∀ acc : Tables,
      let r := l.foldl (fun acc i => updateHistoryBonus .HH acc (moves i) NO_MOVE (-b)) acc
      r.board = acc.board ∧ r.consthist = acc.consthist ∧ r.killers = acc.killers ∧
        r.counters = acc.counters ∧
        r.history = specButterflyLosers acc.history acc.board.side_to_move b (l.map moves) := by
  induction l with
  | nil => intro acc; simp [specButterflyLosers]
  | cons i rest ih =>
    intro acc
    have := ih (updateHistoryBonus .HH acc (moves i) NO_MOVE (-b))
    simp only [List.foldl_cons, List.map_cons] at this ⊢
    obtain ⟨h1, h2, h3, h4, h5⟩ := this
    refine ⟨h1, h2, h3, h4, ?_⟩
    rw [h5]
    simp [specButterflyLosers, updateHistoryBonus_HH_history, updateHistoryBonus_board]

/-- The loop of `updateHistory<CONST>` over the recorded quiets. -/
theorem foldl_CONST (moves : Nat → Move) (b : Int) (stack : Int → Stack) (ss : Int)
    (l : List Nat) :
    ∀ acc : Tables,
      let r := l.foldl (fun acc i => updateConst acc stack ss (moves i) (-b)) acc
      r.board = acc.board ∧ r.history = acc.history ∧ r.killers = acc.killers ∧
        r.counters = acc.counters ∧
        r.consthist = (l.map moves).foldl
          (fun c q => specContMove c acc.board (stack ss).ply (stack (ss - 1)).currentmove
            (stack (ss - 2)).currentmove q (-b)) acc.consthist := by
  induction l with
  | nil => intro acc; simp
  | cons i rest ih =>
    intro acc
    have := ih (updateConst acc stack ss (moves i) (-b))
    simp only [List.foldl_cons, List.map_cons] at this ⊢
    obtain ⟨h1, h2, h3, h4, h5⟩ := this
    refine ⟨by rw [h1, updateConst_board], by rw [h2, updateConst_history],
      by rw [h3, updateConst_killers], by rw [h4, updateConst_counters], ?_⟩
    rw [h5, updateConst_consthist, updateConst_board]

theorem updateHistory_HH_spec (s : Tables) (bm : Move) (b d : Int) (quiets : Nat → Move)
    (n : Nat) (stack : Int → Stack) (ss : Int) :
    let r := updateHistory .HH s bm b d quiets n stack ss
    r.board = s.board ∧ r.consthist = s.consthist ∧ r.killers = s.killers ∧
      r.counters = s.counters ∧
      r.history = specButterflyLosers
        (if 1 < d then specButterflyAt s.history s.board.side_to_move bm b else s.history)
        s.board.side_to_move b ((List.range n).map quiets) := by
  have key := foldl_HH quiets b (List.range n)
    (if d > 1 then updateHistoryBonus .HH s bm NO_MOVE b else s)
  simp only [updateHistory]
  obtain ⟨h1, h2, h3, h4, h5⟩ := key
  by_cases hd : d > 1
  · rw [if_pos hd] at h1 h2 h3 h4 h5
    rw [if_pos hd, if_pos hd]
    exact ⟨h1, h2, h3, h4, h5⟩
  · rw [if_neg hd] at h1 h2 h3 h4 h5
    rw [if_neg hd, if_neg hd]
    exact ⟨h1, h2, h3, h4, h5⟩

theorem updateHistory_CONST_spec (s : Tables) (bm : Move) (b d : Int) (quiets : Nat → Move)
    (n : Nat) (stack : Int → Stack) (ss : Int) :
    let r := updateHistory .CONST s bm b d quiets n stack ss
    r.board = s.board ∧ r.history = s.history ∧ r.killers = s.killers ∧
      r.counters = s.counters ∧
      r.consthist = specContAfterCutoff s.consthist s.board (stack ss).ply
        (stack (ss - 1)).currentmove (stack (ss - 2)).currentmove bm b
        ((List.range n).map quiets) := by
  have key := foldl_CONST quiets b stack ss (List.range n) (updateConst s stack ss bm b)
  simp only [updateHistory]
  obtain ⟨h1, h2, h3, h4, h5⟩ := key
  refine ⟨by rw [h1, updateConst_board], by rw [h2, updateConst_history],
    by rw [h3, updateConst_killers], by rw [h4, updateConst_counters], ?_⟩
  rw [h5, updateConst_consthist, updateConst_board]
  rfl

/-- The state after `updateAllHistories` when the best move is quiet, field
by field. -/
theorem updateAllHistories_quiet (s : Tables) (bm : Move) (d : Int) (quiets : Nat → Move)
    (n : Nat) (stack : Int → Stack) (ss : Int) (hq : s.board.pieceAtB bm.to = NONE) :
    let r := updateAllHistories s bm d quiets n stack ss
    r.history = specButterflyLosers
        (if 1 < d then specButterflyAt s.history s.board.side_to_move bm (bonus d) else s.history)
        s.board.side_to_move (bonus d) ((List.range n).map quiets) ∧
      r.consthist = specContAfterCutoff s.consthist s.board (stack ss).ply
        (stack (ss - 1)).currentmove (stack (ss - 2)).currentmove bm
        (min (4 * d * d * d) 1500) ((List.range n).map quiets) ∧
      r.killers = (fun i p => if i = 0 ∧ p = (stack ss).ply then bm
        else if i = 1 ∧ p = (stack ss).ply then s.killers 0 (stack ss).ply else s.killers i p) := by
  simp only [updateAllHistories, hq, if_true]
  refine ⟨?_, ?_, ?_⟩
  · rw [(updateHistory_CONST_spec _ _ _ _ _ _ _ _).2.1, (updateHistory_HH_spec _ _ _ _ _ _ _ _).2.2.2.2]
  · rw [(updateHistory_CONST_spec _ _ _ _ _ _ _ _).2.2.2.2, (updateHistory_HH_spec _ _ _ _ _ _ _ _).1,
      (updateHistory_HH_spec _ _ _ _ _ _ _ _).2.1]
  · rw [(updateHistory_CONST_spec _ _ _ _ _ _ _ _).2.2.1, (updateHistory_HH_spec _ _ _ _ _ _ _ _).2.2.1]

/-- C3 (counterexample): at depth 1 a quiet best move e2-e4 causes a cutoff
on the sample position with all-zero tables and no recorded quiets; the
butterfly entry of the best move stays 0, whereas the gravity update with
bonus min(2000, 155*1) = 155 would make it 155, so the table is not the one
the claim describes. -/
theorem updateAllHistories_depth_one_counterexample :
    ¬ ((1 : Int) ≥ 1 → sampleTables.board.pieceAtB sampleQuiet.to = NONE →
      (updateAllHistories sampleTables sampleQuiet 1 (fun _ => NO_MOVE) 0 sampleStack 0).history =
        specButterflyLosers
          (specButterflyAt sampleTables.history sampleTables.board.side_to_move sampleQuiet
            (min 2000 (155 * 1)))
          sampleTables.board.side_to_move (min 2000 (155 * 1))
          ((List.range 0).map (fun _ => NO_MOVE))) := by
  intro h
  have hq : sampleTables.board.pieceAtB sampleQuiet.to = NONE := by decide
  have h1 := h (by norm_num) hq
  have h2 := congrFun (congrFun (congrFun h1 .White) 12) 28
  rw [(updateAllHistories_quiet sampleTables sampleQuiet 1 _ 0 sampleStack 0 hq).1] at h2
  simp [specButterflyLosers, specButterflyAt, setHistory, specGravity, sampleTables, sampleQuiet,
    sampleBoard, Move.from, Move.to, toInt16] at h2

/-- C3 (amended): on a cutoff from a quiet best move, the butterfly table
after `updateAllHistories` is: for depth d ≥ 2 the gravity update with bonus
min(2000, 155*d) at the best move followed by the gravity update with the
negated bonus at each quiet recorded in quiets[0..quiet_count), in order; for
depth d ≤ 1 only the updates of the recorded quiets (the best move's entry is
not updated). -/
theorem updateAllHistories_butterfly (s : Tables) (bm : Move) (d : Int) (quiets : Nat → Move)
    (n : Nat) (stack : Int → Stack) (ss : Int) (hq : s.board.pieceAtB bm.to = NONE) :
    (2 ≤ d → (updateAllHistories s bm d quiets n stack ss).history =
      specButterflyLosers
        (specButterflyAt s.history s.board.side_to_move bm (min 2000 (155 * d)))
        s.board.side_to_move (min 2000 (155 * d)) ((List.range n).map quiets)) ∧
    (d ≤ 1 → (updateAllHistories s bm d quiets n stack ss).history =
      specButterflyLosers s.history s.board.side_to_move (min 2000 (155 * d))
        ((List.range n).map quiets)) := by
  have hb : bonus d = min 2000 (155 * d) := by unfold bonus; rw [mul_comm]
  have key := (updateAllHistories_quiet s bm d quiets n stack ss hq).1
  rw [hb] at key
  constructor
  · intro hd
    rw [key, if_pos (by omega)]
  · intro hd
    rw [key, if_neg (by omega)]

/-- Witness for C3 (amended): depth 3 on the sample position, one recorded
quiet. -/
theorem updateAllHistories_butterfly_witness :
    (2 ≤ (3 : Int) → (updateAllHistories sampleTables sampleQuiet 3 (fun _ => NULL_MOVE) 1
        sampleStack 0).history =
      specButterflyLosers
        (specButterflyAt sampleTables.history sampleTables.board.side_to_move sampleQuiet
          (min 2000 (155 * 3)))
        sampleTables.board.side_to_move (min 2000 (155 * 3))
        ((List.range 1).map (fun _ => NULL_MOVE))) ∧
    ((3 : Int) ≤ 1 → (updateAllHistories sampleTables sampleQuiet 3 (fun _ => NULL_MOVE) 1
        sampleStack 0).history =
      specButterflyLosers sampleTables.history sampleTables.board.side_to_move
        (min 2000 (155 * 3)) ((List.range 1).map (fun _ => NULL_MOVE))) :=
  updateAllHistories_butterfly sampleTables sampleQuiet 3 (fun _ => NULL_MOVE) 1 sampleStack 0
    (by decide)

/-- C5: after `updateAllHistories` with a quiet best move at ply p,
killers[0][p] is the best move, killers[1][p] is the former killers[0][p],
and the killer slots of every other ply are unchanged. -/
theorem updateAllHistories_killers (s : Tables) (bm : Move) (d : Int) (quiets : Nat → Move)
    (n : Nat) (stack : Int → Stack) (ss : Int) (p : Int)
    (hp : (stack ss).ply = p) (hq : s.board.pieceAtB bm.to = NONE) :
    (updateAllHistories s bm d quiets n stack ss).killers 0 p = bm ∧
    (updateAllHistories s bm d quiets n stack ss).killers 1 p = s.killers 0 p ∧
    ∀ i q, q ≠ p → (updateAllHistories s bm d quiets n stack ss).killers i q = s.killers i q := by
  have key := (updateAllHistories_quiet s bm d quiets n stack ss hq).2.2
  rw [hp] at key
  rw [key]
  refine ⟨by simp, by simp, ?_⟩
  intro i q hne
  simp [hne]

/-- Witness for C5: the sample position at ply 2. -/
theorem updateAllHistories_killers_witness :
    (updateAllHistories sampleTables sampleQuiet 3 (fun _ => NULL_MOVE) 1 sampleStack 2).killers 0 2
        = sampleQuiet ∧
    (updateAllHistories sampleTables sampleQuiet 3 (fun _ => NULL_MOVE) 1 sampleStack 2).killers 1 2
        = sampleTables.killers 0 2 ∧
    ∀ i q, q ≠ 2 →
      (updateAllHistories sampleTables sampleQuiet 3 (fun _ => NULL_MOVE) 1 sampleStack 2).killers
        i q = sampleTables.killers i q :=
  updateAllHistories_killers sampleTables sampleQuiet 3 (fun _ => NULL_MOVE) 1 sampleStack 2 2
    rfl (by decide)

/-- The counters table after `updateAllHistories`, quiet best move or not. -/
theorem updateAllHistories_counters_eq (s : Tables) (bm : Move) (d : Int) (quiets : Nat → Move)
    (n : Nat) (stack : Int → Stack) (ss : Int) :
    (updateAllHistories s bm d quiets n stack ss).counters =
      fun f t => if f = (stack (ss - 1)).currentmove.from ∧ t = (stack (ss - 1)).currentmove.to
        then bm else s.counters f t := by
  simp only [updateAllHistories]
  split
  · rw [(updateHistory_CONST_spec _ _ _ _ _ _ _ _).2.2.2.1,
      (updateHistory_HH_spec _ _ _ _ _ _ _ _).2.2.2.1]
  · rfl

/-- C6 (counterexample): the best move e2xd3 is a capture on the sample
position (a black knight stands on d3), yet `updateAllHistories` writes it
to counters[from(prev)][to(prev)] (prev is `NO_MOVE`, so entry [0][0]), which
held `NO_MOVE` before: the counters table is not left unchanged. -/
theorem updateAllHistories_capture_counterexample :
    ¬ (sampleTables.board.pieceAtB sampleCapture.to ≠ NONE →
      (updateAllHistories sampleTables sampleCapture 3 (fun _ => NO_MOVE) 0 sampleStack 0).counters
        = sampleTables.counters) := by
  intro h
  have h1 := h (by decide)
  have h2 := congrFun (congrFun h1 0) 0
  rw [updateAllHistories_counters_eq] at h2
  simp [sampleTables, sampleStack, NO_MOVE, Move.from, Move.to, sampleCapture] at h2

/-- C6 (amended): `updateAllHistories` writes the best move to
counters[from(prev)][to(prev)] (prev = the move at ply-1) on every call,
whether the best move is quiet or a capture, and changes no other counters
entry; if the best move is a capture it leaves killers and both history
tables unchanged. -/
theorem updateAllHistories_counters (s : Tables) (bm : Move) (d : Int) (quiets : Nat → Move)
    (n : Nat) (stack : Int → Stack) (ss : Int) :
    (updateAllHistories s bm d quiets n stack ss).counters
        (stack (ss - 1)).currentmove.from (stack (ss - 1)).currentmove.to = bm ∧
    (∀ f t, ¬ (f = (stack (ss - 1)).currentmove.from ∧ t = (stack (ss - 1)).currentmove.to) →
      (updateAllHistories s bm d quiets n stack ss).counters f t = s.counters f t) ∧
    (s.board.pieceAtB bm.to ≠ NONE →
      (updateAllHistories s bm d quiets n stack ss).killers = s.killers ∧
      (updateAllHistories s bm d quiets n stack ss).history = s.history ∧
      (updateAllHistories s bm d quiets n stack ss).consthist = s.consthist) := by
  have hc := updateAllHistories_counters_eq s bm d quiets n stack ss
  refine ⟨by rw [hc]; simp, ?_, ?_⟩
  · intro f t hne
    rw [hc]
    simp only [hne, if_false]
  · intro hcap
    simp [updateAllHistories, hcap]

/-- Witness for C6 (amended): the capture e2xd3 on the sample position. -/
theorem updateAllHistories_counters_witness :
    sampleTables.board.pieceAtB sampleCapture.to ≠ NONE ∧
    (updateAllHistories sampleTables sampleCapture 3 (fun _ => NO_MOVE) 0 sampleStack 0).killers =
      sampleTables.killers ∧
    (updateAllHistories sampleTables sampleCapture 3 (fun _ => NO_MOVE) 0 sampleStack 0).history =
      sampleTables.history ∧
    (updateAllHistories sampleTables sampleCapture 3 (fun _ => NO_MOVE) 0 sampleStack 0).consthist =
      sampleTables.consthist :=
  ⟨by decide,
    (updateAllHistories_counters sampleTables sampleCapture 3 (fun _ => NO_MOVE) 0 sampleStack
      0).2.2 (by decide)⟩

/-! ## Transposition table -/

theorem index_lt (tt : TranspositionTable) (key : Nat) (hne : tt.entries_ ≠ [])
    (hk : key < 2 ^ 64) : tt.index key < tt.entries_.length := by
  unfold TranspositionTable.index
  rw [Nat.shiftRight_eq_div_pow]
  have hpos : 0 < tt.entries_.length := List.length_pos.mpr hne
  apply Nat.div_lt_of_lt_mul
  exact Nat.mul_lt_mul_of_pos_right hk hpos

theorem store_index (tt : TranspositionTable) (d sc : Int) (f : Flag) (key : Nat) (m : Move)
    (key2 : Nat) : (tt.store d sc f key m).index key2 = tt.index key2 := by
  simp [TranspositionTable.store, TranspositionTable.index]

/-- The entry read back by a probe right after a store at the same hash. -/
theorem probe_store (tt : TranspositionTable) (d sc : Int) (f : Flag) (key : Nat) (m : Move)
    (hne : tt.entries_ ≠ []) (hk : key < 2 ^ 64) :
    ((tt.store d sc f key m).probe key).2.2 =
      ⟨key, sc, if (tt.probe key).2.2.key = key ∧ m = NO_MOVE then (tt.probe key).2.2.move else m,
        toUInt8 d, f⟩ := by
  have hi := index_lt tt key hne hk
  simp only [TranspositionTable.probe, store_index]
  simp only [TranspositionTable.store]
  rw [List.getD_eq_getElem?_getD, List.getD_eq_getElem?_getD, List.getElem?_set_self hi]
  rfl

theorem probe_fst (tt : TranspositionTable) (key : Nat) :
    (tt.probe key).1 = decide ((tt.probe key).2.2.key = key) := rfl

theorem probe_snd (tt : TranspositionTable) (key : Nat) :
    (tt.probe key).2.1 = (tt.probe key).2.2.move := rfl

/-- The round trip of `store` and `probe` for the depths that fit the 8-bit
field: for a non-empty table, a 64-bit hash and every depth in 0..255 (the
search asserts 0 < depth < MAX_PLY, stores 0 from qsearch and
depth + 6 < MAX_PLY + 6 = 134 from the tablebase branch), a probe right
after `store(depth, score, flag, hash, move)` reports a hit and returns an
entry with that key, depth and flag, and with that move when the move is not
`NO_MOVE`. -/
theorem tt_store_probe_roundtrip (tt : TranspositionTable) (depth score : Int) (f : Flag)
    (hash : Nat) (m : Move) (hne : tt.entries_ ≠ []) (hk : hash < 2 ^ 64)
    (hd : 0 ≤ depth ∧ depth ≤ 255) :
    ((tt.store depth score f hash m).probe hash).1 = true ∧
    ((tt.store depth score f hash m).probe hash).2.2.key = hash ∧
    ((tt.store depth score f hash m).probe hash).2.2.depth = depth ∧
    ((tt.store depth score f hash m).probe hash).2.2.flag = f ∧
    (m ≠ NO_MOVE → ((tt.store depth score f hash m).probe hash).2.2.move = m ∧
      ((tt.store depth score f hash m).probe hash).2.1 = m) ∧
    (∀ e : Int, 0 < e → e < MAX_PLY →
      ((tt.store (e + 6) score f hash m).probe hash).2.2.depth = e + 6) := by
  have hp := probe_store tt depth score f hash m hne hk
  refine ⟨?_, ?_, ?_, ?_, ?_, ?_⟩
  · rw [probe_fst, hp]; simp
  · rw [hp]
  · rw [hp]; simp only [toUInt8]; omega
  · rw [hp]
  · intro hm
    rw [probe_snd, hp]
    simp [hm]
  · intro e he1 he2
    rw [probe_store tt (e + 6) score f hash m hne hk]
    simp only [toUInt8, MAX_PLY] at *
    omega

/-- The round trip at depth 133 (= 127 + 6) in a four-entry table. -/
theorem tt_store_probe_roundtrip_witness :
    ((sampleTT.store 133 25 .LOWERBOUND 12345 sampleQuiet).probe 12345).1 = true ∧
    ((sampleTT.store 133 25 .LOWERBOUND 12345 sampleQuiet).probe 12345).2.2.key = 12345 ∧
    ((sampleTT.store 133 25 .LOWERBOUND 12345 sampleQuiet).probe 12345).2.2.depth = 133 ∧
    ((sampleTT.store 133 25 .LOWERBOUND 12345 sampleQuiet).probe 12345).2.2.flag = .LOWERBOUND ∧
    (sampleQuiet ≠ NO_MOVE →
      ((sampleTT.store 133 25 .LOWERBOUND 12345 sampleQuiet).probe 12345).2.2.move = sampleQuiet ∧
      ((sampleTT.store 133 25 .LOWERBOUND 12345 sampleQuiet).probe 12345).2.1 = sampleQuiet) ∧
    (∀ e : Int, 0 < e → e < MAX_PLY →
      ((sampleTT.store (e + 6) 25 .LOWERBOUND 12345 sampleQuiet).probe 12345).2.2.depth = e + 6) :=
  tt_store_probe_roundtrip sampleTT 133 25 .LOWERBOUND 12345 sampleQuiet (by decide) (by norm_num)
    (by norm_num)

set_option maxRecDepth 10000000 in
/-- C7 fails on the code: after `go depth 300` on a position without legal
moves the loop of `iterativeDeepening` runs through every depth up to 300
(it is left with `depth = 301`); `absearch<ROOT>` with `depth = 300` reaches
its move loop with that depth and stores it at its end (line 607); the
probe of the same hash right after is a hit and returns the depth 44
(300 modulo 256), not 300. A stored depth of 256 is read back as 0. -/
theorem tt_depth_narrowed :
    deepState300.limit.depth = 300 ∧
    (iterativeDeepeningLoop deepEnv id id 3 2 0 302 ⟨NO_MOVE, -VALUE_INFINITE, 1, 0, 0⟩
      (iterativeDeepeningInit deepState300)).map (fun r => r.1.depth) = some 301 ∧
    (abEntry deepEnv .ROOT 300 (-VALUE_INFINITE) VALUE_INFINITE 0
      (iterativeDeepeningInit deepState300)).frame.depth = 300 ∧
    (search deepEnv 3 (.ab .ROOT 300 (-VALUE_INFINITE) VALUE_INFINITE 0)
      (iterativeDeepeningInit deepState300)).map
        (fun r => (r.1, (r.2.tt.probe (deepEnv.hash r.2.tb.board)).1,
          (r.2.tt.probe (deepEnv.hash r.2.tb.board)).2.2.depth)) = some (0, true, 44) ∧
    ((sampleTT.store 300 0 .UPPERBOUND 17 NO_MOVE).probe 17).1 = true ∧
    ((sampleTT.store 300 0 .UPPERBOUND 17 NO_MOVE).probe 17).2.2.depth = 44 ∧
    ((sampleTT.store 256 0 .UPPERBOUND 17 NO_MOVE).probe 17).2.2.depth = 0 := by
  decide

/-- C8: `store` always replaces key, depth, score and flag of the slot, and
replaces the move except when the slot already holds the same hash and the
incoming move is `NO_MOVE`; storing (H, 5, 100, EXACT, m1) and then
(H, 3, 50, UPPER, NO_MOVE) makes a probe of H a hit that returns depth 3,
flag UPPER, score 50 and move m1. -/
theorem tt_store_replacement (tt : TranspositionTable) (H : Nat) (m1 : Move)
    (hne : tt.entries_ ≠ []) (hk : H < 2 ^ 64) (hm : m1 ≠ NO_MOVE) :
    (∀ (d sc : Int) (f : Flag) (m : Move),
      ((tt.store d sc f H m).probe H).2.2.key = H ∧
      ((tt.store d sc f H m).probe H).2.2.depth = toUInt8 d ∧
      ((tt.store d sc f H m).probe H).2.2.score = sc ∧
      ((tt.store d sc f H m).probe H).2.2.flag = f ∧
      ((tt.store d sc f H m).probe H).2.2.move =
        if (tt.probe H).2.2.key = H ∧ m = NO_MOVE then (tt.probe H).2.2.move else m) ∧
    (((tt.store 5 100 .EXACTBOUND H m1).store 3 50 .UPPERBOUND H NO_MOVE).probe H =
      (true, m1, ⟨H, 50, m1, 3, .UPPERBOUND⟩)) := by
  constructor
  · intro d sc f m
    rw [probe_store tt d sc f H m hne hk]
    exact ⟨rfl, rfl, rfl, rfl, rfl⟩
  · have hne2 : (tt.store 5 100 .EXACTBOUND H m1).entries_ ≠ [] := by
      intro h
      apply hne
      have := congrArg List.length h
      simp only [TranspositionTable.store, List.length_set, List.length_nil] at this
      exact List.length_eq_zero.mp this
    have h2 := probe_store (tt.store 5 100 .EXACTBOUND H m1) 3 50 .UPPERBOUND H NO_MOVE hne2 hk
    have h1 := probe_store tt 5 100 .EXACTBOUND H m1 hne hk
    rw [h1] at h2
    simp only [hm, and_false, if_false, and_self, if_true] at h2
    have e1 : (((tt.store 5 100 .EXACTBOUND H m1).store 3 50 .UPPERBOUND H NO_MOVE).probe H).1
        = true := by
      rw [probe_fst, h2]; simp
    have e2 : (((tt.store 5 100 .EXACTBOUND H m1).store 3 50 .UPPERBOUND H NO_MOVE).probe H).2.1
        = m1 := by
      rw [probe_snd, h2]
    have e3 : toUInt8 3 = 3 := by decide
    rw [e3] at h2
    rw [Prod.ext_iff, Prod.ext_iff]
    exact ⟨e1, e2, h2⟩

/-- Witness for C8: scenario E on a four-entry table with m1 = e2-e4. -/
theorem tt_store_replacement_witness :
    ((sampleTT.store 5 100 .EXACTBOUND 12345 sampleQuiet).store 3 50 .UPPERBOUND 12345
        NO_MOVE).probe 12345 =
      (true, sampleQuiet, ⟨12345, 50, sampleQuiet, 3, .UPPERBOUND⟩) :=
  (tt_store_replacement sampleTT 12345 sampleQuiet (by decide) (by norm_num) (by decide)).2

/-- C9: `scoreFromTT` inverts `scoreToTT` for every ply in [0, MAX_PLY] and
every score with |s| ≤ VALUE_MATE, where `scoreToTT` adds ply to scores at
or above VALUE_TB_WIN_IN_MAX_PLY, subtracts ply from scores at or below
VALUE_TB_LOSS_IN_MAX_PLY and passes other scores through (no 16-bit
wrap-around occurs in that range). -/
theorem scoreFromTT_scoreToTT (s ply : Int) (hply : 0 ≤ ply ∧ ply ≤ MAX_PLY)
    (hs : |s| ≤ VALUE_MATE) :
    scoreFromTT (scoreToTT s ply) ply = s ∧
    scoreToTT s ply = (if s ≥ VALUE_TB_WIN_IN_MAX_PLY then s + ply
      else if s ≤ VALUE_TB_LOSS_IN_MAX_PLY then s - ply else s) := by
  obtain ⟨hs1, hs2⟩ := abs_le.mp hs
  simp only [scoreFromTT, scoreToTT, toInt16, VALUE_TB_WIN_IN_MAX_PLY, VALUE_TB_LOSS_IN_MAX_PLY,
    VALUE_TB_WIN, VALUE_MATE_IN_PLY, VALUE_MATE, MAX_PLY] at *
  constructor
  · split_ifs <;> omega
  · split_ifs <;> omega

/-- Witness for C9: a mate score at ply 7. -/
theorem scoreFromTT_scoreToTT_witness :
    scoreFromTT (scoreToTT 31990 7) 7 = 31990 ∧
    scoreToTT 31990 7 = (if (31990 : Int) ≥ VALUE_TB_WIN_IN_MAX_PLY then 31990 + 7
      else if (31990 : Int) ≤ VALUE_TB_LOSS_IN_MAX_PLY then 31990 - 7 else 31990) :=
  scoreFromTT_scoreToTT 31990 7 (by decide) (by decide)

/-! ## Board make / unmake -/

theorem updateHashTail_fields (H : Helpers) (b : Board) (m : Move) (p c : Piece) (r : Nat) :
    (updateHashTail H b m p c r).state_history = b.state_history ∧
    (updateHashTail H b m p c r).hash_history = b.hash_history ∧
    (updateHashTail H b m p c r).side_to_move = b.side_to_move ∧
    (updateHashTail H b m p c r).pieces_bb = b.pieces_bb ∧
    (updateHashTail H b m p c r).board = b.board ∧
    (updateHashTail H b m p c r).full_move_number = b.full_move_number ∧
    (updateHashTail H b m p c r).chess960 = b.chess960 := by
  unfold updateHashTail
  simp only []
  split_ifs <;> exact ⟨rfl, rfl, rfl, rfl, rfl, rfl, rfl⟩

theorem updateHash_fields (H : Helpers) (b : Board) (m : Move) :
    (updateHash H b m).state_history = b.state_history ∧
    (updateHash H b m).hash_history = b.hash_history ++ [b.hash_key] ∧
    (updateHash H b m).side_to_move = b.side_to_move ∧
    (updateHash H b m).pieces_bb = b.pieces_bb ∧
    (updateHash H b m).board = b.board ∧
    (updateHash H b m).full_move_number = b.full_move_number ∧
    (updateHash H b m).chess960 = b.chess960 := by
  unfold updateHash
  simp only []
  split_ifs <;>
    first
    | exact ⟨rfl, rfl, rfl, rfl, rfl, rfl, rfl⟩
    | (refine ⟨?_, ?_, ?_, ?_, ?_, ?_, ?_⟩ <;>
        simp only [(updateHashTail_fields H _ m _ _ _).1, (updateHashTail_fields H _ m _ _ _).2.1,
          (updateHashTail_fields H _ m _ _ _).2.2.1, (updateHashTail_fields H _ m _ _ _).2.2.2.1,
          (updateHashTail_fields H _ m _ _ _).2.2.2.2.1,
          (updateHashTail_fields H _ m _ _ _).2.2.2.2.2.1,
          (updateHashTail_fields H _ m _ _ _).2.2.2.2.2.2])

theorem testBit_clear (x s i : Nat) (hs : s < 64) :
    (x &&& (U64_MAX ^^^ (1 <<< s))).testBit i =
      (x.testBit i && (decide (i < 64) && !decide (i = s))) := by
  rw [Nat.testBit_and, Nat.testBit_xor, Nat.one_shiftLeft, Nat.testBit_two_pow, U64_MAX,
    Nat.testBit_two_pow_sub_one]
  by_cases h2 : i = s
  · subst h2
    simp [hs]
  · have h3 : ¬ s = i := fun h => h2 h.symm
    simp [h2, h3]

theorem testBit_set (x s i : Nat) :
    (x ||| (1 <<< s)).testBit i = (x.testBit i || decide (i = s)) := by
  rw [Nat.testBit_or, Nat.one_shiftLeft, Nat.testBit_two_pow]
  by_cases h2 : i = s
  · subst h2
    simp
  · have h3 : ¬ s = i := fun h => h2 h.symm
    simp [h2, h3]

theorem testBit_lt64 (x i : Nat) (hx : x < 2 ^ 64) (h : x.testBit i = true) : i < 64 := by
  by_contra hi
  have : x < 2 ^ i := lt_of_lt_of_le hx (Nat.pow_le_pow_right (by norm_num) (by omega))
  rw [Nat.testBit_lt_two_pow this] at h
  exact Bool.noConfusion h

theorem Color.flip_flip (c : Color) : c.flip.flip = c := by cases c <;> rfl

@[simp] theorem removePiece_board (b : Board) (p : Piece) (sq s : Square) :
    (b.removePiece p sq).board s = if s = sq then NONE else b.board s := rfl
@[simp] theorem placePiece_board (b : Board) (p : Piece) (sq s : Square) :
    (b.placePiece p sq).board s = if s = sq then p else b.board s := rfl
@[simp] theorem movePiece_board (b : Board) (p : Piece) (f t s : Square) :
    (b.movePiece p f t).board s = if s = t then p else if s = f then NONE else b.board s := rfl
@[simp] theorem removePiece_pieces_bb (b : Board) (p : Piece) (sq : Square) (q : Piece) :
    (b.removePiece p sq).pieces_bb q =
      if q = p then b.pieces_bb q &&& (U64_MAX ^^^ (1 <<< sq)) else b.pieces_bb q := rfl
@[simp] theorem placePiece_pieces_bb (b : Board) (p : Piece) (sq : Square) (q : Piece) :
    (b.placePiece p sq).pieces_bb q =
      if q = p then b.pieces_bb q ||| (1 <<< sq) else b.pieces_bb q := rfl
@[simp] theorem movePiece_pieces_bb (b : Board) (p : Piece) (f t : Square) (q : Piece) :
    (b.movePiece p f t).pieces_bb q =
      if q = p then (b.pieces_bb q &&& (U64_MAX ^^^ (1 <<< f))) ||| (1 <<< t)
      else b.pieces_bb q := rfl

/-- Every operation on pieces leaves the other fields alone. -/
theorem removePiece_rest (b : Board) (p : Piece) (sq : Square) :
    b.removePiece p sq = { b with pieces_bb := (b.removePiece p sq).pieces_bb
                                  board := (b.removePiece p sq).board } := rfl
theorem placePiece_rest (b : Board) (p : Piece) (sq : Square) :
    b.placePiece p sq = { b with pieces_bb := (b.placePiece p sq).pieces_bb
                                 board := (b.placePiece p sq).board } := rfl
theorem movePiece_rest (b : Board) (p : Piece) (f t : Square) :
    b.movePiece p f t = { b with pieces_bb := (b.movePiece p f t).pieces_bb
                                 board := (b.movePiece p f t).board } := rfl

theorem Consistent.testBit_eq (b : Board) (hc : b.Consistent) (p : Piece) (hp : p < 12) (i : Nat) :
    (b.pieces_bb p).testBit i = decide (i < 64 ∧ b.board i = p) := by
  by_cases hi : i < 64
  · have := hc.agree p hp i hi
    by_cases hb : b.board i = p
    · simp [hi, hb, this.mpr hb]
    · have h2 : (b.pieces_bb p).testBit i ≠ true := fun h => hb (this.mp h)
      simp [hi, hb, h2]
  · have h2 : (b.pieces_bb p).testBit i ≠ true := fun h => hi (testBit_lt64 _ _ (hc.bb_lt p hp) h)
    simp [hi, h2]

theorem xor8_lt (s : Nat) (h : s < 64) : s ^^^ 8 < 64 := by
  have : s ^^^ 8 < 2 ^ 6 := Nat.xor_lt_two_pow (by omega) (by norm_num)
  omega


theorem Board.ext_fields (x y : Board) (h1 : x.chess960 = y.chess960)
    (h2 : x.side_to_move = y.side_to_move) (h3 : x.en_passant_square = y.en_passant_square)
    (h4 : x.castling_rights = y.castling_rights) (h5 : x.half_move_clock = y.half_move_clock)
    (h6 : x.full_move_number = y.full_move_number) (h7 : x.hash_history = y.hash_history)
    (h8 : x.hash_key = y.hash_key) (h9 : x.state_history = y.state_history)
    (h10 : x.pieces_bb = y.pieces_bb) (h11 : x.board = y.board) : x = y := by
  cases x; cases y
  simp only [Board.mk.injEq]
  exact ⟨h1, h2, h3, h4, h5, h6, h7, h8, h9, h10, h11⟩

theorem rook_lt (c : Color) : (if c = .White then WhiteRook else BlackRook) < 12 := by
  cases c <;> decide

theorem makePiece_king_ne_rook (c : Color) :
    makePiece KING c ≠ (if c = .White then WhiteRook else BlackRook) := by
  cases c <;> decide

/-- Castling: the piece updates of `unmakeMove` undo those of `makeMove`. -/
theorem pieces_roundtrip_castling (H : Helpers) (b : Board) (m : Move) (hc : b.Consistent)
    (hp : b.Playable H m) (hcastle : typeOf m = .CASTLING) :
    unmakeMovePieces H
      { b with
        pieces_bb := (makeMovePieces H b m (type_of_piece (b.board m.from)) (b.board m.from)
          (b.board m.to) (decide (m.to = b.en_passant_square))).pieces_bb
        board := (makeMovePieces H b m (type_of_piece (b.board m.from)) (b.board m.from)
          (b.board m.to) (decide (m.to = b.en_passant_square))).board } m (b.board m.to) = b := by
  obtain ⟨hf, ht, hft, hown, hcol, hcas, -, -⟩ := hp
  obtain ⟨hk, hr, hk64, hr64, hkr, hke, hre⟩ := hcas hcastle
  have hkdef : H.file_rank_square (if m.to > m.from then FILE_G else FILE_C)
      (H.square_rank m.from) = kingToSq H m := rfl
  have hrdef : H.file_rank_square (if m.to > m.from then FILE_F else FILE_D)
      (H.square_rank m.from) = rookToSq H m := rfl
  have hK : b.board m.from = makePiece KING b.side_to_move := by rw [hcol, hk]
  have hKR := makePiece_king_ne_rook b.side_to_move
  have hRlt := rook_lt b.side_to_move
  have hKlt : makePiece KING b.side_to_move < 12 := hK ▸ hown
  unfold unmakeMovePieces makeMovePieces
  simp only [hcastle, if_true, hkdef, hrdef, hK]
  rw [← hr] at hKR hRlt ⊢
  generalize kingToSq H m = k at *
  generalize rookToSq H m = r at *
  generalize makePiece KING b.side_to_move = K at *
  generalize hR : b.board m.to = R at *
  generalize m.from = f at *
  generalize m.to = t at *
  apply Board.ext_fields <;> try rfl
  · funext q
    simp only [removePiece_pieces_bb, placePiece_pieces_bb]
    by_cases hqK : q = K
    · subst hqK
      simp only [hKR, if_false, if_true]
      apply Nat.eq_of_testBit_eq
      intro i
      simp only [testBit_set, testBit_clear _ _ _ hf, testBit_clear _ _ _ hk64,
        Consistent.testBit_eq b hc _ hKlt]
      by_cases h1 : i = f
      · subst h1; simp [hK, hf]
      · by_cases h2 : i = k
        · subst h2
          rcases hke with h | h | h
          · simp [h1, h]; intro _ h3; subst h3; exact absurd hKlt (by decide)
          · exact absurd h h1
          · subst h; simp [h1, hR]; intro _ ; exact fun h => hKR h.symm
        · simp [h1, h2]; intro a _; exact a
    · by_cases hqR : q = R
      · subst hqR
        simp only [hqK, if_false, if_true]
        apply Nat.eq_of_testBit_eq
        intro i
        simp only [testBit_set, testBit_clear _ _ _ ht, testBit_clear _ _ _ hr64,
          Consistent.testBit_eq b hc _ hRlt]
        by_cases h1 : i = t
        · subst h1; simp [hR, ht]
        · by_cases h2 : i = r
          · subst h2
            rcases hre with h | h | h
            · simp [h1, h]; intro _ h3; subst h3; exact absurd hRlt (by decide)
            · subst h; simp [h1, hK]; intro _; exact hKR
            · exact absurd h h1
          · simp [h1, h2]; intro a _; exact a
      · simp only [hqK, hqR, if_false]
  · funext s
    simp only [removePiece_board, placePiece_board]
    by_cases h1 : s = t
    · subst h1; simp [hR]
    · by_cases h2 : s = f
      · subst h2; simp [h1, hK]
      · by_cases h3 : s = k
        · subst h3
          rcases hke with h | h | h
          · simp [h1, h2, h]
          · exact absurd h h2
          · exact absurd h h1
        · by_cases h4 : s = r
          · subst h4
            rcases hre with h | h | h
            · simp [h1, h2, h3, h]
            · exact absurd h h2
            · exact absurd h h1
          · simp [h1, h2, h3, h4]

@[simp] theorem removePiece_en_passant_square (b : Board) (p : Piece) (sq : Square) :
    (b.removePiece p sq).en_passant_square = b.en_passant_square := rfl
@[simp] theorem placePiece_en_passant_square (b : Board) (p : Piece) (sq : Square) :
    (b.placePiece p sq).en_passant_square = b.en_passant_square := rfl
@[simp] theorem movePiece_en_passant_square (b : Board) (p : Piece) (f t : Square) :
    (b.movePiece p f t).en_passant_square = b.en_passant_square := rfl
@[simp] theorem removePiece_side_to_move (b : Board) (p : Piece) (sq : Square) :
    (b.removePiece p sq).side_to_move = b.side_to_move := rfl
@[simp] theorem placePiece_side_to_move (b : Board) (p : Piece) (sq : Square) :
    (b.placePiece p sq).side_to_move = b.side_to_move := rfl
@[simp] theorem movePiece_side_to_move (b : Board) (p : Piece) (f t : Square) :
    (b.movePiece p f t).side_to_move = b.side_to_move := rfl

/-- A plain move or capture: the piece updates of `unmakeMove` undo those
of `makeMove`. -/
theorem pieces_roundtrip_normal (H : Helpers) (b : Board) (m : Move) (hc : b.Consistent)
    (hp : b.Playable H m) (hcastle : typeOf m ≠ .CASTLING) (hpromo : typeOf m ≠ .PROMOTION)
    (hnep : ¬ (type_of_piece (b.board m.from) = PAWN ∧ m.to = b.en_passant_square)) :
    unmakeMovePieces H
      { b with
        pieces_bb := (makeMovePieces H b m (type_of_piece (b.board m.from)) (b.board m.from)
          (b.board m.to) (decide (m.to = b.en_passant_square))).pieces_bb
        board := (makeMovePieces H b m (type_of_piece (b.board m.from)) (b.board m.from)
          (b.board m.to) (decide (m.to = b.en_passant_square))).board } m (b.board m.to) = b := by
  obtain ⟨hf, ht, hft, hown, hcol, -, -, -⟩ := hp
  have hnep2 : ¬ (type_of_piece (b.board m.from) = PAWN ∧
      decide (m.to = b.en_passant_square) = true) := by
    simpa using hnep
  have hnep3 : ¬ (m.to = b.en_passant_square ∧ type_of_piece (b.board m.from) = PAWN) :=
    fun h => hnep ⟨h.2, h.1⟩
  have hcap := hc.board_le m.to
  unfold unmakeMovePieces makeMovePieces
  simp only [hcastle, hpromo, if_false, hnep2, decide_False, Bool.false_eq_true]
  generalize hP : b.board m.from = P at *
  generalize hC : b.board m.to = C at *
  generalize m.from = f at *
  generalize m.to = t at *
  by_cases hcapN : C = NONE
  · simp only [hcapN, ne_eq, not_true_eq_false, if_false, Board.pieceAtB, movePiece_board, if_true,
      ← hcol, hnep3, movePiece_en_passant_square]
    apply Board.ext_fields <;> try rfl
    · funext q
      simp only [movePiece_pieces_bb]
      by_cases hq : q = P
      · subst hq
        simp only [if_true]
        apply Nat.eq_of_testBit_eq
        intro i
        simp only [testBit_set, testBit_clear _ _ _ hf, testBit_clear _ _ _ ht,
          Consistent.testBit_eq b hc _ hown]
        by_cases h1 : i = f
        · subst h1; simp [hP, hf]
        · by_cases h2 : i = t
          · subst h2; simp [h1, hC, hcapN]; intro _ h3; subst h3; exact absurd hown (by decide)
          · simp [h1, h2]; intro a _; exact a
      · simp only [hq, if_false]
    · funext s
      simp only [movePiece_board]
      by_cases h1 : s = f
      · subst h1; simp [hP]
      · by_cases h2 : s = t
        · subst h2; simp [h1, hC, hcapN]
        · simp [h1, h2]
  · have hClt : C < 12 := lt_of_le_of_ne hcap hcapN
    simp only [hcapN, ne_eq, not_false_eq_true, if_false, Board.pieceAtB, movePiece_board, if_true,
      ← hcol, hnep3, movePiece_en_passant_square]
    apply Board.ext_fields <;> try rfl
    · funext q
      simp only [movePiece_pieces_bb, placePiece_pieces_bb, removePiece_pieces_bb]
      by_cases hq : q = P
      · subst hq
        by_cases hqc : q = C
        · subst hqc
          simp only [if_true]
          apply Nat.eq_of_testBit_eq
          intro i
          simp only [testBit_set, testBit_clear _ _ _ hf, testBit_clear _ _ _ ht,
            Consistent.testBit_eq b hc _ hown]
          by_cases h1 : i = f
          · subst h1; simp [hP, hf]
          · by_cases h2 : i = t
            · subst h2; simp [h1, hC, ht]
            · simp [h1, h2]; intro a _; exact a
        · simp only [hqc, if_true, if_false]
          apply Nat.eq_of_testBit_eq
          intro i
          simp only [testBit_set, testBit_clear _ _ _ hf, testBit_clear _ _ _ ht,
            Consistent.testBit_eq b hc _ hown]
          by_cases h1 : i = f
          · subst h1; simp [hP, hf]
          · by_cases h2 : i = t
            · subst h2; simp [h1, hC]; intro _ h3; exact hqc h3.symm
            · simp [h1, h2]; intro a _; exact a
      · by_cases hqc : q = C
        · subst hqc
          simp only [hq, if_true, if_false]
          apply Nat.eq_of_testBit_eq
          intro i
          simp only [testBit_set, testBit_clear _ _ _ hf, testBit_clear _ _ _ ht,
            Consistent.testBit_eq b hc _ hClt]
          by_cases h2 : i = t
          · subst h2; simp [hC, ht]
          · simp [h2]; intro a _; exact a
        · simp only [hq, hqc, if_false]
    · funext s
      simp only [movePiece_board, placePiece_board, removePiece_board]
      by_cases h2 : s = t
      · subst h2; simp [hC]
      · by_cases h1 : s = f
        · subst h1; simp [hP, h2]
        · simp [h1, h2]

theorem xor8_ne (s : Nat) : s ^^^ 8 ≠ s := by
  intro h
  have h2 := congrArg (fun x => x.testBit 3) h
  simp only [Nat.testBit_xor] at h2
  have h3 : Nat.testBit 8 3 = true := by decide
  rw [h3] at h2
  cases hb : s.testBit 3 <;> rw [hb] at h2 <;> simp at h2

theorem makePiece_eq (pt : Nat) (c : Color) (h : pt < 6) : makePiece pt c = pt + 6 * c.toNat := by
  have h6 : ¬ pt = NONETYPE := fun h2 => by
    have h3 : pt = 6 := h2
    omega
  unfold makePiece
  rw [if_neg h6]

theorem makePiece_lt (pt : Nat) (c : Color) (h : pt < 6) : makePiece pt c < 12 := by
  rw [makePiece_eq pt c h]
  cases c
  · show pt + 6 * 0 < 12
    omega
  · show pt + 6 * 1 < 12
    omega

theorem makePiece_flip_ne (pt : Nat) (c : Color) (h : pt < 6) :
    makePiece pt c.flip ≠ makePiece pt c := by
  rw [makePiece_eq pt _ h, makePiece_eq pt _ h]
  cases c
  · show pt + 6 * 1 ≠ pt + 6 * 0
    omega
  · show pt + 6 * 0 ≠ pt + 6 * 1
    omega

/-- En passant: the piece updates of `unmakeMove` undo those of `makeMove`. -/
theorem pieces_roundtrip_enpassant (H : Helpers) (b : Board) (m : Move) (hc : b.Consistent)
    (hp : b.Playable H m) (hcastle : typeOf m ≠ .CASTLING)
    (hpawn : type_of_piece (b.board m.from) = PAWN) (hto : m.to = b.en_passant_square) :
    unmakeMovePieces H
      { b with
        pieces_bb := (makeMovePieces H b m (type_of_piece (b.board m.from)) (b.board m.from)
          (b.board m.to) (decide (m.to = b.en_passant_square))).pieces_bb
        board := (makeMovePieces H b m (type_of_piece (b.board m.from)) (b.board m.from)
          (b.board m.to) (decide (m.to = b.en_passant_square))).board } m (b.board m.to) = b := by
  obtain ⟨hf, ht, hft, hown, hcol, -, hep, -⟩ := hp
  obtain ⟨hpromo, hC, hE, hxf⟩ := hep hcastle hpawn hto
  have hx64 := xor8_lt m.to ht
  have hxt := xor8_ne m.to
  have hElt := makePiece_lt PAWN b.side_to_move.flip (by decide)
  have hEP : makePiece PAWN b.side_to_move.flip ≠ b.board m.from := by
    rw [hcol, hpawn]; exact makePiece_flip_ne PAWN _ (by decide)
  unfold unmakeMovePieces makeMovePieces
  simp only [hcastle, hpromo, if_false, hpawn, ← hto, decide_True, and_self, if_true,
    Board.pieceAtB, movePiece_board, removePiece_board, movePiece_en_passant_square,
    removePiece_en_passant_square, movePiece_side_to_move, removePiece_side_to_move,
    decide_False, Bool.false_eq_true]
  rw [← hpawn, ← hcol]
  simp only [hpawn, and_self, if_true]
  generalize hP : b.board m.from = P at *
  generalize makePiece PAWN b.side_to_move.flip = E at *
  generalize m.to ^^^ 8 = x at *
  generalize m.from = f at *
  generalize m.to = t at *
  apply Board.ext_fields <;> try rfl
  · exact hto
  · funext q
    simp only [movePiece_pieces_bb, placePiece_pieces_bb, removePiece_pieces_bb]
    by_cases hq : q = P
    · subst hq
      have hqE : ¬ q = E := fun h => hEP h.symm
      simp only [hqE, if_true, if_false]
      apply Nat.eq_of_testBit_eq
      intro i
      simp only [testBit_set, testBit_clear _ _ _ hf, testBit_clear _ _ _ ht,
        Consistent.testBit_eq b hc _ hown]
      by_cases h1 : i = f
      · subst h1; simp [hP, hf]
      · by_cases h2 : i = t
        · subst h2; simp [h1, hC]; intro _ h3; subst h3; exact absurd hown (by decide)
        · simp [h1, h2]; intro a _; exact a
    · by_cases hqe : q = E
      · subst hqe
        simp only [hq, if_true, if_false]
        apply Nat.eq_of_testBit_eq
        intro i
        simp only [testBit_set, testBit_clear _ _ _ hx64, Consistent.testBit_eq b hc _ hElt]
        by_cases h1 : i = x
        · subst h1; simp [hE, hx64]
        · simp [h1]; intro a _; exact a
      · simp only [hq, hqe, if_false]
  · funext s
    simp only [movePiece_board, placePiece_board, removePiece_board]
    by_cases h0 : s = x
    · subst h0; simp [hE]
    · by_cases h1 : s = f
      · subst h1; simp [hP, h0]
      · by_cases h2 : s = t
        · subst h2; simp [h0, h1, hC]
        · simp [h0, h1, h2]

/-- Promotion (with or without capture): the piece updates of `unmakeMove`
undo those of `makeMove`. -/
theorem pieces_roundtrip_promotion (H : Helpers) (b : Board) (m : Move) (hc : b.Consistent)
    (hp : b.Playable H m) (hpromo : typeOf m = .PROMOTION) :
    unmakeMovePieces H
      { b with
        pieces_bb := (makeMovePieces H b m (type_of_piece (b.board m.from)) (b.board m.from)
          (b.board m.to) (decide (m.to = b.en_passant_square))).pieces_bb
        board := (makeMovePieces H b m (type_of_piece (b.board m.from)) (b.board m.from)
          (b.board m.to) (decide (m.to = b.en_passant_square))).board } m (b.board m.to) = b := by
  obtain ⟨hf, ht, hft, hown, hcol, -, hep, hpr⟩ := hp
  obtain ⟨hpawn, hQ6⟩ := hpr hpromo
  have hcastle : typeOf m ≠ .CASTLING := by rw [hpromo]; decide
  have hnto : ¬ m.to = b.en_passant_square := fun h => (hep hcastle hpawn h).1 hpromo
  have hcap := hc.board_le m.to
  have hQlt := makePiece_lt (promotionType m) b.side_to_move hQ6
  have hP : b.board m.from = makePiece PAWN b.side_to_move := by rw [hcol, hpawn]
  have hne : ¬ (MoveType.PROMOTION = MoveType.CASTLING) := by decide
  have hbit : ∀ q, q < 12 → ∀ i, (b.pieces_bb q).testBit i = decide (i < 64 ∧ b.board i = q) :=
    fun q hq i => Consistent.testBit_eq b hc q hq i
  rw [hP] at hown
  clear hcol hep hpawn hpr
  unfold unmakeMovePieces makeMovePieces
  by_cases hcapN : b.board m.to = NONE
  · simp only [hpromo, hne, if_false, if_true, hnto, decide_False, Bool.false_eq_true,
      and_false, decide_True, hcapN, ne_eq, not_true_eq_false,
      removePiece_side_to_move, placePiece_side_to_move]
    generalize makePiece PAWN b.side_to_move = P at *
    generalize makePiece (promotionType m) b.side_to_move = Q at *
    generalize m.from = f at *
    generalize m.to = t at *
    have hNP : ¬ NONE = P := fun h => absurd (h ▸ hown) (by decide)
    have hNQ : ¬ NONE = Q := fun h => absurd (h ▸ hQlt) (by decide)
    apply Board.ext_fields <;> try rfl
    · funext q
      simp only [placePiece_pieces_bb, removePiece_pieces_bb]
      by_cases hq12 : q < 12
      · apply Nat.eq_of_testBit_eq
        intro i
        split_ifs <;>
          simp only [testBit_set, testBit_clear _ _ _ hf, testBit_clear _ _ _ ht, hbit q hq12] <;>
          by_cases h1 : i = f <;> by_cases h2 : i = t <;> simp_all
      · have h1 : ¬ q = P := fun h => hq12 (h ▸ hown)
        have h2 : ¬ q = Q := fun h => hq12 (h ▸ hQlt)
        simp only [h1, h2, if_false]
    · funext s
      simp only [placePiece_board, removePiece_board]
      by_cases h1 : s = f <;> by_cases h2 : s = t <;> simp_all
  · have hClt : b.board m.to < 12 := lt_of_le_of_ne hcap hcapN
    simp only [hpromo, hne, if_false, if_true, hnto, decide_False, Bool.false_eq_true,
      and_false, decide_True, hcapN, ne_eq, not_false_eq_true,
      removePiece_side_to_move, placePiece_side_to_move]
    generalize makePiece PAWN b.side_to_move = P at *
    generalize makePiece (promotionType m) b.side_to_move = Q at *
    generalize hC : b.board m.to = C at *
    generalize m.from = f at *
    generalize m.to = t at *
    have hNP : ¬ NONE = P := fun h => absurd (h ▸ hown) (by decide)
    have hNQ : ¬ NONE = Q := fun h => absurd (h ▸ hQlt) (by decide)
    apply Board.ext_fields <;> try rfl
    · funext q
      simp only [placePiece_pieces_bb, removePiece_pieces_bb]
      by_cases hq12 : q < 12
      · apply Nat.eq_of_testBit_eq
        intro i
        split_ifs <;>
          simp only [testBit_set, testBit_clear _ _ _ hf, testBit_clear _ _ _ ht, hbit q hq12] <;>
          by_cases h1 : i = f <;> by_cases h2 : i = t <;> simp_all <;>
          (intro h; exact absurd h.symm (by assumption))
      · have h1 : ¬ q = P := fun h => hq12 (h ▸ hown)
        have h2 : ¬ q = Q := fun h => hq12 (h ▸ hQlt)
        have h3 : ¬ q = C := fun h => hq12 (h ▸ hClt)
        simp only [h1, h2, h3, if_false]
    · funext s
      simp only [placePiece_board, removePiece_board]
      by_cases h1 : s = f <;> by_cases h2 : s = t <;> simp_all

/-- The piece updates of `unmakeMove` undo those of `makeMove`, all move
kinds together. -/
theorem pieces_roundtrip (H : Helpers) (b : Board) (m : Move) (hc : b.Consistent)
    (hp : b.Playable H m) :
    unmakeMovePieces H
      { b with
        pieces_bb := (makeMovePieces H b m (type_of_piece (b.board m.from)) (b.board m.from)
          (b.board m.to) (decide (m.to = b.en_passant_square))).pieces_bb
        board := (makeMovePieces H b m (type_of_piece (b.board m.from)) (b.board m.from)
          (b.board m.to) (decide (m.to = b.en_passant_square))).board } m (b.board m.to) = b := by
  by_cases hcastle : typeOf m = .CASTLING
  · exact pieces_roundtrip_castling H b m hc hp hcastle
  · by_cases hpromo : typeOf m = .PROMOTION
    · exact pieces_roundtrip_promotion H b m hc hp hpromo
    · by_cases hep : type_of_piece (b.board m.from) = PAWN ∧ m.to = b.en_passant_square
      · exact pieces_roundtrip_enpassant H b m hc hp hcastle hep.1 hep.2
      · exact pieces_roundtrip_normal H b m hc hp hcastle hpromo hep

theorem makeMovePieces_fields (H : Helpers) (x : Board) (m : Move) (pt : PieceType)
    (p c : Piece) (ep : Bool) :
    (makeMovePieces H x m pt p c ep).state_history = x.state_history ∧
    (makeMovePieces H x m pt p c ep).hash_history = x.hash_history ∧
    (makeMovePieces H x m pt p c ep).side_to_move = x.side_to_move.flip ∧
    (makeMovePieces H x m pt p c ep).full_move_number = x.full_move_number ∧
    (makeMovePieces H x m pt p c ep).chess960 = x.chess960 := by
  unfold makeMovePieces
  by_cases h1 : typeOf m = .CASTLING
  · simp only [h1, if_true]
    exact ⟨rfl, rfl, rfl, rfl, rfl⟩
  · by_cases h2 : (pt = PAWN ∧ ep = true) <;> by_cases h3 : c = NONE <;>
      by_cases h4 : typeOf m = .PROMOTION <;>
      simp only [h1, h2, h3, h4, if_true, if_false, ne_eq, not_true_eq_false,
        not_false_eq_true] <;>
      exact ⟨rfl, rfl, rfl, rfl, rfl⟩

theorem makeMovePieces_congr (H : Helpers) (x y : Board) (m : Move) (pt : PieceType)
    (p c : Piece) (ep : Bool) (h1 : x.pieces_bb = y.pieces_bb) (h2 : x.board = y.board)
    (h3 : x.side_to_move = y.side_to_move) :
    (makeMovePieces H x m pt p c ep).pieces_bb = (makeMovePieces H y m pt p c ep).pieces_bb ∧
    (makeMovePieces H x m pt p c ep).board = (makeMovePieces H y m pt p c ep).board := by
  obtain ⟨x1, x2, x3, x4, x5, x6, x7, x8, x9, x10, x11⟩ := x
  obtain ⟨y1, y2, y3, y4, y5, y6, y7, y8, y9, y10, y11⟩ := y
  simp only at h1 h2 h3
  subst h1 h2 h3
  unfold makeMovePieces
  by_cases h1 : typeOf m = .CASTLING
  · simp only [h1, if_true]
    exact ⟨rfl, rfl⟩
  · by_cases h2 : (pt = PAWN ∧ ep = true) <;> by_cases h3 : c = NONE <;>
      by_cases h4 : typeOf m = .PROMOTION <;>
      simp only [h1, h2, h3, h4, if_true, if_false, ne_eq, not_true_eq_false,
        not_false_eq_true] <;>
      exact ⟨rfl, rfl⟩

/-- C1: for every consistent board and every move that is playable on it
(what legality gives: normal move, capture, en passant, promotion with or
without capture, castling as king-takes-rook), `makeMove` followed by
`unmakeMove` returns exactly the board it started from: bitboards, board
array, side to move, en-passant square, castling rights, half-move clock,
full-move number, hash key, hash history and state history. -/
theorem unmakeMove_makeMove (H : Helpers) (b : Board) (m : Move) (hc : b.Consistent)
    (hp : b.Playable H m) : unmakeMove H (makeMove H b m) m = some b := by
  have hf := updateHash_fields H
    { b with
      state_history := b.state_history ++
        [⟨b.en_passant_square, b.castling_rights, b.half_move_clock, b.board m.to⟩]
      half_move_clock := (b.half_move_clock + 1) % 256
      full_move_number := (b.full_move_number + 1) % 65536 } m
  have hmk : makeMove H b m = makeMovePieces H
      (updateHash H
        { b with
          state_history := b.state_history ++
            [⟨b.en_passant_square, b.castling_rights, b.half_move_clock, b.board m.to⟩]
          half_move_clock := (b.half_move_clock + 1) % 256
          full_move_number := (b.full_move_number + 1) % 65536 } m)
      m (type_of_piece (b.board m.from)) (b.board m.from) (b.board m.to)
      (decide (m.to = b.en_passant_square)) := rfl
  rw [hmk]
  generalize updateHash H _ m = b3 at hf ⊢
  simp only at hf
  obtain ⟨h1, h2, h3, h4, h5, h6, h7⟩ := hf
  have hg := makeMovePieces_fields H b3 m (type_of_piece (b.board m.from)) (b.board m.from)
    (b.board m.to) (decide (m.to = b.en_passant_square))
  have hcg := makeMovePieces_congr H b3 b m (type_of_piece (b.board m.from)) (b.board m.from)
    (b.board m.to) (decide (m.to = b.en_passant_square)) h4 h5 h3
  obtain ⟨g1, g2, g3, g4, g5⟩ := hg
  rw [h1] at g1
  rw [h2] at g2
  rw [h3] at g3
  rw [h6] at g4
  rw [h7] at g5
  have hrt := pieces_roundtrip H b m hc hp
  generalize makeMovePieces H b3 m _ _ _ _ = c at *
  have hb5 : Board.mk c.chess960 c.side_to_move.flip b.en_passant_square b.castling_rights
      b.half_move_clock ((c.full_move_number + 65535) % 65536) b.hash_history b.hash_key
      b.state_history c.pieces_bb c.board =
      { b with
        pieces_bb := (makeMovePieces H b m (type_of_piece (b.board m.from)) (b.board m.from)
          (b.board m.to) (decide (m.to = b.en_passant_square))).pieces_bb
        board := (makeMovePieces H b m (type_of_piece (b.board m.from)) (b.board m.from)
          (b.board m.to) (decide (m.to = b.en_passant_square))).board } := by
    apply Board.ext_fields
    · exact g5
    · show c.side_to_move.flip = b.side_to_move
      rw [g3, Color.flip_flip]
    · rfl
    · rfl
    · rfl
    · show (c.full_move_number + 65535) % 65536 = b.full_move_number
      rw [g4]
      have := hc.move_number_lt
      omega
    · rfl
    · rfl
    · rfl
    · exact hcg.1
    · exact hcg.2
  unfold unmakeMove
  simp only [g1, g2, List.getLast?_concat, List.dropLast_concat]
  rw [hb5, hrt]

theorem sampleBoard_consistent : sampleBoard.Consistent where
  bb_lt := by decide
  board_le := by
    intro sq
    simp only [sampleBoard]
    split_ifs <;> decide
  agree := by decide
  move_number_lt := by decide

theorem sampleBoard2_consistent : sampleBoard2.Consistent where
  bb_lt := by decide
  board_le := by
    intro sq
    simp only [sampleBoard2]
    split_ifs <;> decide
  agree := by decide
  move_number_lt := by decide

theorem sampleBoard_playable_capture : sampleBoard.Playable sampleHelpers sampleCapture where
  from_lt := by decide
  to_lt := by decide
  from_ne_to := by decide
  own_lt := by decide
  own_color := by decide
  castle := by decide
  enpassant := by decide
  promotion := by decide

theorem sampleBoard2_playable_castle : sampleBoard2.Playable sampleHelpers sampleCastle where
  from_lt := by decide
  to_lt := by decide
  from_ne_to := by decide
  own_lt := by decide
  own_color := by decide
  castle := by decide
  enpassant := by decide
  promotion := by decide

theorem sampleBoard2_playable_enpassant :
    sampleBoard2.Playable sampleHelpers sampleEnPassant where
  from_lt := by decide
  to_lt := by decide
  from_ne_to := by decide
  own_lt := by decide
  own_color := by decide
  castle := by decide
  enpassant := by decide
  promotion := by decide

theorem sampleBoard2_playable_promotion :
    sampleBoard2.Playable sampleHelpers samplePromotion where
  from_lt := by decide
  to_lt := by decide
  from_ne_to := by decide
  own_lt := by decide
  own_color := by decide
  castle := by decide
  enpassant := by decide
  promotion := by decide

/-- Witness for C1: a capture on the first sample position; castling, an
en-passant capture and a capturing promotion on the second. -/
theorem unmakeMove_makeMove_witness :
    unmakeMove sampleHelpers (makeMove sampleHelpers sampleBoard sampleCapture) sampleCapture =
      some sampleBoard ∧
    unmakeMove sampleHelpers (makeMove sampleHelpers sampleBoard2 sampleCastle) sampleCastle =
      some sampleBoard2 ∧
    unmakeMove sampleHelpers (makeMove sampleHelpers sampleBoard2 sampleEnPassant)
      sampleEnPassant = some sampleBoard2 ∧
    unmakeMove sampleHelpers (makeMove sampleHelpers sampleBoard2 samplePromotion)
      samplePromotion = some sampleBoard2 :=
  ⟨unmakeMove_makeMove sampleHelpers sampleBoard sampleCapture sampleBoard_consistent
      sampleBoard_playable_capture,
    unmakeMove_makeMove sampleHelpers sampleBoard2 sampleCastle sampleBoard2_consistent
      sampleBoard2_playable_castle,
    unmakeMove_makeMove sampleHelpers sampleBoard2 sampleEnPassant sampleBoard2_consistent
      sampleBoard2_playable_enpassant,
    unmakeMove_makeMove sampleHelpers sampleBoard2 samplePromotion sampleBoard2_consistent
      sampleBoard2_playable_promotion⟩

/-! ## Score band of the search -/

theorem toInt16_of_range (x : Int) (h1 : -32768 ≤ x) (h2 : x ≤ 32767) : toInt16 x = x := by
  unfold toInt16
  omega

/-- Negating a score of the band does not wrap in `Score`. -/
theorem band_toInt16_neg {x : Int} (h : Band x) : toInt16 (-x) = -x := by
  obtain ⟨h1, h2⟩ := h
  simp only [VALUE_INFINITE] at h1 h2
  exact toInt16_of_range _ (by omega) (by omega)

theorem band_neg {x : Int} (h : Band x) : Band (-x) := by
  obtain ⟨h1, h2⟩ := h
  constructor <;> omega

theorem limitReached_stack (env : Env) (st : SearchState) :
    (limitReached env st).2.stack = st.stack := by
  unfold limitReached readStop
  simp only []
  split_ifs <;> rfl

theorem limitReached_asserts (env : Env) (st : SearchState) :
    (limitReached env st).2.assert_failed = st.assert_failed := by
  unfold limitReached readStop
  simp only []
  split_ifs <;> rfl

/-- `limitReached` keeps the stack and the assertion flag. -/
theorem limitReached_ok (env : Env) (st : SearchState) (h : StateOK st) :
    StateOK (limitReached env st).2 := by
  refine ⟨fun i => ?_, ?_⟩
  · rw [limitReached_stack]
    exact h.1 i
  · rw [limitReached_asserts]
    exact h.2

/-- An assertion on a score of the band does not fail. -/
theorem assertBand_ok (v : Int) (st : SearchState) (hv : Band v) (h : StateOK st) :
    StateOK (assertBand v st) := by
  unfold assertBand
  rw [if_pos ⟨hv.1, hv.2⟩]
  exact h

/-- A window assertion on a window does not fail. -/
theorem assertWindow_eq (alpha beta : Int) (st : SearchState) (h : Window alpha beta) :
    assertWindow alpha beta st = st := by
  unfold assertWindow
  rw [if_pos ⟨h.1, h.2.1, h.2.2⟩]

/-- The zero-window assertion keeps the stack and the flag of the score and
window assertions. -/
theorem assertZero_ok (pv : Bool) (alpha beta : Int) (st : SearchState) (h : StateOK st) :
    StateOK (assertZero pv alpha beta st) := by
  unfold assertZero
  split_ifs
  · exact h
  · exact ⟨h.1, h.2⟩

theorem repetitionScore_band (n : Nat) : Band (repetitionScore n) := by
  have h : n &&& 2 ≤ 2 := Nat.and_le_right
  unfold repetitionScore toInt16 Band VALUE_INFINITE
  generalize n &&& 2 = k at h
  push_cast
  constructor <;> omega

theorem eval_band (env : Env) (hs : env.Sane) (b : Board) : Band (env.evaluation b) := by
  obtain ⟨h1, h2⟩ := hs.eval_band b
  simp only [VALUE_TB_WIN_IN_MAX_PLY, VALUE_TB_WIN, VALUE_MATE_IN_PLY, VALUE_MATE, MAX_PLY] at h1 h2
  unfold Band VALUE_INFINITE
  constructor <;> omega

theorem mated_in_band (ply : Int) (h1 : 0 ≤ ply) (h2 : ply < MAX_PLY) : Band (mated_in ply) := by
  simp only [MAX_PLY] at h2
  unfold mated_in Band VALUE_MATE VALUE_INFINITE
  constructor <;> omega

theorem zero_band : Band 0 := by
  unfold Band VALUE_INFINITE
  constructor <;> omega

theorem scoreFromTT_band (s ply : Int) (hs : Band s) (h1 : 0 ≤ ply) (h2 : ply < MAX_PLY) :
    Band (scoreFromTT s ply) := by
  obtain ⟨hs1, hs2⟩ := hs
  simp only [scoreFromTT, toInt16, Band, VALUE_TB_WIN_IN_MAX_PLY, VALUE_TB_LOSS_IN_MAX_PLY,
    VALUE_TB_WIN, VALUE_MATE_IN_PLY, VALUE_MATE, MAX_PLY, VALUE_INFINITE] at *
  split_ifs <;> constructor <;> omega

theorem window_intro {a b : Int} (h1 : -VALUE_INFINITE ≤ a) (h2 : a < b) (h3 : b ≤ VALUE_INFINITE) :
    Window a b := ⟨h1, h2, h3⟩

/-- The part of `qsearch` before its move loop returns a score of the band
or reaches the loop with a window and a stand-pat value of the band. -/
theorem qEntry_spec (env : Env) (hs : env.Sane) (node : Node) (alpha beta ss : Int)
    (st : SearchState) (hply : StateOK st) (hw : Window alpha beta) (hss : 0 ≤ ss) :
    match qEntry env node alpha beta ss st with
    | .inl r => Band r.1 ∧ StateOK r.2
    | .inr r => (Window r.1.alpha r.1.beta ∧ Band r.1.best_value ∧ 0 ≤ r.1.ss) ∧ StateOK r.2 := by
  have hl0 := limitReached_ok env st hply
  have hl := assertZero_ok (decide (node = .PV)) alpha beta _ hl0
  unfold qEntry
  simp only [assertWindow_eq alpha beta _ hw]
  generalize assertZero (decide (node = .PV)) alpha beta (limitReached env st).2 = sz at *
  generalize limitReached env st = lr at *
  have hpl : (sz.stack ss).ply = ss := hl.1 ss
  have htt := hs.tt_band sz.tick (env.hash sz.tb.board)
  have hev := eval_band env hs sz.tb.board
  have hpl2 : StateOK { sz with tick := sz.tick + 1 } := ⟨hl.1, hl.2⟩
  obtain ⟨hw1, hw2, hw3⟩ := hw
  have hev1 : -VALUE_INFINITE ≤ env.evaluation sz.tb.board := le_of_lt hev.1
  simp only [hpl]
  split_ifs <;> simp only [] <;>
    first
    | with_reducible exact ⟨zero_band, hl0⟩
    | with_reducible exact ⟨zero_band, hl⟩
    | with_reducible exact ⟨hev, hl⟩
    | with_reducible exact ⟨repetitionScore_band _, hl⟩
    | with_reducible exact ⟨mated_in_band ss hss (by omega), hl⟩
    | with_reducible exact ⟨hev, hpl2⟩
    | with_reducible exact ⟨scoreFromTT_band _ _ htt.1 hss (by omega), hpl2⟩
    | with_reducible exact ⟨⟨window_intro hw1 hw2 hw3, hev, hss⟩, hpl2⟩
    | (refine ⟨⟨window_intro hev1 ?_ hw3, hev, hss⟩, hpl2⟩; omega)
    | (exfalso; simp_all)

theorem stateOK_setEval (st : SearchState) (i : Int) (v : Int) (h : StateOK st) :
    StateOK { st with stack := setEval st.stack i v } := by
  refine ⟨fun j => ?_, h.2⟩
  show (setEval st.stack i v j).ply = j
  unfold setEval
  split
  · exact h.1 j
  · exact h.1 j

theorem stateOK_setExcluded (st : SearchState) (i : Int) (m : Move) (h : StateOK st) :
    StateOK { st with stack := setExcluded st.stack i m } := by
  refine ⟨fun j => ?_, h.2⟩
  show (setExcluded st.stack i m j).ply = j
  unfold setExcluded
  split
  · exact h.1 j
  · exact h.1 j

theorem stateOK_setCurrent (st : SearchState) (i : Int) (m : Move) (h : StateOK st) :
    StateOK { st with stack := setCurrent st.stack i m } := by
  refine ⟨fun j => ?_, h.2⟩
  show (setCurrent st.stack i m j).ply = j
  unfold setCurrent
  split
  · exact h.1 j
  · exact h.1 j

theorem inv_of_eq (f g : ABFrame) (h : f.Inv) (h1 : g.alpha = f.alpha)
    (h2 : g.beta = f.beta) (h3 : g.node = f.node) (h4 : g.excluded_move = f.excluded_move)
    (h5 : g.best = f.best) (h6 : g.made_moves = f.made_moves) (h7 : g.maxValue = f.maxValue)
    (h8 : g.idx = f.idx) (h9 : g.ss = f.ss) : g.Inv where
  window := by rw [h1, h2]; exact h.window
  alpha_gt := by rw [h1, h3]; exact h.alpha_gt
  root_excl := by rw [h3, h4]; exact h.root_excl
  best := by rw [h5]; exact h.best
  maxv := by rw [h7]; exact h.maxv
  made_le := by rw [h6, h8]; exact h.made_le
  ss_ge := by rw [h9]; exact h.ss_ge
  ss_lt := by rw [h9]; exact h.ss_lt

theorem loopInv_of_eq (f g : ABFrame) (h : f.LoopInv) (h1 : g.alpha = f.alpha)
    (h2 : g.beta = f.beta) (h3 : g.node = f.node) (h4 : g.excluded_move = f.excluded_move)
    (h5 : g.best = f.best) (h6 : g.made_moves = f.made_moves) (h7 : g.maxValue = f.maxValue)
    (h8 : g.idx = f.idx) (h9 : g.ss = f.ss) : g.LoopInv := by
  refine ⟨inv_of_eq f g h.1 h1 h2 h3 h4 h5 h6 h7 h8 h9, ?_⟩
  rw [h5, h6]
  exact h.2

theorem beta_band_of_abs (beta : Int) (h : |beta| < VALUE_TB_WIN_IN_MAX_PLY) : Band beta := by
  obtain ⟨h1, h2⟩ := abs_lt.mp h
  simp only [VALUE_TB_WIN_IN_MAX_PLY, VALUE_TB_WIN, VALUE_MATE_IN_PLY, VALUE_MATE, MAX_PLY]
    at h1 h2
  unfold Band VALUE_INFINITE
  constructor <;> omega

/-- Razoring, reverse futility pruning and the null-move condition keep the
window; reverse futility pruning returns a `beta` of the band. -/
theorem abPrune_spec (env : Env) (f : ABFrame) (st : SearchState) (ev : Int) (improving : Bool)
    (d2 : Int) (hf : f.LoopInv) (hply : StateOK st) : (abPrune env f st ev improving d2).Post := by
  have hw := hf.1.window
  have hss := hf.1.ss_ge
  have hi : ({ f with improving := improving, depth := d2 } : ABFrame).LoopInv :=
    loopInv_of_eq f _ hf rfl rfl rfl rfl rfl rfl rfl rfl rfl
  unfold abPrune
  simp only []
  by_cases h1 : d2 ≤ 0
  · rw [if_pos h1]; exact ⟨⟨hw, hss⟩, hply⟩
  rw [if_neg h1]
  by_cases h2 : decide (f.node ≠ .NONPV) = true
  · rw [if_pos h2]; exact ⟨hi, hply⟩
  rw [if_neg h2]
  by_cases h3 : d2 < 3 ∧ ev + 129 < f.alpha
  · rw [if_pos h3]; exact ⟨⟨hw, hss⟩, hply⟩
  rw [if_neg h3]
  by_cases h4 : |f.beta| < VALUE_TB_WIN_IN_MAX_PLY ∧ d2 < 7 ∧
      ev - 64 * d2 + 71 * (if improving then 1 else 0) ≥ f.beta
  · rw [if_pos h4]; exact ⟨beta_band_of_abs _ h4.1, hply⟩
  rw [if_neg h4]
  by_cases h5 : env.nonPawnMat st.tb.board f.color = true ∧ f.excluded_move = NO_MOVE ∧
      (st.stack (f.ss - 1)).currentmove ≠ NULL_MOVE ∧ d2 ≥ 3 ∧ ev ≥ f.beta
  · rw [if_pos h5]; exact ⟨hi, hply⟩
  · rw [if_neg h5]; exact ⟨hi, hply⟩

theorem abStatic_spec (env : Env) (f : ABFrame) (st : SearchState)
    (hf : f.LoopInv) (hply : StateOK st) : (abStatic env f st).Post := by
  unfold abStatic
  by_cases h1 : f.in_check = true
  · rw [if_pos h1]
    exact ⟨loopInv_of_eq f _ hf rfl rfl rfl rfl rfl rfl rfl rfl rfl,
      stateOK_setEval st _ _ hply⟩
  rw [if_neg h1]
  simp only []
  by_cases h2 : f.node = .ROOT
  · rw [if_pos h2]
    exact ⟨loopInv_of_eq f _ hf rfl rfl rfl rfl rfl rfl rfl rfl rfl,
      stateOK_setEval st _ _ hply⟩
  rw [if_neg h2]
  exact abPrune_spec env f _ _ _ _ hf (stateOK_setEval st _ _ hply)
/-- The tablebase probe returns a score of the band or keeps the window,
with `best` either untouched or of the band and `maxValue` above
`-VALUE_INFINITE`. -/
theorem tbProbe_spec (env : Env) (root pv : Bool) (depth alpha beta ply : Int)
    (st : SearchState) (hw : Window alpha beta) (hp0 : 0 ≤ ply) (hp1 : ply < MAX_PLY)
    (hply : StateOK st) :
    StateOK (tbProbe env root pv depth alpha beta ply st).2 ∧
    (∀ v, (tbProbe env root pv depth alpha beta ply st).1.1 = some v → Band v) ∧
    Window (tbProbe env root pv depth alpha beta ply st).1.2.2.1 beta ∧
    alpha ≤ (tbProbe env root pv depth alpha beta ply st).1.2.2.1 ∧
    (Band (tbProbe env root pv depth alpha beta ply st).1.2.1 ∨
      (tbProbe env root pv depth alpha beta ply st).1.2.1 = -VALUE_INFINITE) ∧
    -VALUE_INFINITE < (tbProbe env root pv depth alpha beta ply st).1.2.2.2 ∧
    (tbProbe env root pv depth alpha beta ply st).1.2.2.2 ≤ VALUE_INFINITE := by
  obtain ⟨hw1, hw2, hw3⟩ := hw
  unfold tbProbe
  generalize (if (!root && !env.silent && env.use_tb) = true then env.probeWDL st.tb.board
    else VALUE_NONE) = tb_res
  simp only [Window, Band, VALUE_INFINITE, VALUE_MATE_IN_PLY, VALUE_MATED_IN_PLY, VALUE_MATE,
    MAX_PLY] at *
  split_ifs <;> simp only [Option.some.injEq, reduceCtorEq, false_implies, forall_eq',
    forall_const, implies_true, true_and, and_true] <;>
    first
    | (refine ⟨⟨hply.1, hply.2⟩, ?_⟩; omega)
    | (refine ⟨⟨hply.1, hply.2⟩, ?_⟩; simp_all <;> omega)

/-- The tablebase step returns a score of the band or goes on with the
window it was given. -/
theorem abTb_spec (env : Env) (node : Node) (depth1 alpha2 beta2 : Int) (ss : Int)
    (color : Color) (in_check : Bool) (excluded_move : Move) (key : Nat) (tt_hit : Bool)
    (ttmove : Move) (tt_score : Int) (st4 : SearchState)
    (hw2 : Window alpha2 beta2) (hss : 0 ≤ ss) (hlt : ss < MAX_PLY) (hply : StateOK st4)
    (hroot : node = .ROOT → excluded_move = NO_MOVE)
    (halpha : node ≠ .ROOT → -VALUE_INFINITE < alpha2) :
    (abTb env node depth1 alpha2 beta2 ss color in_check excluded_move key tt_hit ttmove
      tt_score st4).Post := by
  unfold abTb
  simp only []
  have hp := hply.1 ss
  rw [hp]
  have hspec := tbProbe_spec env (decide (node = .ROOT)) (decide (node ≠ .NONPV)) depth1 alpha2
    beta2 ss st4 hw2 hss hlt hply
  generalize tbProbe env (decide (node = .ROOT)) (decide (node ≠ .NONPV)) depth1 alpha2
    beta2 ss st4 = tb at hspec
  obtain ⟨t1, t2, t3, t4, t5, t6, t7⟩ := hspec
  cases htb : tb.1.1 with
  | some v => exact ⟨t2 v htb, t1⟩
  | none =>
    apply abStatic_spec _ _ _ _ t1
    refine ⟨⟨t3, ?_, hroot, t5, ⟨t6, t7⟩, le_refl _, hss, hlt⟩, fun h => absurd rfl h⟩
    intro hn
    have := halpha hn
    show -VALUE_INFINITE < tb.1.2.2.1
    omega

/-- The transposition-table cutoff returns the probed score, which is of
the band, or narrows the window without emptying it. -/
theorem abCut_spec (env : Env) (node : Node) (depth1 alpha1 beta1 : Int) (ss : Int)
    (color : Color) (in_check : Bool) (excluded_move : Move) (key : Nat) (tt_hit : Bool)
    (ttmove : Move) (tte : TEntry) (tt_score : Int) (st4 : SearchState)
    (hw : Window alpha1 beta1) (hss : 0 ≤ ss) (hlt : ss < MAX_PLY) (hply : StateOK st4)
    (hroot : node = .ROOT → excluded_move = NO_MOVE)
    (halpha : node ≠ .ROOT → -VALUE_INFINITE < alpha1)
    (htt : tt_hit = true → Band tt_score) :
    (abCut env node depth1 alpha1 beta1 ss color in_check excluded_move key tt_hit ttmove tte
      tt_score st4).Post := by
  unfold abCut
  simp only []
  generalize hcut : (decide (decide (node = .ROOT) = false ∧ excluded_move = NO_MOVE ∧
    decide (node ≠ .NONPV) = false ∧ tt_hit = true ∧ tt_score ≠ VALUE_NONE ∧
    tte.depth ≥ depth1 ∧ (st4.stack (ss - 1)).currentmove ≠ NULL_MOVE)) = cut
  have hc : cut = true → Band tt_score := by
    intro h
    rw [← hcut] at h
    exact htt (of_decide_eq_true h).2.2.2.1
  by_cases h1 : cut = true ∧ tte.flag = .EXACTBOUND
  · rw [if_pos h1]; exact ⟨hc h1.1, hply⟩
  rw [if_neg h1]
  generalize ha2 : (if cut = true ∧ tte.flag = .LOWERBOUND then max alpha1 tt_score else alpha1)
    = alpha2
  generalize hb2 : (if cut = true ∧ tte.flag = .UPPERBOUND then min beta1 tt_score else beta1)
    = beta2
  by_cases h2 : cut = true ∧ alpha2 ≥ beta2
  · rw [if_pos h2]; exact ⟨hc h2.1, hply⟩
  rw [if_neg h2]
  have hw2 : Window alpha2 beta2 ∧ alpha1 ≤ alpha2 := by
    obtain ⟨hw1, hw2, hw3⟩ := hw
    rw [← ha2, ← hb2]
    rw [← ha2, ← hb2] at h2
    unfold Window
    cases cut with
    | false =>
      clear h2
      simp only [Bool.false_eq_true, false_and, if_false]
      omega
    | true =>
      have hb := hc rfl
      unfold Band at hb
      simp only [true_and, not_le, ge_iff_le] at h2 ⊢
      simp only [max_def, min_def] at h2 ⊢
      split_ifs at h2 ⊢ <;> omega
  refine abTb_spec env node depth1 alpha2 beta2 ss color in_check excluded_move key tt_hit
    ttmove tt_score st4 hw2.1 hss hlt hply hroot ?_
  intro hn
  have h3 := halpha hn
  have h4 := hw2.2
  omega

theorem abProbe_spec (env : Env) (hs : env.Sane) (node : Node) (depth0 alpha1 beta1 : Int)
    (ss : Int) (color : Color) (in_check : Bool) (excluded_move : Move) (st1 : SearchState)
    (hw : Window alpha1 beta1) (hss : 0 ≤ ss) (hlt : ss < MAX_PLY) (hply : StateOK st1)
    (hroot : node = .ROOT → excluded_move = NO_MOVE)
    (halpha : node ≠ .ROOT → -VALUE_INFINITE < alpha1) :
    (abProbe env node depth0 alpha1 beta1 ss color in_check excluded_move st1).Post := by
  have hz := assertZero_ok (decide (node ≠ .NONPV)) alpha1 beta1 st1 hply
  unfold abProbe
  simp only [assertWindow_eq alpha1 beta1 _ hw]
  by_cases h1 : (if in_check = true then depth0 + 1 else depth0) ≤ 0
  · rw [if_pos h1]; exact ⟨⟨hw, hss⟩, hply⟩
  rw [if_neg h1]
  have hp := hply.1 ss
  rw [hp]
  generalize assertZero (decide (node ≠ .NONPV)) alpha1 beta1 st1 = sz at hz ⊢
  have h2 : StateOK { sz with stack := setExcluded sz.stack (ss + 1) NO_MOVE } :=
    stateOK_setExcluded sz _ _ hz
  refine abCut_spec env node _ alpha1 beta1 ss color in_check excluded_move _ _ _ _ _ _ hw hss
    hlt ?_ hroot halpha ?_
  · split_ifs
    · exact ⟨h2.1, h2.2⟩
    · exact ⟨h2.1, h2.2⟩
  · intro h
    rw [if_pos h]
    exact scoreFromTT_band _ _ (hs.tt_band _ _).1 hss hlt

/-- The part of `absearch` before its move loop returns a score of the
band, or goes on with a window and the loop invariant. -/
theorem abEntry_spec (env : Env) (hs : env.Sane) (node : Node) (depth0 alpha0 beta0 : Int)
    (ss : Int) (st0 : SearchState) (hply : StateOK st0)
    (hpre : (Call.ab node depth0 alpha0 beta0 ss).Pre st0) :
    (abEntry env node depth0 alpha0 beta0 ss st0).Post := by
  obtain ⟨hw, hss, hroot⟩ := hpre
  have hl := limitReached_ok env st0 hply
  have hst := limitReached_stack env st0
  unfold abEntry
  generalize limitReached env st0 = lr at *
  simp only []
  by_cases h1 : lr.1 = true
  · rw [if_pos h1]; exact ⟨zero_band, ⟨hl.1, hl.2⟩⟩
  rw [if_neg h1]
  have hp := hl.1 ss
  rw [hp]
  by_cases h2 : ss ≥ MAX_PLY
  · rw [if_pos h2]
    refine ⟨?_, ⟨hl.1, hl.2⟩⟩
    split_ifs
    · exact eval_band env hs _
    · exact zero_band
  rw [if_neg h2]
  have hlt : ss < MAX_PLY := not_le.mp h2
  have hl1 : StateOK { lr.2 with pv_length_ := fun i => if i = ss then ss else lr.2.pv_length_ i } :=
    ⟨hl.1, hl.2⟩
  have hroot1 : node = .ROOT → (lr.2.stack ss).excluded_move = NO_MOVE := by
    rw [hst]; exact hroot
  by_cases h3 : decide (node = .ROOT) = true
  · rw [if_pos h3]
    have hr : node = .ROOT := of_decide_eq_true h3
    exact abProbe_spec env hs node depth0 alpha0 beta0 ss _ _ _ _ hw hss hlt hl1 hroot1
      (fun h => absurd hr h)
  rw [if_neg h3]
  have hr : node ≠ .ROOT := fun h => h3 (decide_eq_true h)
  by_cases h4 : env.isRepetition lr.2.tb.board (1 + (if decide (node ≠ .NONPV) = true then 1 else 0))
      = true
  · rw [if_pos h4]; exact ⟨repetitionScore_band _, hl1⟩
  rw [if_neg h4]
  by_cases h5 : env.isDrawn lr.2.tb.board (env.inCheck lr.2.tb.board) ≠ .NONE
  · rw [if_pos h5]
    refine ⟨?_, hl1⟩
    split_ifs
    · exact mated_in_band ss hss hlt
    · exact zero_band
  rw [if_neg h5]
  have hm := mated_in_band ss hss hlt
  obtain ⟨hw1, hw2, hw3⟩ := hw
  by_cases h6 : max alpha0 (mated_in ss) ≥ min beta0 (mate_in (ss + 1))
  · rw [if_pos h6]
    refine ⟨?_, hl1⟩
    unfold Band at hm ⊢
    simp only [max_def]
    split_ifs <;> omega
  rw [if_neg h6]
  apply abProbe_spec env hs node depth0 _ _ ss _ _ _ _ ?_ hss hlt hl1 hroot1
  · intro _
    unfold Band at hm
    simp only [max_def]
    split_ifs <;> omega
  · unfold Window
    unfold Band at hm
    simp only [MAX_PLY] at hlt
    simp only [max_def, min_def, mate_in, VALUE_MATE, VALUE_INFINITE] at h6 hm ⊢
    split_ifs at h6 ⊢ <;> omega

theorem qFinish_spec (env : Env) (f : QFrame) (st : SearchState) (hb : Band f.best_value)
    (hply : StateOK st) : Band (qFinish env f st).1 ∧ StateOK (qFinish env f st).2 := by
  unfold qFinish
  simp only []
  refine ⟨hb, assertBand_ok _ _ hb ?_⟩
  split_ifs <;> exact ⟨hply.1, hply.2⟩

theorem loopInv_finish (f : ABFrame) (h : f.LoopInv) : f.FinishInv where
  none_made := by
    intro _ he
    have hn : f.node ≠ .ROOT := fun hr => he (h.1.root_excl hr)
    have h1 := h.1.alpha_gt hn
    obtain ⟨_, h2, h3⟩ := h.1.window
    constructor
    · exact h1
    · omega
  some_made := h.2
  maxv := h.1.maxv
  ss_ge := h.1.ss_ge
  ss_lt := h.1.ss_lt

/-- The end of `absearch` returns a score of the band and its assertion
holds. -/
theorem abFinish_spec (env : Env) (f : ABFrame) (st : SearchState) (hf : f.FinishInv)
    (hply : StateOK st) : Band (abFinish env f st).1 ∧ StateOK (abFinish env f st).2 := by
  have hp := hply.1 f.ss
  have hbest : Band (if f.made_moves = 0 then
      (if f.excluded_move ≠ NO_MOVE then f.alpha
        else if f.in_check = true then mated_in f.ss else 0)
      else f.best) := by
    split_ifs with h1 h2 h3
    · exact hf.none_made h1 h2
    · exact mated_in_band _ hf.ss_ge hf.ss_lt
    · exact zero_band
    · exact hf.some_made h1
  unfold abFinish
  simp only []
  rw [hp]
  generalize (if f.made_moves = 0 then
      (if f.excluded_move ≠ NO_MOVE then f.alpha
        else if f.in_check = true then mated_in f.ss else 0)
      else f.best) = best1 at hbest ⊢
  have hbest2 : Band (if decide (f.node ≠ .NONPV) = true then min best1 f.maxValue else best1) := by
    obtain ⟨m1, m2⟩ := hf.maxv
    unfold Band at hbest ⊢
    simp only [min_def]
    split_ifs <;> omega
  generalize (if decide (f.node ≠ .NONPV) = true then min best1 f.maxValue else best1) = best2
    at hbest2 ⊢
  split_ifs <;> exact ⟨hbest2, assertBand_ok _ _ hbest2 ⟨hply.1, hply.2⟩⟩

/-- The update after a searched move keeps the loop invariant, and on a
`break` gives what the end of `absearch` needs. -/
theorem abUpdate_spec (env : Env) (f : ABFrame) (st : SearchState) (move : Move)
    (capture : Bool) (score : Int) (node_count : Nat) (hf : f.Inv) (hs : Band score)
    (hply : StateOK st) :
    StateOK (abUpdate env f st move capture score node_count).2.1 ∧
    ((abUpdate env f st move capture score node_count).2.2 = true →
      (abUpdate env f st move capture score node_count).1.FinishInv) ∧
    ((abUpdate env f st move capture score node_count).2.2 = false →
      (abUpdate env f st move capture score node_count).1.LoopInv) ∧
    (abUpdate env f st move capture score node_count).1.made_moves = f.made_moves := by
  obtain ⟨hw1, hw2, hw3⟩ := hf.window
  have hbest := hf.best
  obtain ⟨hs1, hs2⟩ := hs
  have hb2 : ¬ score > f.best → Band f.best := by
    intro h
    rcases hbest with h1 | h1
    · exact h1
    · omega
  unfold abUpdate
  simp only []
  have hp1 : StateOK (assertBand score (st.unmakeMove env move)) :=
    assertBand_ok _ _ ⟨hs1, hs2⟩ ⟨hply.1, hply.2⟩
  generalize assertBand score (st.unmakeMove env move) = st1 at hp1 ⊢
  have hp2 : StateOK (if env.id = 0 then
      { st1 with node_effort := fun a b =>
          if a = move.from ∧ b = move.to then
            (st1.node_effort a b + (st1.nodes + 2 ^ 64 - node_count) % 2 ^ 64) % 2 ^ 64
          else st1.node_effort a b }
    else st1) := by
    split_ifs
    · exact ⟨hp1.1, hp1.2⟩
    · exact hp1
  generalize (if env.id = 0 then
      { st1 with node_effort := fun a b =>
          if a = move.from ∧ b = move.to then
            (st1.node_effort a b + (st1.nodes + 2 ^ 64 - node_count) % 2 ^ 64) % 2 ^ 64
          else st1.node_effort a b }
    else st1) = st2 at hp2 ⊢
  by_cases h1 : score > f.best
  · rw [if_pos h1]
    by_cases h2 : score > f.alpha
    · rw [if_pos h2]
      by_cases h3 : score ≥ f.beta
      · rw [if_pos h3]
        refine ⟨⟨hp2.1, hp2.2⟩, fun _ => ⟨?_, fun _ => ⟨hs1, hs2⟩, hf.maxv, hf.ss_ge, hf.ss_lt⟩,
          fun h => absurd h (by simp), rfl⟩
        intro h0 _
        exact ⟨by show -VALUE_INFINITE < score; omega, by show score < VALUE_INFINITE; omega⟩
      · rw [if_neg h3]
        have hi : ∀ g : ABFrame, g.alpha = score → g.beta = f.beta → g.node = f.node →
            g.excluded_move = f.excluded_move → g.best = score → g.made_moves = f.made_moves →
            g.maxValue = f.maxValue → g.idx = f.idx → g.ss = f.ss → g.LoopInv := by
          intro g g1 g2 g3 g4 g5 g6 g7 g8 g9
          refine ⟨⟨?_, ?_, ?_, ?_, ?_, ?_, ?_, ?_⟩, ?_⟩
          · rw [g1, g2]; exact ⟨by omega, by omega, hw3⟩
          · rw [g1]; intro _; exact hs1
          · rw [g3, g4]; exact hf.root_excl
          · rw [g5]; exact Or.inl ⟨hs1, hs2⟩
          · rw [g7]; exact hf.maxv
          · rw [g6, g8]; exact hf.made_le
          · rw [g9]; exact hf.ss_ge
          · rw [g9]; exact hf.ss_lt
          · rw [g5]; intro _; exact ⟨hs1, hs2⟩
        split_ifs
        · exact ⟨⟨hp2.1, hp2.2⟩, fun h => absurd h (by simp),
            fun _ => hi _ rfl rfl rfl rfl rfl rfl rfl rfl rfl, rfl⟩
        · exact ⟨⟨hp2.1, hp2.2⟩, fun h => absurd h (by simp),
            fun _ => hi _ rfl rfl rfl rfl rfl rfl rfl rfl rfl, rfl⟩
    · rw [if_neg h2]
      have hi : ∀ g : ABFrame, g.alpha = f.alpha → g.beta = f.beta → g.node = f.node →
          g.excluded_move = f.excluded_move → g.best = score → g.made_moves = f.made_moves →
          g.maxValue = f.maxValue → g.idx = f.idx → g.ss = f.ss → g.LoopInv := by
        intro g g1 g2 g3 g4 g5 g6 g7 g8 g9
        refine ⟨⟨?_, ?_, ?_, ?_, ?_, ?_, ?_, ?_⟩, ?_⟩
        · rw [g1, g2]; exact hf.window
        · rw [g1, g3]; exact hf.alpha_gt
        · rw [g3, g4]; exact hf.root_excl
        · rw [g5]; exact Or.inl ⟨hs1, hs2⟩
        · rw [g7]; exact hf.maxv
        · rw [g6, g8]; exact hf.made_le
        · rw [g9]; exact hf.ss_ge
        · rw [g9]; exact hf.ss_lt
        · rw [g5]; intro _; exact ⟨hs1, hs2⟩
      split_ifs
      · exact ⟨hp2, fun h => absurd h (by simp),
          fun _ => hi _ rfl rfl rfl rfl rfl rfl rfl rfl rfl, rfl⟩
      · exact ⟨hp2, fun h => absurd h (by simp),
          fun _ => hi _ rfl rfl rfl rfl rfl rfl rfl rfl rfl, rfl⟩
  · rw [if_neg h1]
    have hi : ∀ g : ABFrame, g.alpha = f.alpha → g.beta = f.beta → g.node = f.node →
        g.excluded_move = f.excluded_move → g.best = f.best → g.made_moves = f.made_moves →
        g.maxValue = f.maxValue → g.idx = f.idx → g.ss = f.ss → g.LoopInv := by
      intro g g1 g2 g3 g4 g5 g6 g7 g8 g9
      refine ⟨inv_of_eq f g hf g1 g2 g3 g4 g5 g6 g7 g8 g9, ?_⟩
      rw [g5]; intro _; exact hb2 h1
    split_ifs
    · exact ⟨hp2, fun h => absurd h (by simp),
        fun _ => hi _ rfl rfl rfl rfl rfl rfl rfl rfl rfl, rfl⟩
    · exact ⟨hp2, fun h => absurd h (by simp),
        fun _ => hi _ rfl rfl rfl rfl rfl rfl rfl rfl rfl, rfl⟩

/-- The window `(-beta, -alpha)` of a child, narrowed to `Score`. -/
theorem window_neg {a b : Int} (h : Window a b) : Window (toInt16 (-b)) (toInt16 (-a)) := by
  obtain ⟨h1, h2, h3⟩ := h
  simp only [VALUE_INFINITE] at h1 h2 h3
  rw [toInt16_of_range _ (by omega) (by omega), toInt16_of_range _ (by omega) (by omega)]
  unfold Window VALUE_INFINITE
  omega

/-- The zero window `(-alpha - 1, -alpha)` of a child, narrowed to `Score`. -/
theorem window_zero_width {a b : Int} (h : Window a b) :
    Window (toInt16 (-a - 1)) (toInt16 (-a)) := by
  obtain ⟨h1, h2, h3⟩ := h
  simp only [VALUE_INFINITE] at h1 h2 h3
  rw [toInt16_of_range _ (by omega) (by omega), toInt16_of_range _ (by omega) (by omega)]
  unfold Window VALUE_INFINITE
  omega

/-- The window `(-beta, -beta + 1)` of the null-move search. -/
theorem window_null {a b : Int} (h : Window a b) :
    Window (toInt16 (-b)) (toInt16 (-b + 1)) := by
  obtain ⟨h1, h2, h3⟩ := h
  simp only [VALUE_INFINITE] at h1 h2 h3
  rw [toInt16_of_range _ (by omega) (by omega), toInt16_of_range _ (by omega) (by omega)]
  unfold Window VALUE_INFINITE
  omega

theorem sound_out {rec : Call → SearchState → Option (Int × SearchState)} (hrec : Sound rec)
    {call : Call} {st : SearchState} {v : Int} {st2 : SearchState}
    (h : rec call st = some (v, st2)) (hply : StateOK st) (hpre : call.Pre st) :
    Band v ∧ StateOK st2 := hrec call st v st2 hply hpre h

theorem qFinish_out (env : Env) (f : QFrame) (st : SearchState) (v : Int) (st2 : SearchState)
    (h : some (qFinish env f st) = some (v, st2)) (hb : Band f.best_value) (hply : StateOK st) :
    Band v ∧ StateOK st2 := by
  have hq := qFinish_spec env f st hb hply
  rw [Option.some.injEq] at h
  rw [h] at hq
  exact hq

theorem abFinish_out (env : Env) (f : ABFrame) (st : SearchState) (v : Int) (st2 : SearchState)
    (h : some (abFinish env f st) = some (v, st2)) (hf : f.FinishInv) (hply : StateOK st) :
    Band v ∧ StateOK st2 := by
  have hq := abFinish_spec env f st hf hply
  rw [Option.some.injEq] at h
  rw [h] at hq
  exact hq

/-- One turn of the `qsearch` loop is sound if the computations it starts
are. -/
theorem qLoop_spec (env : Env) (rec : Call → SearchState → Option (Int × SearchState))
    (hrec : Sound rec) (f : QFrame) (st : SearchState) (v : Int) (st9 : SearchState)
    (hply : StateOK st) (hpre : (Call.qloop f).Pre st)
    (h : qLoop env rec f st = some (v, st9)) : Band v ∧ StateOK st9 := by
  obtain ⟨hw, hb, hss⟩ := hpre
  unfold qLoop at h
  simp only [] at h
  by_cases h1 : env.nextMoveQ st f.ss f.ttmove f.idx = NO_MOVE
  · rw [if_pos h1] at h
    exact qFinish_out env _ _ _ _ h hb hply
  rw [if_neg h1] at h
  by_cases h2 : qPruned env f st (env.nextMoveQ st f.ss f.ttmove f.idx) = true
  · rw [if_pos h2] at h
    exact sound_out hrec h hply ⟨hw, hb, hss⟩
  rw [if_neg h2] at h
  generalize env.nextMoveQ st f.ss f.ttmove f.idx = move at h
  cases hr : rec (.q f.node (toInt16 (-f.beta)) (toInt16 (-f.alpha)) (f.ss + 1))
      (SearchState.makeMove env { st with nodes := (st.nodes + 1) % 2 ^ 64 } move) with
  | none => rw [hr] at h; cases h
  | some p =>
    obtain ⟨r, st3⟩ := p
    rw [hr] at h
    simp only [] at h
    have hc := sound_out hrec hr (⟨hply.1, hply.2⟩) ⟨(window_neg hw), by omega⟩
    obtain ⟨hc1, hc2⟩ := hc
    rw [band_toInt16_neg hc1] at h
    have hs := (band_neg hc1)
    have hp4 : StateOK (assertBand (-r) (st3.unmakeMove env move)) :=
      assertBand_ok _ _ hs ⟨hc2.1, hc2.2⟩
    obtain ⟨hw1, hw2, hw3⟩ := hw
    by_cases h3 : -r > f.best_value
    · rw [if_pos h3] at h
      by_cases h4 : -r > f.alpha
      · rw [if_pos h4] at h
        by_cases h5 : -r ≥ f.beta
        · rw [if_pos h5] at h
          exact qFinish_out env _ _ _ _ h hs hp4
        · rw [if_neg h5] at h
          exact sound_out hrec h hp4 ⟨⟨by show -VALUE_INFINITE ≤ -r; omega,
            by show -r < f.beta; omega, hw3⟩, hs, hss⟩
      · rw [if_neg h4] at h
        exact sound_out hrec h hp4 ⟨⟨hw1, hw2, hw3⟩, hs, hss⟩
    · rw [if_neg h3] at h
      exact sound_out hrec h hp4 ⟨⟨hw1, hw2, hw3⟩, hb, hss⟩

/-- The null-move search is sound if the computations it starts are. -/
theorem abNull_spec (env : Env) (rec : Call → SearchState → Option (Int × SearchState))
    (hrec : Sound rec) (f : ABFrame) (R : Int) (st : SearchState) (v : Int) (st9 : SearchState)
    (hply : StateOK st) (hf : f.LoopInv)
    (h : abNull env rec f R st = some (v, st9)) : Band v ∧ StateOK st9 := by
  have hw := hf.1.window
  have hss := hf.1.ss_ge
  unfold abNull at h
  simp only [] at h
  cases hr : rec (.ab .NONPV (f.depth - R) (toInt16 (-f.beta)) (toInt16 (-f.beta + 1)) (f.ss + 1))
      { st with tb := { st.tb with board := env.makeNullMove st.tb.board }
                stack := setCurrent st.stack f.ss NULL_MOVE } with
  | none => rw [hr] at h; cases h
  | some p =>
    obtain ⟨r, st3⟩ := p
    rw [hr] at h
    simp only [] at h
    have hc := sound_out hrec hr ⟨(stateOK_setCurrent st f.ss NULL_MOVE hply).1, hply.2⟩
      ⟨(window_null hw), by omega, fun hn => absurd hn (by decide)⟩
    obtain ⟨hc1, hc2⟩ := hc
    rw [band_toInt16_neg hc1] at h
    have hs := (band_neg hc1)
    have hp4 : StateOK { st3 with tb := { st3.tb with board := env.unmakeNullMove st3.tb.board } } :=
      ⟨hc2.1, hc2.2⟩
    obtain ⟨hw1, hw2, hw3⟩ := hw
    by_cases h3 : -r ≥ f.beta
    · rw [if_pos h3] at h
      rw [Option.some.injEq, Prod.mk.injEq] at h
      obtain ⟨hv, hst⟩ := h
      rw [← hv, ← hst]
      refine ⟨?_, hp4⟩
      obtain ⟨hs1, hs2⟩ := hs
      split_ifs
      · exact ⟨by omega, by omega⟩
      · exact ⟨hs1, hs2⟩
    · rw [if_neg h3] at h
      exact sound_out hrec h hp4 hf

/-- The singular-extension window: `depth - 3` is at most the 8-bit depth
of the entry, so `singular_beta` is far inside the band. -/
theorem singular_window (tt_score depth beta : Int) (tdepth : Int) (h1 : |tt_score| < 10000)
    (h2 : depth ≥ 8) (h3 : tdepth ≥ depth - 3) (h4 : tdepth ≤ 255) :
    Window (toInt16 (tt_score - 3 * depth - 1)) (toInt16 (tt_score - 3 * depth)) ∧
    (tt_score - 3 * depth ≥ beta → -VALUE_INFINITE < beta →
      Band (toInt16 (tt_score - 3 * depth))) := by
  obtain ⟨h5, h6⟩ := abs_lt.mp h1
  rw [toInt16_of_range _ (by omega) (by omega), toInt16_of_range _ (by omega) (by omega)]
  unfold Window Band VALUE_INFINITE
  omega

/-- The singular-extension search is sound if the computations it starts
are. -/
theorem abSingular_spec (env : Env) (hs : env.Sane)
    (rec : Call → SearchState → Option (Int × SearchState))
    (hrec : Sound rec) (f : ABFrame) (move : Move) (capture : Bool) (st : SearchState) (v : Int)
    (st9 : SearchState) (hply : StateOK st) (hf : f.Inv) (hm : 1 ≤ f.made_moves)
    (hsp : singularPre f move = true)
    (h : abSingular env rec f move capture st = some (v, st9)) : Band v ∧ StateOK st9 := by
  have hw := hf.window
  have hss := hf.ss_ge
  have hsp2 := of_decide_eq_true hsp
  obtain ⟨s1, s2, s3, s4, s5, s6⟩ := hsp2
  have htt := hs.tt_band st.tick f.key
  unfold abSingular at h
  simp only [] at h
  generalize (env.ttProbe st.tick f.key).2.2 = tte at h htt
  have hp1 : StateOK { st with tick := st.tick + 1 } := ⟨hply.1, hply.2⟩
  by_cases h1 : tte.flag.toNat &&& Flag.LOWERBOUND.toNat ≠ 0 ∧ tte.depth ≥ f.depth - 3
  · rw [if_pos h1] at h
    have hsw := singular_window f.tt_score f.depth f.beta tte.depth s6 s2 h1.2 htt.2.2
    cases hr : rec (.ab .NONPV (Int.tdiv (f.depth - 1) 2) (toInt16 (f.tt_score - 3 * f.depth - 1))
        (toInt16 (f.tt_score - 3 * f.depth)) f.ss)
        { st with tick := st.tick + 1, stack := setExcluded st.stack f.ss move } with
    | none => rw [hr] at h; cases h
    | some p =>
      obtain ⟨value, st3⟩ := p
      rw [hr] at h
      simp only [] at h
      have hc := sound_out hrec hr (stateOK_setExcluded { st with tick := st.tick + 1 } _ _ hp1)
        ⟨hsw.1, hss, fun hn => absurd hn (by decide)⟩
      have hp4 : StateOK { st3 with stack := setExcluded st3.stack f.ss NO_MOVE } :=
        stateOK_setExcluded st3 _ _ hc.2
      by_cases h2 : value < f.tt_score - 3 * f.depth
      · rw [if_pos h2] at h
        exact sound_out hrec h hp4 ⟨hf, hm⟩
      rw [if_neg h2] at h
      by_cases h3 : f.tt_score - 3 * f.depth ≥ f.beta
      · rw [if_pos h3] at h
        rw [Option.some.injEq, Prod.mk.injEq] at h
        obtain ⟨hv, hst⟩ := h
        rw [← hv, ← hst]
        refine ⟨hsw.2 h3 ?_, hp4⟩
        obtain ⟨hw1, hw2, hw3⟩ := hw
        omega
      · rw [if_neg h3] at h
        exact sound_out hrec h hp4 ⟨hf, hm⟩
  · rw [if_neg h1] at h
    exact sound_out hrec h hp1 ⟨hf, hm⟩

/-- One turn of the `absearch` loop is sound if the computations it starts
are; fewer than 256 moves keep `made_moves` from wrapping. -/
theorem abLoop_spec (env : Env) (hs : env.Sane)
    (rec : Call → SearchState → Option (Int × SearchState))
    (hrec : Sound rec) (f : ABFrame) (st : SearchState) (v : Int) (st9 : SearchState)
    (hply : StateOK st) (hf : f.LoopInv)
    (h : abLoop env rec f st = some (v, st9)) : Band v ∧ StateOK st9 := by
  have hpick := hs.picker st f.ss (decide (f.node = .ROOT))
    (if f.tt_hit = true then f.ttmove else NO_MOVE) f.idx
  unfold abLoop at h
  simp only [] at h
  generalize env.nextMoveAB st f.ss (decide (f.node = .ROOT))
    (if f.tt_hit = true then f.ttmove else NO_MOVE) f.idx = move at h hpick
  by_cases h1 : move = NO_MOVE
  · rw [if_pos h1] at h
    exact abFinish_out env _ _ _ _ h (loopInv_finish f hf) hply
  rw [if_neg h1] at h
  have hle := hf.1.made_le
  by_cases h2 : move = f.excluded_move
  · rw [if_pos h2] at h
    refine sound_out hrec h hply ⟨⟨hf.1.window, hf.1.alpha_gt, hf.1.root_excl, hf.1.best, hf.1.maxv,
      ?_, hf.1.ss_ge, hf.1.ss_lt⟩, hf.2⟩
    show f.made_moves ≤ f.idx + 1
    omega
  rw [if_neg h2] at h
  have hidx : f.idx < 255 := by
    by_contra hc
    exact h1 (hpick (by omega))
  have hmm : (f.made_moves + 1) % 256 = f.made_moves + 1 := Nat.mod_eq_of_lt (by omega)
  have hf1 : ({ f with made_moves := (f.made_moves + 1) % 256, idx := f.idx + 1 } : ABFrame).Inv := by
    refine ⟨hf.1.window, hf.1.alpha_gt, hf.1.root_excl, hf.1.best, hf.1.maxv, ?_, hf.1.ss_ge,
      hf.1.ss_lt⟩
    show (f.made_moves + 1) % 256 ≤ f.idx + 1
    omega
  have hm1 : 1 ≤ ({ f with made_moves := (f.made_moves + 1) % 256, idx := f.idx + 1 } :
      ABFrame).made_moves := by
    show 1 ≤ (f.made_moves + 1) % 256
    omega
  generalize ({ f with made_moves := (f.made_moves + 1) % 256, idx := f.idx + 1 } : ABFrame) = f1
    at h hf1 hm1
  by_cases h3 : abPruned env f1 st move (decide (st.tb.board.pieceAtB move.to ≠ NONE)) = true
  · rw [if_pos h3] at h
    refine sound_out hrec h hply ⟨hf1, fun _ => ?_⟩
    have hb := (of_decide_eq_true h3).2.1
    rcases hf1.best with hb1 | hb1
    · exact hb1
    · rw [hb1] at hb
      exact absurd hb (by decide)
  rw [if_neg h3] at h
  by_cases h4 : singularPre f1 move = true
  · rw [if_pos h4] at h
    exact abSingular_spec env hs rec hrec f1 move _ st v st9 hply hf1 hm1 h4 h
  · rw [if_neg h4] at h
    exact sound_out hrec h hply ⟨hf1, hm1⟩

/-- After late-move reduction `score` is a searched score, or the full
search follows, or this is the first move of a PV node. -/
theorem abLmr_spec (env : Env) (rec : Call → SearchState → Option (Int × SearchState))
    (hrec : Sound rec) (f : ABFrame) (capture : Bool) (newDepth : Int) (st : SearchState)
    (score : Int) (st9 : SearchState) (dfs : Bool) (hply : StateOK st) (hf : f.Inv)
    (hm : 1 ≤ f.made_moves)
    (h : abLmr env rec f capture newDepth st = some (score, st9, dfs)) :
    StateOK st9 ∧ (Band score ∨ dfs = true ∨ (decide (f.node ≠ .NONPV) = true ∧
      f.made_moves = 1)) := by
  have hw := hf.window
  have hss := hf.ss_ge
  unfold abLmr at h
  simp only [] at h
  by_cases h1 : decide (f.depth ≥ 3 ∧ f.in_check = false ∧
      (f.made_moves : Int) > 3 + 2 * (if decide (f.node ≠ .NONPV) = true then 1 else 0)) = true
  · rw [if_pos h1] at h
    cases hr : rec (.ab .NONPV (lmrDepth env f capture newDepth) (toInt16 (-f.alpha - 1))
        (toInt16 (-f.alpha)) (f.ss + 1)) st with
    | none => rw [hr] at h; cases h
    | some p =>
      obtain ⟨r, st3⟩ := p
      rw [hr] at h
      simp only [Option.some.injEq, Prod.mk.injEq] at h
      have hc := sound_out hrec hr hply ⟨(window_zero_width hw), by omega, fun hn => absurd hn (by decide)⟩
      obtain ⟨hv, hst, _⟩ := h
      rw [← hv, ← hst, band_toInt16_neg hc.1]
      exact ⟨hc.2, Or.inl (band_neg hc.1)⟩
  · rw [if_neg h1] at h
    simp only [Option.some.injEq, Prod.mk.injEq] at h
    obtain ⟨_, hst, hd⟩ := h
    rw [← hst]
    refine ⟨hply, Or.inr ?_⟩
    cases dfs with
    | true => exact Or.inl rfl
    | false =>
      right
      have hd2 := of_decide_eq_false hd
      rw [not_or] at hd2
      refine ⟨?_, by omega⟩
      have h3 := hd2.1
      cases hpv : decide (f.node ≠ .NONPV) with
      | true => rfl
      | false => exact absurd hpv h3

/-- After the full-depth search `score` is a searched score, or this is
the first move of a PV node. -/
theorem abFull_spec (rec : Call → SearchState → Option (Int × SearchState))
    (hrec : Sound rec) (f : ABFrame) (newDepth : Int) (score1 : Int) (st : SearchState)
    (dfs : Bool) (score : Int) (st9 : SearchState) (hply : StateOK st) (hf : f.Inv)
    (h1 : Band score1 ∨ dfs = true ∨ (decide (f.node ≠ .NONPV) = true ∧ f.made_moves = 1))
    (h : abFull rec f newDepth score1 st dfs = some (score, st9)) :
    StateOK st9 ∧ (Band score ∨ (decide (f.node ≠ .NONPV) = true ∧ f.made_moves = 1)) := by
  have hw := hf.window
  have hss := hf.ss_ge
  unfold abFull at h
  by_cases h2 : dfs = true
  · rw [if_pos h2] at h
    cases hr : rec (.ab .NONPV newDepth (toInt16 (-f.alpha - 1)) (toInt16 (-f.alpha)) (f.ss + 1))
        st with
    | none => rw [hr] at h; cases h
    | some p =>
      obtain ⟨r, st3⟩ := p
      rw [hr] at h
      simp only [Option.some.injEq, Prod.mk.injEq] at h
      have hc := sound_out hrec hr hply ⟨(window_zero_width hw), by omega, fun hn => absurd hn (by decide)⟩
      obtain ⟨hv, hst⟩ := h
      rw [← hv, ← hst, band_toInt16_neg hc.1]
      exact ⟨hc.2, Or.inl (band_neg hc.1)⟩
  · rw [if_neg h2] at h
    simp only [Option.some.injEq, Prod.mk.injEq] at h
    obtain ⟨hv, hst⟩ := h
    rw [← hv, ← hst]
    refine ⟨hply, ?_⟩
    rcases h1 with h1 | h1 | h1
    · exact Or.inl h1
    · exact absurd h1 h2
    · exact Or.inr h1

/-- After the PVS search `score` is a searched score: the assertion of line
552 holds. -/
theorem abPvs_spec (rec : Call → SearchState → Option (Int × SearchState))
    (hrec : Sound rec) (f : ABFrame) (newDepth : Int) (score2 : Int) (st : SearchState)
    (score : Int) (st9 : SearchState) (hply : StateOK st) (hf : f.Inv)
    (h1 : Band score2 ∨ (decide (f.node ≠ .NONPV) = true ∧ f.made_moves = 1))
    (h : abPvs rec f newDepth score2 st = some (score, st9)) :
    StateOK st9 ∧ Band score := by
  have hw := hf.window
  have hss := hf.ss_ge
  unfold abPvs at h
  simp only [] at h
  by_cases h2 : decide (f.node ≠ .NONPV) = true ∧
      ((score2 > f.alpha ∧ score2 < f.beta) ∨ f.made_moves = 1)
  · rw [if_pos h2] at h
    cases hr : rec (.ab .PV newDepth (toInt16 (-f.beta)) (toInt16 (-f.alpha)) (f.ss + 1)) st with
    | none => rw [hr] at h; cases h
    | some p =>
      obtain ⟨r, st3⟩ := p
      rw [hr] at h
      simp only [Option.some.injEq, Prod.mk.injEq] at h
      have hc := sound_out hrec hr hply ⟨(window_neg hw), by omega, fun hn => absurd hn (by decide)⟩
      obtain ⟨hv, hst⟩ := h
      rw [← hv, ← hst, band_toInt16_neg hc.1]
      exact ⟨hc.2, (band_neg hc.1)⟩
  · rw [if_neg h2] at h
    simp only [Option.some.injEq, Prod.mk.injEq] at h
    obtain ⟨hv, hst⟩ := h
    rw [← hv, ← hst]
    refine ⟨hply, ?_⟩
    rcases h1 with h1 | h1
    · exact h1
    · exact absurd ⟨h1.1, Or.inr h1.2⟩ h2

/-- The loop body from `newDepth` on is sound if the computations it starts
are. -/
theorem abMove_spec (env : Env)
    (rec : Call → SearchState → Option (Int × SearchState))
    (hrec : Sound rec) (f : ABFrame) (move : Move) (capture : Bool) (extension : Int)
    (st : SearchState) (v : Int) (st9 : SearchState)
    (hply : StateOK st) (hf : f.Inv) (hm : 1 ≤ f.made_moves)
    (h : abMove env rec f move capture extension st = some (v, st9)) : Band v ∧ StateOK st9 := by
  unfold abMove at h
  simp only [] at h
  have hp3 : StateOK { SearchState.makeMove env { st with nodes := (st.nodes + 1) % 2 ^ 64 } move
      with stack := setCurrent (SearchState.makeMove env
        { st with nodes := (st.nodes + 1) % 2 ^ 64 } move).stack f.ss move } :=
    stateOK_setCurrent _ _ _ (⟨hply.1, hply.2⟩)
  generalize ({ SearchState.makeMove env { st with nodes := (st.nodes + 1) % 2 ^ 64 } move
      with stack := setCurrent (SearchState.makeMove env
        { st with nodes := (st.nodes + 1) % 2 ^ 64 } move).stack f.ss move } : SearchState) = st3
    at h hp3
  cases hr1 : abLmr env rec f capture (f.depth - 1 + extension) st3 with
  | none => rw [hr1] at h; cases h
  | some p1 =>
    obtain ⟨score1, st4, dfs⟩ := p1
    rw [hr1] at h
    simp only [] at h
    have hc1 := abLmr_spec env rec hrec f capture _ st3 score1 st4 dfs hp3 hf hm hr1
    cases hr2 : abFull rec f (f.depth - 1 + extension) score1 st4 dfs with
    | none => rw [hr2] at h; cases h
    | some p2 =>
      obtain ⟨score2, st5⟩ := p2
      rw [hr2] at h
      simp only [] at h
      have hc2 := abFull_spec rec hrec f _ score1 st4 dfs score2 st5 hc1.1 hf hc1.2 hr2
      cases hr3 : abPvs rec f (f.depth - 1 + extension) score2 st5 with
      | none => rw [hr3] at h; cases h
      | some p3 =>
        obtain ⟨score3, st6⟩ := p3
        rw [hr3] at h
        simp only [] at h
        have hc3 := abPvs_spec rec hrec f _ score2 st5 score3 st6 hc2.1 hf hc2.2 hr3
        have hu := abUpdate_spec env f st6 move capture score3
          (SearchState.makeMove env { st with nodes := (st.nodes + 1) % 2 ^ 64 } move).nodes
          hf hc3.2 hc3.1
        generalize abUpdate env f st6 move capture score3
          (SearchState.makeMove env { st with nodes := (st.nodes + 1) % 2 ^ 64 } move).nodes = u
          at h hu
        obtain ⟨u1, u2, u3, _⟩ := hu
        by_cases hb : u.2.2 = true
        · rw [if_pos hb] at h
          exact abFinish_out env _ _ _ _ h (u2 hb) u1
        · rw [if_neg hb] at h
          have hb2 : u.2.2 = false := by
            cases hx : u.2.2 with
            | true => exact absurd hx hb
            | false => rfl
          exact sound_out hrec h u1 (u3 hb2)

/-- One step of the search is sound if the computations it starts are. -/
theorem searchStep_spec (env : Env) (hs : env.Sane)
    (rec : Call → SearchState → Option (Int × SearchState)) (hrec : Sound rec) :
    Sound (searchStep env rec) := by
  intro call st v st9 hply hpre h
  cases call with
  | q node alpha beta ss =>
    simp only [searchStep] at h
    have hq := qEntry_spec env hs node alpha beta ss st hply hpre.1 hpre.2
    cases hr : qEntry env node alpha beta ss st with
    | inl r =>
      rw [hr] at h hq
      simp only [Option.some.injEq] at h hq
      rw [h] at hq
      exact hq
    | inr r =>
      obtain ⟨f, st1⟩ := r
      rw [hr] at h hq
      simp only [] at h hq
      exact sound_out hrec h hq.2 hq.1
  | qloop f =>
    simp only [searchStep] at h
    exact qLoop_spec env rec hrec f st v st9 hply hpre h
  | ab node depth alpha beta ss =>
    simp only [searchStep] at h
    have hq := abEntry_spec env hs node depth alpha beta ss st hply hpre
    cases hr : abEntry env node depth alpha beta ss st with
    | ret v1 st1 =>
      rw [hr] at h hq
      simp only [Option.some.injEq, Prod.mk.injEq] at h
      rw [← h.1, ← h.2]
      exact hq
    | tailQ node1 a b ss1 st1 =>
      rw [hr] at h hq
      exact sound_out hrec h hq.2 hq.1
    | moves f st1 =>
      rw [hr] at h hq
      exact sound_out hrec h hq.2 hq.1
    | nmp f R st1 =>
      rw [hr] at h hq
      exact abNull_spec env rec hrec f R st1 v st9 hq.2 hq.1 h
  | abloop f =>
    simp only [searchStep] at h
    exact abLoop_spec env hs rec hrec f st v st9 hply hpre h
  | abmove f move capture extension =>
    simp only [searchStep] at h
    exact abMove_spec env rec hrec f move capture extension st v st9 hply hpre.1 hpre.2 h

/-- The search is sound for every fuel. -/
theorem search_sound (env : Env) (hs : env.Sane) (n : Nat) : Sound (search env n) := by
  induction n with
  | zero =>
    intro call st v st9 _ _ h
    cases h
  | succ n ih =>
    intro call st v st9 hply hpre h
    exact searchStep_spec env hs (search env n) ih call st v st9 hply hpre h

theorem sampleEnv_sane : sampleEnv.Sane where
  eval_band := by
    intro b
    show -VALUE_TB_WIN_IN_MAX_PLY < (if b.side_to_move = .White then (30 : Int) else -30) ∧
      (if b.side_to_move = .White then (30 : Int) else -30) < VALUE_TB_WIN_IN_MAX_PLY
    split_ifs <;> decide
  tt_band := fun _ _ => ⟨zero_band, le_refl 0, (by decide : (0 : Int) ≤ 255)⟩
  picker := by
    intro _ _ root _ i hi
    show (if root = true ∧ i = 0 then sampleQuiet else NO_MOVE) = NO_MOVE
    rw [if_neg]
    omega

theorem sampleState_ok : StateOK sampleState := ⟨fun _ => rfl, rfl⟩

/-- C10: score band. In an environment where `evaluate` returns a value
strictly between `-VALUE_TB_WIN_IN_MAX_PLY` and `VALUE_TB_WIN_IN_MAX_PLY`,
every entry read from the transposition table has a score strictly inside
`(-VALUE_INFINITE, VALUE_INFINITE)` (and a depth within its 8-bit field) and
the move picker yields fewer than 256 moves at a node, every value `s` that
`absearch` or `qsearch` returns when called with
`-VALUE_INFINITE <= alpha < beta <= VALUE_INFINITE` on the stack as
`iterativeDeepening` sets it up (frame `ss >= 0`, no excluded move at the
root) satisfies `-VALUE_INFINITE < s < VALUE_INFINITE`, and none of the
assertions on a child score or on the returned best value has failed. -/
theorem search_score_band (env : Env) (hs : env.Sane) (n : Nat) (node : Node)
    (depth alpha beta ss : Int) (st : SearchState) (hst : StateOK st)
    (hw : -VALUE_INFINITE ≤ alpha ∧ alpha < beta ∧ beta ≤ VALUE_INFINITE) (hss : 0 ≤ ss)
    (hroot : node = .ROOT → (st.stack ss).excluded_move = NO_MOVE)
    (call : Call) (hcall : call = .ab node depth alpha beta ss ∨ call = .q node alpha beta ss)
    (s : Int) (h : (search env n call st).map Prod.fst = some s) :
    -VALUE_INFINITE < s ∧ s < VALUE_INFINITE ∧
    (search env n call st).map (fun r => r.2.assert_failed) = some false := by
  have hpre : call.Pre st := by
    rcases hcall with hc | hc
    · rw [hc]; exact ⟨hw, hss, hroot⟩
    · rw [hc]; exact ⟨hw, hss⟩
  cases hr : search env n call st with
  | none => rw [hr] at h; cases h
  | some p =>
    obtain ⟨v, st2⟩ := p
    rw [hr] at h
    simp only [Option.map_some', Option.some.injEq] at h
    have hb := search_sound env hs n call st v st2 hst hpre hr
    rw [h] at hb
    exact ⟨hb.1.1, hb.1.2, congrArg some hb.2.2⟩

set_option maxRecDepth 100000 in
/-- Witness for C10: `absearch<ROOT>` at depth 1 on `sampleBoard` searches
e2-e4, drops into `qsearch` and returns 30; `qsearch<PV>` on the same
position returns the stand-pat value 30. -/
theorem search_score_band_witness :
    (-VALUE_INFINITE < (30 : Int) ∧ (30 : Int) < VALUE_INFINITE ∧
      (search sampleEnv 6 (.ab .ROOT 1 (-VALUE_INFINITE) VALUE_INFINITE 0) sampleState).map
        (fun r => r.2.assert_failed) = some false) ∧
    (-VALUE_INFINITE < (30 : Int) ∧ (30 : Int) < VALUE_INFINITE ∧
      (search sampleEnv 2 (.q .PV (-VALUE_INFINITE) VALUE_INFINITE 0) sampleState).map
        (fun r => r.2.assert_failed) = some false) :=
  ⟨search_score_band sampleEnv sampleEnv_sane 6 .ROOT 1 (-VALUE_INFINITE) VALUE_INFINITE 0
      sampleState sampleState_ok (by decide) (by decide) (fun _ => rfl) _ (Or.inl rfl) 30
      (by decide),
    search_score_band sampleEnv sampleEnv_sane 2 .PV 0 (-VALUE_INFINITE) VALUE_INFINITE 0
      sampleState sampleState_ok (by decide) (by decide) (fun _ => rfl) _ (Or.inr rfl) 30
      (by decide)⟩

/-! ## Stop flag and limits -/

/-- A worker that is not silent finds the limit reached when the stop flag
is set. -/
theorem limitReached_of_stop (env : Env) (st : SearchState) (hs : env.silent = false)
    (hstop : (readStop env st).1 = true) : limitReached env st = (true, (readStop env st).2) := by
  unfold limitReached
  simp only [hs, Bool.false_eq_true, if_false, Bool.not_false, Bool.true_and, hstop, if_true]

/-- Where the limit is reached `absearch` returns 0 at once. -/
theorem search_ab_of_limit (env : Env) (n : Nat) (node : Node) (depth alpha beta ss : Int)
    (st : SearchState) (h : (limitReached env st).1 = true) :
    search env (n + 1) (.ab node depth alpha beta ss) st =
      some (0, { (limitReached env st).2 with early_return := true }) := by
  simp only [search, searchStep, abEntry, h, if_true]

/-- Where a read of the stop flag returns true, the end of `qsearch` does
not store (line 202). -/
theorem qFinish_tt_of_stop (env : Env) (f : QFrame) (st : SearchState)
    (h : (readStop env st).1 = true) : (qFinish env f st).2.tt = st.tt := by
  unfold qFinish assertBand
  simp only [h, Bool.not_true, Bool.false_eq_true, if_false]
  split_ifs <;> rfl

/-- Where a read of the stop flag returns true, the end of `absearch` does
not store (line 606). -/
theorem abFinish_tt_of_stop (env : Env) (f : ABFrame) (st : SearchState)
    (h : (readStop env st).1 = true) : (abFinish env f st).2.tt = st.tt := by
  unfold abFinish assertBand
  simp only [h, Bool.not_true, Bool.false_eq_true, if_false]
  split_ifs <;> rfl

set_option maxRecDepth 100000 in
/-- C11, the code at the failing input: a helper worker enters
`absearch<NONPV>` with the stop flag clear (the limit guard passes), the
flag is set by another thread right after, and the tablebase store of line
326 is executed all the same: the entry for the position (hash 5), empty
before, holds the tablebase score with depth `3 + 6`, and the flag reads
true in the state the call returns in. -/
theorem tablebase_store_ignores_stop :
    (limitReached raceEnv sampleState).1 = false ∧
    (readStop raceEnv (limitReached raceEnv sampleState).2).1 = true ∧
    sampleState.tt.entries_.getD (sampleState.tt.index 5) TEntry.empty = TEntry.empty ∧
    (search raceEnv 1 (.ab .NONPV 3 100 101 1) sampleState).map
      (fun r => (r.1, r.2.tt.entries_.getD (r.2.tt.index 5) TEntry.empty,
        (readStop raceEnv r.2).1)) =
      some (31870, ⟨5, 31871, NO_MOVE, 9, .LOWERBOUND⟩, true) := by decide

set_option maxRecDepth 100000 in
/-- C12 fails on the code: with the stop flag set, the child of the root
frame for e2-e4 is cut short (it returns 0 from its limit guard), and the
root frame writes `pv_table_[0][0] = e2e4` and
`pv_length_[0] = pv_length_[1]` from that result. -/
theorem pv_overwritten_counterexample :
    (limitReached stopEnv stoppedState).1 = true ∧
    (search stopEnv 1 (.ab .PV 0 (-VALUE_INFINITE) VALUE_INFINITE 1) stoppedChild).map Prod.fst
      = some 0 ∧
    stoppedState.pv_table_ 0 0 = NO_MOVE ∧ stoppedState.pv_length_ 0 = 0 ∧
    (search stopEnv 2 (.abmove rootFrame sampleQuiet false 0) stoppedState).map
      (fun r => (r.1, r.2.pv_table_ 0 0, r.2.pv_length_ 0)) = some (0, sampleQuiet, 1) := by
  decide

/-- The update of the principal variation from a score 0 (lines 558-576):
written where `best` and `alpha` are negative, left alone otherwise. -/
theorem abUpdate_pv_zero (env : Env) (f : ABFrame) (st : SearchState) (move : Move)
    (capture : Bool) (node_count : Nat) :
    (f.best < 0 ∧ f.alpha < 0 →
      (abUpdate env f st move capture 0 node_count).2.1.pv_table_ (st.stack f.ss).ply
        (st.stack f.ss).ply = move ∧
      (abUpdate env f st move capture 0 node_count).2.1.pv_length_ (st.stack f.ss).ply =
        st.pv_length_ ((st.stack f.ss).ply + 1)) ∧
    (0 ≤ f.best ∨ 0 ≤ f.alpha →
      (abUpdate env f st move capture 0 node_count).2.1.pv_table_ = st.pv_table_ ∧
      (abUpdate env f st move capture 0 node_count).2.1.pv_length_ = st.pv_length_) := by
  have hst2 : ∀ s : SearchState, s = (if env.id = 0 then
        { assertBand 0 (st.unmakeMove env move) with node_effort := fun a b =>
            if a = move.from ∧ b = move.to then
              ((assertBand 0 (st.unmakeMove env move)).node_effort a b +
                ((assertBand 0 (st.unmakeMove env move)).nodes + 2 ^ 64 - node_count) % 2 ^ 64)
                % 2 ^ 64
            else (assertBand 0 (st.unmakeMove env move)).node_effort a b }
      else assertBand 0 (st.unmakeMove env move)) →
      s.pv_table_ = st.pv_table_ ∧ s.pv_length_ = st.pv_length_ ∧ s.stack = st.stack := by
    intro s hs
    rw [hs]
    unfold assertBand
    split_ifs <;> exact ⟨rfl, rfl, rfl⟩
  unfold abUpdate
  simp only []
  generalize (if env.id = 0 then
        { assertBand 0 (st.unmakeMove env move) with node_effort := fun a b =>
            if a = move.from ∧ b = move.to then
              ((assertBand 0 (st.unmakeMove env move)).node_effort a b +
                ((assertBand 0 (st.unmakeMove env move)).nodes + 2 ^ 64 - node_count) % 2 ^ 64)
                % 2 ^ 64
            else (assertBand 0 (st.unmakeMove env move)).node_effort a b }
      else assertBand 0 (st.unmakeMove env move)) = st2 at hst2 ⊢
  obtain ⟨h1, h2, h3⟩ := hst2 st2 rfl
  rw [h3]
  constructor
  · rintro ⟨hb, ha⟩
    rw [if_pos (by omega : (0 : Int) > f.best), if_pos (by omega : (0 : Int) > f.alpha)]
    split_ifs <;> simp only [if_true, h2] <;> exact ⟨trivial, trivial⟩
  · intro h
    by_cases hb : (0 : Int) > f.best
    · have ha : ¬ (0 : Int) > f.alpha := by omega
      rw [if_pos hb, if_neg ha]
      split_ifs <;> exact ⟨h1, h2⟩
    · rw [if_neg hb]
      split_ifs <;> exact ⟨h1, h2⟩

/-- The update of the principal variation after a child that was cut
short: `absearch` has no stop check before it. A child that is entered with the stop flag set (by a
worker that is not silent) is cut short and returns 0; from that result a
frame whose `best` and `alpha` are both negative writes
`pv_table_[ply][ply] = move` and `pv_length_[ply] = pv_length_[ply + 1]`,
and a frame with `best >= 0` or `alpha >= 0` leaves `pv_table_` and
`pv_length_` as they are. -/
theorem abUpdate_pv_of_cut_child (env : Env) (hs : env.silent = false) (f : ABFrame)
    (move : Move) (capture : Bool) (node_count : Nat) (n : Nat) (node : Node)
    (depth alpha beta : Int) (stc : SearchState) (hstop : (readStop env stc).1 = true)
    (r : Int) (st : SearchState)
    (hr : search env (n + 1) (.ab node depth alpha beta (f.ss + 1)) stc = some (r, st)) :
    r = 0 ∧
    (f.best < 0 ∧ f.alpha < 0 →
      (abUpdate env f st move capture (toInt16 (-r)) node_count).2.1.pv_table_ (st.stack f.ss).ply
        (st.stack f.ss).ply = move ∧
      (abUpdate env f st move capture (toInt16 (-r)) node_count).2.1.pv_length_
        (st.stack f.ss).ply = st.pv_length_ ((st.stack f.ss).ply + 1)) ∧
    (0 ≤ f.best ∨ 0 ≤ f.alpha →
      (abUpdate env f st move capture (toInt16 (-r)) node_count).2.1.pv_table_ = st.pv_table_ ∧
      (abUpdate env f st move capture (toInt16 (-r)) node_count).2.1.pv_length_ =
        st.pv_length_) := by
  have hl : (limitReached env stc).1 = true := by rw [limitReached_of_stop env stc hs hstop]
  rw [search_ab_of_limit env n node depth alpha beta (f.ss + 1) stc hl] at hr
  simp only [Option.some.injEq, Prod.mk.injEq] at hr
  have h0 : r = 0 := hr.1.symm
  subst h0
  have h16 : toInt16 (-0) = 0 := by decide
  rw [h16]
  exact ⟨rfl, abUpdate_pv_zero env f st move capture node_count⟩

set_option maxRecDepth 100000 in
/-- The child of the root frame entered with the stop flag set: the root
frame (`best` and `alpha` at `-VALUE_INFINITE`) writes the principal
variation, a frame with `best = alpha = 30` does not. -/
theorem abUpdate_pv_of_cut_child_witness :
    ((abUpdate stopEnv rootFrame stoppedReturn sampleQuiet false
        (toInt16 (-0)) 1).2.1.pv_table_ 0 0 = sampleQuiet ∧
      (abUpdate stopEnv rootFrame stoppedReturn sampleQuiet false
        (toInt16 (-0)) 1).2.1.pv_length_ 0 = 1) ∧
    ((abUpdate stopEnv (afterQuiets 0) stoppedReturn sampleQuiet false
        (toInt16 (-0)) 1).2.1.pv_table_ = stoppedReturn.pv_table_ ∧
      (abUpdate stopEnv (afterQuiets 0) stoppedReturn sampleQuiet false
        (toInt16 (-0)) 1).2.1.pv_length_ = stoppedReturn.pv_length_) :=
  ⟨(abUpdate_pv_of_cut_child stopEnv rfl rootFrame sampleQuiet false 1 0 .PV 0
      (-VALUE_INFINITE) VALUE_INFINITE stoppedChild (by decide) 0
      stoppedReturn
      (search_ab_of_limit stopEnv 0 .PV 0 (-VALUE_INFINITE) VALUE_INFINITE 1 stoppedChild
        (by decide))).2.1 ⟨by decide, by decide⟩,
    (abUpdate_pv_of_cut_child stopEnv rfl (afterQuiets 0) sampleQuiet false 1 0 .PV 0
      (-VALUE_INFINITE) VALUE_INFINITE stoppedChild (by decide) 0
      stoppedReturn
      (search_ab_of_limit stopEnv 0 .PV 0 (-VALUE_INFINITE) VALUE_INFINITE 1 stoppedChild
        (by decide))).2.2 (Or.inl (by decide))⟩

set_option maxRecDepth 1000000 in
/-- A stop in the first iteration: the stop flag is clear when
`absearch<ROOT>` of depth 1 is entered and set when its child is entered;
the child returns 0 at its limit guard, the root frame writes
`pv_table_[0][0] = e2e4` from that result, and `iterativeDeepening`, left
at depth 1, takes its best move from `pv_table_[0][0]` (line 742). -/
theorem stopped_pv_is_bestmove :
    (limitReached earlyStopEnv (iterativeDeepeningInit sampleState)).1 = false ∧
    (iterativeDeepeningInit sampleState).pv_table_ 0 0 = NO_MOVE ∧
    (search earlyStopEnv 6 (.ab .ROOT 1 (-VALUE_INFINITE) VALUE_INFINITE 0)
      (iterativeDeepeningInit sampleState)).map
        (fun r => (r.1, r.2.early_return, r.2.pv_table_ 0 0)) = some (0, true, sampleQuiet) ∧
    (iterativeDeepening earlyStopEnv id id 6 3 3 sampleState).map
      (fun r => (r.1.depth, r.1.bestmove)) = some (1, sampleQuiet) := by
  decide

set_option maxRecDepth 100000 in
/-- C17, the code at the failing input: at `ss->ply = MAX_PLY` with the
side to move in check, `qsearch` returns the evaluation (30) where
`absearch` returns 0. -/
theorem qsearch_ply_guard_in_check :
    checkEnv.inCheck sampleState.tb.board = true ∧ (sampleState.stack 128).ply = MAX_PLY ∧
    checkEnv.evaluation sampleState.tb.board = 30 ∧
    (search checkEnv 1 (.q .PV (-VALUE_INFINITE) VALUE_INFINITE 128) sampleState).map Prod.fst
      = some 30 ∧
    (search checkEnv 1 (.ab .PV 1 (-VALUE_INFINITE) VALUE_INFINITE 128) sampleState).map Prod.fst
      = some 0 := by decide

set_option maxRecDepth 100000 in
/-- C18, the code at the failing input: after 65 quiet moves searched
without a cutoff the 65th has been written to `quiets[64]`, past the end of
`Move quiets[64]`, and `quiet_count` is 65. -/
theorem quiets_overflow :
    (afterQuiets 0).quiet_count = 0 ∧ (afterQuiets 64).quiet_count = 64 ∧
    (afterQuiets 65).quiet_count = 65 ∧ (afterQuiets 65).quiets 64 = quietMove 64 := by
  decide

/-! ## Terminal nodes -/

/-- The end of `absearch` with `made_moves = 0` returns the terminal
value. -/
theorem abFinish_terminal (env : Env) (f : ABFrame) (st : SearchState) (h : f.made_moves = 0) :
    (abFinish env f st).1 = terminalValue f (st.stack f.ss).ply := by
  unfold abFinish terminalValue
  simp only [h, if_true, decide_eq_true_eq]
  split_ifs <;> rfl

/-- A move loop to which the picker yields only the excluded move, `m`
times, and then no move, ends `absearch` with the locals it had. -/
theorem abLoop_only_excluded (env : Env) (n : Nat) (st : SearchState) :
    ∀ (m : Nat) (f : ABFrame), (m ≠ 0 → f.excluded_move ≠ NO_MOVE) →
    (∀ i, i < m → env.nextMoveAB st f.ss (decide (f.node = .ROOT))
      (if f.tt_hit then f.ttmove else NO_MOVE) (f.idx + i) = f.excluded_move) →
    env.nextMoveAB st f.ss (decide (f.node = .ROOT))
      (if f.tt_hit then f.ttmove else NO_MOVE) (f.idx + m) = NO_MOVE →
    search env (n + m + 1) (.abloop f) st = some (abFinish env { f with idx := f.idx + m } st) := by
  intro m
  induction m with
  | zero =>
    intro f _ _ hend
    simp only [search, searchStep, abLoop]
    rw [Nat.add_zero] at hend
    rw [if_pos hend]
    rfl
  | succ m ih =>
    intro f hex0 hsk hend
    have hex := hex0 (Nat.succ_ne_zero m)
    have h0 := hsk 0 (Nat.succ_pos m)
    rw [Nat.add_zero] at h0
    have hstep : search env (n + (m + 1) + 1) (.abloop f) st =
        search env (n + m + 1) (.abloop { f with idx := f.idx + 1 }) st := by
      show searchStep env (search env (n + m + 1)) (.abloop f) st = _
      simp only [searchStep, abLoop]
      rw [h0, if_neg hex, if_pos rfl]
    rw [hstep]
    have := ih { f with idx := f.idx + 1 } (fun _ => hex)
      (fun i hi => by
        have := hsk (i + 1) (by omega)
        rw [show f.idx + (i + 1) = f.idx + 1 + i by omega] at this
        exact this)
      (by
        rw [show f.idx + (m + 1) = f.idx + 1 + m by omega] at hend
        exact hend)
    rw [this]
    have e : f.idx + 1 + m = f.idx + (m + 1) := by omega
    show some (abFinish env { f with idx := f.idx + 1 + m } st) = _
    rw [e]

theorem limitReached_tb (env : Env) (st : SearchState) : (limitReached env st).2.tb = st.tb := by
  unfold limitReached readStop
  simp only []
  split_ifs <;> rfl

/-- The part of `absearch<ROOT>` before the move loop, at depth 1 or more,
not in check and with the limits not reached, arrives at the move loop
with no move made, no tablebase bound and the excluded move of its frame. -/
theorem abEntry_root (env : Env) (depth alpha beta ss : Int) (st : SearchState)
    (hl : (limitReached env st).1 = false) (hd : 1 ≤ depth)
    (hply : (st.stack ss).ply < MAX_PLY) (hchk : env.inCheck st.tb.board = false) :
    ∃ f st1, abEntry env .ROOT depth alpha beta ss st = .moves f st1 ∧ f.node = .ROOT ∧
      f.made_moves = 0 ∧ f.idx = 0 ∧ f.excluded_move = (st.stack ss).excluded_move ∧
      f.in_check = false ∧ f.maxValue = VALUE_INFINITE ∧ f.ss = ss := by
  have hs := limitReached_stack env st
  have ht := limitReached_tb env st
  unfold abEntry
  generalize limitReached env st = lr at hl hs ht
  have hply2 : ¬ (lr.2.stack ss).ply ≥ MAX_PLY := by rw [hs]; omega
  have hchk2 : env.inCheck lr.2.tb.board = false := by rw [ht]; exact hchk
  have hd2 : ¬ depth ≤ 0 := by omega
  have hply3 : ¬ (st.stack ss).ply ≥ MAX_PLY := by omega
  simp only [hl, Bool.false_eq_true, if_false, hply2, hply3, decide_True, if_true, abProbe, hchk2, hd2,
    abCut, decide_False, Bool.true_eq_false, false_and, tbProbe, Bool.not_true, Bool.false_and,
    ne_eq, not_true_eq_false, abStatic, hs]
  exact ⟨_, _, rfl, rfl, rfl, rfl, rfl, rfl, rfl, rfl⟩

/-- C20: when the move picker yields no move other than the excluded move
(so `made_moves` stays 0), `absearch` returns `alpha` if an excluded move
is set, otherwise `mated_in(ply)` if the side to move is in check and 0 if
it is not, capped by `maxValue` in a PV node; and `absearch<ROOT>` at depth
1 or more on a position without legal moves whose side to move is not in
check (stalemate) returns 0. -/
theorem absearch_terminal (env : Env) (n : Nat) (st : SearchState) (f : ABFrame) (m : Nat)
    (hmade : f.made_moves = 0) (hex : m ≠ 0 → f.excluded_move ≠ NO_MOVE)
    (hskip : ∀ i, i < m → env.nextMoveAB st f.ss (decide (f.node = .ROOT))
      (if f.tt_hit then f.ttmove else NO_MOVE) (f.idx + i) = f.excluded_move)
    (hend : env.nextMoveAB st f.ss (decide (f.node = .ROOT))
      (if f.tt_hit then f.ttmove else NO_MOVE) (f.idx + m) = NO_MOVE)
    (depth alpha beta ss : Int) (st0 : SearchState) (hd : 1 ≤ depth)
    (hply : (st0.stack ss).ply < MAX_PLY) (hchk : env.inCheck st0.tb.board = false)
    (hexc : (st0.stack ss).excluded_move = NO_MOVE)
    (hnone : ∀ s ttm, env.nextMoveAB s ss true ttm 0 = NO_MOVE) :
    (search env (n + m + 1) (.abloop f) st).map Prod.fst =
      some (terminalValue f (st.stack f.ss).ply) ∧
    (search env (n + 2) (.ab .ROOT depth alpha beta ss) st0).map Prod.fst = some 0 := by
  constructor
  · rw [abLoop_only_excluded env n st m f hex hskip hend]
    show some (abFinish env { f with idx := f.idx + m } st).1 = _
    rw [abFinish_terminal env { f with idx := f.idx + m } st hmade]
    rfl
  · cases hl : (limitReached env st0).1 with
    | true => rw [search_ab_of_limit env (n + 1) .ROOT depth alpha beta ss st0 hl]; rfl
    | false =>
      obtain ⟨g, st1, hg, g1, g2, g3, g4, g5, g6, g7⟩ :=
        abEntry_root env depth alpha beta ss st0 hl hd hply hchk
      have hloop : search env (n + 1) (.abloop g) st1 = some (abFinish env g st1) := by
        simp only [search, searchStep, abLoop]
        rw [g1, g3, g7]
        simp only [decide_True, hnone, if_true]
      have hstep : search env (n + 2) (.ab .ROOT depth alpha beta ss) st0 =
          search env (n + 1) (.abloop g) st1 := by
        show searchStep env (search env (n + 1)) (.ab .ROOT depth alpha beta ss) st0 = _
        simp only [searchStep, hg]
      rw [hstep, hloop]
      show some (abFinish env g st1).1 = _
      rw [abFinish_terminal env g st1 g2]
      unfold terminalValue
      rw [g4, hexc, g5, g1, g6]
      simp only [ne_eq, reduceCtorEq, not_false_eq_true, if_true, not_true_eq_false, if_false,
        Bool.false_eq_true]
      decide

set_option maxRecDepth 100000 in
/-- Witness for C20: a singular-extension search whose only move is the
excluded one returns its `alpha` (12), and the root search of the
stalemate position of scenario B returns 0 where the evaluation is -30. -/
theorem absearch_terminal_witness :
    ((search terminalEnv (0 + 1 + 1) (.abloop excludedFrame) sampleState).map Prod.fst =
      some (terminalValue excludedFrame (sampleState.stack excludedFrame.ss).ply) ∧
    (search terminalEnv (0 + 2) (.ab .ROOT 1 (-VALUE_INFINITE) VALUE_INFINITE 0)
      stalemateState).map Prod.fst = some 0) ∧
    terminalValue excludedFrame (sampleState.stack excludedFrame.ss).ply = 12 ∧
    terminalEnv.evaluation stalemateState.tb.board = -30 :=
  ⟨absearch_terminal terminalEnv 0 sampleState excludedFrame 1 rfl (fun _ => by decide)
      (fun i hi => by interval_cases i; rfl) rfl 1 (-VALUE_INFINITE) VALUE_INFINITE 0
      stalemateState (by decide) (by decide) rfl rfl (fun _ _ => rfl),
    by decide, by decide⟩

/-! ## Thread pool -/

/-- After `stopThreads` the pool is empty, so the next `startThreads`
builds worker 0 from a default-constructed `Thread`: its tables are the
fresh ones, whatever the search before left. -/
theorem startThreads_after_stop (fresh : Worker) (run : Worker → Worker) (p : ThreadPool)
    (board : Board) (limit : Limits) (searchmoves : List Move) (worker_count : Nat)
    (use_tb : Bool) :
    ((startThreads fresh (stopThreads run p) board limit searchmoves worker_count
      use_tb).pool_.headD fresh).tb = { fresh.tb with board := board } := rfl

/-- C19, the code at the failing input: worker 0 ends a first search with
155 in the butterfly entry of e2-e4, e2-e4 as a counter move and as a
killer; after `stopThreads` and the next `startThreads` it starts with the
empty tables of a fresh worker. Only a `startThreads` on the pool as the
search left it (not stopped, which line 29 forbids) would keep them. -/
theorem history_lost_after_stop :
    ((searchedPool.pool_.headD freshWorker).tb.history .White 12 28 = 155 ∧
      (searchedPool.pool_.headD freshWorker).tb.counters 0 0 = sampleQuiet ∧
      (searchedPool.pool_.headD freshWorker).tb.killers 0 0 = sampleQuiet) ∧
    (((startThreads freshWorker (stopThreads sampleRun searchedPool) sampleBoard
        ⟨1, 0, 0, 0, false⟩ [] 1 false).pool_.headD freshWorker).tb.history .White 12 28 = 0 ∧
      ((startThreads freshWorker (stopThreads sampleRun searchedPool) sampleBoard
        ⟨1, 0, 0, 0, false⟩ [] 1 false).pool_.headD freshWorker).tb.counters 0 0 = NO_MOVE ∧
      ((startThreads freshWorker (stopThreads sampleRun searchedPool) sampleBoard
        ⟨1, 0, 0, 0, false⟩ [] 1 false).pool_.headD freshWorker).tb.killers 0 0 = NO_MOVE) ∧
    ((startThreads freshWorker searchedPool sampleBoard
        ⟨1, 0, 0, 0, false⟩ [] 1 false).pool_.headD freshWorker).tb.history .White 12 28 = 155 ∧
    searchedPool.running_threads_.length = 1 := by decide

/-! ## Polling period of `limitReached` -/

/-- The state after the read of the stop flag at the start of
`limitReached`. -/
theorem limitReached_main (env : Env) (st : SearchState) (hid : env.id = 0)
    (hclear : env.silent = true ∨ (st.stop = false ∧ env.stopAt st.tick = false))
    (hn : st.limit.nodes = 0) (st1 : SearchState)
    (h1 : st1 = if env.silent then st else { st with tick := st.tick + 1 }) :
    limitReached env st =
      if st.check_time_ - 1 > 0 then (false, { st1 with check_time_ := st.check_time_ - 1 })
      else if st.limit.time_maximum ≠ 0 then
        (if env.getTime st1.tick ≥ st.limit.time_maximum then
          (true, { st1 with check_time_ := 2047, tick := st1.tick + 1, stop := true })
        else (false, { st1 with check_time_ := 2047, tick := st1.tick + 1 }))
      else (false, { st1 with check_time_ := 2047 }) := by
  subst h1
  unfold limitReached readStop
  cases hsil : env.silent with
  | true =>
    simp only [if_true, Bool.not_true, Bool.false_and, Bool.false_eq_true, if_false, hid, ne_eq,
      not_true_eq_false, hn, false_and]
  | false =>
    rcases hclear with h | ⟨h2, h3⟩
    · rw [hsil] at h; exact absurd h (by decide)
    · simp only [Bool.false_eq_true, if_false, h2, h3, Bool.or_false, Bool.not_false,
        Bool.and_false, hid, ne_eq, not_true_eq_false, hn, false_and]

/-- One call of `limitReached` on the main worker with no node limit, the
stop flag clear and the time limit not reached: with `check_time_` at 2 or
more the counter is decremented and the clock is not read; otherwise the
counter is set to 2047 and the clock is read if there is a time limit. -/
theorem limitReached_step (env : Env) (M : Int) (st : SearchState) (hid : env.id = 0)
    (hstop : ∀ t, env.stopAt t = false) (hinv : PollInv env M st)
    (hM : M = 0 ∨ (M ≠ 0 ∧ ∀ t, env.getTime t < M)) :
    PollInv env M (limitReached env st).2 ∧
    (2 ≤ st.check_time_ →
      clockReads env st = 0 ∧ (limitReached env st).2.check_time_ = st.check_time_ - 1) ∧
    (st.check_time_ ≤ 1 →
      clockReads env st = (if M = 0 then 0 else 1) ∧ (limitReached env st).2.check_time_ = 2047)
    := by
  obtain ⟨h1, h2, h3⟩ := hinv
  have hclear : env.silent = true ∨ (st.stop = false ∧ env.stopAt st.tick = false) := by
    rcases h3 with h | h
    · exact Or.inl h
    · exact Or.inr ⟨h, hstop _⟩
  have hl := limitReached_main env st hid hclear h1 _ rfl
  have ht : (if env.silent = true then st else { st with tick := st.tick + 1 }).tick =
      st.tick + (if env.silent = true then 0 else 1) := by
    split_ifs <;> rfl
  have hk : ∀ s : SearchState,
      s = (if env.silent = true then st else { st with tick := st.tick + 1 }) →
      s.limit = st.limit ∧ s.stop = st.stop := by
    intro s hs
    rw [hs]
    split_ifs <;> exact ⟨rfl, rfl⟩
  unfold clockReads PollInv
  rw [hl]
  generalize (if env.silent = true then st else { st with tick := st.tick + 1 }) = st1 at ht hk
  obtain ⟨k1, k2⟩ := hk st1 rfl
  rw [h2]
  by_cases hc : st.check_time_ - 1 > 0
  · rw [if_pos hc]
    refine ⟨⟨by rw [← h1, ← k1], by rw [← h2, ← k1], by rw [← k2] at h3; exact h3⟩, ?_, ?_⟩
    · intro _
      refine ⟨?_, rfl⟩
      show st1.tick - st.tick - _ = 0
      rw [ht]
      split_ifs <;> omega
    · intro h
      omega
  · rw [if_neg hc]
    rcases hM with hM | hM
    · rw [if_neg (by rw [hM]; exact fun h => h rfl)]
      refine ⟨⟨by rw [← h1, ← k1], by rw [← h2, ← k1], by rw [← k2] at h3; exact h3⟩, ?_, ?_⟩
      · intro h
        omega
      · intro _
        refine ⟨?_, rfl⟩
        show st1.tick - st.tick - _ = _
        rw [ht, if_pos hM]
        split_ifs <;> omega
    · obtain ⟨hne, hM⟩ := hM
      rw [if_pos hne, if_neg (not_le.mpr (hM _))]
      refine ⟨⟨by rw [← h1, ← k1], by rw [← h2, ← k1], by rw [← k2] at h3; exact h3⟩, ?_, ?_⟩
      · intro h
        omega
      · intro _
        refine ⟨?_, rfl⟩
        show st1.tick + 1 - st.tick - _ = _
        rw [ht, if_neg hne]
        split_ifs <;> omega

theorem pollCount_add (env : Env) (a b : Nat) :
    ∀ st, pollCount env (a + b) st =
      pollCount env a st + pollCount env b (limitReachedIter env a st) := by
  induction a with
  | zero =>
    intro st
    simp only [Nat.zero_add, pollCount, limitReachedIter]
  | succ a ih =>
    intro st
    rw [show a + 1 + b = (a + b) + 1 by omega]
    simp only [pollCount, limitReachedIter]
    rw [ih]
    omega

/-- While the counter is above the number of calls, no call reads the
clock. -/
theorem pollCount_counting (env : Env) (M : Int) (hid : env.id = 0)
    (hstop : ∀ t, env.stopAt t = false) (hM : M = 0 ∨ (M ≠ 0 ∧ ∀ t, env.getTime t < M)) (n : Nat) :
    ∀ st, PollInv env M st → (n : Int) < st.check_time_ →
      pollCount env n st = 0 ∧
      (limitReachedIter env n st).check_time_ = st.check_time_ - n ∧
      PollInv env M (limitReachedIter env n st) := by
  induction n with
  | zero =>
    intro st hinv _
    simp only [pollCount, limitReachedIter]
    exact ⟨trivial, by omega, hinv⟩
  | succ n ih =>
    intro st hinv hc
    obtain ⟨s1, s2, _⟩ := limitReached_step env M st hid hstop hinv hM
    obtain ⟨s3, s4⟩ := s2 (by omega)
    obtain ⟨i1, i2, i3⟩ := ih (limitReached env st).2 s1 (by rw [s4]; omega)
    simp only [pollCount, limitReachedIter]
    refine ⟨by omega, ?_, i3⟩
    rw [i2, s4]
    push_cast
    omega

/-- A call with the counter at 1 or below reads the clock if there is a
time limit and sets the counter to 2047. -/
theorem pollCount_poll (env : Env) (M : Int) (hid : env.id = 0)
    (hstop : ∀ t, env.stopAt t = false) (hM : M = 0 ∨ (M ≠ 0 ∧ ∀ t, env.getTime t < M))
    (st : SearchState) (hinv : PollInv env M st) (hc : st.check_time_ ≤ 1) :
    pollCount env 1 st = (if M = 0 then 0 else 1) ∧
    (limitReachedIter env 1 st).check_time_ = 2047 ∧
    PollInv env M (limitReachedIter env 1 st) := by
  obtain ⟨s1, _, s2⟩ := limitReached_step env M st hid hstop hinv hM
  obtain ⟨s3, s4⟩ := s2 hc
  simp only [pollCount, limitReachedIter]
  exact ⟨by omega, s4, s1⟩

/-- Calls of `limitReached` keep the counter at 2047 or below. -/
theorem limitReachedIter_inv (env : Env) (M : Int) (hid : env.id = 0)
    (hstop : ∀ t, env.stopAt t = false) (hM : M = 0 ∨ (M ≠ 0 ∧ ∀ t, env.getTime t < M)) (k : Nat) :
    ∀ st, PollInv env M st → st.check_time_ ≤ 2047 →
      PollInv env M (limitReachedIter env k st) ∧
      (limitReachedIter env k st).check_time_ ≤ 2047 := by
  induction k with
  | zero => exact fun st h1 h2 => ⟨h1, h2⟩
  | succ k ih =>
    intro st hinv hc
    obtain ⟨s1, s2, s3⟩ := limitReached_step env M st hid hstop hinv hM
    simp only [limitReachedIter]
    apply ih _ s1
    by_cases h : 2 ≤ st.check_time_
    · rw [(s2 h).2]; omega
    · rw [(s3 (by omega)).2]

/-- With a time limit, 2047 consecutive calls from a counter at 2047 or
below read the clock exactly once. -/
theorem pollCount_period (env : Env) (M : Int) (hid : env.id = 0)
    (hstop : ∀ t, env.stopAt t = false) (hne : M ≠ 0) (hclock : ∀ t, env.getTime t < M)
    (st : SearchState) (hinv : PollInv env M st) (hc : st.check_time_ ≤ 2047) :
    pollCount env 2047 st = 1 := by
  have hM : M = 0 ∨ (M ≠ 0 ∧ ∀ t, env.getTime t < M) := Or.inr ⟨hne, hclock⟩
  by_cases h1 : st.check_time_ ≤ 1
  · obtain ⟨p1, p2, p3⟩ := pollCount_poll env M hid hstop hM st hinv h1
    obtain ⟨q1, _, _⟩ := pollCount_counting env M hid hstop hM 2046 _ p3 (by rw [p2]; decide)
    rw [show 2047 = 1 + 2046 by rfl, pollCount_add, p1, q1, if_neg hne]
  · obtain ⟨c, hcc⟩ : ∃ c : Nat, st.check_time_ = (c : Int) + 2 :=
      ⟨(st.check_time_ - 2).toNat, by omega⟩
    have hc2 : c + 2 ≤ 2047 := by omega
    obtain ⟨q1, q2, q3⟩ := pollCount_counting env M hid hstop hM (c + 1) st hinv
      (by rw [hcc]; push_cast; omega)
    obtain ⟨p1, p2, p3⟩ := pollCount_poll env M hid hstop hM _ q3
      (by rw [q2, hcc]; push_cast; omega)
    obtain ⟨r1, _, _⟩ := pollCount_counting env M hid hstop hM (2045 - c) _ p3
      (by rw [p2]; omega)
    have e1 := pollCount_add env (c + 1) (1 + (2045 - c)) st
    have e2 := pollCount_add env 1 (2045 - c) (limitReachedIter env (c + 1) st)
    rw [show 2047 = (c + 1) + (1 + (2045 - c)) by omega, e1, e2, q1, p1, r1, if_neg hne]

/-- Without a time limit no call reads the clock. -/
theorem pollCount_no_time_limit (env : Env) (hid : env.id = 0)
    (hstop : ∀ t, env.stopAt t = false) (n : Nat) :
    ∀ st, PollInv env 0 st → pollCount env n st = 0 := by
  induction n with
  | zero => exact fun _ _ => rfl
  | succ n ih =>
    intro st hinv
    obtain ⟨s1, s2, s3⟩ := limitReached_step env 0 st hid hstop hinv (Or.inl rfl)
    simp only [pollCount]
    rw [ih _ s1]
    by_cases h : 2 ≤ st.check_time_
    · rw [(s2 h).1]
    · rw [(s3 (by omega)).1]; rfl

/-- A worker other than the main one only reads the stop flag (unless it
is silent): neither the node limit nor the clock. -/
theorem limitReached_helper (env : Env) (st : SearchState) (hid : env.id ≠ 0) :
    limitReached env st = (if env.silent then (false, st) else readStop env st) := by
  unfold limitReached
  cases hsil : env.silent with
  | true => simp only [if_true, Bool.not_true, Bool.false_and, Bool.false_eq_true, if_false, hid,
      ne_eq, not_false_eq_true]
  | false =>
    simp only [Bool.false_eq_true, if_false, Bool.not_false, Bool.true_and, hid, ne_eq,
      not_false_eq_true, if_true]
    split_ifs with h
    · rw [← h]
    · have : (readStop env st).1 = false := by
        cases hx : (readStop env st).1 with
        | true => exact absurd hx h
        | false => rfl
      rw [← this]

theorem pollCount_helper (env : Env) (hid : env.id ≠ 0) (n : Nat) :
    ∀ st, pollCount env n st = 0 := by
  induction n with
  | zero => exact fun _ => rfl
  | succ n ih =>
    intro st
    simp only [pollCount]
    rw [ih]
    unfold clockReads
    rw [limitReached_helper env st hid]
    split_ifs
    · show st.tick - st.tick - 0 + 0 = 0
      omega
    · show st.tick + 1 - st.tick - 1 + 0 = 0
      omega

/-- C14, as stated, fails: on the main worker with no node limit and the
stop flag clear, the 2048 consecutive calls that follow `startThinking`
read the clock twice (the first and the last of them). -/
theorem polling_period_counterexample :
    mainEnv.id = 0 ∧ mainState.limit.nodes = 0 ∧ mainState.check_time_ = 0 ∧
    pollCount mainEnv 2048 mainState = 2 := by
  have hM : (1000 : Int) = 0 ∨ ((1000 : Int) ≠ 0 ∧ ∀ t, mainEnv.getTime t < 1000) :=
    Or.inr ⟨by decide, fun _ => (by decide : (0 : Int) < 1000)⟩
  have hinv : PollInv mainEnv 1000 mainState := ⟨rfl, rfl, Or.inl rfl⟩
  obtain ⟨p1, p2, p3⟩ := pollCount_poll mainEnv 1000 rfl (fun _ => rfl) hM mainState hinv
    (by decide)
  obtain ⟨q1, q2, q3⟩ := pollCount_counting mainEnv 1000 rfl (fun _ => rfl) hM 2046 _ p3
    (by rw [p2]; decide)
  obtain ⟨r1, _, _⟩ := pollCount_poll mainEnv 1000 rfl (fun _ => rfl) hM _ q3
    (by rw [q2, p2]; decide)
  have e1 := pollCount_add mainEnv 1 (2046 + 1) mainState
  have e2 := pollCount_add mainEnv 2046 1 (limitReachedIter mainEnv 1 mainState)
  refine ⟨rfl, rfl, rfl, ?_⟩
  rw [show 2048 = 1 + (2046 + 1) by rfl, e1, e2, p1, q1, r1]
  rfl

/-- One call of `limitReached` on the main worker with no node limit and
the stop flag clear: the counter `check_time_` is decremented where it stays
above 0 and set to 2047 otherwise, whether or not there is a time limit. -/
theorem limitReached_counter (env : Env) (st : SearchState) (hid : env.id = 0)
    (hstop : ∀ t, env.stopAt t = false) (hn : st.limit.nodes = 0)
    (hclear : env.silent = true ∨ st.stop = false) :
    (limitReached env st).2.check_time_
      = (if 2 ≤ st.check_time_ then st.check_time_ - 1 else 2047) := by
  have hc : env.silent = true ∨ (st.stop = false ∧ env.stopAt st.tick = false) := by
    rcases hclear with h | h
    · exact Or.inl h
    · exact Or.inr ⟨h, hstop _⟩
  rw [limitReached_main env st hid hc hn _ rfl]
  by_cases h : 2 ≤ st.check_time_
  · rw [if_pos (show st.check_time_ - 1 > 0 by omega), if_pos h]
  · rw [if_neg (show ¬ st.check_time_ - 1 > 0 by omega), if_neg h]
    split_ifs <;> rfl

/-- C14 (amended): on the main worker (id 0) with no node limit, the stop
flag clear and a time limit that is not reached, `limitReached` reads the
clock on exactly one of every 2047 consecutive calls (`check_time_` is set
to 2047 and decremented before it is tested, so the polling period is
2047); with `limit.time.maximum = 0` it never reads the clock; in either
case one call decrements `check_time_` where it stays above 0 and sets it
to 2047 otherwise (the reset of line 804 does not depend on the time
limit); on a worker with id != 0 it reads neither the clock nor the node
limit. -/
theorem limitReached_polling (env : Env) (st : SearchState) (k : Nat) :
    (env.id = 0 → (∀ t, env.stopAt t = false) → st.limit.nodes = 0 →
      (env.silent = true ∨ st.stop = false) → st.check_time_ ≤ 2047 →
      (st.limit.time_maximum ≠ 0 → (∀ t, env.getTime t < st.limit.time_maximum) →
        pollCount env 2047 (limitReachedIter env k st) = 1) ∧
      (st.limit.time_maximum = 0 → pollCount env k st = 0) ∧
      (limitReached env st).2.check_time_
        = (if 2 ≤ st.check_time_ then st.check_time_ - 1 else 2047)) ∧
    (env.id ≠ 0 →
      limitReached env st = (if env.silent then (false, st) else readStop env st) ∧
      pollCount env k st = 0) := by
  constructor
  · intro hid hstop hn hclear hc
    refine ⟨?_, ?_, limitReached_counter env st hid hstop hn hclear⟩
    · intro hne hclock
      have hinv : PollInv env st.limit.time_maximum st := ⟨hn, rfl, hclear⟩
      obtain ⟨i1, i2⟩ := limitReachedIter_inv env _ hid hstop (Or.inr ⟨hne, hclock⟩) k st hinv hc
      exact pollCount_period env _ hid hstop hne hclock _ i1 i2
    · intro h0
      exact pollCount_no_time_limit env hid hstop k st ⟨hn, h0, hclear⟩
  · intro hid
    exact ⟨limitReached_helper env st hid, pollCount_helper env hid k st⟩

/-- Witness for C14: the main worker with `movetime 1000`, after 5 calls;
its first call, and the first call without a time limit, set the counter to
2047, and without a time limit 5000 calls do not read the clock; and the
sample helper worker (id 1). -/
theorem limitReached_polling_witness :
    pollCount mainEnv 2047 (limitReachedIter mainEnv 5 mainState) = 1 ∧
    (limitReached mainEnv mainState).2.check_time_ = 2047 ∧
    (limitReached mainEnv { mainState with limit := ⟨1, 0, 0, 0, false⟩ }).2.check_time_ = 2047 ∧
    pollCount mainEnv 5000 { mainState with limit := ⟨1, 0, 0, 0, false⟩ } = 0 ∧
    (limitReached sampleEnv sampleState =
        (if sampleEnv.silent then (false, sampleState) else readStop sampleEnv sampleState) ∧
      pollCount sampleEnv 5 sampleState = 0) :=
  ⟨((limitReached_polling mainEnv mainState 5).1 rfl (fun _ => rfl) rfl (Or.inl rfl)
      (by decide)).1 (by decide) (fun _ => (by decide : (0 : Int) < 1000)),
    ((limitReached_polling mainEnv mainState 5).1 rfl (fun _ => rfl) rfl (Or.inl rfl)
      (by decide)).2.2,
    ((limitReached_polling mainEnv { mainState with limit := ⟨1, 0, 0, 0, false⟩ } 5000).1 rfl
      (fun _ => rfl) rfl (Or.inl rfl) (by decide)).2.2,
    ((limitReached_polling mainEnv { mainState with limit := ⟨1, 0, 0, 0, false⟩ } 5000).1 rfl
      (fun _ => rfl) rfl (Or.inl rfl) (by decide)).2.1 rfl,
    (limitReached_polling sampleEnv sampleState 5).2 (by decide)⟩

/-! ## Aspiration windows -/

theorem tdiv_two (x : Int) : Int.tdiv x 2 = if 0 ≤ x then x / 2 else -((-x) / 2) := by
  split
  · next h => exact Int.tdiv_eq_ediv h (by norm_num)
  · next h =>
    have h2 : (0:Int) ≤ -x := by omega
    have := Int.tdiv_eq_ediv h2 (show (0:Int) ≤ 2 by norm_num)
    rw [Int.neg_tdiv] at this
    omega

theorem toInt32_of_range (x : Int) (h1 : -2147483648 ≤ x) (h2 : x ≤ 2147483647) :
    toInt32 x = x := by
  unfold toInt32
  omega

/-- For bounds in the range of `Score` and a `delta` that is not negative
and far from the range of `int`, the next bounds are those of the spec:
no conversion wraps. -/
theorem aspirationNext_spec (alpha beta delta result : Int) (ha : -32768 ≤ alpha ∧ alpha ≤ 32767)
    (hb : -32768 ≤ beta ∧ beta ≤ 32767) (hd : 0 ≤ delta ∧ delta ≤ 1000000000) :
    aspirationNext alpha beta delta result =
      if result ≤ alpha then
        some (max (alpha - delta) (-VALUE_INFINITE), Int.tdiv (alpha + beta) 2, delta + delta / 2)
      else if result ≥ beta then
        some (alpha, min (beta + delta) VALUE_INFINITE, delta + delta / 2)
      else none := by
  obtain ⟨ha1, ha2⟩ := ha
  obtain ⟨hb1, hb2⟩ := hb
  obtain ⟨hd1, hd2⟩ := hd
  have e1 : toInt32 (alpha - delta) = alpha - delta := toInt32_of_range _ (by omega) (by omega)
  have e2 : toInt32 (beta + delta) = beta + delta := toInt32_of_range _ (by omega) (by omega)
  have e3 : Int.tdiv delta 2 = delta / 2 := Int.tdiv_eq_ediv hd1 (by norm_num)
  have e4 : toInt32 (delta + delta / 2) = delta + delta / 2 :=
    toInt32_of_range _ (by omega) (by omega)
  have e5 : toInt16 (max (alpha - delta) (-VALUE_INFINITE)) = max (alpha - delta) (-VALUE_INFINITE)
      := by
    apply toInt16_of_range
    · simp only [max_def, VALUE_INFINITE]; split_ifs <;> omega
    · simp only [max_def, VALUE_INFINITE]; split_ifs <;> omega
  have e6 : toInt16 (Int.tdiv (alpha + beta) 2) = Int.tdiv (alpha + beta) 2 := by
    apply toInt16_of_range
    · rw [tdiv_two]; split_ifs <;> omega
    · rw [tdiv_two]; split_ifs <;> omega
  have e7 : toInt16 (min (beta + delta) VALUE_INFINITE) = min (beta + delta) VALUE_INFINITE := by
    apply toInt16_of_range
    · simp only [min_def, VALUE_INFINITE]; split_ifs <;> omega
    · simp only [min_def, VALUE_INFINITE]; split_ifs <;> omega
  unfold aspirationNext
  rw [e1, e2, e3, e4, e5, e6, e7]

/-- The first window of `aspirationSearch`, clamped, meets the invariant
of the loop for every previous score in the band. -/
theorem aspInv_init (depth prev_eval : Int) (hp : Band prev_eval) :
    AspInv
      (aspirationClamp (if depth ≥ 9 then toInt16 (prev_eval - 30) else -VALUE_INFINITE)
        (if depth ≥ 9 then toInt16 (prev_eval + 30) else VALUE_INFINITE)).1
      (aspirationClamp (if depth ≥ 9 then toInt16 (prev_eval - 30) else -VALUE_INFINITE)
        (if depth ≥ 9 then toInt16 (prev_eval + 30) else VALUE_INFINITE)).2 30 := by
  obtain ⟨h1, h2⟩ := hp
  simp only [VALUE_INFINITE] at h1 h2
  have e1 : toInt16 (prev_eval - 30) = prev_eval - 30 := toInt16_of_range _ (by omega) (by omega)
  have e2 : toInt16 (prev_eval + 30) = prev_eval + 30 := toInt16_of_range _ (by omega) (by omega)
  rw [e1, e2]
  unfold AspInv aspirationClamp Window VALUE_INFINITE
  simp only []
  split_ifs <;> omega

/-- After a failed search with a result in the band, the next window,
clamped, meets the invariant of the loop again. -/
theorem aspInv_next (a b delta r a1 b1 delta1 : Int) (h : AspInv a b delta) (hr : Band r)
    (hn : aspirationNext a b delta r = some (a1, b1, delta1)) :
    AspInv (aspirationClamp a1 b1).1 (aspirationClamp a1 b1).2 delta1 := by
  obtain ⟨⟨hw1, hw2, hw3⟩, hca, hcb, hd1, hd2⟩ := h
  obtain ⟨hr1, hr2⟩ := hr
  simp only [VALUE_INFINITE] at hw1 hw2 hw3 hca hcb hr1 hr2 hd2
  have hdl : delta ≤ 119820 := by omega
  rw [aspirationNext_spec a b delta r ⟨by omega, by omega⟩ ⟨by omega, by omega⟩
    ⟨by omega, by omega⟩] at hn
  have ht := tdiv_two (a + b)
  generalize Int.tdiv (a + b) 2 = t at hn ht
  unfold AspInv aspirationClamp Window
  simp only [VALUE_INFINITE, max_def, min_def] at hn ⊢
  split_ifs at hn ht <;>
    simp only [Option.some.injEq, Prod.mk.injEq, reduceCtorEq] at hn <;>
    obtain ⟨rfl, rfl, rfl⟩ := hn <;>
    split_ifs <;> omega

set_option maxRecDepth 100000 in
/-- C15, as stated, fails where the search is aborted: the root search of
depth 1 returns 30, strictly inside the window, the stop flag is set by
the time it returns, and `aspirationSearch` returns 0, not the result. -/
theorem aspiration_abort_counterexample :
    (search lateStopEnv 6 (.ab .ROOT 1 (-VALUE_INFINITE) VALUE_INFINITE 0) sampleState).map
      (fun r => (r.1, (readStop lateStopEnv r.2).1)) = some (30, true) ∧
    (aspirationSearch lateStopEnv 6 1 1 0 0 sampleState).map Prod.fst = some 0 := by decide

/-- C15 (amended): one turn of the loop of `aspirationSearch` is the turn
of the spec: before the search a bound beyond ±3500 is replaced by
±`VALUE_INFINITE`; if the stop flag is set or the node limit reached after
the search, 0 is returned; otherwise on `result <= alpha` the next window
has `beta' = (alpha + beta) / 2`, `alpha' = max(alpha - delta,
-VALUE_INFINITE)`, `delta' = delta + delta / 2`, on `result >= beta` it
has `alpha` unchanged, `beta' = min(beta + delta, VALUE_INFINITE)`,
`delta' = delta + delta / 2`, and otherwise the loop ends and `result` is
returned. The bounds are in the range of `Score` and `delta` is far from
the range of `int`, so that no conversion wraps. -/
theorem aspirationLoop_turn (env : Env) (n : Nat) (depth ss : Int) (k : Nat)
    (alpha beta delta : Int) (st : SearchState) (ha : -32768 ≤ alpha ∧ alpha ≤ 32767)
    (hb : -32768 ≤ beta ∧ beta ≤ 32767) (hd : 0 ≤ delta ∧ delta ≤ 1000000000) :
    aspirationLoop env n depth ss (k + 1) alpha beta delta st =
      specAspirationTurn env n depth ss k alpha beta delta st := by
  have hca : -32768 ≤ (if alpha < -3500 then -VALUE_INFINITE else alpha) ∧
      (if alpha < -3500 then -VALUE_INFINITE else alpha) ≤ 32767 := by
    unfold VALUE_INFINITE
    split_ifs <;> omega
  have hcb : -32768 ≤ (if beta > 3500 then VALUE_INFINITE else beta) ∧
      (if beta > 3500 then VALUE_INFINITE else beta) ≤ 32767 := by
    unfold VALUE_INFINITE
    split_ifs <;> omega
  unfold specAspirationTurn
  rw [aspirationLoop]
  simp only [aspirationClamp]
  generalize (if alpha < -3500 then -VALUE_INFINITE else alpha) = a at hca ⊢
  generalize (if beta > 3500 then VALUE_INFINITE else beta) = b at hcb ⊢
  cases hsr : search env n (.ab .ROOT depth a b ss) st with
  | none => rfl
  | some r =>
    obtain ⟨result, st1⟩ := r
    simp only [Option.some_bind]
    rw [aspirationNext_spec a b delta result hca hcb hd]
    have e1 : (readStop env st1).2.limit = st1.limit := rfl
    have e2 : (readStop env st1).2.nodes = st1.nodes := rfl
    simp only [e1, e2]
    by_cases h1 : (readStop env st1).1 = true
    · rw [if_pos h1, if_pos (Or.inl h1)]
    · rw [if_neg h1]
      by_cases h2 : env.id = 0 ∧ st1.limit.nodes ≠ 0 ∧ st1.nodes ≥ st1.limit.nodes
      · rw [if_pos h2, if_pos (Or.inr h2)]
      · have h12 : ¬ ((readStop env st1).1 = true ∨
            (env.id = 0 ∧ st1.limit.nodes ≠ 0 ∧ st1.nodes ≥ st1.limit.nodes)) :=
          fun h => Or.elim h h1 h2
        rw [if_neg h2, if_neg h12]
        by_cases h3 : result ≤ a
        · rw [if_pos h3, if_pos h3]
        · rw [if_neg h3, if_neg h3]
          by_cases h4 : result ≥ b
          · rw [if_pos h4, if_pos h4]
          · rw [if_neg h4, if_neg h4]

set_option maxRecDepth 100000 in
/-- Witness for C15: depth 9 on the window (70, 130) with `delta = 30`;
the root search returns 0, the window becomes (40, 100) and then
(-5, 70), in which 0 lies, and 0 is returned. -/
theorem aspirationLoop_turn_witness :
    aspirationLoop sampleEnv 6 9 0 (2 + 1) 70 130 30 sampleState =
      specAspirationTurn sampleEnv 6 9 0 2 70 130 30 sampleState ∧
    (aspirationLoop sampleEnv 6 9 0 (2 + 1) 70 130 30 sampleState).map Prod.fst = some 0 ∧
    aspirationNext 70 130 30 0 = some (40, 100, 45) ∧
    aspirationNext 40 100 45 0 = some (-5, 70, 67) ∧ aspirationNext (-5) 70 67 0 = none :=
  ⟨aspirationLoop_turn sampleEnv 6 9 0 2 70 130 30 sampleState (by decide) (by decide)
    (by decide), by decide, by decide, by decide, by decide⟩

/-! ## The excluded moves of the frames below -/

theorem assertWindow_stack (alpha beta : Int) (st : SearchState) :
    (assertWindow alpha beta st).stack = st.stack := by
  unfold assertWindow
  split_ifs <;> rfl

theorem assertZero_stack (pv : Bool) (alpha beta : Int) (st : SearchState) :
    (assertZero pv alpha beta st).stack = st.stack := by
  unfold assertZero
  split_ifs <;> rfl

theorem assertBand_stack (v : Int) (st : SearchState) : (assertBand v st).stack = st.stack := by
  unfold assertBand
  split_ifs <;> rfl

theorem setEval_excluded (s : Int → Stack) (i : Int) (v : Int) (j : Int) :
    (setEval s i v j).excluded_move = (s j).excluded_move := by
  unfold setEval
  split_ifs <;> rfl

theorem setCurrent_excluded (s : Int → Stack) (i : Int) (m : Move) (j : Int) :
    (setCurrent s i m j).excluded_move = (s j).excluded_move := by
  unfold setCurrent
  split_ifs <;> rfl

theorem setExcluded_excluded (s : Int → Stack) (i : Int) (m : Move) (j : Int) (h : j ≠ i) :
    (setExcluded s i m j).excluded_move = (s j).excluded_move := by
  unfold setExcluded
  rw [if_neg h]

/-- `qsearch` before its move loop does not write the stack. -/
theorem qEntry_stack (env : Env) (node : Node) (alpha beta ss : Int) (st : SearchState) :
    match qEntry env node alpha beta ss st with
    | .inl r => r.2.stack = st.stack
    | .inr r => r.2.stack = st.stack ∧ r.1.ss = ss := by
  have hl := limitReached_stack env st
  unfold qEntry
  generalize limitReached env st = lr at hl
  have ha : (assertZero (decide (node = .PV)) alpha beta (assertWindow alpha beta lr.2)).stack =
      lr.2.stack := by
    rw [assertZero_stack, assertWindow_stack]
  simp only []
  generalize assertZero (decide (node = .PV)) alpha beta (assertWindow alpha beta lr.2) = st1
    at ha
  split_ifs <;> first
    | exact hl
    | exact ha.trans hl
    | exact ⟨ha.trans hl, rfl⟩

theorem qFinish_stack (env : Env) (f : QFrame) (st : SearchState) :
    (qFinish env f st).2.stack = st.stack := by
  unfold qFinish
  simp only []
  rw [assertBand_stack]
  split_ifs <;> rfl

theorem abFinish_stack (env : Env) (f : ABFrame) (st : SearchState) :
    (abFinish env f st).2.stack = st.stack := by
  unfold abFinish
  simp only []
  split_ifs <;> simp only [assertBand_stack] <;> rfl

theorem tbProbe_stack (env : Env) (root pv : Bool) (depth alpha beta ply : Int)
    (st : SearchState) : (tbProbe env root pv depth alpha beta ply st).2.stack = st.stack := by
  unfold tbProbe
  simp only []
  split_ifs <;> rfl

/-- The update after a searched move keeps the stack, the node kind and
the frame. -/
theorem abUpdate_frame (env : Env) (f : ABFrame) (st : SearchState) (move : Move)
    (capture : Bool) (score : Int) (node_count : Nat) :
    (abUpdate env f st move capture score node_count).2.1.stack = st.stack ∧
    (abUpdate env f st move capture score node_count).1.node = f.node ∧
    (abUpdate env f st move capture score node_count).1.ss = f.ss := by
  have h1 : (assertBand score (st.unmakeMove env move)).stack = st.stack := by
    rw [assertBand_stack]; rfl
  unfold abUpdate
  simp only []
  generalize assertBand score (st.unmakeMove env move) = st1 at h1
  have h2 : (if env.id = 0 then
      { st1 with node_effort := fun a b =>
          if a = move.from ∧ b = move.to then
            (st1.node_effort a b + (st1.nodes + 2 ^ 64 - node_count) % 2 ^ 64) % 2 ^ 64
          else st1.node_effort a b }
    else st1).stack = st.stack := by
    split_ifs
    · exact h1
    · exact h1
  generalize (if env.id = 0 then
      { st1 with node_effort := fun a b =>
          if a = move.from ∧ b = move.to then
            (st1.node_effort a b + (st1.nodes + 2 ^ 64 - node_count) % 2 ^ 64) % 2 ^ 64
          else st1.node_effort a b }
    else st1) = st2 at h2
  by_cases c1 : score > f.best
  · rw [if_pos c1]
    by_cases c2 : score > f.alpha
    · rw [if_pos c2]
      by_cases c3 : score ≥ f.beta
      · rw [if_pos c3]
        exact ⟨h2, rfl, rfl⟩
      · rw [if_neg c3]
        split_ifs <;> exact ⟨h2, rfl, rfl⟩
    · rw [if_neg c2]
      split_ifs <;> exact ⟨h2, rfl, rfl⟩
  · rw [if_neg c1]
    split_ifs <;> exact ⟨h2, rfl, rfl⟩

theorem abPrune_kept (env : Env) (f : ABFrame) (st1 : SearchState) (ev : Int)
    (improving : Bool) (d2 : Int) (st0 : SearchState) (node : Node) (ss : Int)
    (hf : f.node = node ∧ f.ss = ss)
    (hk : ∀ j, j ≠ ss + 1 → (st1.stack j).excluded_move = (st0.stack j).excluded_move) :
    (abPrune env f st1 ev improving d2).Kept st0 node ss := by
  unfold abPrune
  simp only []
  split_ifs <;> first
    | exact hk
    | exact ⟨hf.2, hk⟩
    | exact ⟨hf, hk⟩

theorem abStatic_kept (env : Env) (f : ABFrame) (st : SearchState) (st0 : SearchState)
    (node : Node) (ss : Int) (hf : f.node = node ∧ f.ss = ss)
    (hk : ∀ j, j ≠ ss + 1 → (st.stack j).excluded_move = (st0.stack j).excluded_move) :
    (abStatic env f st).Kept st0 node ss := by
  have hk2 : ∀ v, ∀ j, j ≠ ss + 1 →
      (({ st with stack := setEval st.stack f.ss v } : SearchState).stack j).excluded_move =
        (st0.stack j).excluded_move := by
    intro v j hj
    show (setEval st.stack f.ss v j).excluded_move = _
    rw [setEval_excluded]
    exact hk j hj
  unfold abStatic
  by_cases h1 : f.in_check = true
  · rw [if_pos h1]
    exact ⟨hf, hk2 _⟩
  rw [if_neg h1]
  simp only []
  by_cases h2 : f.node = .ROOT
  · rw [if_pos h2]
    exact ⟨hf, hk2 _⟩
  rw [if_neg h2]
  exact abPrune_kept env f _ _ _ _ st0 node ss hf (hk2 _)

theorem abTb_kept (env : Env) (node : Node) (depth1 alpha2 beta2 : Int) (ss : Int)
    (color : Color) (in_check : Bool) (excluded_move : Move) (key : Nat) (tt_hit : Bool)
    (ttmove : Move) (tt_score : Int) (st4 st0 : SearchState)
    (hk : ∀ j, j ≠ ss + 1 → (st4.stack j).excluded_move = (st0.stack j).excluded_move) :
    (abTb env node depth1 alpha2 beta2 ss color in_check excluded_move key tt_hit ttmove
      tt_score st4).Kept st0 node ss := by
  unfold abTb
  simp only []
  have hs := tbProbe_stack env (decide (node = .ROOT)) (decide (node ≠ .NONPV)) depth1 alpha2
    beta2 (st4.stack ss).ply st4
  generalize tbProbe env (decide (node = .ROOT)) (decide (node ≠ .NONPV)) depth1 alpha2
    beta2 (st4.stack ss).ply st4 = tb at hs
  have hk2 : ∀ j, j ≠ ss + 1 → (tb.2.stack j).excluded_move = (st0.stack j).excluded_move := by
    intro j hj
    rw [hs]
    exact hk j hj
  cases htb : tb.1.1 with
  | some v => exact hk2
  | none => exact abStatic_kept env _ tb.2 st0 node ss ⟨rfl, rfl⟩ hk2

theorem abCut_kept (env : Env) (node : Node) (depth1 alpha1 beta1 : Int) (ss : Int)
    (color : Color) (in_check : Bool) (excluded_move : Move) (key : Nat) (tt_hit : Bool)
    (ttmove : Move) (tte : TEntry) (tt_score : Int) (st4 st0 : SearchState)
    (hk : ∀ j, j ≠ ss + 1 → (st4.stack j).excluded_move = (st0.stack j).excluded_move) :
    (abCut env node depth1 alpha1 beta1 ss color in_check excluded_move key tt_hit ttmove tte
      tt_score st4).Kept st0 node ss := by
  unfold abCut
  simp only []
  generalize (decide (decide (node = .ROOT) = false ∧ excluded_move = NO_MOVE ∧
    decide (node ≠ .NONPV) = false ∧ tt_hit = true ∧ tt_score ≠ VALUE_NONE ∧
    tte.depth ≥ depth1 ∧ (st4.stack (ss - 1)).currentmove ≠ NULL_MOVE)) = cut
  by_cases h1 : cut = true ∧ tte.flag = .EXACTBOUND
  · rw [if_pos h1]; exact hk
  rw [if_neg h1]
  generalize (if cut = true ∧ tte.flag = .LOWERBOUND then max alpha1 tt_score else alpha1)
    = alpha2
  generalize (if cut = true ∧ tte.flag = .UPPERBOUND then min beta1 tt_score else beta1)
    = beta2
  by_cases h2 : cut = true ∧ alpha2 ≥ beta2
  · rw [if_pos h2]; exact hk
  rw [if_neg h2]
  exact abTb_kept env node depth1 alpha2 beta2 ss color in_check excluded_move key tt_hit
    ttmove tt_score st4 st0 hk

theorem abProbe_kept (env : Env) (node : Node) (depth0 alpha1 beta1 : Int) (ss : Int)
    (color : Color) (in_check : Bool) (excluded_move : Move) (st1 st0 : SearchState)
    (hk : ∀ j, (st1.stack j).excluded_move = (st0.stack j).excluded_move) :
    (abProbe env node depth0 alpha1 beta1 ss color in_check excluded_move st1).Kept st0 node
      ss := by
  unfold abProbe
  simp only []
  by_cases h1 : (if in_check = true then depth0 + 1 else depth0) ≤ 0
  · rw [if_pos h1]; exact ⟨rfl, fun j _ => hk j⟩
  rw [if_neg h1]
  apply abCut_kept
  intro j hj
  have e : (setExcluded (assertZero (decide (node ≠ .NONPV)) alpha1 beta1
      (assertWindow alpha1 beta1 st1)).stack (ss + 1) NO_MOVE j).excluded_move
      = (st0.stack j).excluded_move := by
    rw [setExcluded_excluded _ _ _ _ hj, assertZero_stack, assertWindow_stack]
    exact hk j
  split_ifs <;> exact e

/-- The part of `absearch` before the move loop writes no excluded move but
that of the child frame. -/
theorem abEntry_kept (env : Env) (node : Node) (depth0 alpha0 beta0 : Int) (ss : Int)
    (st0 : SearchState) : (abEntry env node depth0 alpha0 beta0 ss st0).Kept st0 node ss := by
  have hl := limitReached_stack env st0
  unfold abEntry
  generalize limitReached env st0 = lr at hl
  simp only []
  have hk : ∀ j, (lr.2.stack j).excluded_move = (st0.stack j).excluded_move := by
    intro j; rw [hl]
  by_cases h1 : lr.1 = true
  · rw [if_pos h1]; exact fun j _ => hk j
  rw [if_neg h1]
  by_cases h2 : (lr.2.stack ss).ply ≥ MAX_PLY
  · rw [if_pos h2]; exact fun j _ => hk j
  rw [if_neg h2]
  by_cases h3 : decide (node = .ROOT) = true
  · rw [if_pos h3]; exact abProbe_kept _ _ _ _ _ _ _ _ _ _ _ hk
  rw [if_neg h3]
  split_ifs <;> first
    | exact fun j _ => hk j
    | exact abProbe_kept _ _ _ _ _ _ _ _ _ _ _ hk

theorem keeps_out {rec : Call → SearchState → Option (Int × SearchState)} (hrec : Keeps rec)
    {call : Call} {st : SearchState} {v : Int} {st2 : SearchState}
    (h : rec call st = some (v, st2)) (j : Int)
    (hj : j < call.frame ∨ (j = call.frame ∧ call.keepsOwn = true)) :
    (st2.stack j).excluded_move = (st.stack j).excluded_move := hrec _ _ _ _ j hj h

/-- The `qsearch` move loop keeps the excluded moves up to its own frame
if the computations it starts do. -/
theorem qLoop_keeps (env : Env) (rec : Call → SearchState → Option (Int × SearchState))
    (hrec : Keeps rec) (f : QFrame) (st : SearchState) (v : Int) (st9 : SearchState)
    (j : Int) (hj : j ≤ f.ss) (h : qLoop env rec f st = some (v, st9)) :
    (st9.stack j).excluded_move = (st.stack j).excluded_move := by
  have hown : ∀ g : QFrame, g.ss = f.ss →
      (j < (Call.qloop g).frame ∨ (j = (Call.qloop g).frame ∧ (Call.qloop g).keepsOwn = true)) := by
    intro g hg
    show j < g.ss ∨ (j = g.ss ∧ true = true)
    rw [hg]
    rcases lt_or_eq_of_le hj with h | h
    · exact Or.inl h
    · exact Or.inr ⟨h, rfl⟩
  unfold qLoop at h
  simp only [] at h
  by_cases h1 : env.nextMoveQ st f.ss f.ttmove f.idx = NO_MOVE
  · rw [if_pos h1] at h
    have e := qFinish_stack env f st
    rw [Option.some.inj h] at e
    show (st9.stack j).excluded_move = _
    rw [show st9.stack = st.stack from e]
  rw [if_neg h1] at h
  by_cases h2 : qPruned env f st (env.nextMoveQ st f.ss f.ttmove f.idx) = true
  · rw [if_pos h2] at h
    exact keeps_out hrec h j (hown _ rfl)
  rw [if_neg h2] at h
  generalize env.nextMoveQ st f.ss f.ttmove f.idx = move at h
  cases hr : rec (.q f.node (toInt16 (-f.beta)) (toInt16 (-f.alpha)) (f.ss + 1))
      (SearchState.makeMove env { st with nodes := (st.nodes + 1) % 2 ^ 64 } move) with
  | none => rw [hr] at h; cases h
  | some p =>
    obtain ⟨r, st3⟩ := p
    rw [hr] at h
    simp only [] at h
    have hc : (st3.stack j).excluded_move = (st.stack j).excluded_move :=
      keeps_out hrec hr j (Or.inl (by show j < f.ss + 1; omega))
    have h4 : ((assertBand (toInt16 (-r)) (st3.unmakeMove env move)).stack j).excluded_move =
        (st.stack j).excluded_move := by
      rw [assertBand_stack]; exact hc
    generalize assertBand (toInt16 (-r)) (st3.unmakeMove env move) = st4 at h h4
    have hfin : ∀ g : QFrame, qFinish env g st4 = (v, st9) →
        (st9.stack j).excluded_move = (st.stack j).excluded_move := by
      intro g hg
      have e := qFinish_stack env g st4
      rw [hg] at e
      rw [show st9.stack = st4.stack from e]
      exact h4
    have hnext : ∀ g : QFrame, rec (.qloop g) st4 = some (v, st9) → g.ss = f.ss →
        (st9.stack j).excluded_move = (st.stack j).excluded_move := by
      intro g hh hg
      rw [keeps_out hrec hh j (hown g hg)]
      exact h4
    split_ifs at h
    · exact hfin _ (Option.some.inj h)
    · exact hnext _ h rfl
    · exact hnext _ h rfl
    · exact hnext _ h rfl

theorem own_abloop (g : ABFrame) (j : Int) (hj : j < g.ss ∨ (j = g.ss ∧ g.node = .ROOT)) :
    j < (Call.abloop g).frame ∨
      (j = (Call.abloop g).frame ∧ (Call.abloop g).keepsOwn = true) := by
  rcases hj with h | h
  · exact Or.inl h
  · exact Or.inr ⟨h.1, decide_eq_true h.2⟩

theorem own_abmove (g : ABFrame) (m : Move) (c : Bool) (e : Int) (j : Int)
    (hj : j < g.ss ∨ (j = g.ss ∧ g.node = .ROOT)) :
    j < (Call.abmove g m c e).frame ∨
      (j = (Call.abmove g m c e).frame ∧ (Call.abmove g m c e).keepsOwn = true) := by
  rcases hj with h | h
  · exact Or.inl h
  · exact Or.inr ⟨h.1, decide_eq_true h.2⟩

theorem own_le (g : ABFrame) (j : Int) (hj : j < g.ss ∨ (j = g.ss ∧ g.node = .ROOT)) :
    j ≤ g.ss := by
  rcases hj with h | h
  · exact le_of_lt h
  · exact le_of_eq h.1

/-- The null-move search keeps the excluded moves of the frames below. -/
theorem abNull_keeps (env : Env) (rec : Call → SearchState → Option (Int × SearchState))
    (hrec : Keeps rec) (f : ABFrame) (R : Int) (st : SearchState) (v : Int) (st9 : SearchState)
    (j : Int) (hj : j < f.ss ∨ (j = f.ss ∧ f.node = .ROOT))
    (h : abNull env rec f R st = some (v, st9)) :
    (st9.stack j).excluded_move = (st.stack j).excluded_move := by
  have hle := own_le f j hj
  unfold abNull at h
  simp only [] at h
  cases hr : rec (.ab .NONPV (f.depth - R) (toInt16 (-f.beta)) (toInt16 (-f.beta + 1)) (f.ss + 1))
      { st with tb := { st.tb with board := env.makeNullMove st.tb.board }
                stack := setCurrent st.stack f.ss NULL_MOVE } with
  | none => rw [hr] at h; cases h
  | some p =>
    obtain ⟨r, st3⟩ := p
    rw [hr] at h
    simp only [] at h
    have hc : (st3.stack j).excluded_move = (st.stack j).excluded_move := by
      rw [keeps_out hrec hr j (Or.inl (by show j < f.ss + 1; omega))]
      exact setCurrent_excluded _ _ _ _
    by_cases h3 : toInt16 (-r) ≥ f.beta
    · rw [if_pos h3] at h
      have e := congrArg (fun p => p.2.stack) (Option.some.inj h)
      simp only [] at e
      rw [← e]
      exact hc
    · rw [if_neg h3] at h
      rw [keeps_out hrec h j (own_abloop f j hj)]
      exact hc

/-- The singular-extension search keeps the excluded moves of the frames
below its own. -/
theorem abSingular_keeps (env : Env) (rec : Call → SearchState → Option (Int × SearchState))
    (hrec : Keeps rec) (f1 : ABFrame) (move : Move) (capture : Bool) (st : SearchState)
    (v : Int) (st9 : SearchState) (j : Int)
    (h : abSingular env rec f1 move capture st = some (v, st9)) (hj : j < f1.ss) :
    (st9.stack j).excluded_move = (st.stack j).excluded_move := by
  have hne : j ≠ f1.ss := ne_of_lt hj
  unfold abSingular at h
  simp only [] at h
  by_cases h1 : (env.ttProbe st.tick f1.key).2.2.flag.toNat &&& Flag.LOWERBOUND.toNat ≠ 0 ∧
      (env.ttProbe st.tick f1.key).2.2.depth ≥ f1.depth - 3
  · rw [if_pos h1] at h
    cases hr : rec (.ab .NONPV (Int.tdiv (f1.depth - 1) 2)
        (toInt16 (f1.tt_score - 3 * f1.depth - 1)) (toInt16 (f1.tt_score - 3 * f1.depth)) f1.ss)
        { st with tick := st.tick + 1, stack := setExcluded st.stack f1.ss move } with
    | none => rw [hr] at h; cases h
    | some p =>
      obtain ⟨value, st3⟩ := p
      rw [hr] at h
      simp only [] at h
      have hc : (st3.stack j).excluded_move = (st.stack j).excluded_move := by
        rw [keeps_out hrec hr j (Or.inl hj)]
        exact setExcluded_excluded _ _ _ _ hne
      have h4 : (({ st3 with stack := setExcluded st3.stack f1.ss NO_MOVE } :
          SearchState).stack j).excluded_move = (st.stack j).excluded_move := by
        show (setExcluded st3.stack f1.ss NO_MOVE j).excluded_move = _
        rw [setExcluded_excluded _ _ _ _ hne]
        exact hc
      generalize ({ st3 with stack := setExcluded st3.stack f1.ss NO_MOVE } : SearchState) = st4
        at h h4
      split_ifs at h
      · rw [keeps_out hrec h j (Or.inl hj)]; exact h4
      · have e := congrArg (fun p => p.2.stack) (Option.some.inj h)
        simp only [] at e
        rw [← e]; exact h4
      · rw [keeps_out hrec h j (Or.inl hj)]; exact h4
  · rw [if_neg h1] at h
    rw [keeps_out hrec h j (Or.inl hj)]

/-- One turn of the `absearch` move loop keeps the excluded moves of the
frames below, and at the root that of its own frame. -/
theorem abLoop_keeps (env : Env) (rec : Call → SearchState → Option (Int × SearchState))
    (hrec : Keeps rec) (f : ABFrame) (st : SearchState) (v : Int) (st9 : SearchState)
    (j : Int) (hj : j < f.ss ∨ (j = f.ss ∧ f.node = .ROOT))
    (h : abLoop env rec f st = some (v, st9)) :
    (st9.stack j).excluded_move = (st.stack j).excluded_move := by
  unfold abLoop at h
  simp only [] at h
  generalize env.nextMoveAB st f.ss (decide (f.node = .ROOT))
    (if f.tt_hit = true then f.ttmove else NO_MOVE) f.idx = move at h
  by_cases h1 : move = NO_MOVE
  · rw [if_pos h1] at h
    have e := abFinish_stack env f st
    rw [Option.some.inj h] at e
    rw [show st9.stack = st.stack from e]
  rw [if_neg h1] at h
  by_cases h2 : move = f.excluded_move
  · rw [if_pos h2] at h
    exact keeps_out hrec h j (own_abloop _ j hj)
  rw [if_neg h2] at h
  split_ifs at h with h3 h4
  · exact keeps_out hrec h j (own_abloop _ j hj)
  · have hn : f.node ≠ .ROOT := (of_decide_eq_true h4).1
    have hlt : j < f.ss := by
      rcases hj with h | h
      · exact h
      · exact absurd h.2 hn
    exact abSingular_keeps env rec hrec _ _ _ _ _ _ j h hlt
  · exact keeps_out hrec h j (own_abmove _ _ _ _ j hj)

theorem abLmr_keeps (env : Env) (rec : Call → SearchState → Option (Int × SearchState))
    (hrec : Keeps rec) (f : ABFrame) (capture : Bool) (newDepth : Int) (st3 : SearchState)
    (s1 : Int) (st4 : SearchState) (b : Bool) (j : Int) (hj : j ≤ f.ss)
    (h : abLmr env rec f capture newDepth st3 = some (s1, st4, b)) :
    (st4.stack j).excluded_move = (st3.stack j).excluded_move := by
  unfold abLmr at h
  simp only [] at h
  generalize (decide (f.depth ≥ 3 ∧ f.in_check = false ∧
    (f.made_moves : Int) > 3 + 2 * (if decide (f.node ≠ .NONPV) = true then 1 else 0))) = lmr at h
  cases lmr with
  | true =>
    rw [if_pos rfl] at h
    cases hr : rec (.ab .NONPV (lmrDepth env f capture newDepth) (toInt16 (-f.alpha - 1))
        (toInt16 (-f.alpha)) (f.ss + 1)) st3 with
    | none => rw [hr] at h; cases h
    | some p =>
      obtain ⟨r, s⟩ := p
      rw [hr] at h
      have e := congrArg (fun p => p.2.1.stack) (Option.some.inj h)
      simp only [] at e
      rw [← e]
      exact keeps_out hrec hr j (Or.inl (by show j < f.ss + 1; omega))
  | false =>
    rw [if_neg (by decide)] at h
    have e := congrArg (fun p => p.2.1.stack) (Option.some.inj h)
    simp only [] at e
    rw [← e]

theorem abFull_keeps (rec : Call → SearchState → Option (Int × SearchState))
    (hrec : Keeps rec) (f : ABFrame) (newDepth : Int) (score1 : Int) (st4 : SearchState)
    (do_full_search : Bool) (s2 : Int) (st5 : SearchState) (j : Int) (hj : j ≤ f.ss)
    (h : abFull rec f newDepth score1 st4 do_full_search = some (s2, st5)) :
    (st5.stack j).excluded_move = (st4.stack j).excluded_move := by
  unfold abFull at h
  split_ifs at h
  · cases hr : rec (.ab .NONPV newDepth (toInt16 (-f.alpha - 1)) (toInt16 (-f.alpha))
        (f.ss + 1)) st4 with
    | none => rw [hr] at h; cases h
    | some p =>
      obtain ⟨r, s⟩ := p
      rw [hr] at h
      have e := congrArg (fun p => p.2.stack) (Option.some.inj h)
      simp only [] at e
      rw [← e]
      exact keeps_out hrec hr j (Or.inl (by show j < f.ss + 1; omega))
  · have e := congrArg (fun p => p.2.stack) (Option.some.inj h)
    simp only [] at e
    rw [← e]

theorem abPvs_keeps (rec : Call → SearchState → Option (Int × SearchState))
    (hrec : Keeps rec) (f : ABFrame) (newDepth : Int) (score2 : Int) (st5 : SearchState)
    (s3 : Int) (st6 : SearchState) (j : Int) (hj : j ≤ f.ss)
    (h : abPvs rec f newDepth score2 st5 = some (s3, st6)) :
    (st6.stack j).excluded_move = (st5.stack j).excluded_move := by
  unfold abPvs at h
  simp only [] at h
  split_ifs at h
  · cases hr : rec (.ab .PV newDepth (toInt16 (-f.beta)) (toInt16 (-f.alpha)) (f.ss + 1))
        st5 with
    | none => rw [hr] at h; cases h
    | some p =>
      obtain ⟨r, s⟩ := p
      rw [hr] at h
      have e := congrArg (fun p => p.2.stack) (Option.some.inj h)
      simp only [] at e
      rw [← e]
      exact keeps_out hrec hr j (Or.inl (by show j < f.ss + 1; omega))
  · have e := congrArg (fun p => p.2.stack) (Option.some.inj h)
    simp only [] at e
    rw [← e]

/-- The search of one move keeps the excluded moves of the frames below,
and at the root that of its own frame. -/
theorem abMove_keeps (env : Env) (rec : Call → SearchState → Option (Int × SearchState))
    (hrec : Keeps rec) (f : ABFrame) (move : Move) (capture : Bool) (extension : Int)
    (st : SearchState) (v : Int) (st9 : SearchState) (j : Int)
    (hj : j < f.ss ∨ (j = f.ss ∧ f.node = .ROOT))
    (h : abMove env rec f move capture extension st = some (v, st9)) :
    (st9.stack j).excluded_move = (st.stack j).excluded_move := by
  have hle := own_le f j hj
  unfold abMove at h
  simp only [] at h
  have h3 : (({ SearchState.makeMove env { st with nodes := (st.nodes + 1) % 2 ^ 64 } move with
      stack := setCurrent (SearchState.makeMove env
        { st with nodes := (st.nodes + 1) % 2 ^ 64 } move).stack f.ss move } :
      SearchState).stack j).excluded_move = (st.stack j).excluded_move :=
    setCurrent_excluded _ _ _ _
  generalize ({ SearchState.makeMove env { st with nodes := (st.nodes + 1) % 2 ^ 64 } move with
      stack := setCurrent (SearchState.makeMove env
        { st with nodes := (st.nodes + 1) % 2 ^ 64 } move).stack f.ss move } :
      SearchState) = st3 at h h3
  cases h4 : abLmr env rec f capture (f.depth - 1 + extension) st3 with
  | none => rw [h4] at h; cases h
  | some p4 =>
    obtain ⟨score1, st4, dfs⟩ := p4
    rw [h4] at h
    simp only [] at h
    have k4 := abLmr_keeps env rec hrec f capture _ st3 score1 st4 dfs j hle h4
    cases h5 : abFull rec f (f.depth - 1 + extension) score1 st4 dfs with
    | none => rw [h5] at h; cases h
    | some p5 =>
      obtain ⟨score2, st5⟩ := p5
      rw [h5] at h
      simp only [] at h
      have k5 := abFull_keeps rec hrec f _ score1 st4 dfs score2 st5 j hle h5
      cases h6 : abPvs rec f (f.depth - 1 + extension) score2 st5 with
      | none => rw [h6] at h; cases h
      | some p6 =>
        obtain ⟨score3, st6⟩ := p6
        rw [h6] at h
        simp only [] at h
        have k6 := abPvs_keeps rec hrec f _ score2 st5 score3 st6 j hle h6
        have hu := abUpdate_frame env f st6 move capture score3
          (SearchState.makeMove env { st with nodes := (st.nodes + 1) % 2 ^ 64 } move).nodes
        generalize abUpdate env f st6 move capture score3
          (SearchState.makeMove env { st with nodes := (st.nodes + 1) % 2 ^ 64 } move).nodes = u
          at h hu
        obtain ⟨hu1, hu2, hu3⟩ := hu
        have k7 : (u.2.1.stack j).excluded_move = (st.stack j).excluded_move := by
          rw [hu1, k6, k5, k4, h3]
        split_ifs at h
        · have e := abFinish_stack env u.1 u.2.1
          rw [Option.some.inj h] at e
          rw [show st9.stack = u.2.1.stack from e]
          exact k7
        · have hj2 : j < u.1.ss ∨ (j = u.1.ss ∧ u.1.node = .ROOT) := by
            rw [hu2, hu3]; exact hj
          rw [keeps_out hrec h j (own_abloop _ j hj2)]
          exact k7

/-- One step of a pending computation keeps the excluded moves if the
computations it starts do. -/
theorem searchStep_keeps (env : Env) (rec : Call → SearchState → Option (Int × SearchState))
    (hrec : Keeps rec) : Keeps (searchStep env rec) := by
  intro call st v st9 j hj h
  cases call with
  | q node alpha beta ss =>
    have hq := qEntry_stack env node alpha beta ss st
    simp only [searchStep] at h
    cases hr : qEntry env node alpha beta ss st with
    | inl r =>
      rw [hr] at h hq
      simp only [] at h hq
      rw [Option.some.inj h] at hq
      rw [show st9.stack = st.stack from hq]
    | inr p =>
      obtain ⟨f, st1⟩ := p
      rw [hr] at h hq
      simp only [] at h hq
      have hj2 : j < (Call.qloop f).frame ∨
          (j = (Call.qloop f).frame ∧ (Call.qloop f).keepsOwn = true) := by
        show j < f.ss ∨ (j = f.ss ∧ true = true)
        rw [hq.2]
        exact hj
      rw [keeps_out hrec h j hj2, hq.1]
  | qloop f =>
    have hle : j ≤ f.ss := by
      rcases hj with h | h
      · exact le_of_lt h
      · exact le_of_eq h.1
    exact qLoop_keeps env rec hrec f st v st9 j hle h
  | ab node depth alpha beta ss =>
    have hq := abEntry_kept env node depth alpha beta ss st
    have hle : j ≤ ss := by
      rcases hj with h | h
      · exact le_of_lt h
      · exact le_of_eq h.1
    have hne : j ≠ ss + 1 := by omega
    have hown : j < ss ∨ (j = ss ∧ node = .ROOT) := by
      rcases hj with h | h
      · exact Or.inl h
      · exact Or.inr ⟨h.1, of_decide_eq_true h.2⟩
    simp only [searchStep] at h
    cases hr : abEntry env node depth alpha beta ss st with
    | ret v1 st1 =>
      rw [hr] at h hq
      simp only [] at h
      have e := congrArg (fun p => p.2) (Option.some.inj h)
      simp only [] at e
      rw [← e]
      exact hq j hne
    | tailQ node1 a b ss1 st1 =>
      rw [hr] at h hq
      simp only [] at h
      have hj2 : j < (Call.q node1 a b ss1).frame ∨
          (j = (Call.q node1 a b ss1).frame ∧ (Call.q node1 a b ss1).keepsOwn = true) := by
        show j < ss1 ∨ (j = ss1 ∧ true = true)
        rw [hq.1]
        rcases lt_or_eq_of_le hle with h | h
        · exact Or.inl h
        · exact Or.inr ⟨h, rfl⟩
      rw [keeps_out hrec h j hj2]
      exact hq.2 j hne
    | moves f st1 =>
      rw [hr] at h hq
      simp only [] at h
      have hj2 : j < f.ss ∨ (j = f.ss ∧ f.node = .ROOT) := by
        rw [hq.1.1, hq.1.2]; exact hown
      rw [keeps_out hrec h j (own_abloop f j hj2)]
      exact hq.2 j hne
    | nmp f R st1 =>
      rw [hr] at h hq
      simp only [] at h
      have hj2 : j < f.ss ∨ (j = f.ss ∧ f.node = .ROOT) := by
        rw [hq.1.1, hq.1.2]; exact hown
      rw [abNull_keeps env rec hrec f R st1 v st9 j hj2 h]
      exact hq.2 j hne
  | abloop f =>
    have hown : j < f.ss ∨ (j = f.ss ∧ f.node = .ROOT) := by
      rcases hj with h | h
      · exact Or.inl h
      · exact Or.inr ⟨h.1, of_decide_eq_true h.2⟩
    exact abLoop_keeps env rec hrec f st v st9 j hown h
  | abmove f move capture extension =>
    have hown : j < f.ss ∨ (j = f.ss ∧ f.node = .ROOT) := by
      rcases hj with h | h
      · exact Or.inl h
      · exact Or.inr ⟨h.1, of_decide_eq_true h.2⟩
    exact abMove_keeps env rec hrec f move capture extension st v st9 j hown h

/-- The search keeps the excluded moves of the frames below the one it is
called with, and that of the frame itself in `qsearch` and at the root. -/
theorem search_keeps (env : Env) : ∀ n, Keeps (search env n)
  | 0 => fun _ _ _ _ _ _ h => by cases h
  | n + 1 => searchStep_keeps env (search env n) (search_keeps env n)

/-! ## The window on every entry (`search.cpp`, lines 103, 257, 627-656) -/

theorem some_pair_inj {a c : Int} {b d : SearchState} (h : some (a, b) = some (c, d)) :
    a = c ∧ b = d := by
  cases h
  exact ⟨rfl, rfl⟩

theorem readStop_ok (env : Env) (st : SearchState) (h : StateOK st) :
    StateOK (readStop env st).2 := ⟨h.1, h.2⟩

/-- The loop of `aspirationSearch` calls `absearch<ROOT>` with a window in
every turn, and returns a score inside the band from a good state. -/
theorem aspirationLoop_sound (env : Env) (hs : env.Sane) (n : Nat) (depth ss : Int)
    (hss : 0 ≤ ss) : ∀ (k : Nat) (alpha beta delta : Int) (st : SearchState) (v : Int)
    (st9 : SearchState),
    AspInv (aspirationClamp alpha beta).1 (aspirationClamp alpha beta).2 delta → StateOK st →
    (st.stack ss).excluded_move = NO_MOVE →
    aspirationLoop env n depth ss k alpha beta delta st = some (v, st9) →
    Band v ∧ StateOK st9 := by
  intro k
  induction k with
  | zero =>
    intro alpha beta delta st v st9 _ _ _ h
    cases h
  | succ k ih =>
    intro alpha beta delta st v st9 hinv hst hroot h
    rw [aspirationLoop] at h
    simp only [] at h
    generalize aspirationClamp alpha beta = w at h hinv
    cases hr : search env n (.ab .ROOT depth w.1 w.2 ss) st with
    | none => rw [hr] at h; cases h
    | some p =>
      obtain ⟨result, st1⟩ := p
      rw [hr] at h
      simp only [] at h
      have hsound := search_sound env hs n (.ab .ROOT depth w.1 w.2 ss) st result st1 hst
        ⟨hinv.1, hss, fun _ => hroot⟩ hr
      have hkeep : (st1.stack ss).excluded_move = (st.stack ss).excluded_move :=
        search_keeps env n (.ab .ROOT depth w.1 w.2 ss) st result st1 ss (Or.inr ⟨rfl, rfl⟩) hr
      have hok := readStop_ok env st1 hsound.2
      have hroot2 : ((readStop env st1).2.stack ss).excluded_move = NO_MOVE := by
        rw [← hroot, ← hkeep]; rfl
      generalize readStop env st1 = r at h hok hroot2
      by_cases h1 : r.1 = true
      · rw [if_pos h1] at h
        obtain ⟨e1, e2⟩ := some_pair_inj h
        rw [← e1, ← e2]
        exact ⟨zero_band, hok⟩
      rw [if_neg h1] at h
      by_cases h2 : env.id = 0 ∧ r.2.limit.nodes ≠ 0 ∧ r.2.nodes ≥ r.2.limit.nodes
      · rw [if_pos h2] at h
        obtain ⟨e1, e2⟩ := some_pair_inj h
        rw [← e1, ← e2]
        exact ⟨zero_band, hok⟩
      rw [if_neg h2] at h
      cases hn : aspirationNext w.1 w.2 delta result with
      | none =>
        rw [hn] at h
        obtain ⟨e1, e2⟩ := some_pair_inj h
        rw [← e1, ← e2]
        exact ⟨hsound.1, hok⟩
      | some q =>
        obtain ⟨alpha1, beta1, delta1⟩ := q
        rw [hn] at h
        simp only [] at h
        exact ih alpha1 beta1 delta1 r.2 v st9
          (aspInv_next w.1 w.2 delta result alpha1 beta1 delta1 hinv hsound.1 hn) hok hroot2 h

/-- C16: `alpha < beta` holds on every entry to `absearch` and `qsearch`.
For an environment as in C10, a previous score strictly inside
`(-VALUE_INFINITE, VALUE_INFINITE)` and the stack as `iterativeDeepening`
sets it up: the first window of `aspirationSearch`, as clamped for the root
search, satisfies `-VALUE_INFINITE <= alpha < beta <= VALUE_INFINITE`; so
does the window of the next root search after a root search that failed
low or high with a result in the band; every run of `aspirationSearch`
that returns does so with a score in the band and without a failure of the
window assertions of `qsearch` (line 103) and `absearch` (line 257), which
every entry that passes the limit guard (and, in `absearch`, the drop into
`qsearch`) executes; and the same holds for every `absearch` or `qsearch`
call entered with such a window, whatever recursive calls (zero-window,
full-window, null-move, singular, `qsearch`) it makes. -/
theorem window_on_every_entry (env : Env) (hs : env.Sane) (n k : Nat)
    (depth prev_eval ss : Int) (st : SearchState) (hst : StateOK st) (hp : Band prev_eval)
    (hss : 0 ≤ ss) (hroot : (st.stack ss).excluded_move = NO_MOVE) :
    Window
      (aspirationClamp (if depth ≥ 9 then toInt16 (prev_eval - 30) else -VALUE_INFINITE)
        (if depth ≥ 9 then toInt16 (prev_eval + 30) else VALUE_INFINITE)).1
      (aspirationClamp (if depth ≥ 9 then toInt16 (prev_eval - 30) else -VALUE_INFINITE)
        (if depth ≥ 9 then toInt16 (prev_eval + 30) else VALUE_INFINITE)).2 ∧
    (∀ a b delta r a1 b1 delta1, AspInv a b delta → Band r →
      aspirationNext a b delta r = some (a1, b1, delta1) →
      AspInv (aspirationClamp a1 b1).1 (aspirationClamp a1 b1).2 delta1 ∧
      Window (aspirationClamp a1 b1).1 (aspirationClamp a1 b1).2) ∧
    (∀ v st9, aspirationSearch env n k depth prev_eval ss st = some (v, st9) →
      Band v ∧ st9.assert_failed = false) ∧
    (∀ node d alpha beta v st9, Window alpha beta → node ≠ .ROOT →
      (search env n (.ab node d alpha beta ss) st = some (v, st9) ∨
        search env n (.q node alpha beta ss) st = some (v, st9)) →
      Band v ∧ st9.assert_failed = false) := by
  have h0 := aspInv_init depth prev_eval hp
  refine ⟨h0.1, ?_, ?_, ?_⟩
  · intro a b delta r a1 b1 delta1 hi hr hn
    have := aspInv_next a b delta r a1 b1 delta1 hi hr hn
    exact ⟨this, this.1⟩
  · intro v st9 h
    have := aspirationLoop_sound env hs n depth ss hss k _ _ 30 st v st9 h0 hst hroot h
    exact ⟨this.1, this.2.2⟩
  · intro node d alpha beta v st9 hw hn h
    rcases h with h | h
    · have := search_sound env hs n (.ab node d alpha beta ss) st v st9 hst
        ⟨hw, hss, fun e => absurd e hn⟩ h
      exact ⟨this.1, this.2.2⟩
    · have := search_sound env hs n (.q node alpha beta ss) st v st9 hst ⟨hw, hss⟩ h
      exact ⟨this.1, this.2.2⟩

set_option maxRecDepth 100000 in
/-- Witness for C16: depth 9 after a previous score of 100 on `sampleBoard`:
the windows are (70, 130), (40, 100) and (-5, 70); the root search returns 0
each time and the run ends with 0 and no failed assertion. -/
theorem window_on_every_entry_witness :
    (aspirationSearch sampleEnv 6 5 9 100 0 sampleState).map
      (fun r => (r.1, r.2.assert_failed)) = some (0, false) ∧
    Window 70 130 :=
  ⟨by decide, (window_on_every_entry sampleEnv sampleEnv_sane 6 5 9 100 0 sampleState
    sampleState_ok ⟨by decide, by decide⟩ (by decide) rfl).1⟩

/-! ## Repetition score (`search.cpp`, lines 111, 236) -/

theorem and_two (n : Nat) : n &&& 2 = if n.testBit 1 then 2 else 0 := by
  have h := Nat.and_two_pow n 1
  rw [pow_one] at h
  rw [h]
  cases n.testBit 1 <;> rfl

/-- C21: the value `-1 + (nodes & 0x2)` returned on a detected repetition
is -1 when bit 1 of the node counter is clear and +1 when it is set; it is
never 0, for every node count. -/
theorem repetitionScore_values (nodes : Nat) :
    repetitionScore nodes = (if nodes.testBit 1 then 1 else -1) ∧ repetitionScore nodes ≠ 0 := by
  unfold repetitionScore
  rw [and_two]
  cases nodes.testBit 1 <;> decide

/-! ## Castling-rights bit field (`board.h`, lines 20-52) -/

theorem testBit_of_lt_16 (v j : Nat) (hv : v < 16) (hj : 4 ≤ j) : v.testBit j = false := by
  apply Nat.testBit_lt_two_pow
  calc v < 16 := hv
    _ = 2 ^ 4 := by norm_num
    _ ≤ 2 ^ j := Nat.pow_le_pow_right (by norm_num) hj

theorem testBit_fifteen (j : Nat) : (15 : Nat).testBit j = decide (j < 4) := by
  by_cases hj : j < 4
  · interval_cases j <;> decide
  · rw [testBit_of_lt_16 15 j (by norm_num) (by omega), decide_eq_false hj]

/-- The mask `~(0xF << startBit)` is clear at the four bits of the group. -/
theorem mask_testBit (i j : Nat) (hi : i < 4) (hj : j < 4) :
    (65535 ^^^ ((15 <<< (i * 4)) % 65536)).testBit (i * 4 + j) = false := by
  interval_cases i <;> interval_cases j <;> decide

theorem setMask_testBit (v s k : Nat) (hs : s ≤ k) (hk : k < 16) :
    ((v <<< s) % 65536).testBit k = v.testBit (k - s) := by
  rw [show (65536 : Nat) = 2 ^ 16 from rfl, Nat.testBit_mod_two_pow, Nat.testBit_shiftLeft,
    decide_eq_true hk, decide_eq_true (show k ≥ s from hs)]
  rfl

/-- C30: for every group index `i < 4` and value `v < 16`,
`setGroupValue(i, v)` followed by `getGroup(i)` returns `v`, from any prior
value of the bit field. -/
theorem getGroup_setGroupValue (b : BitField16) (i v : Nat) (hi : i < 4) (hv : v < 16) :
    (b.setGroupValue i v).getGroup i = v := by
  unfold BitField16.setGroupValue BitField16.getGroup
  simp only []
  apply Nat.eq_of_testBit_eq
  intro j
  rw [Nat.testBit_and, Nat.testBit_shiftRight, Nat.testBit_or, Nat.testBit_and,
    testBit_fifteen]
  by_cases hj : j < 4
  · rw [mask_testBit i j hi hj, setMask_testBit v (i * 4) (i * 4 + j) (Nat.le_add_right _ _)
      (by omega), Nat.add_sub_cancel_left, decide_eq_true hj, Bool.and_false, Bool.false_or,
      Bool.and_true]
  · rw [decide_eq_false hj, Bool.and_false, testBit_of_lt_16 v j hv (by omega)]

/-- Witness for C30: group 2 of the bit field `0xFFFF` set to 9. -/
theorem getGroup_setGroupValue_witness :
    ((⟨65535⟩ : BitField16).setGroupValue 2 9).getGroup 2 = 9 :=
  getGroup_setGroupValue ⟨65535⟩ 2 9 (by decide) (by decide)

/-! ## Late-move reduction (`search.cpp`, lines 486-539) -/

theorem clamp_bounds (v lo hi : Int) (h : lo ≤ hi) :
    lo ≤ clamp v lo hi ∧ clamp v lo hi ≤ hi := by
  unfold clamp
  split_ifs <;> constructor <;> omega

/-- C26: whenever late-move reduction is entered (`depth >= 3`, not in
check, `made_moves > 3 + 2 * pv_node`), with `newDepth = depth - 1 +
extension` for an extension that is not negative: the bounds of
`std::clamp` satisfy `1 <= newDepth + 1`; the reduced depth satisfies
`1 <= rdepth <= newDepth + 1` whatever the reduction table, the worker id,
`improving`, the node kind and `capture` are; and the reduced search is
followed by the full-depth zero-window search iff `score > alpha` and
`rdepth < newDepth`. -/
theorem lmr_reduced_depth (env : Env) (rec : Call → SearchState → Option (Int × SearchState))
    (f : ABFrame) (capture : Bool) (extension : Int) (st3 : SearchState)
    (hd : f.depth ≥ 3) (hc : f.in_check = false)
    (hm : (f.made_moves : Int) > 3 + 2 * (if decide (f.node ≠ .NONPV) = true then 1 else 0))
    (he : 0 ≤ extension) :
    (1 : Int) ≤ f.depth - 1 + extension + 1 ∧
    1 ≤ lmrDepth env f capture (f.depth - 1 + extension) ∧
    lmrDepth env f capture (f.depth - 1 + extension) ≤ f.depth - 1 + extension + 1 ∧
    (abLmr env rec f capture (f.depth - 1 + extension) st3).bind
        (fun p => abFull rec f (f.depth - 1 + extension) p.1 p.2.1 p.2.2) =
      (rec (.ab .NONPV (lmrDepth env f capture (f.depth - 1 + extension))
          (toInt16 (-f.alpha - 1)) (toInt16 (-f.alpha)) (f.ss + 1)) st3).bind
        (fun r =>
          if toInt16 (-r.1) > f.alpha ∧
              lmrDepth env f capture (f.depth - 1 + extension) < f.depth - 1 + extension then
            (rec (.ab .NONPV (f.depth - 1 + extension) (toInt16 (-f.alpha - 1))
              (toInt16 (-f.alpha)) (f.ss + 1)) r.2).map (fun r2 => (toInt16 (-r2.1), r2.2))
          else some (toInt16 (-r.1), r.2)) := by
  have h1 : (1 : Int) ≤ f.depth - 1 + extension + 1 := by omega
  have hcl := clamp_bounds
    (f.depth - 1 + extension -
      (env.reductions f.depth f.made_moves - Int.tmod env.id 2 + (if f.improving then 1 else 0) -
        (if decide (f.node ≠ .NONPV) then 1 else 0) - (if capture then 1 else 0)))
    1 (f.depth - 1 + extension + 1) h1
  refine ⟨h1, hcl.1, hcl.2, ?_⟩
  have hl : decide (f.depth ≥ 3 ∧ f.in_check = false ∧
      (f.made_moves : Int) > 3 + 2 * (if decide (f.node ≠ .NONPV) = true then 1 else 0)) = true :=
    decide_eq_true ⟨hd, hc, hm⟩
  unfold abLmr
  simp only []
  rw [hl, if_pos rfl]
  generalize lmrDepth env f capture (f.depth - 1 + extension) = rdepth
  cases hr : rec (.ab .NONPV rdepth (toInt16 (-f.alpha - 1)) (toInt16 (-f.alpha)) (f.ss + 1))
      st3 with
  | none => rfl
  | some p =>
    obtain ⟨r, s⟩ := p
    simp only [Option.some_bind]
    unfold abFull
    by_cases hq : toInt16 (-r) > f.alpha ∧ rdepth < f.depth - 1 + extension
    · rw [if_pos hq, decide_eq_true hq, if_pos rfl]
      cases rec (.ab .NONPV (f.depth - 1 + extension) (toInt16 (-f.alpha - 1))
        (toInt16 (-f.alpha)) (f.ss + 1)) s with
      | none => rfl
      | some q => rfl
    · rw [if_neg hq, decide_eq_false hq, if_neg (by decide)]

/-- Witness for C26: the fifth move of a non-PV node of depth 4, without
extension (`newDepth = 3`); the reduced depth is within [1, 4]. -/
theorem lmr_reduced_depth_witness :
    1 ≤ lmrDepth sampleEnv lmrFrame false (4 - 1 + 0) ∧
    lmrDepth sampleEnv lmrFrame false (4 - 1 + 0) ≤ 4 - 1 + 0 + 1 :=
  ⟨(lmr_reduced_depth sampleEnv (search sampleEnv 2) lmrFrame false 0 sampleState (by decide)
      rfl (by decide) (by decide)).2.1,
    (lmr_reduced_depth sampleEnv (search sampleEnv 2) lmrFrame false 0 sampleState (by decide)
      rfl (by decide) (by decide)).2.2.1⟩

/-! ## Transposition-table cutoff (`search.cpp`, lines 273-297) -/

set_option maxRecDepth 100000 in
/-- C22, as stated, fails: at a non-root, non-PV node of depth 3 with a hit
on an exact entry of depth 10 and score 50, the node returns 50; with an
excluded move set (inside a singular-extension search) the same node does
not return the table score but searches on and returns `alpha = 12`; and
where the table score reads `VALUE_NONE` the node does not return it but
13. -/
theorem tt_cutoff_counterexample :
    (search hitEnv 3 (.ab .NONPV 3 12 13 1) sampleState).map Prod.fst = some 50 ∧
    (excludedState.stack 1).excluded_move = sampleQuiet ∧
    (search hitEnv 3 (.ab .NONPV 3 12 13 1) excludedState).map Prod.fst = some 12 ∧
    scoreFromTT 32003 1 = VALUE_NONE ∧
    (search noneEnv 3 (.ab .NONPV 3 12 13 1) sampleState).map Prod.fst = some 13 := by
  decide

/-- C22 (amended): at every non-root, non-PV node with a hit whose stored
depth is at least the current depth and whose previous-ply move is not
`NULL_MOVE`: if no excluded move is set and the table score is not
`VALUE_NONE`, an exact entry makes the node return the table score, a
lower bound raises `alpha` to `max(alpha, tt_score)`, an upper bound lowers
`beta` to `min(beta, tt_score)`, and the node returns the table score
whenever `alpha >= beta` afterwards (else it goes on to the tablebase step
with that window); if an excluded move is set or the table score is
`VALUE_NONE`, the entry is not used and the node goes on with its window
unchanged. -/
theorem abCut_tt_cutoff (env : Env) (depth1 alpha1 beta1 : Int) (ss : Int) (color : Color)
    (in_check : Bool) (excluded_move : Move) (key : Nat) (tt_hit : Bool) (ttmove : Move)
    (tte : TEntry) (tt_score : Int) (st4 : SearchState) (hh : tt_hit = true)
    (hd : tte.depth ≥ depth1) (hp : (st4.stack (ss - 1)).currentmove ≠ NULL_MOVE) :
    (excluded_move = NO_MOVE ∧ tt_score ≠ VALUE_NONE →
      abCut env .NONPV depth1 alpha1 beta1 ss color in_check excluded_move key tt_hit ttmove
          tte tt_score st4 =
        match specTTCut tte.flag alpha1 beta1 tt_score with
        | .inl v => .ret v st4
        | .inr w => abTb env .NONPV depth1 w.1 w.2 ss color in_check excluded_move key tt_hit
            ttmove tt_score st4) ∧
    (excluded_move ≠ NO_MOVE ∨ tt_score = VALUE_NONE →
      abCut env .NONPV depth1 alpha1 beta1 ss color in_check excluded_move key tt_hit ttmove
          tte tt_score st4 =
        abTb env .NONPV depth1 alpha1 beta1 ss color in_check excluded_move key tt_hit ttmove
          tt_score st4) := by
  constructor
  · rintro ⟨he, hv⟩
    have hcut : decide (decide (Node.NONPV = Node.ROOT) = false ∧ excluded_move = NO_MOVE ∧
        decide (Node.NONPV ≠ Node.NONPV) = false ∧ tt_hit = true ∧ tt_score ≠ VALUE_NONE ∧
        tte.depth ≥ depth1 ∧ (st4.stack (ss - 1)).currentmove ≠ NULL_MOVE) = true :=
      decide_eq_true ⟨by decide, he, by decide, hh, hv, hd, hp⟩
    unfold abCut specTTCut
    simp only []
    rw [hcut]
    simp only [true_and]
    by_cases h1 : tte.flag = .EXACTBOUND
    · rw [if_pos h1, if_pos h1]
    · rw [if_neg h1, if_neg h1]
      split_ifs <;> rfl
  · intro h
    have hcut : decide (decide (Node.NONPV = Node.ROOT) = false ∧ excluded_move = NO_MOVE ∧
        decide (Node.NONPV ≠ Node.NONPV) = false ∧ tt_hit = true ∧ tt_score ≠ VALUE_NONE ∧
        tte.depth ≥ depth1 ∧ (st4.stack (ss - 1)).currentmove ≠ NULL_MOVE) = false := by
      apply decide_eq_false
      rintro ⟨_, he, _, _, hv, _⟩
      rcases h with h | h
      · exact h he
      · exact hv h
    unfold abCut
    simp only []
    rw [hcut]
    simp only [Bool.false_eq_true, false_and, if_false]

/-- Witness for C22: the exact entry of `hitEnv` (depth 10, score 50) at a
non-PV node of depth 3 on the window (12, 13). -/
theorem abCut_tt_cutoff_witness :
    abCut hitEnv .NONPV 3 12 13 1 .White false NO_MOVE 5 true NO_MOVE
        ⟨5, 50, NO_MOVE, 10, .EXACTBOUND⟩ 50 sampleState = .ret 50 sampleState ∧
    abCut hitEnv .NONPV 3 12 13 1 .White false sampleQuiet 5 true NO_MOVE
        ⟨5, 50, NO_MOVE, 10, .EXACTBOUND⟩ 50 sampleState =
      abTb hitEnv .NONPV 3 12 13 1 .White false sampleQuiet 5 true NO_MOVE 50 sampleState :=
  ⟨(abCut_tt_cutoff hitEnv 3 12 13 1 .White false NO_MOVE 5 true NO_MOVE
      ⟨5, 50, NO_MOVE, 10, .EXACTBOUND⟩ 50 sampleState rfl (by decide) (by decide)).1
      ⟨rfl, by decide⟩,
    (abCut_tt_cutoff hitEnv 3 12 13 1 .White false sampleQuiet 5 true NO_MOVE
      ⟨5, 50, NO_MOVE, 10, .EXACTBOUND⟩ 50 sampleState rfl (by decide) (by decide)).2
      (Or.inl (by decide))⟩

/-! ## Store at the end of `absearch` (`search.cpp`, lines 599-610) -/

theorem assertBand_tt (v : Int) (st : SearchState) : (assertBand v st).tt = st.tt := by
  unfold assertBand
  split_ifs <;> rfl

theorem abFinish_value (env : Env) (f : ABFrame) (st : SearchState) :
    (abFinish env f st).1 = abFinishValue f (st.stack f.ss).ply := by
  unfold abFinish abFinishValue
  simp only []
  split_ifs <;> rfl

theorem abFinish_tt (env : Env) (f : ABFrame) (st : SearchState) :
    (abFinish env f st).2.tt =
      if f.excluded_move = NO_MOVE ∧ (readStop env st).1 = false then
        st.tt.store f.depth (scoreToTT (abFinishValue f (st.stack f.ss).ply) (st.stack f.ss).ply)
          (specStoreFlag (abFinishValue f (st.stack f.ss).ply) f.beta (decide (f.node ≠ .NONPV))
            f.bestmove)
          (env.hash st.tb.board) f.bestmove
      else st.tt := by
  by_cases he : f.excluded_move = NO_MOVE
  · by_cases hr : (readStop env st).1 = true
    · have h1 : ¬ ((!(readStop env st).1) = true) := by rw [hr]; decide
      have h2 : ¬ (f.excluded_move = NO_MOVE ∧ (readStop env st).1 = false) := by
        rw [hr]; exact fun h => absurd h.2 (by decide)
      rw [if_neg h2]
      unfold abFinish
      simp only []
      rw [if_pos he, if_neg h1, assertBand_tt]
      rfl
    · have hr2 : (readStop env st).1 = false := Bool.eq_false_iff.mpr hr
      have h1 : (!(readStop env st).1) = true := by rw [hr2]; rfl
      have h2 : f.excluded_move = NO_MOVE ∧ (readStop env st).1 = false := ⟨he, hr2⟩
      rw [if_pos h2]
      unfold abFinish
      simp only []
      rw [if_pos he, if_pos h1, assertBand_tt]
      rfl
  · have h2 : ¬ (f.excluded_move = NO_MOVE ∧ (readStop env st).1 = false) := fun h => he h.1
    rw [if_neg h2]
    unfold abFinish
    simp only []
    rw [if_neg he, assertBand_tt]

/-- C23: at the end of `absearch` the table is written iff no excluded move
is set and the stop flag reads clear; what is stored is the depth of the
node, `scoreToTT(best, ply)` for the value `best` that is returned, the
hash of the position, the best move, and the bound: a lower bound if
`best >= beta`, otherwise exact if the node is a PV node and a best move
was found, otherwise an upper bound. -/
theorem abFinish_store (env : Env) (f : ABFrame) (st : SearchState) :
    (abFinish env f st).2.tt =
      if f.excluded_move = NO_MOVE ∧ (readStop env st).1 = false then
        st.tt.store f.depth (scoreToTT (abFinish env f st).1 (st.stack f.ss).ply)
          (specStoreFlag (abFinish env f st).1 f.beta (decide (f.node ≠ .NONPV)) f.bestmove)
          (env.hash st.tb.board) f.bestmove
      else st.tt := by
  rw [abFinish_value]
  exact abFinish_tt env f st

/-! ## Null-move pruning (`search.cpp`, lines 383-402) -/

set_option maxRecDepth 100000 in
/-- C25, as stated, fails: at a non-PV node of depth 3 on the window
(31899, 31900) whose table entry gives the evaluation 31950, the null-move
search (reduction 5) fails high with a score in the tablebase-win range,
and `absearch` returns `beta = 31900`, which is not below
`VALUE_TB_WIN_IN_MAX_PLY = 31744`. -/
theorem null_move_beta_counterexample :
    nullStep.reduction = some 5 ∧ nullStep.frame.beta = 31900 ∧
    (abNull nullEnv (search nullEnv 3) nullStep.frame 5 nullStep.state).map Prod.fst
      = some 31900 ∧
    (search nullEnv 4 (.ab .NONPV 3 31899 31900 1) sampleState).map Prod.fst = some 31900 ∧
    ¬ (31900 < VALUE_TB_WIN_IN_MAX_PLY) := by
  decide

/-- C25 (amended): whenever `absearch` returns from the null-move branch
(the null-move search returned `r` and `score = -r >= beta`), the returned
value is `beta` if `score >= VALUE_TB_WIN_IN_MAX_PLY` and `score`
otherwise: it is at least `beta`, and it is below
`VALUE_TB_WIN_IN_MAX_PLY` or equal to `beta`; it is below
`VALUE_TB_WIN_IN_MAX_PLY` whenever `beta` is. -/
theorem abNull_cutoff_value (env : Env) (rec : Call → SearchState → Option (Int × SearchState))
    (f : ABFrame) (R : Int) (st1 : SearchState) (r : Int)
    (hr : (rec (.ab .NONPV (f.depth - R) (toInt16 (-f.beta)) (toInt16 (-f.beta + 1)) (f.ss + 1))
      { st1 with tb := { st1.tb with board := env.makeNullMove st1.tb.board }
                 stack := setCurrent st1.stack f.ss NULL_MOVE }).map Prod.fst = some r)
    (hcut : toInt16 (-r) ≥ f.beta) :
    (abNull env rec f R st1).map Prod.fst =
      some (if toInt16 (-r) ≥ VALUE_TB_WIN_IN_MAX_PLY then f.beta else toInt16 (-r)) ∧
    (if toInt16 (-r) ≥ VALUE_TB_WIN_IN_MAX_PLY then f.beta else toInt16 (-r)) ≥ f.beta ∧
    ((if toInt16 (-r) ≥ VALUE_TB_WIN_IN_MAX_PLY then f.beta else toInt16 (-r))
        < VALUE_TB_WIN_IN_MAX_PLY ∨
      (if toInt16 (-r) ≥ VALUE_TB_WIN_IN_MAX_PLY then f.beta else toInt16 (-r)) = f.beta) ∧
    (f.beta < VALUE_TB_WIN_IN_MAX_PLY →
      (if toInt16 (-r) ≥ VALUE_TB_WIN_IN_MAX_PLY then f.beta else toInt16 (-r))
        < VALUE_TB_WIN_IN_MAX_PLY) := by
  refine ⟨?_, ?_, ?_, ?_⟩
  · unfold abNull
    simp only []
    cases hc : rec (.ab .NONPV (f.depth - R) (toInt16 (-f.beta)) (toInt16 (-f.beta + 1))
        (f.ss + 1))
        { st1 with tb := { st1.tb with board := env.makeNullMove st1.tb.board }
                   stack := setCurrent st1.stack f.ss NULL_MOVE } with
    | none => rw [hc] at hr; cases hr
    | some p =>
      obtain ⟨r1, st3⟩ := p
      rw [hc] at hr
      simp only [Option.map_some', Option.some.injEq] at hr
      subst hr
      simp only []
      rw [if_pos hcut]
      rfl
  · split_ifs <;> omega
  · split_ifs with h
    · exact Or.inr rfl
    · exact Or.inl (by omega)
  · intro hb
    split_ifs <;> omega

set_option maxRecDepth 100000 in
/-- Witness for C25: the null-move search of `nullStep`, which returns
-31950. -/
theorem abNull_cutoff_value_witness :
    (abNull nullEnv (search nullEnv 3) nullStep.frame 5 nullStep.state).map Prod.fst =
      some (if toInt16 (- -31950) ≥ VALUE_TB_WIN_IN_MAX_PLY then nullStep.frame.beta
        else toInt16 (- -31950)) :=
  (abNull_cutoff_value nullEnv (search nullEnv 3) nullStep.frame 5 nullStep.state (-31950)
    (by decide) (by decide)).1

/-! ## Iterative deepening (`search.cpp`, lines 692-729) -/

set_option maxRecDepth 1000000 in
/-- C27, the code at the failing input: after `go` on a position without
legal moves the loop of `iterativeDeepening` runs through every depth up to
`limit.depth = MAX_PLY` (it is left with `depth = MAX_PLY + 1`), and
`absearch<ROOT>` with `depth = MAX_PLY` passes the drop into `qsearch` and
reaches its move loop with that depth, for which `depth < MAX_PLY` is
false. -/
theorem root_depth_reaches_max_ply :
    deepState.limit.depth = MAX_PLY ∧
    (iterativeDeepeningLoop deepEnv id id 3 2 0 130 ⟨NO_MOVE, -VALUE_INFINITE, 1, 0, 0⟩
      (iterativeDeepeningInit deepState)).map (fun r => r.1.depth) = some (MAX_PLY + 1) ∧
    (abEntry deepEnv .ROOT MAX_PLY (-VALUE_INFINITE) VALUE_INFINITE 0
      (iterativeDeepeningInit deepState)).frame.depth = MAX_PLY ∧
    ¬ (0 < MAX_PLY ∧ MAX_PLY < MAX_PLY) := by
  decide

/-- C29, the code at the failing input: with `movetime 100`, after the
iteration of depth 11 and 70 ms into the search the loop of
`iterativeDeepening` is left by the rule of line 728 (the rule of line 718
does not apply: `100 * 110 / 100` is not below 70), though 70 ms is not
more than 75% of the maximum of 100 ms. -/
theorem max_time_rule_at_sixty_percent :
    clockLocals.depth = 11 ∧ clockState.limit.time_maximum = 100 ∧
    clockState.limit.time_optimum = 100 ∧ clockEnv.getTime clockState.tick = 70 ∧
    ¬ (Int.tdiv (clockState.limit.time_optimum * (110 - 0)) 100 < 70) ∧
    (idTimeControl clockEnv id id clockLocals 0 clockState).1 = true ∧
    ¬ (70 * 100 > clockState.limit.time_maximum * 75) := by
  decide

/-! ## Length of the principal variation (`search.cpp`, lines 230, 565-576) -/

theorem samePv_refl (st : SearchState) : SamePv st st := ⟨rfl, rfl, rfl⟩

theorem samePv_trans {a b c : SearchState} (h1 : SamePv a b) (h2 : SamePv b c) : SamePv a c :=
  ⟨h2.1.trans h1.1, h2.2.1.trans h1.2.1, h2.2.2.trans h1.2.2⟩

theorem pvRel_of_same {P : Int → Prop} {st st2 : SearchState} (hp : PlyOK st)
    (h : SamePv st st2) : PvRel P st st2 := by
  refine ⟨fun i => ?_, fun he => ?_, fun j _ => ?_⟩
  · rw [h.1]; exact hp i
  · rw [h.2.1]; exact he
  · rw [h.2.2]

theorem pvRel_trans {P : Int → Prop} {a b c : SearchState} (h1 : PvRel P a b)
    (h2 : PvRel P b c) : PvRel P a c :=
  ⟨h2.1, fun he => h2.2.1 (h1.2.1 he), fun j hj => (h2.2.2 j hj).trans (h1.2.2 j hj)⟩

theorem pvRel_mono {P Q : Int → Prop} {a b : SearchState} (hq : ∀ j, Q j → P j)
    (h : PvRel P a b) : PvRel Q a b :=
  ⟨h.1, h.2.1, fun j hj => h.2.2 j (hq j hj)⟩

/-- An entry that is left alone stays in order. -/
theorem pvAt_of_rel {P : Int → Prop} {st st2 : SearchState} {p : Int} (h : PvRel P st st2)
    (hp : P p) (ha : PvAt st p) : PvAt st2 p := by
  intro he
  have h0 : st.early_return = false := by
    cases hs : st.early_return with
    | false => rfl
    | true => rw [h.2.1 hs] at he; cases he
  rw [h.2.2 p hp]
  exact ha h0

theorem pvAt_of_same {st st2 : SearchState} {p : Int} (h : SamePv st st2) (ha : PvAt st p) :
    PvAt st2 p := by
  intro he
  rw [h.2.1] at he
  rw [h.2.2]
  exact ha he

theorem limitReached_samePv (env : Env) (st : SearchState) :
    SamePv st (limitReached env st).2 := by
  unfold limitReached readStop
  simp only []
  split_ifs <;> exact ⟨rfl, rfl, rfl⟩

theorem assertWindow_samePv (alpha beta : Int) (st : SearchState) :
    SamePv st (assertWindow alpha beta st) := by
  unfold assertWindow
  split_ifs <;> exact ⟨rfl, rfl, rfl⟩

theorem assertZero_samePv (pv : Bool) (alpha beta : Int) (st : SearchState) :
    SamePv st (assertZero pv alpha beta st) := by
  unfold assertZero
  split_ifs <;> exact ⟨rfl, rfl, rfl⟩

theorem assertBand_samePv (v : Int) (st : SearchState) : SamePv st (assertBand v st) := by
  unfold assertBand
  split_ifs <;> exact ⟨rfl, rfl, rfl⟩

theorem tbProbe_samePv (env : Env) (root pv : Bool) (depth alpha beta ply : Int)
    (st : SearchState) : SamePv st (tbProbe env root pv depth alpha beta ply st).2 := by
  unfold tbProbe
  simp only []
  split_ifs <;> exact ⟨rfl, rfl, rfl⟩

theorem qFinish_samePv (env : Env) (f : QFrame) (st : SearchState) :
    SamePv st (qFinish env f st).2 := by
  unfold qFinish
  simp only []
  refine samePv_trans ?_ (assertBand_samePv _ _)
  split_ifs <;> exact ⟨rfl, rfl, rfl⟩

theorem abFinish_samePv (env : Env) (f : ABFrame) (st : SearchState) :
    SamePv st (abFinish env f st).2 := by
  unfold abFinish
  simp only []
  split_ifs <;> refine samePv_trans ?_ (assertBand_samePv _ _) <;> exact ⟨rfl, rfl, rfl⟩

/-- `qsearch` before its move loop leaves the stack, the record of early
returns and `pv_length_` alone. -/
theorem qEntry_samePv (env : Env) (node : Node) (alpha beta ss : Int) (st : SearchState) :
    match qEntry env node alpha beta ss st with
    | .inl r => SamePv st r.2
    | .inr r => SamePv st r.2 := by
  have hl := limitReached_samePv env st
  unfold qEntry
  generalize limitReached env st = lr at hl
  have ha : SamePv st (assertZero (decide (node = .PV)) alpha beta
      (assertWindow alpha beta lr.2)) :=
    samePv_trans hl (samePv_trans (assertWindow_samePv _ _ _) (assertZero_samePv _ _ _ _))
  simp only []
  generalize assertZero (decide (node = .PV)) alpha beta (assertWindow alpha beta lr.2) = st1
    at ha
  split_ifs <;> first
    | exact hl
    | exact ha

theorem setEval_ply (s : Int → Stack) (i : Int) (v : Int) (j : Int) :
    (setEval s i v j).ply = (s j).ply := by
  unfold setEval
  split_ifs <;> rfl

theorem setCurrent_ply (s : Int → Stack) (i : Int) (m : Move) (j : Int) :
    (setCurrent s i m j).ply = (s j).ply := by
  unfold setCurrent
  split_ifs <;> rfl

theorem setExcluded_ply (s : Int → Stack) (i : Int) (m : Move) (j : Int) :
    (setExcluded s i m j).ply = (s j).ply := by
  unfold setExcluded
  split_ifs <;> rfl

/-- A state that differs in the frames' `eval`, `currentmove` or
`excluded_move` only is related to the state it comes from. -/
theorem pvRel_of_fields {P : Int → Prop} {st st2 : SearchState} (hp : PlyOK st)
    (h1 : ∀ j, (st2.stack j).ply = (st.stack j).ply)
    (h2 : st2.early_return = st.early_return) (h3 : st2.pv_length_ = st.pv_length_) :
    PvRel P st st2 := by
  refine ⟨fun i => ?_, fun he => ?_, fun j _ => ?_⟩
  · rw [h1]; exact hp i
  · rw [h2]; exact he
  · rw [h3]

theorem pvAt_of_fields {st st2 : SearchState} {p : Int}
    (h2 : st2.early_return = st.early_return) (h3 : st2.pv_length_ = st.pv_length_)
    (ha : PvAt st p) : PvAt st2 p := by
  intro he
  rw [h2] at he
  rw [h3]
  exact ha he

theorem abPrune_pv (env : Env) (f : ABFrame) (st1 : SearchState) (ev : Int)
    (improving : Bool) (d2 : Int) (st0 : SearchState) (ss : Int)
    (hf : f.ss = ss ∧ f.made_moves ≤ f.idx) (hr : PvRel (fun j => j < ss) st0 st1)
    (ha : PvAt st1 ss) : (abPrune env f st1 ev improving d2).PvKept st0 ss := by
  unfold abPrune
  simp only []
  split_ifs <;> first
    | exact ⟨hr, ha⟩
    | exact ⟨hf.1, hr, ha⟩
    | exact ⟨hf, hr, ha⟩

theorem abStatic_pv (env : Env) (f : ABFrame) (st : SearchState) (st0 : SearchState)
    (ss : Int) (hf : f.ss = ss ∧ f.made_moves ≤ f.idx)
    (hr : PvRel (fun j => j < ss) st0 st) (ha : PvAt st ss) :
    (abStatic env f st).PvKept st0 ss := by
  have hk : ∀ v, PvRel (fun j => j < ss) st0
      ({ st with stack := setEval st.stack f.ss v } : SearchState) ∧
      PvAt ({ st with stack := setEval st.stack f.ss v } : SearchState) ss := by
    intro v
    exact ⟨pvRel_trans hr (pvRel_of_fields hr.1 (fun j => setEval_ply _ _ _ _) rfl rfl),
      pvAt_of_fields rfl rfl ha⟩
  unfold abStatic
  by_cases h1 : f.in_check = true
  · rw [if_pos h1]
    exact ⟨hf, (hk _).1, (hk _).2⟩
  rw [if_neg h1]
  simp only []
  by_cases h2 : f.node = .ROOT
  · rw [if_pos h2]
    exact ⟨hf, (hk _).1, (hk _).2⟩
  rw [if_neg h2]
  exact abPrune_pv env f _ _ _ _ st0 ss hf (hk _).1 (hk _).2

theorem abTb_pv (env : Env) (node : Node) (depth1 alpha2 beta2 : Int) (ss : Int)
    (color : Color) (in_check : Bool) (excluded_move : Move) (key : Nat) (tt_hit : Bool)
    (ttmove : Move) (tt_score : Int) (st4 st0 : SearchState)
    (hr : PvRel (fun j => j < ss) st0 st4) (ha : PvAt st4 ss) :
    (abTb env node depth1 alpha2 beta2 ss color in_check excluded_move key tt_hit ttmove
      tt_score st4).PvKept st0 ss := by
  unfold abTb
  simp only []
  have hs := tbProbe_samePv env (decide (node = .ROOT)) (decide (node ≠ .NONPV)) depth1 alpha2
    beta2 (st4.stack ss).ply st4
  generalize tbProbe env (decide (node = .ROOT)) (decide (node ≠ .NONPV)) depth1 alpha2
    beta2 (st4.stack ss).ply st4 = tb at hs
  have hr2 : PvRel (fun j => j < ss) st0 tb.2 := pvRel_trans hr (pvRel_of_same hr.1 hs)
  have ha2 : PvAt tb.2 ss := pvAt_of_same hs ha
  cases htb : tb.1.1 with
  | some v => exact ⟨hr2, ha2⟩
  | none => exact abStatic_pv env _ tb.2 st0 ss ⟨rfl, le_refl _⟩ hr2 ha2

theorem abCut_pv (env : Env) (node : Node) (depth1 alpha1 beta1 : Int) (ss : Int)
    (color : Color) (in_check : Bool) (excluded_move : Move) (key : Nat) (tt_hit : Bool)
    (ttmove : Move) (tte : TEntry) (tt_score : Int) (st4 st0 : SearchState)
    (hr : PvRel (fun j => j < ss) st0 st4) (ha : PvAt st4 ss) :
    (abCut env node depth1 alpha1 beta1 ss color in_check excluded_move key tt_hit ttmove tte
      tt_score st4).PvKept st0 ss := by
  unfold abCut
  simp only []
  generalize (decide (decide (node = .ROOT) = false ∧ excluded_move = NO_MOVE ∧
    decide (node ≠ .NONPV) = false ∧ tt_hit = true ∧ tt_score ≠ VALUE_NONE ∧
    tte.depth ≥ depth1 ∧ (st4.stack (ss - 1)).currentmove ≠ NULL_MOVE)) = cut
  by_cases h1 : cut = true ∧ tte.flag = .EXACTBOUND
  · rw [if_pos h1]; exact ⟨hr, ha⟩
  rw [if_neg h1]
  generalize (if cut = true ∧ tte.flag = .LOWERBOUND then max alpha1 tt_score else alpha1)
    = alpha2
  generalize (if cut = true ∧ tte.flag = .UPPERBOUND then min beta1 tt_score else beta1)
    = beta2
  by_cases h2 : cut = true ∧ alpha2 ≥ beta2
  · rw [if_pos h2]; exact ⟨hr, ha⟩
  rw [if_neg h2]
  exact abTb_pv env node depth1 alpha2 beta2 ss color in_check excluded_move key tt_hit
    ttmove tt_score st4 st0 hr ha

theorem abProbe_pv (env : Env) (node : Node) (depth0 alpha1 beta1 : Int) (ss : Int)
    (color : Color) (in_check : Bool) (excluded_move : Move) (st1 st0 : SearchState)
    (hr : PvRel (fun j => j < ss) st0 st1) (ha : PvAt st1 ss) :
    (abProbe env node depth0 alpha1 beta1 ss color in_check excluded_move st1).PvKept st0
      ss := by
  unfold abProbe
  simp only []
  by_cases h1 : (if in_check = true then depth0 + 1 else depth0) ≤ 0
  · rw [if_pos h1]; exact ⟨rfl, hr, ha⟩
  rw [if_neg h1]
  have hz : SamePv st1 (assertZero (decide (node ≠ .NONPV)) alpha1 beta1
      (assertWindow alpha1 beta1 st1)) :=
    samePv_trans (assertWindow_samePv _ _ _) (assertZero_samePv _ _ _ _)
  generalize assertZero (decide (node ≠ .NONPV)) alpha1 beta1 (assertWindow alpha1 beta1 st1)
    = sz at hz
  have hz1 : PvRel (fun j => j < ss) st0 sz := pvRel_trans hr (pvRel_of_same hr.1 hz)
  have hz2 : PvAt sz ss := pvAt_of_same hz ha
  apply abCut_pv
  · refine pvRel_trans hz1 (pvRel_of_fields hz1.1 (fun j => ?_) ?_ ?_)
    · show ((if _ then _ else _ : SearchState).stack j).ply = _
      split_ifs <;> exact setExcluded_ply _ _ _ _
    · show (if _ then _ else _ : SearchState).early_return = _
      split_ifs <;> rfl
    · show (if _ then _ else _ : SearchState).pv_length_ = _
      split_ifs <;> rfl
  · refine pvAt_of_fields ?_ ?_ hz2
    · show (if _ then _ else _ : SearchState).early_return = _
      split_ifs <;> rfl
    · show (if _ then _ else _ : SearchState).pv_length_ = _
      split_ifs <;> rfl

/-- The part of `absearch` before the move loop sets `pv_length_[ply]` to
`ply`, unless it returns at its limit guard or ply guard, and leaves the
entries below alone. -/
theorem abEntry_pv (env : Env) (node : Node) (depth0 alpha0 beta0 : Int) (ss : Int)
    (st0 : SearchState) (hply : PlyOK st0) :
    (abEntry env node depth0 alpha0 beta0 ss st0).PvKept st0 ss := by
  have hl := limitReached_samePv env st0
  unfold abEntry
  generalize limitReached env st0 = lr at hl
  simp only []
  have hpl : PlyOK lr.2 := fun i => by rw [hl.1]; exact hply i
  have he : PvRel (fun j => j < ss) st0 ({ lr.2 with early_return := true } : SearchState) ∧
      PvAt ({ lr.2 with early_return := true } : SearchState) ss :=
    ⟨⟨hpl, fun _ => rfl, fun j _ => by show lr.2.pv_length_ j = _; rw [hl.2.2]⟩,
      fun h => by cases h⟩
  by_cases h1 : lr.1 = true
  · rw [if_pos h1]; exact he
  rw [if_neg h1]
  by_cases h2 : (lr.2.stack ss).ply ≥ MAX_PLY
  · rw [if_pos h2]; exact he
  rw [if_neg h2]
  have hp := hpl ss
  rw [hp]
  have hk : PvRel (fun j => j < ss) st0
      ({ lr.2 with pv_length_ := fun i => if i = ss then ss else lr.2.pv_length_ i } :
        SearchState) ∧
      PvAt ({ lr.2 with pv_length_ := fun i => if i = ss then ss else lr.2.pv_length_ i } :
        SearchState) ss := by
    refine ⟨⟨hpl, fun h => by show lr.2.early_return = true; rw [hl.2.1]; exact h,
      fun j hj => ?_⟩, fun _ => ?_⟩
    · show (if j = ss then ss else lr.2.pv_length_ j) = _
      rw [if_neg (ne_of_lt hj), hl.2.2]
    · show ss ≤ (if ss = ss then ss else lr.2.pv_length_ ss)
      rw [if_pos rfl]
  by_cases h3 : decide (node = .ROOT) = true
  · rw [if_pos h3]; exact abProbe_pv _ _ _ _ _ _ _ _ _ _ _ hk.1 hk.2
  rw [if_neg h3]
  split_ifs <;> first
    | exact hk
    | exact abProbe_pv _ _ _ _ _ _ _ _ _ _ _ hk.1 hk.2

/-- The update after a searched move keeps the frame and the counts of
moves, leaves the entries of `pv_length_` below its ply alone, and keeps
its own entry in order if the child's entry is. -/
theorem abUpdate_pv (env : Env) (f : ABFrame) (st : SearchState) (move : Move)
    (capture : Bool) (score : Int) (node_count : Nat) (hply : PlyOK st)
    (ha : PvAt st f.ss) (hc : PvAt st (f.ss + 1)) :
    ((abUpdate env f st move capture score node_count).1.ss = f.ss ∧
      (abUpdate env f st move capture score node_count).1.made_moves = f.made_moves ∧
      (abUpdate env f st move capture score node_count).1.idx = f.idx) ∧
    PvRel (fun j => j < f.ss) st (abUpdate env f st move capture score node_count).2.1 ∧
    PvAt (abUpdate env f st move capture score node_count).2.1 f.ss := by
  have h1 : SamePv st (assertBand score (st.unmakeMove env move)) :=
    samePv_trans ⟨rfl, rfl, rfl⟩ (assertBand_samePv _ _)
  unfold abUpdate
  simp only []
  generalize assertBand score (st.unmakeMove env move) = st1 at h1
  have h2 : SamePv st (if env.id = 0 then
      { st1 with node_effort := fun a b =>
          if a = move.from ∧ b = move.to then
            (st1.node_effort a b + (st1.nodes + 2 ^ 64 - node_count) % 2 ^ 64) % 2 ^ 64
          else st1.node_effort a b }
    else st1) := by
    split_ifs
    · exact ⟨h1.1, h1.2.1, h1.2.2⟩
    · exact h1
  generalize (if env.id = 0 then
      { st1 with node_effort := fun a b =>
          if a = move.from ∧ b = move.to then
            (st1.node_effort a b + (st1.nodes + 2 ^ 64 - node_count) % 2 ^ 64) % 2 ^ 64
          else st1.node_effort a b }
    else st1) = st2 at h2
  have hp : (st2.stack f.ss).ply = f.ss := by rw [h2.1]; exact hply f.ss
  rw [hp]
  have k2 : PvRel (fun j => j < f.ss) st st2 ∧ PvAt st2 f.ss :=
    ⟨pvRel_of_same hply h2, pvAt_of_same h2 ha⟩
  have hc2 : PvAt st2 (f.ss + 1) := pvAt_of_same h2 hc
  have k3 : ∀ tb : Tables, PvRel (fun j => j < f.ss) st
      ({ st2 with
          tb := tb
          pv_table_ := fun i j =>
            if i = f.ss then
              (if j = f.ss then move
               else if f.ss + 1 ≤ j ∧ j < st2.pv_length_ (f.ss + 1) then
                 st2.pv_table_ (f.ss + 1) j
               else st2.pv_table_ i j)
            else st2.pv_table_ i j
          pv_length_ := fun i => if i = f.ss then st2.pv_length_ (f.ss + 1)
            else st2.pv_length_ i } : SearchState) ∧
      PvAt ({ st2 with
          tb := tb
          pv_table_ := fun i j =>
            if i = f.ss then
              (if j = f.ss then move
               else if f.ss + 1 ≤ j ∧ j < st2.pv_length_ (f.ss + 1) then
                 st2.pv_table_ (f.ss + 1) j
               else st2.pv_table_ i j)
            else st2.pv_table_ i j
          pv_length_ := fun i => if i = f.ss then st2.pv_length_ (f.ss + 1)
            else st2.pv_length_ i } : SearchState) f.ss := by
    intro tb
    refine ⟨⟨fun i => ?_, fun he => ?_, fun j hj => ?_⟩, fun he => ?_⟩
    · show (st2.stack i).ply = i
      exact k2.1.1 i
    · show st2.early_return = true
      exact k2.1.2.1 he
    · show (if j = f.ss then st2.pv_length_ (f.ss + 1) else st2.pv_length_ j) = _
      rw [if_neg (ne_of_lt hj)]
      exact k2.1.2.2 j hj
    · show f.ss ≤ (if f.ss = f.ss then st2.pv_length_ (f.ss + 1) else st2.pv_length_ f.ss)
      rw [if_pos rfl]
      have := hc2 he
      omega
  by_cases c1 : score > f.best
  · rw [if_pos c1]
    by_cases c2 : score > f.alpha
    · rw [if_pos c2]
      by_cases c3 : score ≥ f.beta
      · rw [if_pos c3]
        exact ⟨⟨rfl, rfl, rfl⟩, k3 _⟩
      · rw [if_neg c3]
        split_ifs <;> exact ⟨⟨rfl, rfl, rfl⟩, k3 st2.tb⟩
    · rw [if_neg c2]
      split_ifs <;> exact ⟨⟨rfl, rfl, rfl⟩, k2⟩
  · rw [if_neg c1]
    split_ifs <;> exact ⟨⟨rfl, rfl, rfl⟩, k2⟩

theorem pv_out {rec : Call → SearchState → Option (Int × SearchState)} (hrec : PvOK rec)
    {call : Call} {st : SearchState} {v : Int} {st2 : SearchState}
    (h : rec call st = some (v, st2)) (hply : PlyOK st) (hpre : call.PvPre st) :
    PvRel call.pvFree st st2 ∧ call.PvPost st2 := hrec call st v st2 hply hpre h

/-- The `qsearch` move loop leaves `pv_length_` alone if the computations
it starts keep it in order. -/
theorem qLoop_pv (env : Env) (rec : Call → SearchState → Option (Int × SearchState))
    (hrec : PvOK rec) (f : QFrame) (st : SearchState) (v : Int) (st9 : SearchState)
    (hply : PlyOK st) (h : qLoop env rec f st = some (v, st9)) :
    PvRel (fun _ => True) st st9 := by
  unfold qLoop at h
  simp only [] at h
  by_cases h1 : env.nextMoveQ st f.ss f.ttmove f.idx = NO_MOVE
  · rw [if_pos h1] at h
    have e := qFinish_samePv env f st
    rw [Option.some.inj h] at e
    exact pvRel_of_same hply e
  rw [if_neg h1] at h
  by_cases h2 : qPruned env f st (env.nextMoveQ st f.ss f.ttmove f.idx) = true
  · rw [if_pos h2] at h
    exact (pv_out hrec h hply trivial).1
  rw [if_neg h2] at h
  generalize env.nextMoveQ st f.ss f.ttmove f.idx = move at h
  cases hr : rec (.q f.node (toInt16 (-f.beta)) (toInt16 (-f.alpha)) (f.ss + 1))
      (SearchState.makeMove env { st with nodes := (st.nodes + 1) % 2 ^ 64 } move) with
  | none => rw [hr] at h; cases h
  | some p =>
    obtain ⟨r, st3⟩ := p
    rw [hr] at h
    simp only [] at h
    have hc := (pv_out hrec hr (fun i => hply i) trivial).1
    have hc3 : PvRel (fun _ => True) st st3 :=
      pvRel_trans (pvRel_of_same hply ⟨rfl, rfl, rfl⟩) hc
    have h4 : PvRel (fun _ => True) st (assertBand (toInt16 (-r)) (st3.unmakeMove env move)) :=
      pvRel_trans hc3 (pvRel_of_same hc3.1
        (samePv_trans ⟨rfl, rfl, rfl⟩ (assertBand_samePv _ _)))
    generalize assertBand (toInt16 (-r)) (st3.unmakeMove env move) = st4 at h h4
    have hfin : ∀ g : QFrame, qFinish env g st4 = (v, st9) → PvRel (fun _ => True) st st9 := by
      intro g hg
      have e := qFinish_samePv env g st4
      rw [hg] at e
      exact pvRel_trans h4 (pvRel_of_same h4.1 e)
    have hnext : ∀ g : QFrame, rec (.qloop g) st4 = some (v, st9) →
        PvRel (fun _ => True) st st9 := by
      intro g hh
      exact pvRel_trans h4 (pv_out hrec hh h4.1 trivial).1
    split_ifs at h
    · exact hfin _ (Option.some.inj h)
    · exact hnext _ h
    · exact hnext _ h
    · exact hnext _ h

/-- A child of a frame leaves the entries up to the frame's ply alone. -/
theorem pvRel_child {ss : Int} {st st2 : SearchState}
    (h : PvRel (fun j => j < ss + 1) st st2) : PvRel (fun j => j < ss) st st2 :=
  pvRel_mono (fun j hj => by show j < ss + 1; omega) h

/-- The null-move search keeps `pv_length_` in order. -/
theorem abNull_pv (env : Env) (rec : Call → SearchState → Option (Int × SearchState))
    (hrec : PvOK rec) (f : ABFrame) (R : Int) (st : SearchState) (v : Int) (st9 : SearchState)
    (hply : PlyOK st) (ha : PvAt st f.ss) (hm : f.made_moves ≤ f.idx)
    (h : abNull env rec f R st = some (v, st9)) :
    PvRel (fun j => j < f.ss) st st9 ∧ PvAt st9 f.ss := by
  unfold abNull at h
  simp only [] at h
  have h2 : PvRel (fun j => j < f.ss) st
      ({ st with tb := { st.tb with board := env.makeNullMove st.tb.board },
                 stack := setCurrent st.stack f.ss NULL_MOVE } : SearchState) :=
    pvRel_of_fields hply (fun j => setCurrent_ply _ _ _ _) rfl rfl
  have a2 : PvAt
      ({ st with tb := { st.tb with board := env.makeNullMove st.tb.board },
                 stack := setCurrent st.stack f.ss NULL_MOVE } : SearchState) f.ss :=
    pvAt_of_fields rfl rfl ha
  generalize ({ st with
      tb := { st.tb with board := env.makeNullMove st.tb.board },
      stack := setCurrent st.stack f.ss NULL_MOVE } : SearchState) = st2 at h h2 a2
  cases hr : rec (.ab .NONPV (f.depth - R) (toInt16 (-f.beta)) (toInt16 (-f.beta + 1)) (f.ss + 1))
      st2 with
  | none => rw [hr] at h; cases h
  | some p =>
    obtain ⟨r, st3⟩ := p
    rw [hr] at h
    simp only [] at h
    have hc0 : PvRel (fun j => j < f.ss + 1) st2 st3 := (pv_out hrec hr h2.1 trivial).1
    have h3 : PvRel (fun j => j < f.ss) st st3 := pvRel_trans h2 (pvRel_child hc0)
    have a3 : PvAt st3 f.ss := pvAt_of_rel hc0 (show f.ss < f.ss + 1 by omega) a2
    have h4 : PvRel (fun j => j < f.ss) st
        ({ st3 with tb := { st3.tb with board := env.unmakeNullMove st3.tb.board } } :
          SearchState) := pvRel_trans h3 (pvRel_of_same h3.1 ⟨rfl, rfl, rfl⟩)
    have a4 : PvAt ({ st3 with tb := { st3.tb with board := env.unmakeNullMove st3.tb.board } } :
          SearchState) f.ss := pvAt_of_fields rfl rfl a3
    generalize ({ st3 with tb := { st3.tb with board := env.unmakeNullMove st3.tb.board } } :
          SearchState) = st4 at h h4 a4
    by_cases h5 : toInt16 (-r) ≥ f.beta
    · rw [if_pos h5] at h
      obtain ⟨_, e2⟩ := some_pair_inj h
      rw [← e2]
      exact ⟨h4, a4⟩
    · rw [if_neg h5] at h
      have hn := pv_out hrec h h4.1 ⟨a4, hm⟩
      exact ⟨pvRel_trans h4 hn.1, hn.2⟩

/-- The singular-extension search keeps `pv_length_` in order. -/
theorem abSingular_pv (env : Env) (rec : Call → SearchState → Option (Int × SearchState))
    (hrec : PvOK rec) (f1 : ABFrame) (move : Move) (capture : Bool) (st : SearchState)
    (v : Int) (st9 : SearchState) (hply : PlyOK st)
    (h : abSingular env rec f1 move capture st = some (v, st9)) (ha : PvAt st f1.ss)
    (hm : 1 ≤ f1.made_moves ∧ f1.made_moves ≤ f1.idx) :
    PvRel (fun j => j < f1.ss) st st9 ∧ PvAt st9 f1.ss := by
  unfold abSingular at h
  simp only [] at h
  by_cases h1 : (env.ttProbe st.tick f1.key).2.2.flag.toNat &&& Flag.LOWERBOUND.toNat ≠ 0 ∧
      (env.ttProbe st.tick f1.key).2.2.depth ≥ f1.depth - 3
  · rw [if_pos h1] at h
    have h2 : PvRel (fun j => j < f1.ss) st
        ({ st with tick := st.tick + 1, stack := setExcluded st.stack f1.ss move } :
          SearchState) :=
      pvRel_of_fields hply (fun j => setExcluded_ply _ _ _ _) rfl rfl
    generalize ({ st with tick := st.tick + 1, stack := setExcluded st.stack f1.ss move } :
          SearchState) = st2 at h h2
    cases hr : rec (.ab .NONPV (Int.tdiv (f1.depth - 1) 2)
        (toInt16 (f1.tt_score - 3 * f1.depth - 1)) (toInt16 (f1.tt_score - 3 * f1.depth)) f1.ss)
        st2 with
    | none => rw [hr] at h; cases h
    | some p =>
      obtain ⟨value, st3⟩ := p
      rw [hr] at h
      simp only [] at h
      have hc := pv_out hrec hr h2.1 trivial
      have h3 : PvRel (fun j => j < f1.ss) st st3 := pvRel_trans h2 hc.1
      have a3 : PvAt st3 f1.ss := hc.2
      have h4 : PvRel (fun j => j < f1.ss) st
          ({ st3 with stack := setExcluded st3.stack f1.ss NO_MOVE } : SearchState) :=
        pvRel_trans h3 (pvRel_of_fields h3.1 (fun j => setExcluded_ply _ _ _ _) rfl rfl)
      have a4 : PvAt ({ st3 with stack := setExcluded st3.stack f1.ss NO_MOVE } : SearchState)
          f1.ss := pvAt_of_fields rfl rfl a3
      generalize ({ st3 with stack := setExcluded st3.stack f1.ss NO_MOVE } : SearchState) = st4
        at h h4 a4
      split_ifs at h
      · have hn := pv_out hrec h h4.1 ⟨a4, hm⟩
        exact ⟨pvRel_trans h4 hn.1, hn.2⟩
      · obtain ⟨_, e2⟩ := some_pair_inj h
        rw [← e2]
        exact ⟨h4, a4⟩
      · have hn := pv_out hrec h h4.1 ⟨a4, hm⟩
        exact ⟨pvRel_trans h4 hn.1, hn.2⟩
  · rw [if_neg h1] at h
    have h2 : PvRel (fun j => j < f1.ss) st ({ st with tick := st.tick + 1 } : SearchState) :=
      pvRel_of_same hply ⟨rfl, rfl, rfl⟩
    have a2 : PvAt ({ st with tick := st.tick + 1 } : SearchState) f1.ss :=
      pvAt_of_fields rfl rfl ha
    have hn := pv_out hrec h h2.1 ⟨a2, hm⟩
    exact ⟨pvRel_trans h2 hn.1, hn.2⟩

/-- One turn of the `absearch` move loop keeps `pv_length_` in order. -/
theorem abLoop_pv (env : Env) (hpick : env.PickerBounded)
    (rec : Call → SearchState → Option (Int × SearchState))
    (hrec : PvOK rec) (f : ABFrame) (st : SearchState) (v : Int) (st9 : SearchState)
    (hply : PlyOK st) (ha : PvAt st f.ss) (hm : f.made_moves ≤ f.idx)
    (h : abLoop env rec f st = some (v, st9)) :
    PvRel (fun j => j < f.ss) st st9 ∧ PvAt st9 f.ss := by
  unfold abLoop at h
  simp only [] at h
  have hidx := hpick st f.ss (decide (f.node = .ROOT))
    (if f.tt_hit = true then f.ttmove else NO_MOVE) f.idx
  generalize env.nextMoveAB st f.ss (decide (f.node = .ROOT))
    (if f.tt_hit = true then f.ttmove else NO_MOVE) f.idx = move at h hidx
  by_cases h1 : move = NO_MOVE
  · rw [if_pos h1] at h
    have e := abFinish_samePv env f st
    rw [Option.some.inj h] at e
    exact ⟨pvRel_of_same hply e, pvAt_of_same e ha⟩
  rw [if_neg h1] at h
  have hlt : f.idx < 255 := by
    by_contra hc
    exact h1 (hidx (by omega))
  have hm1 : 1 ≤ (f.made_moves + 1) % 256 ∧ (f.made_moves + 1) % 256 ≤ f.idx + 1 := by
    rw [Nat.mod_eq_of_lt (by omega)]
    omega
  by_cases h2 : move = f.excluded_move
  · rw [if_pos h2] at h
    exact pv_out hrec h hply ⟨ha, by show f.made_moves ≤ f.idx + 1; omega⟩
  rw [if_neg h2] at h
  split_ifs at h with h3 h4
  · exact pv_out hrec h hply ⟨ha, hm1.2⟩
  · have hsg := abSingular_pv env rec hrec _ _ _ _ _ _ hply h ha hm1
    exact hsg
  · exact pv_out hrec h hply ⟨ha, hm1⟩

theorem pvRel_refl {P : Int → Prop} {st : SearchState} (hply : PlyOK st) : PvRel P st st :=
  ⟨hply, fun h => h, fun _ _ => rfl⟩

theorem abLmr_pv (env : Env) (rec : Call → SearchState → Option (Int × SearchState))
    (hrec : PvOK rec) (f : ABFrame) (capture : Bool) (newDepth : Int) (st3 : SearchState)
    (s1 : Int) (st4 : SearchState) (b : Bool) (hply : PlyOK st3)
    (h : abLmr env rec f capture newDepth st3 = some (s1, st4, b)) :
    PvRel (fun j => j < f.ss + 1) st3 st4 ∧
    (PvAt st4 (f.ss + 1) ∨
      (st4 = st3 ∧ b = decide (decide (f.node ≠ .NONPV) = false ∨ f.made_moves > 1))) := by
  unfold abLmr at h
  simp only [] at h
  generalize (decide (f.depth ≥ 3 ∧ f.in_check = false ∧
    (f.made_moves : Int) > 3 + 2 * (if decide (f.node ≠ .NONPV) = true then 1 else 0))) = lmr at h
  cases lmr with
  | true =>
    rw [if_pos rfl] at h
    cases hr : rec (.ab .NONPV (lmrDepth env f capture newDepth) (toInt16 (-f.alpha - 1))
        (toInt16 (-f.alpha)) (f.ss + 1)) st3 with
    | none => rw [hr] at h; cases h
    | some p =>
      obtain ⟨r, s⟩ := p
      rw [hr] at h
      have e := congrArg (fun p => p.2.1) (Option.some.inj h)
      simp only [] at e
      rw [← e]
      have hc := pv_out hrec hr hply trivial
      exact ⟨hc.1, Or.inl hc.2⟩
  | false =>
    rw [if_neg (by decide)] at h
    have e := congrArg (fun p => p.2.1) (Option.some.inj h)
    have e2 := congrArg (fun p => p.2.2) (Option.some.inj h)
    simp only [] at e e2
    rw [← e, ← e2]
    exact ⟨pvRel_refl hply, Or.inr ⟨rfl, rfl⟩⟩

theorem abFull_pv (rec : Call → SearchState → Option (Int × SearchState))
    (hrec : PvOK rec) (f : ABFrame) (newDepth : Int) (score1 : Int) (st4 : SearchState)
    (do_full_search : Bool) (s2 : Int) (st5 : SearchState) (hply : PlyOK st4)
    (h : abFull rec f newDepth score1 st4 do_full_search = some (s2, st5)) :
    PvRel (fun j => j < f.ss + 1) st4 st5 ∧ (do_full_search = true → PvAt st5 (f.ss + 1)) ∧
    (do_full_search = false → st5 = st4) := by
  unfold abFull at h
  cases do_full_search with
  | true =>
    rw [if_pos rfl] at h
    cases hr : rec (.ab .NONPV newDepth (toInt16 (-f.alpha - 1)) (toInt16 (-f.alpha))
        (f.ss + 1)) st4 with
    | none => rw [hr] at h; cases h
    | some p =>
      obtain ⟨r, s⟩ := p
      rw [hr] at h
      have e := congrArg (fun p => p.2) (Option.some.inj h)
      simp only [] at e
      rw [← e]
      have hc := pv_out hrec hr hply trivial
      exact ⟨hc.1, fun _ => hc.2, fun hf => by cases hf⟩
  | false =>
    rw [if_neg (by decide)] at h
    have e := congrArg (fun p => p.2) (Option.some.inj h)
    simp only [] at e
    rw [← e]
    exact ⟨pvRel_refl hply, fun hf => (by cases hf), fun _ => rfl⟩

theorem abPvs_pv (rec : Call → SearchState → Option (Int × SearchState))
    (hrec : PvOK rec) (f : ABFrame) (newDepth : Int) (score2 : Int) (st5 : SearchState)
    (s3 : Int) (st6 : SearchState) (hply : PlyOK st5)
    (h : abPvs rec f newDepth score2 st5 = some (s3, st6)) :
    PvRel (fun j => j < f.ss + 1) st5 st6 ∧
    ((decide (f.node ≠ .NONPV) = true ∧
        ((score2 > f.alpha ∧ score2 < f.beta) ∨ f.made_moves = 1)) → PvAt st6 (f.ss + 1)) ∧
    (¬ (decide (f.node ≠ .NONPV) = true ∧
        ((score2 > f.alpha ∧ score2 < f.beta) ∨ f.made_moves = 1)) → st6 = st5) := by
  unfold abPvs at h
  simp only [] at h
  by_cases hc : decide (f.node ≠ .NONPV) = true ∧
      ((score2 > f.alpha ∧ score2 < f.beta) ∨ f.made_moves = 1)
  · rw [if_pos hc] at h
    cases hr : rec (.ab .PV newDepth (toInt16 (-f.beta)) (toInt16 (-f.alpha)) (f.ss + 1))
        st5 with
    | none => rw [hr] at h; cases h
    | some p =>
      obtain ⟨r, s⟩ := p
      rw [hr] at h
      have e := congrArg (fun p => p.2) (Option.some.inj h)
      simp only [] at e
      rw [← e]
      have hq := pv_out hrec hr hply trivial
      exact ⟨hq.1, fun _ => hq.2, fun hn => absurd hc hn⟩
  · rw [if_neg hc] at h
    have e := congrArg (fun p => p.2) (Option.some.inj h)
    simp only [] at e
    rw [← e]
    exact ⟨pvRel_refl hply, fun hp => absurd hp hc, fun _ => rfl⟩

/-- The search of one move keeps `pv_length_` in order. -/
theorem abMove_pv (env : Env) (rec : Call → SearchState → Option (Int × SearchState))
    (hrec : PvOK rec) (f : ABFrame) (move : Move) (capture : Bool) (extension : Int)
    (st : SearchState) (v : Int) (st9 : SearchState) (hply : PlyOK st)
    (h : abMove env rec f move capture extension st = some (v, st9))
    (ha : PvAt st f.ss) (hm : 1 ≤ f.made_moves ∧ f.made_moves ≤ f.idx) :
    PvRel (fun j => j < f.ss) st st9 ∧ PvAt st9 f.ss := by
  unfold abMove at h
  simp only [] at h
  have h3 : PvRel (fun j => j < f.ss + 1) st
      ({ SearchState.makeMove env { st with nodes := (st.nodes + 1) % 2 ^ 64 } move with
      stack := setCurrent (SearchState.makeMove env
        { st with nodes := (st.nodes + 1) % 2 ^ 64 } move).stack f.ss move } :
      SearchState) :=
    pvRel_of_fields hply (fun j => setCurrent_ply _ _ _ _) rfl rfl
  generalize ({ SearchState.makeMove env { st with nodes := (st.nodes + 1) % 2 ^ 64 } move with
      stack := setCurrent (SearchState.makeMove env
        { st with nodes := (st.nodes + 1) % 2 ^ 64 } move).stack f.ss move } :
      SearchState) = st3 at h h3
  cases h4 : abLmr env rec f capture (f.depth - 1 + extension) st3 with
  | none => rw [h4] at h; cases h
  | some p4 =>
    obtain ⟨score1, st4, dfs⟩ := p4
    rw [h4] at h
    simp only [] at h
    have k4 := abLmr_pv env rec hrec f capture _ st3 score1 st4 dfs h3.1 h4
    cases h5 : abFull rec f (f.depth - 1 + extension) score1 st4 dfs with
    | none => rw [h5] at h; cases h
    | some p5 =>
      obtain ⟨score2, st5⟩ := p5
      rw [h5] at h
      simp only [] at h
      have k5 := abFull_pv rec hrec f _ score1 st4 dfs score2 st5 k4.1.1 h5
      cases h6 : abPvs rec f (f.depth - 1 + extension) score2 st5 with
      | none => rw [h6] at h; cases h
      | some p6 =>
        obtain ⟨score3, st6⟩ := p6
        rw [h6] at h
        simp only [] at h
        have k6 := abPvs_pv rec hrec f _ score2 st5 score3 st6 k5.1.1 h6
        have r6 : PvRel (fun j => j < f.ss + 1) st st6 :=
          pvRel_trans h3 (pvRel_trans k4.1 (pvRel_trans k5.1 k6.1))
        have a6 : PvAt st6 f.ss := pvAt_of_rel r6 (show f.ss < f.ss + 1 by omega) ha
        have c6 : PvAt st6 (f.ss + 1) := by
          by_cases hc : decide (f.node ≠ .NONPV) = true ∧
              ((score2 > f.alpha ∧ score2 < f.beta) ∨ f.made_moves = 1)
          · exact k6.2.1 hc
          · rw [k6.2.2 hc]
            cases hd : dfs with
            | true => exact k5.2.1 hd
            | false =>
              rw [k5.2.2 hd]
              rcases k4.2 with hl | ⟨_, hl⟩
              · exact hl
              · exfalso
                rw [hd] at hl
                have hl2 := of_decide_eq_false hl.symm
                have hpv : decide (f.node ≠ .NONPV) = true := by
                  cases hq : decide (f.node ≠ .NONPV) with
                  | true => rfl
                  | false => exact absurd (Or.inl hq) hl2
                have hmm : f.made_moves = 1 := by
                  have : ¬ f.made_moves > 1 := fun hx => hl2 (Or.inr hx)
                  omega
                exact hc ⟨hpv, Or.inr hmm⟩
        have hu := abUpdate_pv env f st6 move capture score3
          (SearchState.makeMove env { st with nodes := (st.nodes + 1) % 2 ^ 64 } move).nodes
          r6.1 a6 c6
        generalize abUpdate env f st6 move capture score3
          (SearchState.makeMove env { st with nodes := (st.nodes + 1) % 2 ^ 64 } move).nodes = u
          at h hu
        obtain ⟨⟨hu1, hu2, hu3⟩, hu4, hu5⟩ := hu
        have r7 : PvRel (fun j => j < f.ss) st u.2.1 := pvRel_trans (pvRel_child r6) hu4
        split_ifs at h
        · have e := abFinish_samePv env u.1 u.2.1
          rw [Option.some.inj h] at e
          exact ⟨pvRel_trans r7 (pvRel_of_same r7.1 e), pvAt_of_same e hu5⟩
        · have hpre : (Call.abloop u.1).PvPre u.2.1 := by
            show PvAt u.2.1 u.1.ss ∧ u.1.made_moves ≤ u.1.idx
            rw [hu1, hu2, hu3]
            exact ⟨hu5, hm.2⟩
          have hn := pv_out hrec h r7.1 hpre
          have hn1 : PvRel (fun j => j < f.ss) u.2.1 st9 := by
            have := hn.1
            rw [show (Call.abloop u.1).pvFree = fun j => j < u.1.ss from rfl, hu1] at this
            exact this
          have hn2 : PvAt st9 f.ss := by
            have := hn.2
            rw [show (Call.abloop u.1).PvPost st9 = PvAt st9 u.1.ss from rfl, hu1] at this
            exact this
          exact ⟨pvRel_trans r7 hn1, hn2⟩

/-- One step of a pending computation keeps `pv_length_` in order if the
computations it starts do. -/
theorem searchStep_pv (env : Env) (hpick : env.PickerBounded)
    (rec : Call → SearchState → Option (Int × SearchState)) (hrec : PvOK rec) :
    PvOK (searchStep env rec) := by
  intro call st v st9 hply hpre h
  cases call with
  | q node alpha beta ss =>
    have hq := qEntry_samePv env node alpha beta ss st
    simp only [searchStep] at h
    cases hr : qEntry env node alpha beta ss st with
    | inl r =>
      rw [hr] at h hq
      simp only [] at h hq
      rw [Option.some.inj h] at hq
      exact ⟨pvRel_of_same hply hq, trivial⟩
    | inr p =>
      obtain ⟨f, st1⟩ := p
      rw [hr] at h hq
      simp only [] at h hq
      have h1 : PvRel (fun _ => True) st st1 := pvRel_of_same hply hq
      exact ⟨pvRel_trans h1 (pv_out hrec h h1.1 trivial).1, trivial⟩
  | qloop f => exact ⟨qLoop_pv env rec hrec f st v st9 hply h, trivial⟩
  | ab node depth alpha beta ss =>
    have hq := abEntry_pv env node depth alpha beta ss st hply
    simp only [searchStep] at h
    cases hr : abEntry env node depth alpha beta ss st with
    | ret v1 st1 =>
      rw [hr] at h hq
      simp only [] at h
      obtain ⟨_, e2⟩ := some_pair_inj h
      rw [← e2]
      exact hq
    | tailQ node1 a b ss1 st1 =>
      rw [hr] at h hq
      simp only [] at h
      obtain ⟨_, hq1, hq2⟩ := hq
      have hn : PvRel (fun _ => True) st1 st9 := (pv_out hrec h hq1.1 trivial).1
      exact ⟨pvRel_trans hq1 (pvRel_mono (fun _ _ => trivial) hn),
        pvAt_of_rel hn trivial hq2⟩
    | moves f st1 =>
      rw [hr] at h hq
      simp only [] at h
      obtain ⟨⟨hf1, hf2⟩, hq1, hq2⟩ := hq
      have hpre1 : (Call.abloop f).PvPre st1 := by
        show PvAt st1 f.ss ∧ f.made_moves ≤ f.idx
        rw [hf1]
        exact ⟨hq2, hf2⟩
      have hn := pv_out hrec h hq1.1 hpre1
      have hn1 : PvRel (fun j => j < ss) st1 st9 := by
        have := hn.1
        rw [show (Call.abloop f).pvFree = fun j => j < f.ss from rfl, hf1] at this
        exact this
      have hn2 : PvAt st9 ss := by
        have := hn.2
        rw [show (Call.abloop f).PvPost st9 = PvAt st9 f.ss from rfl, hf1] at this
        exact this
      exact ⟨pvRel_trans hq1 hn1, hn2⟩
    | nmp f R st1 =>
      rw [hr] at h hq
      simp only [] at h
      obtain ⟨⟨hf1, hf2⟩, hq1, hq2⟩ := hq
      have hn := abNull_pv env rec hrec f R st1 v st9 hq1.1 (by rw [hf1]; exact hq2) hf2 h
      rw [hf1] at hn
      exact ⟨pvRel_trans hq1 hn.1, hn.2⟩
  | abloop f =>
    exact abLoop_pv env hpick rec hrec f st v st9 hply hpre.1 hpre.2 h
  | abmove f move capture extension =>
    exact abMove_pv env rec hrec f move capture extension st v st9 hply h hpre.1 hpre.2

/-- The search keeps `pv_length_` in order, for every fuel. -/
theorem search_pv (env : Env) (hpick : env.PickerBounded) : ∀ n, PvOK (search env n)
  | 0 => fun _ _ _ _ _ _ h => by cases h
  | n + 1 => searchStep_pv env hpick (search env n) (search_pv env hpick n)

theorem some_getD {α : Type} (o : Option α) (d : α) (h : o.isSome = true) :
    o = some (o.getD d) := by
  cases o with
  | none => cases h
  | some a => rfl

set_option maxRecDepth 100000 in
/-- C24 fails on the code: `pv_length_` reset to 0 as at the start of
`iterativeDeepening`; a frame at ply 1 whose child is entered with the stop
flag set (the child returns 0 at its limit guard, before line 230) copies
the child's stale entry and returns with `pv_length_[1] = 0`; a frame at
ply 127 whose child returns at the ply guard returns with
`pv_length_[127] = 0`. -/
theorem pv_length_stale_counterexample :
    (iterativeDeepeningInit sampleState).pv_length_ 2 = 0 ∧
    (limitReached midStopEnv (iterativeDeepeningInit sampleState)).1 = false ∧
    (search midStopEnv 6 (.ab .PV 2 (-VALUE_INFINITE) VALUE_INFINITE 1)
      (iterativeDeepeningInit sampleState)).map (fun r => (r.1, r.2.pv_length_ 1))
        = some (0, 0) ∧
    (search lineEnv 6 (.ab .PV 2 (-VALUE_INFINITE) VALUE_INFINITE 127)
      (iterativeDeepeningInit sampleState)).map (fun r => (r.1, r.2.pv_length_ 127))
        = some (30, 0) := by
  decide

/-- The length of the principal variation while no call has returned at a
guard: with a move picker that yields fewer than 256 moves at a
node and the stack as `iterativeDeepening` sets it up, every call of
`absearch` (and every continuation of its move loop entered with
`pv_length_[ply] >= ply`) that returns in a state in which no call of
`absearch` has returned at its limit guard or its ply guard returns with
`pv_length_[ply] >= ply` for its own ply, and leaves the entries
`pv_length_[j]` of the plies below its own as they were, whatever
`pv_length_` held before (as after the reset to 0 at the start of
`iterativeDeepening`); `qsearch` does not write `pv_length_`. -/
theorem pv_length_ge_ply (env : Env) (hpick : env.PickerBounded) (n : Nat) (call : Call)
    (st : SearchState) (hply : PlyOK st) (hpre : call.PvPre st) (v : Int) (st2 : SearchState)
    (h : search env n call st = some (v, st2)) :
    call.PvPost st2 ∧ (∀ j, call.pvFree j → st2.pv_length_ j = st.pv_length_ j) ∧
    (st.early_return = true → st2.early_return = true) :=
  have hr := search_pv env hpick n call st v st2 hply hpre h
  ⟨hr.2, hr.1.2.2, hr.1.2.1⟩

set_option maxRecDepth 100000 in
/-- A run without early return: `absearch<PV>` at depth 2 and ply 1 on the
sample position, every node with the one move e2-e4: no call returns early,
and the call returns with `pv_length_[1] = 2`. -/
theorem pv_length_ge_ply_witness :
    lineResult.2.early_return = false ∧ lineResult.2.pv_length_ 1 = 2 ∧
    (Call.ab .PV 2 (-VALUE_INFINITE) VALUE_INFINITE 1).PvPost lineResult.2 :=
  ⟨by decide, by decide,
    (pv_length_ge_ply lineEnv
      (fun _ _ _ _ i hi => if_neg (by omega))
      8 (.ab .PV 2 (-VALUE_INFINITE) VALUE_INFINITE 1) (iterativeDeepeningInit sampleState)
      (fun _ => rfl) trivial lineResult.1 lineResult.2
      (some_getD (search lineEnv 8 (.ab .PV 2 (-VALUE_INFINITE) VALUE_INFINITE 1)
        (iterativeDeepeningInit sampleState)) (0, sampleState) (by decide))).1⟩

/-! ## Zero windows at non-PV nodes (`search.cpp`, lines 104, 258) -/

theorem limitReached_zw (env : Env) (st : SearchState) :
    (limitReached env st).2.zero_window_failed = st.zero_window_failed := by
  unfold limitReached readStop
  simp only []
  split_ifs <;> rfl

theorem assertWindow_zw (alpha beta : Int) (st : SearchState) :
    (assertWindow alpha beta st).zero_window_failed = st.zero_window_failed := by
  unfold assertWindow
  split_ifs <;> rfl

theorem assertBand_zw (v : Int) (st : SearchState) :
    (assertBand v st).zero_window_failed = st.zero_window_failed := by
  unfold assertBand
  split_ifs <;> rfl

/-- The zero-window assertion on a PV node or on a window of width one
does not fail. -/
theorem assertZero_eq (pv : Bool) (alpha beta : Int) (st : SearchState)
    (h : pv = false → alpha = beta - 1) : assertZero pv alpha beta st = st := by
  unfold assertZero
  cases pv with
  | true => rw [if_pos (Or.inl rfl)]
  | false => rw [if_pos (Or.inr (h rfl))]

theorem tbProbe_zw (env : Env) (root pv : Bool) (depth alpha beta ply : Int)
    (st : SearchState) :
    (tbProbe env root pv depth alpha beta ply st).2.zero_window_failed
      = st.zero_window_failed := by
  unfold tbProbe
  simp only []
  split_ifs <;> rfl

theorem qFinish_zw (env : Env) (f : QFrame) (st : SearchState) :
    (qFinish env f st).2.zero_window_failed = st.zero_window_failed := by
  unfold qFinish readStop
  simp only []
  rw [assertBand_zw]
  split_ifs <;> rfl

theorem abFinish_zw (env : Env) (f : ABFrame) (st : SearchState) :
    (abFinish env f st).2.zero_window_failed = st.zero_window_failed := by
  unfold abFinish readStop
  simp only []
  split_ifs <;> rw [assertBand_zw]

/-- The tablebase probe, where it does not return, leaves a window a
window and touches `alpha` at PV nodes only. -/
theorem tbProbe_window (env : Env) (root pv : Bool) (depth alpha beta ply : Int)
    (st : SearchState) (hw : Window alpha beta) :
    (tbProbe env root pv depth alpha beta ply st).1.1 = none →
    Window (tbProbe env root pv depth alpha beta ply st).1.2.2.1 beta ∧
    (pv = false → (tbProbe env root pv depth alpha beta ply st).1.2.2.1 = alpha) := by
  obtain ⟨hw1, hw2, hw3⟩ := hw
  unfold tbProbe
  generalize (if (!root && !env.silent && env.use_tb) = true then env.probeWDL st.tb.board
    else VALUE_NONE) = tb_res
  simp only [Window]
  split_ifs <;> simp only [reduceCtorEq, false_implies, forall_const, implies_true, and_true,
    true_implies] <;>
    first
    | exact ⟨hw1, hw2, hw3⟩
    | exact ⟨⟨hw1, hw2, hw3⟩, fun _ => rfl⟩
    | simp_all

/-- The part of `qsearch` before its move loop, entered with a window that
is of width one unless the node is a PV node, passes its zero-window
assertion and reaches the loop with such a window. -/
theorem qEntry_zero (env : Env) (node : Node) (alpha beta ss : Int) (st : SearchState)
    (hz : (Call.q node alpha beta ss).Zero) {b : Bool} (hf : st.zero_window_failed = b) :
    match qEntry env node alpha beta ss st with
    | .inl r => r.2.zero_window_failed = b
    | .inr r => (Call.qloop r.1).Zero ∧ r.2.zero_window_failed = b := by
  obtain ⟨hw, hn⟩ := hz
  have hl : (limitReached env st).2.zero_window_failed = b := by
    rw [limitReached_zw]; exact hf
  have hpv : decide (node = .PV) = false → alpha = beta - 1 :=
    fun h => hn (of_decide_eq_false h)
  unfold qEntry
  simp only [assertWindow_eq alpha beta _ hw, assertZero_eq _ alpha beta _ hpv]
  generalize limitReached env st = lr at hl
  obtain ⟨hw1, hw2, hw3⟩ := hw
  split_ifs <;> simp only [] <;>
    first
    | exact hl
    | exact ⟨⟨⟨hw1, hw2, hw3⟩, hn⟩, hl⟩
    | (have hev : alpha < env.evaluation lr.2.tb.board := by assumption
       have hev2 : env.evaluation lr.2.tb.board < beta := by omega
       refine ⟨⟨⟨le_trans hw1 (le_of_lt hev), hev2, hw3⟩, fun h => ?_⟩, hl⟩
       have := hn h
       show env.evaluation lr.2.tb.board = beta - 1
       omega)

theorem abPrune_zero (env : Env) (f : ABFrame) (st1 : SearchState) (ev : Int)
    (improving : Bool) (d2 : Int) (hz : (Call.abloop f).Zero)
    {b : Bool} (hf : st1.zero_window_failed = b) :
    (abPrune env f st1 ev improving d2).ZeroKept b := by
  obtain ⟨hw, hn⟩ := hz
  unfold abPrune
  simp only []
  by_cases h1 : d2 ≤ 0
  · rw [if_pos h1]; exact ⟨⟨hw, fun h => absurd rfl h⟩, hf⟩
  rw [if_neg h1]
  by_cases h2 : decide (f.node ≠ .NONPV) = true
  · rw [if_pos h2]; exact ⟨⟨hw, hn⟩, hf⟩
  rw [if_neg h2]
  have hnode : f.node = .NONPV := by
    by_contra hc
    exact h2 (decide_eq_true hc)
  by_cases h3 : d2 < 3 ∧ ev + 129 < f.alpha
  · rw [if_pos h3]; exact ⟨⟨hw, fun _ => hn hnode⟩, hf⟩
  rw [if_neg h3]
  by_cases h4 : |f.beta| < VALUE_TB_WIN_IN_MAX_PLY ∧ d2 < 7 ∧
      ev - 64 * d2 + 71 * (if improving then 1 else 0) ≥ f.beta
  · rw [if_pos h4]; exact hf
  rw [if_neg h4]
  by_cases h5 : env.nonPawnMat st1.tb.board f.color = true ∧ f.excluded_move = NO_MOVE ∧
      (st1.stack (f.ss - 1)).currentmove ≠ NULL_MOVE ∧ d2 ≥ 3 ∧ ev ≥ f.beta
  · rw [if_pos h5]; exact ⟨⟨hw, hn⟩, hf⟩
  · rw [if_neg h5]; exact ⟨⟨hw, hn⟩, hf⟩

theorem abStatic_zero (env : Env) (f : ABFrame) (st : SearchState)
    (hz : (Call.abloop f).Zero) {b : Bool} (hf : st.zero_window_failed = b) :
    (abStatic env f st).ZeroKept b := by
  unfold abStatic
  by_cases h1 : f.in_check = true
  · rw [if_pos h1]; exact ⟨hz, hf⟩
  rw [if_neg h1]
  simp only []
  by_cases h2 : f.node = .ROOT
  · rw [if_pos h2]; exact ⟨hz, hf⟩
  rw [if_neg h2]
  exact abPrune_zero env f _ _ _ _ hz hf

theorem abTb_zero (env : Env) (node : Node) (depth1 alpha2 beta2 : Int) (ss : Int)
    (color : Color) (in_check : Bool) (excluded_move : Move) (key : Nat) (tt_hit : Bool)
    (ttmove : Move) (tt_score : Int) (st4 : SearchState)
    (hw : Window alpha2 beta2) (hn : node = .NONPV → alpha2 = beta2 - 1)
    {b : Bool} (hf : st4.zero_window_failed = b) :
    (abTb env node depth1 alpha2 beta2 ss color in_check excluded_move key tt_hit ttmove
      tt_score st4).ZeroKept b := by
  unfold abTb
  simp only []
  have hzw := tbProbe_zw env (decide (node = .ROOT)) (decide (node ≠ .NONPV)) depth1 alpha2
    beta2 (st4.stack ss).ply st4
  have hwin := tbProbe_window env (decide (node = .ROOT)) (decide (node ≠ .NONPV)) depth1
    alpha2 beta2 (st4.stack ss).ply st4 hw
  generalize tbProbe env (decide (node = .ROOT)) (decide (node ≠ .NONPV)) depth1 alpha2
    beta2 (st4.stack ss).ply st4 = tb at hzw hwin
  rw [hf] at hzw
  cases htb : tb.1.1 with
  | some v => exact hzw
  | none =>
    obtain ⟨t1, t2⟩ := hwin htb
    refine abStatic_zero env _ tb.2 ⟨t1, fun h => ?_⟩ hzw
    have h1 : (tb.1.2.2.1 : Int) = alpha2 := t2 (decide_eq_false (fun hc => hc h))
    have h2 := hn h
    show tb.1.2.2.1 = beta2 - 1
    omega

theorem abCut_zero (env : Env) (node : Node) (depth1 alpha1 beta1 : Int) (ss : Int)
    (color : Color) (in_check : Bool) (excluded_move : Move) (key : Nat) (tt_hit : Bool)
    (ttmove : Move) (tte : TEntry) (tt_score : Int) (st4 : SearchState)
    (hw : Window alpha1 beta1) (hn : node = .NONPV → alpha1 = beta1 - 1)
    {b : Bool} (hf : st4.zero_window_failed = b) :
    (abCut env node depth1 alpha1 beta1 ss color in_check excluded_move key tt_hit ttmove tte
      tt_score st4).ZeroKept b := by
  unfold abCut
  simp only []
  generalize (decide (decide (node = .ROOT) = false ∧ excluded_move = NO_MOVE ∧
    decide (node ≠ .NONPV) = false ∧ tt_hit = true ∧ tt_score ≠ VALUE_NONE ∧
    tte.depth ≥ depth1 ∧ (st4.stack (ss - 1)).currentmove ≠ NULL_MOVE)) = cut
  by_cases h1 : cut = true ∧ tte.flag = .EXACTBOUND
  · rw [if_pos h1]; exact hf
  rw [if_neg h1]
  generalize ha2 : (if cut = true ∧ tte.flag = .LOWERBOUND then max alpha1 tt_score else alpha1)
    = alpha2
  generalize hb2 : (if cut = true ∧ tte.flag = .UPPERBOUND then min beta1 tt_score else beta1)
    = beta2
  by_cases h2 : cut = true ∧ alpha2 ≥ beta2
  · rw [if_pos h2]; exact hf
  rw [if_neg h2]
  have hw2 : Window alpha2 beta2 ∧ (node = .NONPV → alpha2 = beta2 - 1) := by
    obtain ⟨hw1, hw2, hw3⟩ := hw
    rw [← ha2, ← hb2]
    rw [← ha2, ← hb2] at h2
    unfold Window
    cases cut with
    | false =>
      clear h2
      simp only [Bool.false_eq_true, false_and, if_false]
      exact ⟨⟨hw1, hw2, hw3⟩, hn⟩
    | true =>
      simp only [true_and, not_le, ge_iff_le] at h2 ⊢
      simp only [max_def, min_def] at h2 ⊢
      split_ifs at h2 ⊢ <;> refine ⟨by omega, fun h => ?_⟩ <;> have := hn h <;> omega
  exact abTb_zero env node depth1 alpha2 beta2 ss color in_check excluded_move key tt_hit
    ttmove tt_score st4 hw2.1 hw2.2 hf

theorem abProbe_zero (env : Env) (node : Node) (depth0 alpha1 beta1 : Int) (ss : Int)
    (color : Color) (in_check : Bool) (excluded_move : Move) (st1 : SearchState)
    (hw : Window alpha1 beta1) (hn : node = .NONPV → alpha1 = beta1 - 1)
    (hd : node = .ROOT → 1 ≤ depth0) {b : Bool} (hf : st1.zero_window_failed = b) :
    (abProbe env node depth0 alpha1 beta1 ss color in_check excluded_move st1).ZeroKept b := by
  have hpv : decide (node ≠ .NONPV) = false → alpha1 = beta1 - 1 :=
    fun h => hn (not_not.mp (of_decide_eq_false h))
  unfold abProbe
  simp only [assertWindow_eq alpha1 beta1 _ hw, assertZero_eq _ alpha1 beta1 _ hpv]
  by_cases h1 : (if in_check = true then depth0 + 1 else depth0) ≤ 0
  · rw [if_pos h1]
    refine ⟨⟨hw, fun h => ?_⟩, hf⟩
    cases node with
    | PV => exact absurd rfl h
    | NONPV => exact hn rfl
    | ROOT =>
      have := hd rfl
      split_ifs at h1 <;> omega
  rw [if_neg h1]
  refine abCut_zero env node _ alpha1 beta1 ss color in_check excluded_move _ _ _ _ _ _ hw hn ?_
  split_ifs <;> exact hf

/-- The part of `absearch` before its move loop, entered with a window
that is of width one at a non-PV node: mate-distance pruning returns or
leaves such a window as it is, the zero-window assertion passes, and what
is started next has such a window. -/
theorem abEntry_zero (env : Env) (node : Node) (depth0 alpha0 beta0 : Int) (ss : Int)
    (st0 : SearchState) (hz : (Call.ab node depth0 alpha0 beta0 ss).Zero)
    {b : Bool} (hf : st0.zero_window_failed = b) :
    (abEntry env node depth0 alpha0 beta0 ss st0).ZeroKept b := by
  obtain ⟨hw, hn, hd⟩ := hz
  have hl : (limitReached env st0).2.zero_window_failed = b := by
    rw [limitReached_zw]; exact hf
  unfold abEntry
  generalize limitReached env st0 = lr at hl
  simp only []
  by_cases h1 : lr.1 = true
  · rw [if_pos h1]; exact hl
  rw [if_neg h1]
  by_cases h2 : (lr.2.stack ss).ply ≥ MAX_PLY
  · rw [if_pos h2]; exact hl
  rw [if_neg h2]
  by_cases h3 : decide (node = .ROOT) = true
  · rw [if_pos h3]
    exact abProbe_zero env node depth0 alpha0 beta0 ss _ _ _ _ hw hn hd hl
  rw [if_neg h3]
  by_cases h4 : env.isRepetition lr.2.tb.board
      (1 + (if decide (node ≠ .NONPV) = true then 1 else 0)) = true
  · rw [if_pos h4]; exact hl
  rw [if_neg h4]
  by_cases h5 : env.isDrawn lr.2.tb.board (env.inCheck lr.2.tb.board) ≠ .NONE
  · rw [if_pos h5]; exact hl
  rw [if_neg h5]
  obtain ⟨hw1, hw2, hw3⟩ := hw
  by_cases h6 : max alpha0 (mated_in (lr.2.stack ss).ply)
      ≥ min beta0 (mate_in ((lr.2.stack ss).ply + 1))
  · rw [if_pos h6]; exact hl
  rw [if_neg h6]
  refine abProbe_zero env node depth0 _ _ ss _ _ _ _ ?_ ?_ hd hl
  · unfold Window
    simp only [max_def, min_def] at h6 ⊢
    split_ifs at h6 ⊢ <;> omega
  · intro h
    have := hn h
    simp only [max_def, min_def] at h6 ⊢
    split_ifs at h6 ⊢ <;> omega

/-- The update of the locals after a move keeps the record of the
zero-window assertions and, unless the loop is left, the window, of width
one at a non-PV node. -/
theorem abUpdate_zero (env : Env) (f : ABFrame) (st : SearchState) (move : Move)
    (capture : Bool) (score : Int) (node_count : Nat) (hz : (Call.abloop f).Zero)
    {b : Bool} (hf : st.zero_window_failed = b) :
    (abUpdate env f st move capture score node_count).2.1.zero_window_failed = b ∧
    ((abUpdate env f st move capture score node_count).2.2 = false →
      (Call.abloop (abUpdate env f st move capture score node_count).1).Zero) := by
  obtain ⟨⟨hw1, hw2, hw3⟩, hn⟩ := hz
  have h1 : (assertBand score (st.unmakeMove env move)).zero_window_failed = b := by
    rw [assertBand_zw]; exact hf
  unfold abUpdate
  simp only []
  generalize assertBand score (st.unmakeMove env move) = st1 at h1
  have h2 : (if env.id = 0 then
      { st1 with node_effort := fun a b =>
          if a = move.from ∧ b = move.to then
            (st1.node_effort a b + (st1.nodes + 2 ^ 64 - node_count) % 2 ^ 64) % 2 ^ 64
          else st1.node_effort a b }
    else st1).zero_window_failed = b := by
    split_ifs
    · exact h1
    · exact h1
  generalize (if env.id = 0 then
      { st1 with node_effort := fun a b =>
          if a = move.from ∧ b = move.to then
            (st1.node_effort a b + (st1.nodes + 2 ^ 64 - node_count) % 2 ^ 64) % 2 ^ 64
          else st1.node_effort a b }
    else st1) = st2 at h2
  have hz0 : ∀ g : ABFrame, g.alpha = f.alpha → g.beta = f.beta → g.node = f.node →
      (Call.abloop g).Zero := by
    intro g g1 g2 g3
    show Window g.alpha g.beta ∧ (g.node = .NONPV → g.alpha = g.beta - 1)
    rw [g1, g2, g3]
    exact ⟨⟨hw1, hw2, hw3⟩, hn⟩
  by_cases c1 : score > f.best
  · rw [if_pos c1]
    by_cases c2 : score > f.alpha
    · rw [if_pos c2]
      by_cases c3 : score ≥ f.beta
      · rw [if_pos c3]
        exact ⟨h2, fun h => absurd h (by simp)⟩
      · rw [if_neg c3]
        have hz1 : ∀ g : ABFrame, g.alpha = score → g.beta = f.beta → g.node = f.node →
            (Call.abloop g).Zero := by
          intro g g1 g2 g3
          show Window g.alpha g.beta ∧ (g.node = .NONPV → g.alpha = g.beta - 1)
          rw [g1, g2, g3]
          refine ⟨⟨by omega, by omega, hw3⟩, fun h => ?_⟩
          have := hn h
          omega
        split_ifs
        · exact ⟨h2, fun _ => hz1 _ rfl rfl rfl⟩
        · exact ⟨h2, fun _ => hz1 _ rfl rfl rfl⟩
    · rw [if_neg c2]
      split_ifs
      · exact ⟨h2, fun _ => hz0 _ rfl rfl rfl⟩
      · exact ⟨h2, fun _ => hz0 _ rfl rfl rfl⟩
  · rw [if_neg c1]
    split_ifs
    · exact ⟨h2, fun _ => hz0 _ rfl rfl rfl⟩
    · exact ⟨h2, fun _ => hz0 _ rfl rfl rfl⟩

/-- A value narrowed to `Score` lies in the range of `int16_t`. -/
theorem toInt16_range (x : Int) : -32768 ≤ toInt16 x ∧ toInt16 x ≤ 32767 := by
  unfold toInt16
  omega

/-- The child window `(-beta, -alpha)` of a window of width one is of
width one. -/
theorem zero_neg {a b : Int} (hw : Window a b) (h : a = b - 1) :
    toInt16 (-b) = toInt16 (-a) - 1 := by
  obtain ⟨h1, h2, h3⟩ := hw
  simp only [VALUE_INFINITE] at h1 h2 h3
  rw [toInt16_of_range _ (by omega) (by omega), toInt16_of_range _ (by omega) (by omega)]
  omega

/-- The window `(-alpha - 1, -alpha)` of the zero-window searches of
`absearch` is of width one. -/
theorem zero_width {a b : Int} (hw : Window a b) :
    toInt16 (-a - 1) = toInt16 (-a) - 1 := by
  obtain ⟨h1, h2, h3⟩ := hw
  simp only [VALUE_INFINITE] at h1 h2 h3
  rw [toInt16_of_range _ (by omega) (by omega), toInt16_of_range _ (by omega) (by omega)]

/-- The window `(-beta, -beta + 1)` of the null-move search is of width
one. -/
theorem zero_null {a b : Int} (hw : Window a b) :
    toInt16 (-b) = toInt16 (-b + 1) - 1 := by
  obtain ⟨h1, h2, h3⟩ := hw
  simp only [VALUE_INFINITE] at h1 h2 h3
  rw [toInt16_of_range _ (by omega) (by omega), toInt16_of_range _ (by omega) (by omega)]
  omega

theorem zero_out {rec : Call → SearchState → Option (Int × SearchState)} (hrec : ZeroOK rec)
    {call : Call} {st : SearchState} {v : Int} {st2 : SearchState}
    (h : rec call st = some (v, st2)) (hz : call.Zero) (hf : st.zero_window_failed = false) :
    st2.zero_window_failed = false := hrec call st v st2 hz hf h

/-- One turn of the `qsearch` loop lets no zero-window assertion fail if
the computations it starts let none fail. -/
theorem qLoop_zero (env : Env) (rec : Call → SearchState → Option (Int × SearchState))
    (hrec : ZeroOK rec) (f : QFrame) (st : SearchState) (v : Int) (st9 : SearchState)
    (hz : (Call.qloop f).Zero) (hf : st.zero_window_failed = false)
    (h : qLoop env rec f st = some (v, st9)) : st9.zero_window_failed = false := by
  obtain ⟨hw, hn⟩ := hz
  unfold qLoop at h
  simp only [] at h
  by_cases h1 : env.nextMoveQ st f.ss f.ttmove f.idx = NO_MOVE
  · rw [if_pos h1] at h
    have hq := qFinish_zw env f st
    rw [Option.some.inj h] at hq
    exact hq.trans hf
  rw [if_neg h1] at h
  by_cases h2 : qPruned env f st (env.nextMoveQ st f.ss f.ttmove f.idx) = true
  · rw [if_pos h2] at h
    exact zero_out hrec h ⟨hw, hn⟩ hf
  rw [if_neg h2] at h
  generalize env.nextMoveQ st f.ss f.ttmove f.idx = move at h
  cases hr : rec (.q f.node (toInt16 (-f.beta)) (toInt16 (-f.alpha)) (f.ss + 1))
      (SearchState.makeMove env { st with nodes := (st.nodes + 1) % 2 ^ 64 } move) with
  | none => rw [hr] at h; cases h
  | some p =>
    obtain ⟨r, st3⟩ := p
    rw [hr] at h
    simp only [] at h
    have hc : st3.zero_window_failed = false :=
      zero_out hrec hr ⟨window_neg hw, fun hp => zero_neg hw (hn hp)⟩ hf
    have hc4 : (assertBand (toInt16 (-r)) (st3.unmakeMove env move)).zero_window_failed
        = false := by
      rw [assertBand_zw]; exact hc
    generalize assertBand (toInt16 (-r)) (st3.unmakeMove env move) = st4 at h hc4
    obtain ⟨hw1, hw2, hw3⟩ := hw
    by_cases h3 : toInt16 (-r) > f.best_value
    · rw [if_pos h3] at h
      by_cases h4 : toInt16 (-r) > f.alpha
      · rw [if_pos h4] at h
        by_cases h5 : toInt16 (-r) ≥ f.beta
        · rw [if_pos h5] at h
          have hq := qFinish_zw env
            { f with idx := f.idx + 1, best_value := toInt16 (-r), alpha := toInt16 (-r),
                     bestmove := move } st4
          rw [Option.some.inj h] at hq
          exact hq.trans hc4
        · rw [if_neg h5] at h
          refine zero_out hrec h ⟨⟨?_, ?_, hw3⟩, fun hp => ?_⟩ hc4
          · show -VALUE_INFINITE ≤ toInt16 (-r); omega
          · show toInt16 (-r) < f.beta; omega
          · have := hn hp
            show toInt16 (-r) = f.beta - 1
            omega
      · rw [if_neg h4] at h
        exact zero_out hrec h ⟨⟨hw1, hw2, hw3⟩, hn⟩ hc4
    · rw [if_neg h3] at h
      exact zero_out hrec h ⟨⟨hw1, hw2, hw3⟩, hn⟩ hc4

/-- The null-move search lets no zero-window assertion fail if the
computations it starts let none fail. -/
theorem abNull_zero (env : Env) (rec : Call → SearchState → Option (Int × SearchState))
    (hrec : ZeroOK rec) (f : ABFrame) (R : Int) (st : SearchState) (v : Int)
    (st9 : SearchState) (hz : (Call.abloop f).Zero) (hf : st.zero_window_failed = false)
    (h : abNull env rec f R st = some (v, st9)) : st9.zero_window_failed = false := by
  have hw := hz.1
  unfold abNull at h
  simp only [] at h
  cases hr : rec (.ab .NONPV (f.depth - R) (toInt16 (-f.beta)) (toInt16 (-f.beta + 1)) (f.ss + 1))
      { st with tb := { st.tb with board := env.makeNullMove st.tb.board }
                stack := setCurrent st.stack f.ss NULL_MOVE } with
  | none => rw [hr] at h; cases h
  | some p =>
    obtain ⟨r, st3⟩ := p
    rw [hr] at h
    simp only [] at h
    have hc : st3.zero_window_failed = false :=
      zero_out hrec hr ⟨window_null hw, fun _ => zero_null hw, fun hn => absurd hn (by decide)⟩
        hf
    by_cases h3 : toInt16 (-r) ≥ f.beta
    · rw [if_pos h3] at h
      rw [Option.some.injEq, Prod.mk.injEq] at h
      rw [← h.2]
      exact hc
    · rw [if_neg h3] at h
      exact zero_out hrec h hz hc

/-- The singular-extension window `(singular_beta - 1, singular_beta)` is
a window of width one: `depth - 3` is at most the 8-bit depth of the
entry. -/
theorem singular_zero (tt_score depth : Int) (tdepth : Int) (h1 : |tt_score| < 10000)
    (h2 : depth ≥ 8) (h3 : tdepth ≥ depth - 3) (h4 : tdepth ≤ 255) :
    Window (toInt16 (tt_score - 3 * depth - 1)) (toInt16 (tt_score - 3 * depth)) ∧
    toInt16 (tt_score - 3 * depth - 1) = toInt16 (tt_score - 3 * depth) - 1 := by
  obtain ⟨h5, h6⟩ := abs_lt.mp h1
  rw [toInt16_of_range _ (by omega) (by omega), toInt16_of_range _ (by omega) (by omega)]
  unfold Window VALUE_INFINITE
  omega

/-- The singular-extension search lets no zero-window assertion fail if
the computations it starts let none fail. -/
theorem abSingular_zero (env : Env) (hd : env.DepthByte)
    (rec : Call → SearchState → Option (Int × SearchState))
    (hrec : ZeroOK rec) (f : ABFrame) (move : Move) (capture : Bool) (st : SearchState)
    (v : Int) (st9 : SearchState) (hz : (Call.abloop f).Zero)
    (hf : st.zero_window_failed = false) (hsp : singularPre f move = true)
    (h : abSingular env rec f move capture st = some (v, st9)) :
    st9.zero_window_failed = false := by
  have hsp2 := of_decide_eq_true hsp
  obtain ⟨s1, s2, s3, s4, s5, s6⟩ := hsp2
  have htt := hd st.tick f.key
  unfold abSingular at h
  simp only [] at h
  generalize (env.ttProbe st.tick f.key).2.2 = tte at h htt
  by_cases h1 : tte.flag.toNat &&& Flag.LOWERBOUND.toNat ≠ 0 ∧ tte.depth ≥ f.depth - 3
  · rw [if_pos h1] at h
    have hsw := singular_zero f.tt_score f.depth tte.depth s6 s2 h1.2 htt
    cases hr : rec (.ab .NONPV (Int.tdiv (f.depth - 1) 2) (toInt16 (f.tt_score - 3 * f.depth - 1))
        (toInt16 (f.tt_score - 3 * f.depth)) f.ss)
        { st with tick := st.tick + 1, stack := setExcluded st.stack f.ss move } with
    | none => rw [hr] at h; cases h
    | some p =>
      obtain ⟨value, st3⟩ := p
      rw [hr] at h
      simp only [] at h
      have hc : st3.zero_window_failed = false :=
        zero_out hrec hr ⟨hsw.1, fun _ => hsw.2, fun hn => absurd hn (by decide)⟩ hf
      by_cases h2 : value < f.tt_score - 3 * f.depth
      · rw [if_pos h2] at h
        exact zero_out hrec h hz hc
      rw [if_neg h2] at h
      by_cases h3 : f.tt_score - 3 * f.depth ≥ f.beta
      · rw [if_pos h3] at h
        rw [Option.some.injEq, Prod.mk.injEq] at h
        rw [← h.2]
        exact hc
      · rw [if_neg h3] at h
        exact zero_out hrec h hz hc
  · rw [if_neg h1] at h
    exact zero_out hrec h hz hf

/-- One turn of the `absearch` loop lets no zero-window assertion fail if
the computations it starts let none fail. -/
theorem abLoop_zero (env : Env) (hd : env.DepthByte)
    (rec : Call → SearchState → Option (Int × SearchState))
    (hrec : ZeroOK rec) (f : ABFrame) (st : SearchState) (v : Int) (st9 : SearchState)
    (hz : (Call.abloop f).Zero) (hf : st.zero_window_failed = false)
    (h : abLoop env rec f st = some (v, st9)) : st9.zero_window_failed = false := by
  unfold abLoop at h
  simp only [] at h
  generalize env.nextMoveAB st f.ss (decide (f.node = .ROOT))
    (if f.tt_hit = true then f.ttmove else NO_MOVE) f.idx = move at h
  by_cases h1 : move = NO_MOVE
  · rw [if_pos h1] at h
    have hq := abFinish_zw env f st
    rw [Option.some.inj h] at hq
    exact hq.trans hf
  rw [if_neg h1] at h
  by_cases h2 : move = f.excluded_move
  · rw [if_pos h2] at h
    exact zero_out hrec h hz hf
  rw [if_neg h2] at h
  have hz1 : (Call.abloop { f with made_moves := (f.made_moves + 1) % 256, idx := f.idx + 1 }).Zero
    := hz
  generalize ({ f with made_moves := (f.made_moves + 1) % 256, idx := f.idx + 1 } : ABFrame) = f1
    at h hz1
  by_cases h3 : abPruned env f1 st move (decide (st.tb.board.pieceAtB move.to ≠ NONE)) = true
  · rw [if_pos h3] at h
    exact zero_out hrec h hz1 hf
  rw [if_neg h3] at h
  by_cases h4 : singularPre f1 move = true
  · rw [if_pos h4] at h
    exact abSingular_zero env hd rec hrec f1 move _ st v st9 hz1 hf h4 h
  · rw [if_neg h4] at h
    exact zero_out hrec h hz1 hf

theorem abLmr_zero (env : Env) (rec : Call → SearchState → Option (Int × SearchState))
    (hrec : ZeroOK rec) (f : ABFrame) (capture : Bool) (newDepth : Int) (st : SearchState)
    (score : Int) (st9 : SearchState) (dfs : Bool) (hz : (Call.abloop f).Zero)
    (hf : st.zero_window_failed = false)
    (h : abLmr env rec f capture newDepth st = some (score, st9, dfs)) :
    st9.zero_window_failed = false := by
  have hw := hz.1
  unfold abLmr at h
  simp only [] at h
  by_cases h1 : decide (f.depth ≥ 3 ∧ f.in_check = false ∧
      (f.made_moves : Int) > 3 + 2 * (if decide (f.node ≠ .NONPV) = true then 1 else 0)) = true
  · rw [if_pos h1] at h
    cases hr : rec (.ab .NONPV (lmrDepth env f capture newDepth) (toInt16 (-f.alpha - 1))
        (toInt16 (-f.alpha)) (f.ss + 1)) st with
    | none => rw [hr] at h; cases h
    | some p =>
      obtain ⟨r, st3⟩ := p
      rw [hr] at h
      simp only [Option.some.injEq, Prod.mk.injEq] at h
      rw [← h.2.1]
      exact zero_out hrec hr
        ⟨window_zero_width hw, fun _ => zero_width hw, fun hn => absurd hn (by decide)⟩ hf
  · rw [if_neg h1] at h
    simp only [Option.some.injEq, Prod.mk.injEq] at h
    rw [← h.2.1]
    exact hf

theorem abFull_zero (rec : Call → SearchState → Option (Int × SearchState))
    (hrec : ZeroOK rec) (f : ABFrame) (newDepth : Int) (score1 : Int) (st : SearchState)
    (dfs : Bool) (score : Int) (st9 : SearchState) (hz : (Call.abloop f).Zero)
    (hf : st.zero_window_failed = false)
    (h : abFull rec f newDepth score1 st dfs = some (score, st9)) :
    st9.zero_window_failed = false := by
  have hw := hz.1
  unfold abFull at h
  by_cases h2 : dfs = true
  · rw [if_pos h2] at h
    cases hr : rec (.ab .NONPV newDepth (toInt16 (-f.alpha - 1)) (toInt16 (-f.alpha)) (f.ss + 1))
        st with
    | none => rw [hr] at h; cases h
    | some p =>
      obtain ⟨r, st3⟩ := p
      rw [hr] at h
      simp only [Option.some.injEq, Prod.mk.injEq] at h
      rw [← h.2]
      exact zero_out hrec hr
        ⟨window_zero_width hw, fun _ => zero_width hw, fun hn => absurd hn (by decide)⟩ hf
  · rw [if_neg h2] at h
    simp only [Option.some.injEq, Prod.mk.injEq] at h
    rw [← h.2]
    exact hf

theorem abPvs_zero (rec : Call → SearchState → Option (Int × SearchState))
    (hrec : ZeroOK rec) (f : ABFrame) (newDepth : Int) (score2 : Int) (st : SearchState)
    (score : Int) (st9 : SearchState) (hz : (Call.abloop f).Zero)
    (hf : st.zero_window_failed = false)
    (h : abPvs rec f newDepth score2 st = some (score, st9)) :
    st9.zero_window_failed = false := by
  have hw := hz.1
  unfold abPvs at h
  simp only [] at h
  by_cases h2 : decide (f.node ≠ .NONPV) = true ∧
      ((score2 > f.alpha ∧ score2 < f.beta) ∨ f.made_moves = 1)
  · rw [if_pos h2] at h
    cases hr : rec (.ab .PV newDepth (toInt16 (-f.beta)) (toInt16 (-f.alpha)) (f.ss + 1)) st with
    | none => rw [hr] at h; cases h
    | some p =>
      obtain ⟨r, st3⟩ := p
      rw [hr] at h
      simp only [Option.some.injEq, Prod.mk.injEq] at h
      rw [← h.2]
      exact zero_out hrec hr
        ⟨window_neg hw, fun hn => absurd hn (by decide), fun hn => absurd hn (by decide)⟩ hf
  · rw [if_neg h2] at h
    simp only [Option.some.injEq, Prod.mk.injEq] at h
    rw [← h.2]
    exact hf

/-- The loop body from `newDepth` on lets no zero-window assertion fail
if the computations it starts let none fail. -/
theorem abMove_zero (env : Env)
    (rec : Call → SearchState → Option (Int × SearchState))
    (hrec : ZeroOK rec) (f : ABFrame) (move : Move) (capture : Bool) (extension : Int)
    (st : SearchState) (v : Int) (st9 : SearchState) (hz : (Call.abloop f).Zero)
    (hf : st.zero_window_failed = false)
    (h : abMove env rec f move capture extension st = some (v, st9)) :
    st9.zero_window_failed = false := by
  unfold abMove at h
  simp only [] at h
  have hp3 : ({ SearchState.makeMove env { st with nodes := (st.nodes + 1) % 2 ^ 64 } move
      with stack := setCurrent (SearchState.makeMove env
        { st with nodes := (st.nodes + 1) % 2 ^ 64 } move).stack f.ss move }
        : SearchState).zero_window_failed = false := hf
  generalize ({ SearchState.makeMove env { st with nodes := (st.nodes + 1) % 2 ^ 64 } move
      with stack := setCurrent (SearchState.makeMove env
        { st with nodes := (st.nodes + 1) % 2 ^ 64 } move).stack f.ss move } : SearchState) = st3
    at h hp3
  cases hr1 : abLmr env rec f capture (f.depth - 1 + extension) st3 with
  | none => rw [hr1] at h; cases h
  | some p1 =>
    obtain ⟨score1, st4, dfs⟩ := p1
    rw [hr1] at h
    simp only [] at h
    have hc1 := abLmr_zero env rec hrec f capture _ st3 score1 st4 dfs hz hp3 hr1
    cases hr2 : abFull rec f (f.depth - 1 + extension) score1 st4 dfs with
    | none => rw [hr2] at h; cases h
    | some p2 =>
      obtain ⟨score2, st5⟩ := p2
      rw [hr2] at h
      simp only [] at h
      have hc2 := abFull_zero rec hrec f _ score1 st4 dfs score2 st5 hz hc1 hr2
      cases hr3 : abPvs rec f (f.depth - 1 + extension) score2 st5 with
      | none => rw [hr3] at h; cases h
      | some p3 =>
        obtain ⟨score3, st6⟩ := p3
        rw [hr3] at h
        simp only [] at h
        have hc3 := abPvs_zero rec hrec f _ score2 st5 score3 st6 hz hc2 hr3
        have hu := abUpdate_zero env f st6 move capture score3
          (SearchState.makeMove env { st with nodes := (st.nodes + 1) % 2 ^ 64 } move).nodes
          hz hc3
        generalize abUpdate env f st6 move capture score3
          (SearchState.makeMove env { st with nodes := (st.nodes + 1) % 2 ^ 64 } move).nodes = u
          at h hu
        obtain ⟨u1, u2⟩ := hu
        by_cases hb : u.2.2 = true
        · rw [if_pos hb] at h
          have hq := abFinish_zw env u.1 u.2.1
          rw [Option.some.inj h] at hq
          exact hq.trans u1
        · rw [if_neg hb] at h
          have hb2 : u.2.2 = false := by
            cases hx : u.2.2 with
            | true => exact absurd hx hb
            | false => rfl
          exact zero_out hrec h (u2 hb2) u1

/-- One step of the search lets no zero-window assertion fail if the
computations it starts let none fail. -/
theorem searchStep_zero (env : Env) (hd : env.DepthByte)
    (rec : Call → SearchState → Option (Int × SearchState)) (hrec : ZeroOK rec) :
    ZeroOK (searchStep env rec) := by
  intro call st v st9 hz hf h
  cases call with
  | q node alpha beta ss =>
    simp only [searchStep] at h
    have hq := qEntry_zero env node alpha beta ss st hz hf
    cases hr : qEntry env node alpha beta ss st with
    | inl r =>
      rw [hr] at h hq
      simp only [Option.some.injEq] at h hq
      rw [h] at hq
      exact hq
    | inr r =>
      obtain ⟨f, st1⟩ := r
      rw [hr] at h hq
      simp only [] at h hq
      exact zero_out hrec h hq.1 hq.2
  | qloop f =>
    simp only [searchStep] at h
    exact qLoop_zero env rec hrec f st v st9 hz hf h
  | ab node depth alpha beta ss =>
    simp only [searchStep] at h
    have hq := abEntry_zero env node depth alpha beta ss st hz hf
    cases hr : abEntry env node depth alpha beta ss st with
    | ret v1 st1 =>
      rw [hr] at h hq
      simp only [Option.some.injEq, Prod.mk.injEq] at h
      rw [← h.2]
      exact hq
    | tailQ node1 a b ss1 st1 =>
      rw [hr] at h hq
      exact zero_out hrec h hq.1 hq.2
    | moves f st1 =>
      rw [hr] at h hq
      exact zero_out hrec h hq.1 hq.2
    | nmp f R st1 =>
      rw [hr] at h hq
      exact abNull_zero env rec hrec f R st1 v st9 hq.1 hq.2 h
  | abloop f =>
    simp only [searchStep] at h
    exact abLoop_zero env hd rec hrec f st v st9 hz hf h
  | abmove f move capture extension =>
    simp only [searchStep] at h
    exact abMove_zero env rec hrec f move capture extension st v st9 hz hf h

/-- The search lets no zero-window assertion fail, for every fuel. -/
theorem search_zero (env : Env) (hd : env.DepthByte) : ∀ n, ZeroOK (search env n)
  | 0 => fun _ _ _ _ _ _ h => by cases h
  | n + 1 => searchStep_zero env hd (search env n) (search_zero env hd n)

theorem zeroGuard_pos (rec : Call → SearchState → Option (Int × SearchState)) (call : Call)
    (st : SearchState) (hz : call.Zero) : zeroGuard rec call st = rec call st := by
  unfold zeroGuard
  rw [if_pos hz]

/-- One turn of the `qsearch` loop starts only computations that meet
`Call.Zero`. -/
theorem qLoop_agree (env : Env) (r1 r2 : Call → SearchState → Option (Int × SearchState))
    (hag : ZeroAgree r1 r2) (f : QFrame) (st : SearchState) (hz : (Call.qloop f).Zero) :
    qLoop env r1 f st = qLoop env r2 f st := by
  obtain ⟨hw, hn⟩ := hz
  unfold qLoop
  simp only []
  generalize env.nextMoveQ st f.ss f.ttmove f.idx = move
  by_cases h1 : move = NO_MOVE
  · simp only [if_pos h1]
  simp only [if_neg h1]
  by_cases h2 : qPruned env f st move = true
  · simp only [if_pos h2]
    exact hag _ _ ⟨hw, hn⟩
  simp only [if_neg h2]
  rw [hag _ _ (show (Call.q f.node (toInt16 (-f.beta)) (toInt16 (-f.alpha)) (f.ss + 1)).Zero
    from ⟨window_neg hw, fun hp => zero_neg hw (hn hp)⟩)]
  cases r2 (.q f.node (toInt16 (-f.beta)) (toInt16 (-f.alpha)) (f.ss + 1))
      (SearchState.makeMove env { st with nodes := (st.nodes + 1) % 2 ^ 64 } move) with
  | none => rfl
  | some p =>
    obtain ⟨r, st3⟩ := p
    simp only []
    obtain ⟨hw1, hw2, hw3⟩ := hw
    by_cases h3 : toInt16 (-r) > f.best_value
    · simp only [if_pos h3]
      by_cases h4 : toInt16 (-r) > f.alpha
      · simp only [if_pos h4]
        by_cases h5 : toInt16 (-r) ≥ f.beta
        · simp only [if_pos h5]
        · simp only [if_neg h5]
          refine hag _ _ ⟨⟨?_, ?_, hw3⟩, fun hp => ?_⟩
          · show -VALUE_INFINITE ≤ toInt16 (-r); omega
          · show toInt16 (-r) < f.beta; omega
          · have := hn hp
            show toInt16 (-r) = f.beta - 1
            omega
      · simp only [if_neg h4]
        exact hag _ _ ⟨⟨hw1, hw2, hw3⟩, hn⟩
    · simp only [if_neg h3]
      exact hag _ _ ⟨⟨hw1, hw2, hw3⟩, hn⟩

/-- The null-move search starts only computations that meet `Call.Zero`. -/
theorem abNull_agree (env : Env) (r1 r2 : Call → SearchState → Option (Int × SearchState))
    (hag : ZeroAgree r1 r2) (f : ABFrame) (R : Int) (st : SearchState)
    (hz : (Call.abloop f).Zero) : abNull env r1 f R st = abNull env r2 f R st := by
  have hw := hz.1
  unfold abNull
  simp only []
  rw [hag _ _ (show (Call.ab .NONPV (f.depth - R) (toInt16 (-f.beta)) (toInt16 (-f.beta + 1))
    (f.ss + 1)).Zero from
      ⟨window_null hw, fun _ => zero_null hw, fun hn => absurd hn (by decide)⟩)]
  cases r2 (.ab .NONPV (f.depth - R) (toInt16 (-f.beta)) (toInt16 (-f.beta + 1)) (f.ss + 1))
      { st with tb := { st.tb with board := env.makeNullMove st.tb.board }
                stack := setCurrent st.stack f.ss NULL_MOVE } with
  | none => rfl
  | some p =>
    obtain ⟨r, st3⟩ := p
    simp only []
    by_cases h3 : toInt16 (-r) ≥ f.beta
    · simp only [if_pos h3]
    · simp only [if_neg h3]
      exact hag _ _ hz

/-- The singular-extension search starts only computations that meet
`Call.Zero`. -/
theorem abSingular_agree (env : Env) (hd : env.DepthByte)
    (r1 r2 : Call → SearchState → Option (Int × SearchState)) (hag : ZeroAgree r1 r2)
    (f : ABFrame) (move : Move) (capture : Bool) (st : SearchState)
    (hz : (Call.abloop f).Zero) (hsp : singularPre f move = true) :
    abSingular env r1 f move capture st = abSingular env r2 f move capture st := by
  have hsp2 := of_decide_eq_true hsp
  obtain ⟨s1, s2, s3, s4, s5, s6⟩ := hsp2
  have htt := hd st.tick f.key
  unfold abSingular
  simp only []
  generalize (env.ttProbe st.tick f.key).2.2 = tte at htt
  by_cases h1 : tte.flag.toNat &&& Flag.LOWERBOUND.toNat ≠ 0 ∧ tte.depth ≥ f.depth - 3
  · simp only [if_pos h1]
    have hsw := singular_zero f.tt_score f.depth tte.depth s6 s2 h1.2 htt
    rw [hag _ _ (show (Call.ab .NONPV (Int.tdiv (f.depth - 1) 2)
      (toInt16 (f.tt_score - 3 * f.depth - 1)) (toInt16 (f.tt_score - 3 * f.depth)) f.ss).Zero
      from ⟨hsw.1, fun _ => hsw.2, fun hn => absurd hn (by decide)⟩)]
    cases r2 (.ab .NONPV (Int.tdiv (f.depth - 1) 2) (toInt16 (f.tt_score - 3 * f.depth - 1))
        (toInt16 (f.tt_score - 3 * f.depth)) f.ss)
        { st with tick := st.tick + 1, stack := setExcluded st.stack f.ss move } with
    | none => rfl
    | some p =>
      obtain ⟨value, st3⟩ := p
      simp only []
      by_cases h2 : value < f.tt_score - 3 * f.depth
      · simp only [if_pos h2]
        exact hag _ _ hz
      simp only [if_neg h2]
      by_cases h3 : f.tt_score - 3 * f.depth ≥ f.beta
      · simp only [if_pos h3]
      · simp only [if_neg h3]
        exact hag _ _ hz
  · simp only [if_neg h1]
    exact hag _ _ hz

/-- One turn of the `absearch` loop starts only computations that meet
`Call.Zero`. -/
theorem abLoop_agree (env : Env) (hd : env.DepthByte)
    (r1 r2 : Call → SearchState → Option (Int × SearchState)) (hag : ZeroAgree r1 r2)
    (f : ABFrame) (st : SearchState) (hz : (Call.abloop f).Zero) :
    abLoop env r1 f st = abLoop env r2 f st := by
  unfold abLoop
  simp only []
  generalize env.nextMoveAB st f.ss (decide (f.node = .ROOT))
    (if f.tt_hit = true then f.ttmove else NO_MOVE) f.idx = move
  by_cases h1 : move = NO_MOVE
  · simp only [if_pos h1]
  simp only [if_neg h1]
  by_cases h2 : move = f.excluded_move
  · simp only [if_pos h2]
    exact hag _ _ hz
  simp only [if_neg h2]
  have hz1 : (Call.abloop { f with made_moves := (f.made_moves + 1) % 256, idx := f.idx + 1 }).Zero
    := hz
  generalize ({ f with made_moves := (f.made_moves + 1) % 256, idx := f.idx + 1 } : ABFrame) = f1
    at hz1
  by_cases h3 : abPruned env f1 st move (decide (st.tb.board.pieceAtB move.to ≠ NONE)) = true
  · simp only [if_pos h3]
    exact hag _ _ hz1
  simp only [if_neg h3]
  by_cases h4 : singularPre f1 move = true
  · simp only [if_pos h4]
    exact abSingular_agree env hd r1 r2 hag f1 move _ st hz1 h4
  · simp only [if_neg h4]
    exact hag _ _ hz1

theorem abLmr_agree (env : Env) (r1 r2 : Call → SearchState → Option (Int × SearchState))
    (hag : ZeroAgree r1 r2) (f : ABFrame) (capture : Bool) (newDepth : Int) (st : SearchState)
    (hz : (Call.abloop f).Zero) :
    abLmr env r1 f capture newDepth st = abLmr env r2 f capture newDepth st := by
  have hw := hz.1
  unfold abLmr
  simp only []
  rw [hag _ _ (show (Call.ab .NONPV (lmrDepth env f capture newDepth) (toInt16 (-f.alpha - 1))
    (toInt16 (-f.alpha)) (f.ss + 1)).Zero from
      ⟨window_zero_width hw, fun _ => zero_width hw, fun hn => absurd hn (by decide)⟩)]

theorem abFull_agree (r1 r2 : Call → SearchState → Option (Int × SearchState))
    (hag : ZeroAgree r1 r2) (f : ABFrame) (newDepth : Int) (score1 : Int) (st : SearchState)
    (dfs : Bool) (hz : (Call.abloop f).Zero) :
    abFull r1 f newDepth score1 st dfs = abFull r2 f newDepth score1 st dfs := by
  have hw := hz.1
  unfold abFull
  rw [hag _ _ (show (Call.ab .NONPV newDepth (toInt16 (-f.alpha - 1))
    (toInt16 (-f.alpha)) (f.ss + 1)).Zero from
      ⟨window_zero_width hw, fun _ => zero_width hw, fun hn => absurd hn (by decide)⟩)]

theorem abPvs_agree (r1 r2 : Call → SearchState → Option (Int × SearchState))
    (hag : ZeroAgree r1 r2) (f : ABFrame) (newDepth : Int) (score2 : Int) (st : SearchState)
    (hz : (Call.abloop f).Zero) :
    abPvs r1 f newDepth score2 st = abPvs r2 f newDepth score2 st := by
  have hw := hz.1
  unfold abPvs
  simp only []
  rw [hag _ _ (show (Call.ab .PV newDepth (toInt16 (-f.beta)) (toInt16 (-f.alpha))
    (f.ss + 1)).Zero from
      ⟨window_neg hw, fun hn => absurd hn (by decide), fun hn => absurd hn (by decide)⟩)]

/-- The loop body from `newDepth` on starts only computations that meet
`Call.Zero`. -/
theorem abMove_agree (env : Env) (r1 r2 : Call → SearchState → Option (Int × SearchState))
    (hag : ZeroAgree r1 r2) (f : ABFrame) (move : Move) (capture : Bool) (extension : Int)
    (st : SearchState) (hz : (Call.abloop f).Zero) :
    abMove env r1 f move capture extension st = abMove env r2 f move capture extension st := by
  unfold abMove
  simp only []
  generalize ({ SearchState.makeMove env { st with nodes := (st.nodes + 1) % 2 ^ 64 } move
      with stack := setCurrent (SearchState.makeMove env
        { st with nodes := (st.nodes + 1) % 2 ^ 64 } move).stack f.ss move } : SearchState) = st3
  rw [abLmr_agree env r1 r2 hag f capture _ st3 hz]
  cases abLmr env r2 f capture (f.depth - 1 + extension) st3 with
  | none => rfl
  | some p1 =>
    obtain ⟨score1, st4, dfs⟩ := p1
    simp only []
    rw [abFull_agree r1 r2 hag f _ score1 st4 dfs hz]
    cases abFull r2 f (f.depth - 1 + extension) score1 st4 dfs with
    | none => rfl
    | some p2 =>
      obtain ⟨score2, st5⟩ := p2
      simp only []
      rw [abPvs_agree r1 r2 hag f _ score2 st5 hz]
      cases abPvs r2 f (f.depth - 1 + extension) score2 st5 with
      | none => rfl
      | some p3 =>
        obtain ⟨score3, st6⟩ := p3
        simp only []
        have hu := (abUpdate_zero env f st6 move capture score3
          (SearchState.makeMove env { st with nodes := (st.nodes + 1) % 2 ^ 64 } move).nodes
          hz rfl).2
        generalize abUpdate env f st6 move capture score3
          (SearchState.makeMove env { st with nodes := (st.nodes + 1) % 2 ^ 64 } move).nodes = u
          at hu
        cases hb : u.2.2 with
        | true => simp only [if_true]
        | false =>
          simp only [Bool.false_eq_true, if_false]
          exact hag _ _ (hu hb)

/-- One step of the search starts only computations that meet
`Call.Zero`: it does not tell two runners that agree on them apart. -/
theorem searchStep_agree (env : Env) (hd : env.DepthByte)
    (r1 r2 : Call → SearchState → Option (Int × SearchState)) (hag : ZeroAgree r1 r2) :
    ZeroAgree (searchStep env r1) (searchStep env r2) := by
  intro call st hz
  cases call with
  | q node alpha beta ss =>
    simp only [searchStep]
    have hq := qEntry_zero env node alpha beta ss st hz rfl
    cases hr : qEntry env node alpha beta ss st with
    | inl r => rfl
    | inr r =>
      obtain ⟨f, st1⟩ := r
      rw [hr] at hq
      exact hag _ _ hq.1
  | qloop f =>
    simp only [searchStep]
    exact qLoop_agree env r1 r2 hag f st hz
  | ab node depth alpha beta ss =>
    simp only [searchStep]
    have hq := abEntry_zero env node depth alpha beta ss st hz rfl
    cases hr : abEntry env node depth alpha beta ss st with
    | ret v1 st1 => rfl
    | tailQ node1 a b ss1 st1 =>
      rw [hr] at hq
      exact hag _ _ hq.1
    | moves f st1 =>
      rw [hr] at hq
      exact hag _ _ hq.1
    | nmp f R st1 =>
      rw [hr] at hq
      exact abNull_agree env r1 r2 hag f R st1 hq.1
  | abloop f =>
    simp only [searchStep]
    exact abLoop_agree env hd r1 r2 hag f st hz
  | abmove f move capture extension =>
    simp only [searchStep]
    exact abMove_agree env r1 r2 hag f move capture extension st hz

/-- The search starts only computations that meet `Call.Zero`: it is the
search that refuses all others, for every fuel. -/
theorem search_agree (env : Env) (hd : env.DepthByte) :
    ∀ n, ZeroAgree (search env n) (searchZ env n)
  | 0 => fun _ _ _ => rfl
  | n + 1 => fun call st hz =>
    searchStep_agree env hd (search env n) (zeroGuard (searchZ env n))
      (fun c s hc => (search_agree env hd n c s hc).trans (zeroGuard_pos _ c s hc).symm)
      call st hz

theorem abPrune_zw (env : Env) (f : ABFrame) (st1 : SearchState) (ev : Int)
    (improving : Bool) (d2 : Int) :
    (abPrune env f st1 ev improving d2).state.zero_window_failed
      = st1.zero_window_failed := by
  unfold abPrune
  simp only []
  split_ifs <;> rfl

theorem abStatic_zw (env : Env) (f : ABFrame) (st : SearchState) :
    (abStatic env f st).state.zero_window_failed = st.zero_window_failed := by
  unfold abStatic
  by_cases h1 : f.in_check = true
  · rw [if_pos h1]; rfl
  rw [if_neg h1]
  simp only []
  by_cases h2 : f.node = .ROOT
  · rw [if_pos h2]; rfl
  rw [if_neg h2]
  rw [abPrune_zw]

theorem abTb_zw (env : Env) (node : Node) (depth1 alpha2 beta2 : Int) (ss : Int)
    (color : Color) (in_check : Bool) (excluded_move : Move) (key : Nat) (tt_hit : Bool)
    (ttmove : Move) (tt_score : Int) (st4 : SearchState) :
    (abTb env node depth1 alpha2 beta2 ss color in_check excluded_move key tt_hit ttmove
      tt_score st4).state.zero_window_failed = st4.zero_window_failed := by
  unfold abTb
  simp only []
  have hzw := tbProbe_zw env (decide (node = .ROOT)) (decide (node ≠ .NONPV)) depth1 alpha2
    beta2 (st4.stack ss).ply st4
  generalize tbProbe env (decide (node = .ROOT)) (decide (node ≠ .NONPV)) depth1 alpha2
    beta2 (st4.stack ss).ply st4 = tb at hzw
  cases htb : tb.1.1 with
  | some v => exact hzw
  | none =>
    show (abStatic env _ tb.2).state.zero_window_failed = st4.zero_window_failed
    rw [abStatic_zw]
    exact hzw

theorem abCut_zw (env : Env) (node : Node) (depth1 alpha1 beta1 : Int) (ss : Int)
    (color : Color) (in_check : Bool) (excluded_move : Move) (key : Nat) (tt_hit : Bool)
    (ttmove : Move) (tte : TEntry) (tt_score : Int) (st4 : SearchState) :
    (abCut env node depth1 alpha1 beta1 ss color in_check excluded_move key tt_hit ttmove tte
      tt_score st4).state.zero_window_failed = st4.zero_window_failed := by
  unfold abCut
  simp only []
  split_ifs <;> first
    | rfl
    | exact abTb_zw _ _ _ _ _ _ _ _ _ _ _ _ _ _

theorem abProbe_zw (env : Env) (node : Node) (depth0 alpha1 beta1 : Int) (ss : Int)
    (color : Color) (in_check : Bool) (excluded_move : Move) (st1 : SearchState)
    (hn : node = .NONPV → alpha1 = beta1 - 1) :
    (abProbe env node depth0 alpha1 beta1 ss color in_check excluded_move
      st1).state.zero_window_failed = st1.zero_window_failed := by
  have hpv : decide (node ≠ .NONPV) = false → alpha1 = beta1 - 1 :=
    fun h => hn (not_not.mp (of_decide_eq_false h))
  unfold abProbe
  simp only [assertZero_eq _ alpha1 beta1 _ hpv]
  by_cases h1 : (if in_check = true then depth0 + 1 else depth0) ≤ 0
  · rw [if_pos h1]; rfl
  rw [if_neg h1]
  rw [abCut_zw]
  split_ifs <;> exact assertWindow_zw _ _ _

/-- The part of `absearch` before its move loop, entered with a window of
width one at a non-PV node, lets no zero-window assertion fail: where
mate-distance pruning does not return it leaves the window as it is. -/
theorem abEntry_zw (env : Env) (node : Node) (depth0 alpha0 beta0 : Int) (ss : Int)
    (st0 : SearchState) (hn : node = .NONPV → alpha0 = beta0 - 1) :
    (abEntry env node depth0 alpha0 beta0 ss st0).state.zero_window_failed
      = st0.zero_window_failed := by
  have hl := limitReached_zw env st0
  unfold abEntry
  generalize limitReached env st0 = lr at hl
  simp only []
  by_cases h1 : lr.1 = true
  · rw [if_pos h1]; exact hl
  rw [if_neg h1]
  by_cases h2 : (lr.2.stack ss).ply ≥ MAX_PLY
  · rw [if_pos h2]; exact hl
  rw [if_neg h2]
  by_cases h3 : decide (node = .ROOT) = true
  · rw [if_pos h3]
    rw [abProbe_zw _ _ _ _ _ _ _ _ _ _ hn]
    exact hl
  rw [if_neg h3]
  by_cases h4 : env.isRepetition lr.2.tb.board
      (1 + (if decide (node ≠ .NONPV) = true then 1 else 0)) = true
  · rw [if_pos h4]; exact hl
  rw [if_neg h4]
  by_cases h5 : env.isDrawn lr.2.tb.board (env.inCheck lr.2.tb.board) ≠ .NONE
  · rw [if_pos h5]; exact hl
  rw [if_neg h5]
  by_cases h6 : max alpha0 (mated_in (lr.2.stack ss).ply)
      ≥ min beta0 (mate_in ((lr.2.stack ss).ply + 1))
  · rw [if_pos h6]; exact hl
  rw [if_neg h6]
  rw [abProbe_zw]
  · exact hl
  · intro h
    have := hn h
    simp only [max_def, min_def] at h6 ⊢
    split_ifs at h6 ⊢ <;> omega

/-- The part of `qsearch` before its move loop, entered with a window of
width one at a node that is not a PV node, lets no zero-window assertion
fail. -/
theorem qEntry_zw (env : Env) (node : Node) (alpha beta ss : Int) (st : SearchState)
    (hn : node ≠ .PV → alpha = beta - 1) :
    (match qEntry env node alpha beta ss st with
      | .inl r => r.2
      | .inr r => r.2).zero_window_failed = st.zero_window_failed := by
  have hl := limitReached_zw env st
  have hpv : decide (node = .PV) = false → alpha = beta - 1 :=
    fun h => hn (of_decide_eq_false h)
  have ha : (assertWindow alpha beta (limitReached env st).2).zero_window_failed
      = st.zero_window_failed := by
    rw [assertWindow_zw]; exact hl
  unfold qEntry
  simp only [assertZero_eq _ alpha beta _ hpv]
  generalize assertWindow alpha beta (limitReached env st).2 = sa at ha
  generalize limitReached env st = lr at hl
  split_ifs <;> first
    | exact hl
    | exact ha

/-- Mate-distance pruning on a window of width one: the pruned window is
empty (the node returns) or it is the window itself. -/
theorem mate_distance_zero (alpha beta ply : Int) (h : alpha = beta - 1) :
    max alpha (mated_in ply) ≥ min beta (mate_in (ply + 1)) ∨
    (max alpha (mated_in ply) = alpha ∧ min beta (mate_in (ply + 1)) = beta) := by
  simp only [max_def, min_def]
  split_ifs <;> omega

set_option maxRecDepth 100000 in
/-- The record of the zero-window assertions tells a wide window at a
non-PV node: `absearch<NONPV>` entered with the window `(-100, 100)` fails
the assertion of line 258, the guarded search refuses its move loop, and
`absearch<ROOT>` entered at depth 0 drops into `qsearch<ROOT>`, which
fails the assertion of line 104 on the full window. -/
theorem wide_window_recorded :
    (search zeroEnv 30 (.ab .NONPV 2 (-100) 100 1) sampleState).map
      (fun r => r.2.zero_window_failed) = some true ∧
    (searchZ zeroEnv 30 (.ab .NONPV 2 (-100) 100 1) sampleState).isNone = true ∧
    (search zeroEnv 30 (.ab .ROOT 0 (-VALUE_INFINITE) VALUE_INFINITE 0) sampleState).map
      (fun r => r.2.zero_window_failed) = some true := by
  decide

/-- C28: every non-PV node is searched with a zero window. Mate-distance
pruning on a window with `alpha = beta - 1` gives an empty window (the
node returns) or that window itself; `absearch<NONPV>` entered with
`alpha = beta - 1` ends its part before the move loop (mate-distance
pruning and the assertion of line 258 included) with the record of the
zero-window assertions as it was, and so does `qsearch<NONPV>` (line 104).
A search started on a computation that meets `Call.Zero` (a window, of
width one at a non-PV node; depth at least 1 at the root) is the search
that refuses every started computation that does not meet it: each
recursive call of `absearch<NONPV>` and of `qsearch` at a non-PV node is
issued with a window of width one; and where the search returns, no
zero-window assertion has failed at any node. -/
theorem zero_window_at_non_pv (env : Env) (hd : env.DepthByte) (n : Nat) (call : Call)
    (st : SearchState) (hz : call.Zero) (hf : st.zero_window_failed = false) :
    (∀ alpha beta ply : Int, alpha = beta - 1 →
      max alpha (mated_in ply) ≥ min beta (mate_in (ply + 1)) ∨
      (max alpha (mated_in ply) = alpha ∧ min beta (mate_in (ply + 1)) = beta)) ∧
    (∀ depth alpha beta ss s, alpha = beta - 1 →
      (abEntry env .NONPV depth alpha beta ss s).state.zero_window_failed
        = s.zero_window_failed) ∧
    (∀ alpha beta ss s, alpha = beta - 1 →
      (match qEntry env .NONPV alpha beta ss s with
        | .inl r => r.2
        | .inr r => r.2).zero_window_failed = s.zero_window_failed) ∧
    search env n call st = searchZ env n call st ∧
    ∀ v st2, search env n call st = some (v, st2) → st2.zero_window_failed = false :=
  ⟨fun alpha beta ply h => mate_distance_zero alpha beta ply h,
    fun depth alpha beta ss s h => abEntry_zw env .NONPV depth alpha beta ss s (fun _ => h),
    fun alpha beta ss s h => qEntry_zw env .NONPV alpha beta ss s (fun _ => h),
    search_agree env hd n call st hz,
    fun v st2 h => search_zero env hd n call st v st2 hz hf h⟩

set_option maxRecDepth 100000 in
/-- Witness for C28: `absearch<ROOT>` at depth 3 on the sample position
with the full window, every node with two moves (so that PV nodes start
zero-window searches of their second move): the search returns after 7
nodes, no zero-window assertion has failed, and the search is the guarded
search. -/
theorem zero_window_at_non_pv_witness :
    (search zeroEnv 60 (.ab .ROOT 3 (-VALUE_INFINITE) VALUE_INFINITE 0) sampleState).isSome
      = true ∧
    zeroResult.2.nodes = 7 ∧
    zeroResult.2.zero_window_failed = false ∧
    search zeroEnv 60 (.ab .ROOT 3 (-VALUE_INFINITE) VALUE_INFINITE 0) sampleState
      = searchZ zeroEnv 60 (.ab .ROOT 3 (-VALUE_INFINITE) VALUE_INFINITE 0) sampleState :=
  have h := zero_window_at_non_pv zeroEnv (fun _ _ => (by decide : (0 : Int) ≤ 255)) 60
    (.ab .ROOT 3 (-VALUE_INFINITE) VALUE_INFINITE 0) sampleState (by decide) rfl
  ⟨by decide, by decide,
    h.2.2.2.2 zeroResult.1 zeroResult.2
      (some_getD (search zeroEnv 60 (.ab .ROOT 3 (-VALUE_INFINITE) VALUE_INFINITE 0)
        sampleState) (0, sampleState) (by decide)),
    h.2.2.2.1⟩

/-! ## Castling rights: frame, round trip and hash index (`board.h`, lines 20-107) -/

/-- The mask `~(0xF << startBit)` is set at the bits of the other groups. -/
theorem mask_testBit_other (i j k : Nat) (hi : i < 4) (hj : j < 4) (hk : k < 4) (hij : j ≠ i) :
    (65535 ^^^ ((15 <<< (i * 4)) % 65536)).testBit (j * 4 + k) = true := by
  interval_cases i <;> interval_cases j <;> interval_cases k <;> first
    | exact absurd rfl hij
    | decide

/-- The set mask of a value below 16 is clear at the bits of the other
groups. -/
theorem setMask_testBit_other (v i j k : Nat) (hv : v < 16) (hk : k < 4) (hij : j ≠ i) : ((v <<< (i * 4)) % 65536).testBit (j * 4 + k) = false := by
  rw [show (65536 : Nat) = 2 ^ 16 from rfl, Nat.testBit_mod_two_pow, Nat.testBit_shiftLeft]
  by_cases h : j * 4 + k ≥ i * 4
  · rw [decide_eq_true h, testBit_of_lt_16 v _ hv (by omega)]
    simp
  · rw [decide_eq_false h]
    simp

/-- A group other than the one that is set keeps its value. -/
theorem getGroup_set_other (b : BitField16) (i v j : Nat) (hi : i < 4) (hv : v < 16)
    (hj : j < 4) (hij : j ≠ i) : (b.setGroupValue i v).getGroup j = b.getGroup j := by
  unfold BitField16.setGroupValue BitField16.getGroup
  simp only []
  apply Nat.eq_of_testBit_eq
  intro k
  rw [Nat.testBit_and, Nat.testBit_and, Nat.testBit_shiftRight, Nat.testBit_shiftRight,
    Nat.testBit_or, Nat.testBit_and, testBit_fifteen]
  by_cases hk : k < 4
  · rw [mask_testBit_other i j k hi hj hk hij, setMask_testBit_other v i j k hv hk hij,
      Bool.and_true, Bool.or_false]
  · rw [decide_eq_false hk, Bool.and_false, Bool.and_false]

/-- The group that is set holds the value. -/
theorem getGroup_set_same (b : BitField16) (i v : Nat) (hi : i < 4) (hv : v < 16) :
    (b.setGroupValue i v).getGroup i = v := by
  unfold BitField16.setGroupValue BitField16.getGroup
  simp only []
  apply Nat.eq_of_testBit_eq
  intro j
  rw [Nat.testBit_and, Nat.testBit_shiftRight, Nat.testBit_or, Nat.testBit_and,
    testBit_fifteen]
  by_cases hj : j < 4
  · rw [mask_testBit i j hi hj, setMask_testBit v (i * 4) (i * 4 + j) (Nat.le_add_right _ _)
      (by omega), Nat.add_sub_cancel_left, decide_eq_true hj, Bool.and_false, Bool.false_or,
      Bool.and_true]
  · rw [decide_eq_false hj, Bool.and_false, testBit_of_lt_16 v j hv (by omega)]

/-- `setGroupValue` yields a value in the range of `uint16_t`. -/
theorem setGroupValue_inRange (b : BitField16) (i v : Nat) : (b.setGroupValue i v).InRange := by
  unfold BitField16.setGroupValue BitField16.InRange
  simp only []
  rw [show (65536 : Nat) = 2 ^ 16 from rfl]
  apply Nat.or_lt_two_pow
  · apply lt_of_le_of_lt Nat.and_le_right
    have h : (15 <<< (i * 4)) % 2 ^ 16 < 2 ^ 16 := Nat.mod_lt _ (by norm_num)
    exact Nat.xor_lt_two_pow (by norm_num) h
  · exact Nat.mod_lt _ (by norm_num)

theorem group_index_lt (c : Color) (s : CastleSide) : 2 * c.toNat + s.toNat < 4 := by
  cases c <;> cases s <;> decide

theorem group_index_inj (c c2 : Color) (s s2 : CastleSide)
    (h : 2 * c2.toNat + s2.toNat = 2 * c.toNat + s.toNat) : c2 = c ∧ s2 = s := by
  cases c <;> cases s <;> cases c2 <;> cases s2 <;> first
    | exact ⟨rfl, rfl⟩
    | (exfalso; revert h; decide)

/-- C31: `setGroupValue(i, v)` with `i < 4` and `v < 16` leaves every
other group unchanged; so setting the castling right of one (colour, side)
to a rook file from `FILE_A` to `FILE_H`, or clearing it, leaves the group,
the right and the rook file of every other (colour, side) as they were. -/
theorem setGroupValue_other_groups (b : BitField16) (i v j : Nat) (hi : i < 4) (hv : v < 16)
    (hj : j < 4) (hij : j ≠ i) (cr : CastlingRights) (color c2 : Color)
    (side s2 : CastleSide) (file : Nat) (hfile : file ≤ FILE_H)
    (hne : ¬ (c2 = color ∧ s2 = side)) :
    (b.setGroupValue i v).getGroup j = b.getGroup j ∧
    (cr.setCastlingRight color side file).hasCastlingRight c2 s2 = cr.hasCastlingRight c2 s2 ∧
    (cr.setCastlingRight color side file).getRookFile c2 s2 = cr.getRookFile c2 s2 ∧
    (cr.clearCastlingRight color side).hasCastlingRight c2 s2 = cr.hasCastlingRight c2 s2 ∧
    (cr.clearCastlingRight color side).getRookFile c2 s2 = cr.getRookFile c2 s2 := by
  have hidx : 2 * c2.toNat + s2.toNat ≠ 2 * color.toNat + side.toNat :=
    fun h => hne (group_index_inj color c2 side s2 h)
  have hf : (file + 1) % 65536 < 16 := by
    unfold FILE_H at hfile
    omega
  have h1 := getGroup_set_other cr.castling_rights _ _ _ (group_index_lt color side) hf
    (group_index_lt c2 s2) hidx
  have h2 := getGroup_set_other cr.castling_rights _ 0 _ (group_index_lt color side)
    (by norm_num) (group_index_lt c2 s2) hidx
  refine ⟨getGroup_set_other b i v j hi hv hj hij, ?_, ?_, ?_, ?_⟩
  · unfold CastlingRights.hasCastlingRight CastlingRights.setCastlingRight
    rw [h1]
  · unfold CastlingRights.getRookFile CastlingRights.setCastlingRight
    rw [h1]
  · unfold CastlingRights.hasCastlingRight CastlingRights.clearCastlingRight
    rw [h2]
  · unfold CastlingRights.getRookFile CastlingRights.clearCastlingRight
    rw [h2]

/-- Witness for C31: in the field `0x1234`, group 1 set to 9 leaves group 2
at 2; with the rights `0x0881`, setting White's queen-side right to file
`FILE_A` leaves Black's king-side right and rook file. -/
theorem setGroupValue_other_groups_witness :
    ((⟨0x1234⟩ : BitField16).setGroupValue 1 9).getGroup 2 = (⟨0x1234⟩ : BitField16).getGroup 2 ∧
    (⟨0x1234⟩ : BitField16).getGroup 2 = 2 ∧
    ((⟨⟨0x0881⟩⟩ : CastlingRights).setCastlingRight .White .QUEEN_SIDE FILE_A).getRookFile
      .Black .KING_SIDE = 7 :=
  have h := setGroupValue_other_groups ⟨0x1234⟩ 1 9 2 (by decide) (by decide) (by decide)
    (by decide) ⟨⟨0x0881⟩⟩ .White .Black .QUEEN_SIDE .KING_SIDE FILE_A (by decide) (by decide)
  ⟨h.1, by decide, h.2.2.1.trans (by decide)⟩

/-- C32: for every colour, castle side and rook file from `FILE_A` to
`FILE_H`, after `setCastlingRight(color, side, file)` the right is held and
`getRookFile(color, side)` is `file`; after `clearCastlingRight(color,
side)` the right is not held. -/
theorem castling_right_roundtrip (cr : CastlingRights) (color : Color) (side : CastleSide)
    (file : Nat) (hlo : FILE_A ≤ file) (hfile : file ≤ FILE_H) :
    (cr.setCastlingRight color side file).hasCastlingRight color side = true ∧
    (cr.setCastlingRight color side file).getRookFile color side = file ∧
    (cr.clearCastlingRight color side).hasCastlingRight color side = false := by
  have hf : (file + 1) % 65536 < 16 := by
    unfold FILE_H at hfile
    omega
  have hv : (file + 1) % 65536 = file + 1 := by
    unfold FILE_H at hfile
    omega
  have h1 := getGroup_set_same cr.castling_rights _ _ (group_index_lt color side) hf
  have h2 := getGroup_set_same cr.castling_rights _ 0 (group_index_lt color side) (by norm_num)
  refine ⟨?_, ?_, ?_⟩
  · unfold CastlingRights.hasCastlingRight CastlingRights.setCastlingRight
    rw [h1, hv]
    simp
  · unfold CastlingRights.getRookFile CastlingRights.setCastlingRight
    rw [h1, hv]
    push_cast
    ring
  · unfold CastlingRights.hasCastlingRight CastlingRights.clearCastlingRight
    rw [h2]
    rfl

/-- Witness for C32: Black's queen-side right set to `FILE_H` in the
rights `0xFFFF`. -/
theorem castling_right_roundtrip_witness :
    ((⟨⟨0xFFFF⟩⟩ : CastlingRights).setCastlingRight .Black .QUEEN_SIDE FILE_H).getRookFile
      .Black .QUEEN_SIDE = 7 :=
  (castling_right_roundtrip ⟨⟨0xFFFF⟩⟩ .Black .QUEEN_SIDE FILE_H (by decide) (by decide)).2.1

/-- A value below `2 ^ 16` whose four groups are 0 is 0. -/
theorem value_eq_zero_of_groups (b : BitField16) (hr : b.InRange)
    (h : ∀ i, i < 4 → b.getGroup i = 0) : b.value_ = 0 := by
  apply Nat.eq_of_testBit_eq
  intro k
  rw [Nat.zero_testBit]
  by_cases hk : k < 16
  · have hg := h (k / 4) (by omega)
    have hb : (b.getGroup (k / 4)).testBit (k % 4) = false := by
      rw [hg, Nat.zero_testBit]
    unfold BitField16.getGroup at hb
    rw [Nat.testBit_and, Nat.testBit_shiftRight, testBit_fifteen,
      decide_eq_true (Nat.mod_lt k (by norm_num)), Bool.and_true] at hb
    rw [show k / 4 * 4 + k % 4 = k from by omega] at hb
    exact hb
  · apply Nat.testBit_lt_two_pow
    unfold BitField16.InRange at hr
    calc b.value_ < 65536 := hr
      _ = 2 ^ 16 := by norm_num
      _ ≤ 2 ^ k := Nat.pow_le_pow_right (by norm_num) (by omega)

theorem hash_index_bools (a b c d a2 b2 c2 d2 : Bool) :
    (a.toNat + 2 * b.toNat + 4 * c.toNat + 8 * d.toNat ≤ 15) ∧
    (a.toNat + 2 * b.toNat + 4 * c.toNat + 8 * d.toNat = 0 ↔
      (a = false ∧ b = false ∧ c = false ∧ d = false)) ∧
    (a.toNat + 2 * b.toNat + 4 * c.toNat + 8 * d.toNat
        = a2.toNat + 2 * b2.toNat + 4 * c2.toNat + 8 * d2.toNat ↔
      (a = a2 ∧ b = b2 ∧ c = c2 ∧ d = d2)) := by
  revert a b c d a2 b2 c2 d2
  decide

theorem hasCastlingRight_false_iff (cr : CastlingRights) (c : Color) (s : CastleSide) :
    cr.hasCastlingRight c s = false ↔
      cr.castling_rights.getGroup (2 * c.toNat + s.toNat) = 0 := by
  unfold CastlingRights.hasCastlingRight
  simp

/-- C33: `getHashIndex` lies in 0..15; it is 0 exactly when `isEmpty()`
holds (the field being a `uint16_t`); and two values of `CastlingRights`
have the same index exactly when they agree on `hasCastlingRight` for all
four (colour, side) pairs, whatever rook files they store. -/
theorem getHashIndex_spec (cr cr2 : CastlingRights) (hr : cr.castling_rights.InRange) :
    cr.getHashIndex ≤ 15 ∧
    (cr.getHashIndex = 0 ↔ cr.isEmpty = true) ∧
    (cr.getHashIndex = cr2.getHashIndex ↔
      ∀ c s, cr.hasCastlingRight c s = cr2.hasCastlingRight c s) := by
  have hb := hash_index_bools (cr.hasCastlingRight .White .KING_SIDE)
    (cr.hasCastlingRight .White .QUEEN_SIDE) (cr.hasCastlingRight .Black .KING_SIDE)
    (cr.hasCastlingRight .Black .QUEEN_SIDE) (cr2.hasCastlingRight .White .KING_SIDE)
    (cr2.hasCastlingRight .White .QUEEN_SIDE) (cr2.hasCastlingRight .Black .KING_SIDE)
    (cr2.hasCastlingRight .Black .QUEEN_SIDE)
  refine ⟨hb.1, ?_, ?_⟩
  · unfold CastlingRights.getHashIndex
    rw [hb.2.1]
    unfold CastlingRights.isEmpty BitField16.get
    rw [beq_iff_eq]
    constructor
    · intro h
      apply value_eq_zero_of_groups _ hr
      intro i hi
      rw [hasCastlingRight_false_iff, hasCastlingRight_false_iff, hasCastlingRight_false_iff,
        hasCastlingRight_false_iff] at h
      interval_cases i
      · exact h.1
      · exact h.2.1
      · exact h.2.2.1
      · exact h.2.2.2
    · intro h
      have hg : ∀ i, cr.castling_rights.getGroup i = 0 := by
        intro i
        unfold BitField16.getGroup
        rw [h]
        simp
      rw [hasCastlingRight_false_iff, hasCastlingRight_false_iff, hasCastlingRight_false_iff,
        hasCastlingRight_false_iff]
      exact ⟨hg _, hg _, hg _, hg _⟩
  · unfold CastlingRights.getHashIndex
    rw [hb.2.2]
    constructor
    · intro h c s
      cases c <;> cases s
      · exact h.1
      · exact h.2.1
      · exact h.2.2.1
      · exact h.2.2.2
    · intro h
      exact ⟨h _ _, h _ _, h _ _, h _ _⟩

/-- Witness for C33: the rights `0x8001` (White king side with rook file
`FILE_A`, Black queen side with rook file `FILE_H`) and `0x1008` hold the
same rights with other rook files and have the same index 9. -/
theorem getHashIndex_spec_witness :
    (⟨⟨0x8001⟩⟩ : CastlingRights).getHashIndex = 9 ∧
    ((⟨⟨0x8001⟩⟩ : CastlingRights).getHashIndex = (⟨⟨0x1008⟩⟩ : CastlingRights).getHashIndex ↔
      ∀ c s, (⟨⟨0x8001⟩⟩ : CastlingRights).hasCastlingRight c s
        = (⟨⟨0x1008⟩⟩ : CastlingRights).hasCastlingRight c s) :=
  ⟨by decide,
    (getHashIndex_spec ⟨⟨0x8001⟩⟩ ⟨⟨0x1008⟩⟩ (by decide : (0x8001 : Nat) < 65536)).2.2⟩

/-! ## Half-move clock and en-passant square after `makeMove` (`board.h`, lines 353-537) -/

theorem updateHashTail_clock (H : Helpers) (b : Board) (m : Move) (p c : Piece) (r : Nat) :
    (updateHashTail H b m p c r).half_move_clock
      = (if c ≠ NONE ∨ typeOf m = .PROMOTION then 0 else b.half_move_clock) ∧
    (updateHashTail H b m p c r).en_passant_square = b.en_passant_square := by
  unfold updateHashTail
  simp only []
  by_cases h1 : c ≠ NONE <;> by_cases h2 : typeOf m = .PROMOTION
  · rw [if_pos h1, if_pos h2, if_pos (Or.inl h1)]
    split_ifs <;> exact ⟨rfl, rfl⟩
  · rw [if_pos h1, if_neg h2, if_pos (Or.inl h1)]
    split_ifs <;> exact ⟨rfl, rfl⟩
  · rw [if_neg h1, if_pos h2, if_pos (Or.inr h2)]
    exact ⟨rfl, rfl⟩
  · rw [if_neg h1, if_neg h2, if_neg (not_or.mpr ⟨h1, h2⟩)]
    exact ⟨rfl, rfl⟩

theorem makeMovePieces_clock (H : Helpers) (x : Board) (m : Move) (pt : PieceType)
    (p c : Piece) (ep : Bool) :
    (makeMovePieces H x m pt p c ep).half_move_clock = x.half_move_clock ∧
    (makeMovePieces H x m pt p c ep).en_passant_square = x.en_passant_square := by
  unfold makeMovePieces
  by_cases h1 : typeOf m = .CASTLING
  · simp only [h1, if_true]
    exact ⟨rfl, rfl⟩
  · by_cases h2 : (pt = PAWN ∧ ep = true) <;> by_cases h3 : c = NONE <;>
      by_cases h4 : typeOf m = .PROMOTION <;>
      simp only [h1, h2, h3, h4, if_true, if_false, ne_eq, not_true_eq_false,
        not_false_eq_true] <;>
      exact ⟨rfl, rfl⟩

theorem piece_types_ne : KING ≠ PAWN ∧ ROOK ≠ PAWN ∧ KING ≠ ROOK := by decide

/-- The half-move clock and the en-passant square after `updateHash`. -/
theorem updateHash_clock (H : Helpers) (b : Board) (m : Move) :
    (updateHash H b m).half_move_clock
      = (if type_of_piece (b.pieceAtB m.from) = KING ∧ typeOf m = .CASTLING then
          b.half_move_clock
        else if type_of_piece (b.pieceAtB m.from) = PAWN ∨ b.board m.to ≠ NONE ∨
            typeOf m = .PROMOTION then 0
        else b.half_move_clock) ∧
    (updateHash H b m).en_passant_square
      = (if type_of_piece (b.pieceAtB m.from) = PAWN ∧ typeOf m ≠ .ENPASSANT ∧
            |(m.from : Int) - (m.to : Int)| = 16 ∧
            H.pawnAttacks (m.to ^^^ 8) b.side_to_move &&& b.pieces PAWN b.side_to_move.flip ≠ 0
          then m.to ^^^ 8 else NO_SQ) := by
  unfold updateHash
  simp only []
  generalize type_of_piece (b.pieceAtB m.from) = pt
  by_cases hep : b.en_passant_square ≠ NO_SQ
  · simp only [if_pos hep, Board.pieces]
    by_cases hk : pt = KING
    · have hp : ¬ pt = PAWN := fun h => piece_types_ne.1 (hk.symm.trans h)
      rw [if_pos hk, if_neg (show ¬ (pt = PAWN ∧ typeOf m ≠ .ENPASSANT ∧
        |(m.from : Int) - (m.to : Int)| = 16 ∧
        H.pawnAttacks (m.to ^^^ 8) b.side_to_move &&& b.pieces_bb (PAWN + b.side_to_move.flip.toNat * 6) ≠ 0)
        from fun h => hp h.1)]
      by_cases hc : typeOf m = .CASTLING
      · rw [if_pos hc, if_pos (show pt = KING ∧ typeOf m = .CASTLING from ⟨hk, hc⟩)]
        exact ⟨rfl, rfl⟩
      · rw [if_neg hc, if_neg (show ¬ (pt = KING ∧ typeOf m = .CASTLING) from fun h => hc h.2),
          (updateHashTail_clock H _ m _ _ _).1, (updateHashTail_clock H _ m _ _ _).2]
        refine ⟨?_, rfl⟩
        by_cases h1 : b.board m.to ≠ NONE ∨ typeOf m = .PROMOTION
        · rw [if_pos h1, if_pos (Or.inr h1)]
        · rw [if_neg h1, if_neg (show ¬ (pt = PAWN ∨ b.board m.to ≠ NONE ∨
            typeOf m = .PROMOTION) from fun h => h.elim hp h1)]
    rw [if_neg hk, if_neg (show ¬ (pt = KING ∧ typeOf m = .CASTLING) from fun h => hk h.1)]
    by_cases hr : pt = ROOK ∧ ((H.square_rank m.from = RANK_8 ∧ b.side_to_move = .Black) ∨
        (H.square_rank m.from = RANK_1 ∧ b.side_to_move = .White))
    · have hp : ¬ pt = PAWN := fun h => piece_types_ne.2.1 (hr.1.symm.trans h)
      rw [if_pos hr, if_neg (show ¬ (pt = PAWN ∧ typeOf m ≠ .ENPASSANT ∧
        |(m.from : Int) - (m.to : Int)| = 16 ∧
        H.pawnAttacks (m.to ^^^ 8) b.side_to_move &&& b.pieces_bb (PAWN + b.side_to_move.flip.toNat * 6) ≠ 0)
        from fun h => hp h.1),
        (updateHashTail_clock H _ m _ _ _).1, (updateHashTail_clock H _ m _ _ _).2]
      refine ⟨?_, rfl⟩
      by_cases h1 : b.board m.to ≠ NONE ∨ typeOf m = .PROMOTION
      · rw [if_pos h1, if_pos (Or.inr h1)]
      · rw [if_neg h1, if_neg (show ¬ (pt = PAWN ∨ b.board m.to ≠ NONE ∨
          typeOf m = .PROMOTION) from fun h => h.elim hp h1)]
    rw [if_neg hr]
    by_cases hp : pt = PAWN
    · rw [if_pos hp, if_pos (show pt = PAWN ∨ b.board m.to ≠ NONE ∨ typeOf m = .PROMOTION
        from Or.inl hp)]
      by_cases he : typeOf m = .ENPASSANT
      · rw [if_pos he, if_neg (show ¬ (pt = PAWN ∧ typeOf m ≠ .ENPASSANT ∧
          |(m.from : Int) - (m.to : Int)| = 16 ∧
          H.pawnAttacks (m.to ^^^ 8) b.side_to_move &&& b.pieces_bb (PAWN + b.side_to_move.flip.toNat * 6) ≠ 0)
          from fun h => h.2.1 he),
          (updateHashTail_clock H _ m _ _ _).1, (updateHashTail_clock H _ m _ _ _).2]
        refine ⟨?_, rfl⟩
        split_ifs <;> rfl
      rw [if_neg he]
      by_cases h16 : |(m.from : Int) - (m.to : Int)| = 16
      · rw [if_pos h16]
        by_cases ha : H.pawnAttacks (m.to ^^^ 8) b.side_to_move &&&
            b.pieces_bb (PAWN + b.side_to_move.flip.toNat * 6) ≠ 0
        · rw [if_pos ha, if_pos (show pt = PAWN ∧ typeOf m ≠ .ENPASSANT ∧
            |(m.from : Int) - (m.to : Int)| = 16 ∧
            H.pawnAttacks (m.to ^^^ 8) b.side_to_move &&& b.pieces_bb (PAWN + b.side_to_move.flip.toNat * 6) ≠ 0
            from ⟨hp, he, h16, ha⟩),
            (updateHashTail_clock H _ m _ _ _).1, (updateHashTail_clock H _ m _ _ _).2]
          refine ⟨?_, rfl⟩
          split_ifs <;> rfl
        · rw [if_neg ha, if_neg (show ¬ (pt = PAWN ∧ typeOf m ≠ .ENPASSANT ∧
            |(m.from : Int) - (m.to : Int)| = 16 ∧
            H.pawnAttacks (m.to ^^^ 8) b.side_to_move &&& b.pieces_bb (PAWN + b.side_to_move.flip.toNat * 6) ≠ 0)
            from fun h => ha h.2.2.2),
            (updateHashTail_clock H _ m _ _ _).1, (updateHashTail_clock H _ m _ _ _).2]
          refine ⟨?_, rfl⟩
          split_ifs <;> rfl
      · rw [if_neg h16, if_neg (show ¬ (pt = PAWN ∧ typeOf m ≠ .ENPASSANT ∧
          |(m.from : Int) - (m.to : Int)| = 16 ∧
          H.pawnAttacks (m.to ^^^ 8) b.side_to_move &&& b.pieces_bb (PAWN + b.side_to_move.flip.toNat * 6) ≠ 0)
          from fun h => h16 h.2.2.1),
          (updateHashTail_clock H _ m _ _ _).1, (updateHashTail_clock H _ m _ _ _).2]
        refine ⟨?_, rfl⟩
        split_ifs <;> rfl
    · rw [if_neg hp, if_neg (show ¬ (pt = PAWN ∧ typeOf m ≠ .ENPASSANT ∧
        |(m.from : Int) - (m.to : Int)| = 16 ∧
        H.pawnAttacks (m.to ^^^ 8) b.side_to_move &&& b.pieces_bb (PAWN + b.side_to_move.flip.toNat * 6) ≠ 0)
        from fun h => hp h.1),
        (updateHashTail_clock H _ m _ _ _).1, (updateHashTail_clock H _ m _ _ _).2]
      refine ⟨?_, rfl⟩
      by_cases h1 : b.board m.to ≠ NONE ∨ typeOf m = .PROMOTION
      · rw [if_pos h1, if_pos (Or.inr h1)]
      · rw [if_neg h1, if_neg (show ¬ (pt = PAWN ∨ b.board m.to ≠ NONE ∨
          typeOf m = .PROMOTION) from fun h => h.elim hp h1)]
  · simp only [if_neg hep, Board.pieces]
    by_cases hk : pt = KING
    · have hp : ¬ pt = PAWN := fun h => piece_types_ne.1 (hk.symm.trans h)
      rw [if_pos hk, if_neg (show ¬ (pt = PAWN ∧ typeOf m ≠ .ENPASSANT ∧
        |(m.from : Int) - (m.to : Int)| = 16 ∧
        H.pawnAttacks (m.to ^^^ 8) b.side_to_move &&& b.pieces_bb (PAWN + b.side_to_move.flip.toNat * 6) ≠ 0)
        from fun h => hp h.1)]
      by_cases hc : typeOf m = .CASTLING
      · rw [if_pos hc, if_pos (show pt = KING ∧ typeOf m = .CASTLING from ⟨hk, hc⟩)]
        exact ⟨rfl, rfl⟩
      · rw [if_neg hc, if_neg (show ¬ (pt = KING ∧ typeOf m = .CASTLING) from fun h => hc h.2),
          (updateHashTail_clock H _ m _ _ _).1, (updateHashTail_clock H _ m _ _ _).2]
        refine ⟨?_, rfl⟩
        by_cases h1 : b.board m.to ≠ NONE ∨ typeOf m = .PROMOTION
        · rw [if_pos h1, if_pos (Or.inr h1)]
        · rw [if_neg h1, if_neg (show ¬ (pt = PAWN ∨ b.board m.to ≠ NONE ∨
            typeOf m = .PROMOTION) from fun h => h.elim hp h1)]
    rw [if_neg hk, if_neg (show ¬ (pt = KING ∧ typeOf m = .CASTLING) from fun h => hk h.1)]
    by_cases hr : pt = ROOK ∧ ((H.square_rank m.from = RANK_8 ∧ b.side_to_move = .Black) ∨
        (H.square_rank m.from = RANK_1 ∧ b.side_to_move = .White))
    · have hp : ¬ pt = PAWN := fun h => piece_types_ne.2.1 (hr.1.symm.trans h)
      rw [if_pos hr, if_neg (show ¬ (pt = PAWN ∧ typeOf m ≠ .ENPASSANT ∧
        |(m.from : Int) - (m.to : Int)| = 16 ∧
        H.pawnAttacks (m.to ^^^ 8) b.side_to_move &&& b.pieces_bb (PAWN + b.side_to_move.flip.toNat * 6) ≠ 0)
        from fun h => hp h.1),
        (updateHashTail_clock H _ m _ _ _).1, (updateHashTail_clock H _ m _ _ _).2]
      refine ⟨?_, rfl⟩
      by_cases h1 : b.board m.to ≠ NONE ∨ typeOf m = .PROMOTION
      · rw [if_pos h1, if_pos (Or.inr h1)]
      · rw [if_neg h1, if_neg (show ¬ (pt = PAWN ∨ b.board m.to ≠ NONE ∨
          typeOf m = .PROMOTION) from fun h => h.elim hp h1)]
    rw [if_neg hr]
    by_cases hp : pt = PAWN
    · rw [if_pos hp, if_pos (show pt = PAWN ∨ b.board m.to ≠ NONE ∨ typeOf m = .PROMOTION
        from Or.inl hp)]
      by_cases he : typeOf m = .ENPASSANT
      · rw [if_pos he, if_neg (show ¬ (pt = PAWN ∧ typeOf m ≠ .ENPASSANT ∧
          |(m.from : Int) - (m.to : Int)| = 16 ∧
          H.pawnAttacks (m.to ^^^ 8) b.side_to_move &&& b.pieces_bb (PAWN + b.side_to_move.flip.toNat * 6) ≠ 0)
          from fun h => h.2.1 he),
          (updateHashTail_clock H _ m _ _ _).1, (updateHashTail_clock H _ m _ _ _).2]
        refine ⟨?_, rfl⟩
        split_ifs <;> rfl
      rw [if_neg he]
      by_cases h16 : |(m.from : Int) - (m.to : Int)| = 16
      · rw [if_pos h16]
        by_cases ha : H.pawnAttacks (m.to ^^^ 8) b.side_to_move &&&
            b.pieces_bb (PAWN + b.side_to_move.flip.toNat * 6) ≠ 0
        · rw [if_pos ha, if_pos (show pt = PAWN ∧ typeOf m ≠ .ENPASSANT ∧
            |(m.from : Int) - (m.to : Int)| = 16 ∧
            H.pawnAttacks (m.to ^^^ 8) b.side_to_move &&& b.pieces_bb (PAWN + b.side_to_move.flip.toNat * 6) ≠ 0
            from ⟨hp, he, h16, ha⟩),
            (updateHashTail_clock H _ m _ _ _).1, (updateHashTail_clock H _ m _ _ _).2]
          refine ⟨?_, rfl⟩
          split_ifs <;> rfl
        · rw [if_neg ha, if_neg (show ¬ (pt = PAWN ∧ typeOf m ≠ .ENPASSANT ∧
            |(m.from : Int) - (m.to : Int)| = 16 ∧
            H.pawnAttacks (m.to ^^^ 8) b.side_to_move &&& b.pieces_bb (PAWN + b.side_to_move.flip.toNat * 6) ≠ 0)
            from fun h => ha h.2.2.2),
            (updateHashTail_clock H _ m _ _ _).1, (updateHashTail_clock H _ m _ _ _).2]
          refine ⟨?_, rfl⟩
          split_ifs <;> rfl
      · rw [if_neg h16, if_neg (show ¬ (pt = PAWN ∧ typeOf m ≠ .ENPASSANT ∧
          |(m.from : Int) - (m.to : Int)| = 16 ∧
          H.pawnAttacks (m.to ^^^ 8) b.side_to_move &&& b.pieces_bb (PAWN + b.side_to_move.flip.toNat * 6) ≠ 0)
          from fun h => h16 h.2.2.1),
          (updateHashTail_clock H _ m _ _ _).1, (updateHashTail_clock H _ m _ _ _).2]
        refine ⟨?_, rfl⟩
        split_ifs <;> rfl
    · rw [if_neg hp, if_neg (show ¬ (pt = PAWN ∧ typeOf m ≠ .ENPASSANT ∧
        |(m.from : Int) - (m.to : Int)| = 16 ∧
        H.pawnAttacks (m.to ^^^ 8) b.side_to_move &&& b.pieces_bb (PAWN + b.side_to_move.flip.toNat * 6) ≠ 0)
        from fun h => hp h.1),
        (updateHashTail_clock H _ m _ _ _).1, (updateHashTail_clock H _ m _ _ _).2]
      refine ⟨?_, rfl⟩
      by_cases h1 : b.board m.to ≠ NONE ∨ typeOf m = .PROMOTION
      · rw [if_pos h1, if_pos (Or.inr h1)]
      · rw [if_neg h1, if_neg (show ¬ (pt = PAWN ∨ b.board m.to ≠ NONE ∨
          typeOf m = .PROMOTION) from fun h => h.elim hp h1)]

/-- Side to move, half-move clock (a `uint8_t`) and en-passant square after
`makeMove`, in terms of the board before it. -/
theorem makeMove_clock (H : Helpers) (b : Board) (m : Move) :
    (makeMove H b m).side_to_move = b.side_to_move.flip ∧
    (makeMove H b m).half_move_clock
      = (if type_of_piece (b.pieceAtB m.from) = KING ∧ typeOf m = .CASTLING then
          (b.half_move_clock + 1) % 256
        else if type_of_piece (b.pieceAtB m.from) = PAWN ∨ b.board m.to ≠ NONE ∨
            typeOf m = .PROMOTION then 0
        else (b.half_move_clock + 1) % 256) ∧
    (makeMove H b m).en_passant_square
      = (if type_of_piece (b.pieceAtB m.from) = PAWN ∧ typeOf m ≠ .ENPASSANT ∧
            |(m.from : Int) - (m.to : Int)| = 16 ∧
            H.pawnAttacks (m.to ^^^ 8) b.side_to_move &&& b.pieces PAWN b.side_to_move.flip ≠ 0
          then m.to ^^^ 8 else NO_SQ) := by
  unfold makeMove
  simp only []
  rw [(makeMovePieces_clock H _ m _ _ _ _).1, (makeMovePieces_clock H _ m _ _ _ _).2,
    (makeMovePieces_fields H _ m _ _ _ _).2.2.1, (updateHash_fields H _ m).2.2.1,
    (updateHash_clock H _ m).1, (updateHash_clock H _ m).2]
  exact ⟨rfl, rfl, rfl⟩

set_option maxRecDepth 100000 in
/-- C34, as stated, fails: from a half-move clock of 255 the king move
e1-d1 on the sample position (no pawn, no capture, no promotion) gives the
clock 0 and not 256. -/
theorem half_move_clock_wraps_counterexample :
    clockBoard.half_move_clock = 255 ∧
    type_of_piece (clockBoard.pieceAtB kingStep.from) = KING ∧
    clockBoard.board kingStep.to = NONE ∧ typeOf kingStep = .NORMAL ∧
    (makeMove sampleHelpers clockBoard kingStep).half_move_clock = 0 := by
  decide

/-- C34 (amended): after `makeMove(m)` from a half-move clock `c` below 255
(the clock is a `uint8_t`; from 255 it wraps to 0), the clock is 0 if the
moved piece is a pawn, if `m` captures a piece (a castling move, the king
taking its own rook, is not a capture) or if `m` is a promotion, and
`c + 1` otherwise, castling moves included; the side to move is flipped in
every case. -/
theorem makeMove_half_move_clock (H : Helpers) (b : Board) (m : Move)
    (hc : b.half_move_clock < 255) :
    (makeMove H b m).side_to_move = b.side_to_move.flip ∧
    (makeMove H b m).half_move_clock
      = (if type_of_piece (b.pieceAtB m.from) = PAWN ∨
            (b.board m.to ≠ NONE ∧
              ¬ (type_of_piece (b.pieceAtB m.from) = KING ∧ typeOf m = .CASTLING)) ∨
            typeOf m = .PROMOTION then 0
        else b.half_move_clock + 1) ∧
    (type_of_piece (b.pieceAtB m.from) = KING ∧ typeOf m = .CASTLING →
      (makeMove H b m).half_move_clock = b.half_move_clock + 1) := by
  have h := makeMove_clock H b m
  have hm : (b.half_move_clock + 1) % 256 = b.half_move_clock + 1 :=
    Nat.mod_eq_of_lt (by omega)
  rw [hm] at h
  refine ⟨h.1, ?_, ?_⟩
  · rw [h.2.1]
    by_cases hk : type_of_piece (b.pieceAtB m.from) = KING ∧ typeOf m = .CASTLING
    · have hp : ¬ type_of_piece (b.pieceAtB m.from) = PAWN :=
        fun hp => piece_types_ne.1 (hk.1.symm.trans hp)
      have hpr : ¬ typeOf m = .PROMOTION := by
        rw [hk.2]
        decide
      rw [if_pos hk, if_neg]
      rintro (h1 | h1 | h1)
      · exact hp h1
      · exact h1.2 hk
      · exact hpr h1
    · rw [if_neg hk]
      by_cases h2 : type_of_piece (b.pieceAtB m.from) = PAWN ∨ b.board m.to ≠ NONE ∨
          typeOf m = .PROMOTION
      · rw [if_pos h2, if_pos]
        rcases h2 with h2 | h2 | h2
        · exact Or.inl h2
        · exact Or.inr (Or.inl ⟨h2, hk⟩)
        · exact Or.inr (Or.inr h2)
      · rw [if_neg h2, if_neg]
        rintro (h1 | h1 | h1)
        · exact h2 (Or.inl h1)
        · exact h2 (Or.inr (Or.inl h1.1))
        · exact h2 (Or.inr (Or.inr h1))
  · intro hk
    rw [h.2.1, if_pos hk]

set_option maxRecDepth 100000 in
/-- Witness for C34: king-side castling on the second sample position
takes the clock from 0 to 1 and gives the move to Black. -/
theorem makeMove_half_move_clock_witness :
    sampleBoard2.half_move_clock = 0 ∧ sampleBoard2.board sampleCastle.to ≠ NONE ∧
    (makeMove sampleHelpers sampleBoard2 sampleCastle).half_move_clock = 1 ∧
    (makeMove sampleHelpers sampleBoard2 sampleCastle).side_to_move = .Black :=
  have h := makeMove_half_move_clock sampleHelpers sampleBoard2 sampleCastle (by decide)
  ⟨rfl, by decide, (h.2.2 (by decide)).trans rfl, h.1.trans rfl⟩

/-- C35: after `makeMove(m)` (a move to a square of the board; an
en-passant capture is diagonal), `en_passant_square` is the square passed
over by the pawn (`to ^ 8`) exactly when `m` is a pawn move of two ranks and
a pawn of the other side stands on a square from which it attacks the
passed-over square; in every other case it is `NO_SQ`, whatever it was
before the move. -/
theorem makeMove_en_passant_square (H : Helpers) (b : Board) (m : Move) (hto : m.to < 64)
    (hep : typeOf m = .ENPASSANT → |(m.from : Int) - (m.to : Int)| ≠ 16) :
    ((makeMove H b m).en_passant_square = m.to ^^^ 8 ↔
      (type_of_piece (b.pieceAtB m.from) = PAWN ∧ |(m.from : Int) - (m.to : Int)| = 16 ∧
        H.pawnAttacks (m.to ^^^ 8) b.side_to_move &&& b.pieces PAWN b.side_to_move.flip ≠ 0)) ∧
    (¬ (type_of_piece (b.pieceAtB m.from) = PAWN ∧ |(m.from : Int) - (m.to : Int)| = 16 ∧
        H.pawnAttacks (m.to ^^^ 8) b.side_to_move &&& b.pieces PAWN b.side_to_move.flip ≠ 0) →
      (makeMove H b m).en_passant_square = NO_SQ) := by
  have h := (makeMove_clock H b m).2.2
  have hx : m.to ^^^ 8 ≠ NO_SQ := by
    intro hh
    have hlt := xor8_lt m.to hto
    rw [hh] at hlt
    exact absurd hlt (by decide)
  by_cases hc : type_of_piece (b.pieceAtB m.from) = PAWN ∧ |(m.from : Int) - (m.to : Int)| = 16 ∧
      H.pawnAttacks (m.to ^^^ 8) b.side_to_move &&& b.pieces PAWN b.side_to_move.flip ≠ 0
  · rw [if_pos ⟨hc.1, fun he => hep he hc.2.1, hc.2.1, hc.2.2⟩] at h
    exact ⟨⟨fun _ => hc, fun _ => h⟩, fun hn => absurd hc hn⟩
  · rw [if_neg (fun hh => hc ⟨hh.1, hh.2.2.1, hh.2.2.2⟩)] at h
    refine ⟨⟨fun h2 => ?_, fun h2 => absurd h2 hc⟩, fun _ => h⟩
    rw [h] at h2
    exact absurd h2.symm hx

set_option maxRecDepth 100000 in
/-- Witness for C35: e2-e4 with a black pawn on d4 sets the en-passant
square e3 (the stale square a6 is dropped); the king move e1-d1 leaves
`NO_SQ`. -/
theorem makeMove_en_passant_square_witness :
    epBoard.en_passant_square = 40 ∧
    (makeMove sampleHelpers epBoard sampleQuiet).en_passant_square = 20 ∧
    (makeMove sampleHelpers epBoard kingStep).en_passant_square = NO_SQ :=
  ⟨rfl,
    (makeMove_en_passant_square sampleHelpers epBoard sampleQuiet (by decide)
      (fun h => by cases h)).1.mpr (by decide),
    (makeMove_en_passant_square sampleHelpers epBoard kingStep (by decide)
      (fun h => by cases h)).2 (by decide)⟩

/-! ## Depth after internal iterative reductions (`search.cpp`, lines 255-366) -/

theorem abPrune_nodrop (env : Env) (f : ABFrame) (st1 : SearchState) (ev : Int)
    (improving : Bool) (d2 : Int) (hd : 1 ≤ d2) :
    (abPrune env f st1 ev improving d2).NoPvDrop := by
  unfold abPrune
  simp only []
  rw [if_neg (show ¬ d2 ≤ 0 by omega)]
  split_ifs <;> first
    | exact hd
    | exact (fun h => by cases h)
    | trivial

/-- At a node that is not a PV node the depth after internal iterative
reductions is at least 1: the drop into `qsearch<PV>` is not taken. -/
theorem abStatic_nodrop (env : Env) (f : ABFrame) (st : SearchState) (hn : f.node ≠ .PV)
    (hd : 1 ≤ f.depth) : (abStatic env f st).NoPvDrop := by
  unfold abStatic
  by_cases h1 : f.in_check = true
  · rw [if_pos h1]; exact hd
  rw [if_neg h1]
  simp only []
  by_cases h2 : f.node = .ROOT
  · rw [if_pos h2]; exact hd
  rw [if_neg h2]
  have h3 : ¬ (f.node ≠ .NONPV ∧ f.tt_hit = false) := by
    intro h
    cases hf : f.node with
    | PV => exact hn hf
    | NONPV => exact h.1 hf
    | ROOT => exact h2 hf
  rw [if_neg h3]
  apply abPrune_nodrop
  split_ifs <;> omega

theorem abTb_nodrop (env : Env) (node : Node) (depth1 alpha2 beta2 : Int) (ss : Int)
    (color : Color) (in_check : Bool) (excluded_move : Move) (key : Nat) (tt_hit : Bool)
    (ttmove : Move) (tt_score : Int) (st4 : SearchState) (hn : node ≠ .PV)
    (hd : 1 ≤ depth1) :
    (abTb env node depth1 alpha2 beta2 ss color in_check excluded_move key tt_hit ttmove
      tt_score st4).NoPvDrop := by
  unfold abTb
  simp only []
  generalize tbProbe env (decide (node = .ROOT)) (decide (node ≠ .NONPV)) depth1 alpha2
    beta2 (st4.stack ss).ply st4 = tb
  cases htb : tb.1.1 with
  | some v => trivial
  | none => exact abStatic_nodrop env _ tb.2 hn hd

theorem abCut_nodrop (env : Env) (node : Node) (depth1 alpha1 beta1 : Int) (ss : Int)
    (color : Color) (in_check : Bool) (excluded_move : Move) (key : Nat) (tt_hit : Bool)
    (ttmove : Move) (tte : TEntry) (tt_score : Int) (st4 : SearchState) (hn : node ≠ .PV)
    (hd : 1 ≤ depth1) :
    (abCut env node depth1 alpha1 beta1 ss color in_check excluded_move key tt_hit ttmove tte
      tt_score st4).NoPvDrop := by
  unfold abCut
  simp only []
  split_ifs <;> first
    | trivial
    | exact abTb_nodrop _ _ _ _ _ _ _ _ _ _ _ _ _ _ hn hd

theorem abProbe_nodrop (env : Env) (node : Node) (depth0 alpha1 beta1 : Int) (ss : Int)
    (color : Color) (in_check : Bool) (excluded_move : Move) (st1 : SearchState)
    (hn : node ≠ .PV) :
    (abProbe env node depth0 alpha1 beta1 ss color in_check excluded_move st1).NoPvDrop := by
  unfold abProbe
  simp only []
  by_cases h1 : (if in_check = true then depth0 + 1 else depth0) ≤ 0
  · rw [if_pos h1]; exact hn
  rw [if_neg h1]
  exact abCut_nodrop _ _ _ _ _ _ _ _ _ _ _ _ _ _ _ hn (by omega)

theorem abEntry_nodrop (env : Env) (node : Node) (depth0 alpha0 beta0 : Int) (ss : Int)
    (st0 : SearchState) (hn : node ≠ .PV) :
    (abEntry env node depth0 alpha0 beta0 ss st0).NoPvDrop := by
  unfold abEntry
  simp only []
  split_ifs <;> first
    | trivial
    | exact abProbe_nodrop _ _ _ _ _ _ _ _ _ _ hn

set_option maxRecDepth 100000 in
/-- At a PV node the drop after internal iterative reductions is taken:
`absearch<PV>` at depth 1 without a hit in the table drops into
`qsearch<PV>`. -/
theorem pv_drop_reached :
    (abEntry sampleEnv .PV 1 (-VALUE_INFINITE) VALUE_INFINITE 1 sampleState).dropNode
      = some .PV := by
  decide

/-- C36: the drop into `qsearch<PV>` after internal iterative reductions is
not reached at a non-PV node: the part of `absearch<NONPV>` before the move
loop, whatever depth, window and state it is entered with, drops into
`qsearch` only as `qsearch<NONPV>` and reaches the null-move search and the
move loop only with a depth of at least 1 (so does `absearch<ROOT>`); for a
frame of a NONPV node with depth at least 1 the steps from the static
evaluation on (internal iterative reductions included) keep this. -/
theorem nonpv_never_drops_to_pv (env : Env) (depth alpha beta ss : Int) (st : SearchState)
    (f : ABFrame) (hn : f.node = .NONPV) (hd : 1 ≤ f.depth) :
    (abEntry env .NONPV depth alpha beta ss st).NoPvDrop ∧
    (abEntry env .NONPV depth alpha beta ss st).dropNode ≠ some .PV ∧
    (abEntry env .ROOT depth alpha beta ss st).NoPvDrop ∧
    (abStatic env f st).NoPvDrop ∧
    1 ≤ (if f.depth ≥ 3 ∧ f.tt_hit = false then f.depth - 1 else f.depth) := by
  have h1 := abEntry_nodrop env .NONPV depth alpha beta ss st (by decide)
  refine ⟨h1, ?_, abEntry_nodrop env .ROOT depth alpha beta ss st (by decide),
    abStatic_nodrop env f st (by rw [hn]; decide) hd, by split_ifs <;> omega⟩
  cases hs : abEntry env .NONPV depth alpha beta ss st with
  | ret v s => intro h; cases h
  | tailQ node a b s1 s =>
    rw [hs] at h1
    intro h
    exact h1 (Option.some.inj h)
  | nmp g R s => intro h; cases h
  | moves g s => intro h; cases h

set_option maxRecDepth 100000 in
/-- Witness for C36: `absearch<NONPV>` at depth 1 on the sample position
reaches its move loop with depth 1, where `absearch<PV>` drops into
`qsearch<PV>`. -/
theorem nonpv_never_drops_to_pv_witness :
    (abEntry sampleEnv .NONPV 1 99 100 1 sampleState).dropNode ≠ some .PV ∧
    (abEntry sampleEnv .NONPV 1 99 100 1 sampleState).frame.depth = 1 ∧
    (abEntry sampleEnv .NONPV 1 99 100 1 sampleState).value = none :=
  ⟨(nonpv_never_drops_to_pv sampleEnv 1 99 100 1 sampleState lmrFrame rfl
      (by decide)).2.1, by decide, by decide⟩

/-! ## Searches of a made move (`search.cpp`, lines 505-552) -/

/-- Late-move reduction, full-depth search and PVS search of a counted
move: the score they leave is that of a search of the child frame, and the
state is the one that search returned. -/
theorem searched_score (env : Env) (rec : Call → SearchState → Option (Int × SearchState))
    (f : ABFrame) (capture : Bool) (newDepth : Int) (st3 : SearchState) (hm : 1 ≤ f.made_moves)
    (score1 : Int) (st4 : SearchState) (dfs : Bool) (score2 : Int) (st5 : SearchState)
    (score3 : Int) (st6 : SearchState)
    (h1 : abLmr env rec f capture newDepth st3 = some (score1, st4, dfs))
    (h2 : abFull rec f newDepth score1 st4 dfs = some (score2, st5))
    (h3 : abPvs rec f newDepth score2 st5 = some (score3, st6)) :
    ∃ node d a b s r, rec (.ab node d a b (f.ss + 1)) s = some (r, st6) ∧
      score3 = toInt16 (-r) ∧
      ((node = .NONPV ∧ a = toInt16 (-f.alpha - 1) ∧ b = toInt16 (-f.alpha)) ∨
      (node = .PV ∧ a = toInt16 (-f.beta) ∧ b = toInt16 (-f.alpha))) := by
  unfold abPvs at h3
  simp only [] at h3
  by_cases c3 : decide (f.node ≠ .NONPV) = true ∧
      ((score2 > f.alpha ∧ score2 < f.beta) ∨ f.made_moves = 1)
  · rw [if_pos c3] at h3
    cases hr : rec (.ab .PV newDepth (toInt16 (-f.beta)) (toInt16 (-f.alpha)) (f.ss + 1)) st5 with
    | none => rw [hr] at h3; cases h3
    | some p =>
      obtain ⟨r, s⟩ := p
      rw [hr] at h3
      simp only [Option.some.injEq, Prod.mk.injEq] at h3
      exact ⟨_, _, _, _, _, r, by rw [hr, h3.2], h3.1.symm, Or.inr ⟨rfl, rfl, rfl⟩⟩
  rw [if_neg c3] at h3
  simp only [Option.some.injEq, Prod.mk.injEq] at h3
  obtain ⟨e3, e3s⟩ := h3
  unfold abFull at h2
  by_cases c2 : dfs = true
  · rw [if_pos c2] at h2
    cases hr : rec (.ab .NONPV newDepth (toInt16 (-f.alpha - 1)) (toInt16 (-f.alpha)) (f.ss + 1))
        st4 with
    | none => rw [hr] at h2; cases h2
    | some p =>
      obtain ⟨r, s⟩ := p
      rw [hr] at h2
      simp only [Option.some.injEq, Prod.mk.injEq] at h2
      exact ⟨_, _, _, _, _, r, by rw [hr, h2.2, e3s], by rw [← e3, ← h2.1],
        Or.inl ⟨rfl, rfl, rfl⟩⟩
  rw [if_neg c2] at h2
  simp only [Option.some.injEq, Prod.mk.injEq] at h2
  obtain ⟨e2, e2s⟩ := h2
  unfold abLmr at h1
  simp only [] at h1
  by_cases c1 : decide (f.depth ≥ 3 ∧ f.in_check = false ∧
      (f.made_moves : Int) > 3 + 2 * (if decide (f.node ≠ .NONPV) = true then 1 else 0)) = true
  · rw [if_pos c1] at h1
    cases hr : rec (.ab .NONPV (lmrDepth env f capture newDepth) (toInt16 (-f.alpha - 1))
        (toInt16 (-f.alpha)) (f.ss + 1)) st3 with
    | none => rw [hr] at h1; cases h1
    | some p =>
      obtain ⟨r, s⟩ := p
      rw [hr] at h1
      simp only [Option.some.injEq, Prod.mk.injEq] at h1
      exact ⟨_, _, _, _, _, r, by rw [hr, h1.2.1, e2s, e3s], by rw [← e3, ← e2, ← h1.1],
        Or.inl ⟨rfl, rfl, rfl⟩⟩
  · rw [if_neg c1] at h1
    simp only [Option.some.injEq, Prod.mk.injEq] at h1
    exfalso
    have hd : decide (decide (f.node ≠ .NONPV) = false ∨ f.made_moves > 1) = false := by
      rw [h1.2.2]
      cases dfs with
      | true => exact absurd rfl c2
      | false => rfl
    have hd2 := of_decide_eq_false hd
    rw [not_or] at hd2
    apply c3
    refine ⟨?_, Or.inr (by omega)⟩
    cases hpv : decide (f.node ≠ .NONPV) with
    | true => rfl
    | false => exact absurd hpv hd2.1

theorem noSearch_ab (node : Node) (d a b ss : Int) (s : SearchState) (r : Int)
    (s2 : SearchState) (h : noSearch (.ab node d a b ss) s = some (r, s2)) : False := by
  cases h

/-- The loop body from `newDepth` on does not get past its searches with a
runner that never returns from `absearch`. -/
theorem abMove_noSearch (env : Env) (f : ABFrame) (move : Move) (capture : Bool)
    (extension : Int) (st : SearchState) (hm : 1 ≤ f.made_moves) :
    abMove env noSearch f move capture extension st = none := by
  unfold abMove
  simp only []
  generalize ({ SearchState.makeMove env { st with nodes := (st.nodes + 1) % 2 ^ 64 } move
      with stack := setCurrent (SearchState.makeMove env
        { st with nodes := (st.nodes + 1) % 2 ^ 64 } move).stack f.ss move } : SearchState) = st3
  cases hr1 : abLmr env noSearch f capture (f.depth - 1 + extension) st3 with
  | none => rfl
  | some p1 =>
    obtain ⟨score1, st4, dfs⟩ := p1
    simp only []
    cases hr2 : abFull noSearch f (f.depth - 1 + extension) score1 st4 dfs with
    | none => rfl
    | some p2 =>
      obtain ⟨score2, st5⟩ := p2
      simp only []
      cases hr3 : abPvs noSearch f (f.depth - 1 + extension) score2 st5 with
      | none => rfl
      | some p3 =>
        obtain ⟨score3, st6⟩ := p3
        exfalso
        obtain ⟨node, d, a, b, s, r, hs, _⟩ := searched_score env noSearch f capture _ st3 hm
          score1 st4 dfs score2 st5 score3 st6 hr1 hr2 hr3
        exact noSearch_ab node d a b _ s r st6 hs

set_option maxRecDepth 100000 in
/-- With the counter of made moves at 0 (a `uint8_t` that has wrapped after
256 moves) a PV node at depth 2 runs none of the three searches: the loop
body gets past them with a runner that never returns from `absearch`. -/
theorem uncounted_move_not_searched :
    (abMove sampleEnv noSearch uncountedFrame sampleQuiet false 0 sampleState).isSome
      = true := by
  decide

theorem abLmr_none (env : Env) (rec : Call → SearchState → Option (Int × SearchState))
    (f : ABFrame) (capture : Bool) (newDepth : Int) (st3 : SearchState)
    (h : abLmr env rec f capture newDepth st3 = none) :
    ∃ node d a b s,
      ((node = .NONPV ∧ a = toInt16 (-f.alpha - 1) ∧ b = toInt16 (-f.alpha)) ∨
        (node = .PV ∧ a = toInt16 (-f.beta) ∧ b = toInt16 (-f.alpha))) ∧
      rec (.ab node d a b (f.ss + 1)) s = none := by
  unfold abLmr at h
  simp only [] at h
  by_cases c1 : decide (f.depth ≥ 3 ∧ f.in_check = false ∧
      (f.made_moves : Int) > 3 + 2 * (if decide (f.node ≠ .NONPV) = true then 1 else 0)) = true
  · rw [if_pos c1] at h
    cases hr : rec (.ab .NONPV (lmrDepth env f capture newDepth) (toInt16 (-f.alpha - 1))
        (toInt16 (-f.alpha)) (f.ss + 1)) st3 with
    | none => exact ⟨_, _, _, _, _, Or.inl ⟨rfl, rfl, rfl⟩, hr⟩
    | some p => rw [hr] at h; cases h
  · rw [if_neg c1] at h
    cases h

theorem abFull_none (rec : Call → SearchState → Option (Int × SearchState)) (f : ABFrame)
    (newDepth : Int) (score1 : Int) (st4 : SearchState) (dfs : Bool)
    (h : abFull rec f newDepth score1 st4 dfs = none) :
    ∃ node d a b s,
      ((node = .NONPV ∧ a = toInt16 (-f.alpha - 1) ∧ b = toInt16 (-f.alpha)) ∨
        (node = .PV ∧ a = toInt16 (-f.beta) ∧ b = toInt16 (-f.alpha))) ∧
      rec (.ab node d a b (f.ss + 1)) s = none := by
  unfold abFull at h
  by_cases c2 : dfs = true
  · rw [if_pos c2] at h
    cases hr : rec (.ab .NONPV newDepth (toInt16 (-f.alpha - 1)) (toInt16 (-f.alpha)) (f.ss + 1))
        st4 with
    | none => exact ⟨_, _, _, _, _, Or.inl ⟨rfl, rfl, rfl⟩, hr⟩
    | some p => rw [hr] at h; cases h
  · rw [if_neg c2] at h
    cases h

theorem abPvs_none (rec : Call → SearchState → Option (Int × SearchState)) (f : ABFrame)
    (newDepth : Int) (score2 : Int) (st5 : SearchState)
    (h : abPvs rec f newDepth score2 st5 = none) :
    ∃ node d a b s,
      ((node = .NONPV ∧ a = toInt16 (-f.alpha - 1) ∧ b = toInt16 (-f.alpha)) ∨
        (node = .PV ∧ a = toInt16 (-f.beta) ∧ b = toInt16 (-f.alpha))) ∧
      rec (.ab node d a b (f.ss + 1)) s = none := by
  unfold abPvs at h
  simp only [] at h
  by_cases c3 : decide (f.node ≠ .NONPV) = true ∧
      ((score2 > f.alpha ∧ score2 < f.beta) ∨ f.made_moves = 1)
  · rw [if_pos c3] at h
    cases hr : rec (.ab .PV newDepth (toInt16 (-f.beta)) (toInt16 (-f.alpha)) (f.ss + 1)) st5 with
    | none => exact ⟨_, _, _, _, _, Or.inr ⟨rfl, rfl, rfl⟩, hr⟩
    | some p => rw [hr] at h; cases h
  · rw [if_neg c3] at h
    cases h

/-- The loop body from `newDepth` on, for a counted move: either a search
of the child frame does not return, and neither does the body; or the body
is the update of lines 550-589 with the negated result of a search of the
child frame as the score, in the state that search returned, followed by
the end of `absearch` or the next turn of the loop. -/
theorem abMove_searched (env : Env) (rec : Call → SearchState → Option (Int × SearchState))
    (f : ABFrame) (move : Move) (capture : Bool) (extension : Int) (st : SearchState)
    (hm : 1 ≤ f.made_moves) :
    (abMove env rec f move capture extension st = none ∧
      ∃ node d a b s,
        ((node = .NONPV ∧ a = toInt16 (-f.alpha - 1) ∧ b = toInt16 (-f.alpha)) ∨
          (node = .PV ∧ a = toInt16 (-f.beta) ∧ b = toInt16 (-f.alpha))) ∧
        rec (.ab node d a b (f.ss + 1)) s = none) ∨
    ∃ node d a b s r st6, rec (.ab node d a b (f.ss + 1)) s = some (r, st6) ∧
      ((node = .NONPV ∧ a = toInt16 (-f.alpha - 1) ∧ b = toInt16 (-f.alpha)) ∨
        (node = .PV ∧ a = toInt16 (-f.beta) ∧ b = toInt16 (-f.alpha))) ∧
      abMove env rec f move capture extension st =
        if (abUpdate env f st6 move capture (toInt16 (-r))
            (SearchState.makeMove env { st with nodes := (st.nodes + 1) % 2 ^ 64 } move).nodes).2.2
            = true then
          some (abFinish env
            (abUpdate env f st6 move capture (toInt16 (-r))
              (SearchState.makeMove env { st with nodes := (st.nodes + 1) % 2 ^ 64 }
                move).nodes).1
            (abUpdate env f st6 move capture (toInt16 (-r))
              (SearchState.makeMove env { st with nodes := (st.nodes + 1) % 2 ^ 64 }
                move).nodes).2.1)
        else
          rec (.abloop (abUpdate env f st6 move capture (toInt16 (-r))
              (SearchState.makeMove env { st with nodes := (st.nodes + 1) % 2 ^ 64 }
                move).nodes).1)
            (abUpdate env f st6 move capture (toInt16 (-r))
              (SearchState.makeMove env { st with nodes := (st.nodes + 1) % 2 ^ 64 }
                move).nodes).2.1 := by
  unfold abMove
  simp only []
  generalize ({ SearchState.makeMove env { st with nodes := (st.nodes + 1) % 2 ^ 64 } move
      with stack := setCurrent (SearchState.makeMove env
        { st with nodes := (st.nodes + 1) % 2 ^ 64 } move).stack f.ss move } : SearchState) = st3
  generalize (SearchState.makeMove env { st with nodes := (st.nodes + 1) % 2 ^ 64 } move).nodes
    = nc
  cases hr1 : abLmr env rec f capture (f.depth - 1 + extension) st3 with
  | none => exact Or.inl ⟨rfl, abLmr_none env rec f capture _ st3 hr1⟩
  | some p1 =>
    obtain ⟨score1, st4, dfs⟩ := p1
    simp only []
    cases hr2 : abFull rec f (f.depth - 1 + extension) score1 st4 dfs with
    | none => exact Or.inl ⟨rfl, abFull_none rec f _ score1 st4 dfs hr2⟩
    | some p2 =>
      obtain ⟨score2, st5⟩ := p2
      simp only []
      cases hr3 : abPvs rec f (f.depth - 1 + extension) score2 st5 with
      | none => exact Or.inl ⟨rfl, abPvs_none rec f _ score2 st5 hr3⟩
      | some p3 =>
        obtain ⟨score3, st6⟩ := p3
        simp only []
        obtain ⟨node, d, a, b, s, r, hs, he, hw⟩ := searched_score env rec f capture _ st3 hm
          score1 st4 dfs score2 st5 score3 st6 hr1 hr2 hr3
        refine Or.inr ⟨node, d, a, b, s, r, st6, hs, hw, ?_⟩
        rw [he]

/-- The loop body from `newDepth` on, for a counted move, starts with a
search of the child frame in the state in which the move has just been made
(and recorded as the current move of the frame): if that search does not
return, neither does the body. -/
theorem abMove_first (env : Env) (rec : Call → SearchState → Option (Int × SearchState))
    (f : ABFrame) (move : Move) (capture : Bool) (extension : Int) (st : SearchState)
    (hm : 1 ≤ f.made_moves) :
    ∃ node d a b,
      ((node = .NONPV ∧ a = toInt16 (-f.alpha - 1) ∧ b = toInt16 (-f.alpha)) ∨
        (node = .PV ∧ a = toInt16 (-f.beta) ∧ b = toInt16 (-f.alpha))) ∧
      (rec (.ab node d a b (f.ss + 1))
          { SearchState.makeMove env { st with nodes := (st.nodes + 1) % 2 ^ 64 } move with
            stack := setCurrent (SearchState.makeMove env
              { st with nodes := (st.nodes + 1) % 2 ^ 64 } move).stack f.ss move } = none →
        abMove env rec f move capture extension st = none) := by
  unfold abMove
  simp only []
  generalize ({ SearchState.makeMove env { st with nodes := (st.nodes + 1) % 2 ^ 64 } move
      with stack := setCurrent (SearchState.makeMove env
        { st with nodes := (st.nodes + 1) % 2 ^ 64 } move).stack f.ss move } : SearchState) = st3
  generalize (SearchState.makeMove env { st with nodes := (st.nodes + 1) % 2 ^ 64 } move).nodes
    = nc
  by_cases c1 : decide (f.depth ≥ 3 ∧ f.in_check = false ∧
      (f.made_moves : Int) > 3 + 2 * (if decide (f.node ≠ .NONPV) = true then 1 else 0)) = true
  · refine ⟨.NONPV, lmrDepth env f capture (f.depth - 1 + extension), _, _,
      Or.inl ⟨rfl, rfl, rfl⟩, fun h => ?_⟩
    have e1 : abLmr env rec f capture (f.depth - 1 + extension) st3 = none := by
      unfold abLmr
      simp only []
      rw [if_pos c1, h]
    rw [e1]
  · have e1 : abLmr env rec f capture (f.depth - 1 + extension) st3
        = some (f.score, st3, decide (decide (f.node ≠ .NONPV) = false ∨ f.made_moves > 1)) := by
      unfold abLmr
      simp only []
      rw [if_neg c1]
    rw [e1]
    simp only []
    by_cases c2 : decide (decide (f.node ≠ .NONPV) = false ∨ f.made_moves > 1) = true
    · refine ⟨.NONPV, f.depth - 1 + extension, _, _, Or.inl ⟨rfl, rfl, rfl⟩, fun h => ?_⟩
      have e2 : abFull rec f (f.depth - 1 + extension) f.score st3
          (decide (decide (f.node ≠ .NONPV) = false ∨ f.made_moves > 1)) = none := by
        unfold abFull
        rw [if_pos c2, h]
      rw [e2]
    · have e2 : abFull rec f (f.depth - 1 + extension) f.score st3
          (decide (decide (f.node ≠ .NONPV) = false ∨ f.made_moves > 1)) = some (f.score, st3) := by
        unfold abFull
        rw [if_neg c2]
      rw [e2]
      simp only []
      have hd2 := of_decide_eq_false (by
        cases hx : decide (decide (f.node ≠ .NONPV) = false ∨ f.made_moves > 1) with
        | true => exact absurd hx c2
        | false => rfl)
      rw [not_or] at hd2
      have c3 : decide (f.node ≠ .NONPV) = true ∧
          ((f.score > f.alpha ∧ f.score < f.beta) ∨ f.made_moves = 1) := by
        refine ⟨?_, Or.inr (by omega)⟩
        cases hpv : decide (f.node ≠ .NONPV) with
        | true => rfl
        | false => exact absurd hpv hd2.1
      refine ⟨.PV, f.depth - 1 + extension, _, _, Or.inr ⟨rfl, rfl, rfl⟩, fun h => ?_⟩
      have e3 : abPvs rec f (f.depth - 1 + extension) f.score st3 = none := by
        unfold abPvs
        simp only []
        rw [if_pos c3, h]
      rw [e3]

/-- The update after a searched move records the score it is given and
compares that score with `best`. -/
theorem abUpdate_best (env : Env) (f : ABFrame) (st : SearchState) (move : Move)
    (capture : Bool) (score : Int) (node_count : Nat) :
    (abUpdate env f st move capture score node_count).1.score = score ∧
    (abUpdate env f st move capture score node_count).1.best = max f.best score := by
  unfold abUpdate
  simp only []
  generalize assertBand score (st.unmakeMove env move) = st1
  generalize (if env.id = 0 then
      { st1 with node_effort := fun a b =>
          if a = move.from ∧ b = move.to then
            (st1.node_effort a b + (st1.nodes + 2 ^ 64 - node_count) % 2 ^ 64) % 2 ^ 64
          else st1.node_effort a b }
    else st1) = st2
  by_cases c1 : score > f.best
  · have hmax : max f.best score = score := max_eq_right (le_of_lt c1)
    rw [if_pos c1, hmax]
    by_cases c2 : score > f.alpha
    · rw [if_pos c2]
      by_cases c3 : score ≥ f.beta
      · rw [if_pos c3]
        exact ⟨rfl, rfl⟩
      · rw [if_neg c3]
        split_ifs <;> exact ⟨rfl, rfl⟩
    · rw [if_neg c2]
      split_ifs <;> exact ⟨rfl, rfl⟩
  · have hmax : max f.best score = f.best := max_eq_left (by omega)
    rw [if_neg c1, hmax]
    split_ifs <;> exact ⟨rfl, rfl⟩

/-- C37: every move that is made on the board in the `absearch` move loop
is searched before it is unmade. For locals with the move counted
(`made_moves >= 1`), whatever `depth`, `in_check`, the node kind and the
rest are: with a runner that never returns from `absearch` the loop body
from the making of the move on does not return; with any runner, either a
search of the child frame does not return (and neither does the body), or
the body is the update of lines 550-589 (which unmakes the move), called
with the negated result of a search of the child frame (a zero-window
search `absearch<NONPV>` on `(-alpha - 1, -alpha)` or the PV search
`absearch<PV>` on `(-beta, -alpha)`) as its score and with the state that
search returned, followed by the end of `absearch` or
the next turn of the loop; that update records the score it is called
with and compares it with `best` (`best` becomes the greater of the two),
so the score compared with `best` is neither the initial `VALUE_NONE` nor
the score of an earlier move; and the first of the searches is started in
the state in which the move has just been made (if it does not return,
neither does the body). -/
theorem every_made_move_is_searched (env : Env)
    (rec : Call → SearchState → Option (Int × SearchState)) (f : ABFrame) (move : Move)
    (capture : Bool) (extension : Int) (st : SearchState) (hm : 1 ≤ f.made_moves) :
    abMove env noSearch f move capture extension st = none ∧
    ((abMove env rec f move capture extension st = none ∧
        ∃ node d a b s,
          ((node = .NONPV ∧ a = toInt16 (-f.alpha - 1) ∧ b = toInt16 (-f.alpha)) ∨
            (node = .PV ∧ a = toInt16 (-f.beta) ∧ b = toInt16 (-f.alpha))) ∧
          rec (.ab node d a b (f.ss + 1)) s = none) ∨
      ∃ node d a b s r st6, rec (.ab node d a b (f.ss + 1)) s = some (r, st6) ∧
        ((node = .NONPV ∧ a = toInt16 (-f.alpha - 1) ∧ b = toInt16 (-f.alpha)) ∨
          (node = .PV ∧ a = toInt16 (-f.beta) ∧ b = toInt16 (-f.alpha))) ∧
        abMove env rec f move capture extension st =
          if (abUpdate env f st6 move capture (toInt16 (-r))
              (SearchState.makeMove env { st with nodes := (st.nodes + 1) % 2 ^ 64 }
                move).nodes).2.2 = true then
            some (abFinish env
              (abUpdate env f st6 move capture (toInt16 (-r))
                (SearchState.makeMove env { st with nodes := (st.nodes + 1) % 2 ^ 64 }
                  move).nodes).1
              (abUpdate env f st6 move capture (toInt16 (-r))
                (SearchState.makeMove env { st with nodes := (st.nodes + 1) % 2 ^ 64 }
                  move).nodes).2.1)
          else
            rec (.abloop (abUpdate env f st6 move capture (toInt16 (-r))
                (SearchState.makeMove env { st with nodes := (st.nodes + 1) % 2 ^ 64 }
                  move).nodes).1)
              (abUpdate env f st6 move capture (toInt16 (-r))
                (SearchState.makeMove env { st with nodes := (st.nodes + 1) % 2 ^ 64 }
                  move).nodes).2.1) ∧
    (∀ st6 score nc, (abUpdate env f st6 move capture score nc).1.score = score ∧
      (abUpdate env f st6 move capture score nc).1.best = max f.best score) ∧
    ∃ node d a b,
      ((node = .NONPV ∧ a = toInt16 (-f.alpha - 1) ∧ b = toInt16 (-f.alpha)) ∨
        (node = .PV ∧ a = toInt16 (-f.beta) ∧ b = toInt16 (-f.alpha))) ∧
      (rec (.ab node d a b (f.ss + 1))
          { SearchState.makeMove env { st with nodes := (st.nodes + 1) % 2 ^ 64 } move with
            stack := setCurrent (SearchState.makeMove env
              { st with nodes := (st.nodes + 1) % 2 ^ 64 } move).stack f.ss move } = none →
        abMove env rec f move capture extension st = none) :=
  ⟨abMove_noSearch env f move capture extension st hm,
    abMove_searched env rec f move capture extension st hm,
    fun st6 score nc => abUpdate_best env f st6 move capture score nc,
    abMove_first env rec f move capture extension st hm⟩

set_option maxRecDepth 100000 in
/-- Witness for C37: the first move of a PV node at depth 2 (no late-move
reduction, no zero-window search) with a runner that returns 7: the loop
body is the update with the negated result of a search of the child frame;
called with -7 the update leaves `best = -7`, where the score of the locals
was `VALUE_NONE`; the search that ran is the PVS search. -/
theorem every_made_move_is_searched_witness :
    abMove sampleEnv noSearch pvFirstFrame sampleQuiet false 0 sampleState = none ∧
    (∃ node d a b s r st6, sevenSearch (.ab node d a b (pvFirstFrame.ss + 1)) s = some (r, st6) ∧
      ((node = .NONPV ∧ a = toInt16 (-pvFirstFrame.alpha - 1) ∧
          b = toInt16 (-pvFirstFrame.alpha)) ∨
        (node = .PV ∧ a = toInt16 (-pvFirstFrame.beta) ∧ b = toInt16 (-pvFirstFrame.alpha))) ∧
      abMove sampleEnv sevenSearch pvFirstFrame sampleQuiet false 0 sampleState =
        if (abUpdate sampleEnv pvFirstFrame st6 sampleQuiet false (toInt16 (-r))
            (SearchState.makeMove sampleEnv
              { sampleState with nodes := (sampleState.nodes + 1) % 2 ^ 64 }
              sampleQuiet).nodes).2.2 = true then
          some (abFinish sampleEnv
            (abUpdate sampleEnv pvFirstFrame st6 sampleQuiet false (toInt16 (-r))
              (SearchState.makeMove sampleEnv
                { sampleState with nodes := (sampleState.nodes + 1) % 2 ^ 64 }
                sampleQuiet).nodes).1
            (abUpdate sampleEnv pvFirstFrame st6 sampleQuiet false (toInt16 (-r))
              (SearchState.makeMove sampleEnv
                { sampleState with nodes := (sampleState.nodes + 1) % 2 ^ 64 }
                sampleQuiet).nodes).2.1)
        else
          sevenSearch (.abloop (abUpdate sampleEnv pvFirstFrame st6 sampleQuiet false
              (toInt16 (-r))
              (SearchState.makeMove sampleEnv
                { sampleState with nodes := (sampleState.nodes + 1) % 2 ^ 64 }
                sampleQuiet).nodes).1)
            (abUpdate sampleEnv pvFirstFrame st6 sampleQuiet false (toInt16 (-r))
              (SearchState.makeMove sampleEnv
                { sampleState with nodes := (sampleState.nodes + 1) % 2 ^ 64 }
                sampleQuiet).nodes).2.1) ∧
    (abUpdate sampleEnv pvFirstFrame sampleState sampleQuiet false (toInt16 (-7)) 1).1.best
      = -7 ∧
    pvFirstFrame.score = VALUE_NONE ∧
    (abPvs sevenSearch pvFirstFrame 1 VALUE_NONE sampleState).map (fun r => r.1)
      = some (-7) :=
  have h := every_made_move_is_searched sampleEnv sevenSearch pvFirstFrame sampleQuiet false 0
    sampleState (by decide)
  ⟨h.1,
    h.2.1.resolve_left (fun hh => by
      have h2 := congrArg Option.isSome hh.1
      revert h2
      decide),
    (h.2.2.1 sampleState (toInt16 (-7)) 1).2.trans (by decide), rfl, by decide⟩

/-! ## Termination of the aspiration loop (`search.cpp`, lines 613-664) -/

theorem aspirationDelta_bounds (j : Nat) (hj : j ≤ 20) :
    30 ≤ aspirationDelta j ∧ aspirationDelta j ≤ 200000 ∧
    (18 ≤ j → 43606 ≤ aspirationDelta j) := by
  interval_cases j <;> decide

/-- After a failed search with a result in the band: `delta` is the next
value of its sequence, fewer than 20 searches have failed, and the bounds
meet `AspBound` again: a bound that is infinite stays infinite, and from
the 19th failed search on each failure makes one more bound infinite. -/
theorem aspirationNext_bound (j : Nat) (hj : j ≤ 20) (alpha beta r : Int)
    (hb : AspBound j alpha beta) (hr : Band r) (a1 b1 d1 : Int)
    (h : aspirationNext (aspirationClamp alpha beta).1 (aspirationClamp alpha beta).2
      (aspirationDelta j) r = some (a1, b1, d1)) :
    d1 = aspirationDelta (j + 1) ∧ j < 20 ∧ AspBound (j + 1) a1 b1 := by
  obtain ⟨hd1, hd2, hd3⟩ := aspirationDelta_bounds j hj
  obtain ⟨⟨ha1, ha2⟩, ⟨hb1, hb2⟩, h19, h20⟩ := hb
  obtain ⟨hr1, hr2⟩ := hr
  have hda : aspirationDelta (j + 1)
      = toInt32 (aspirationDelta j + Int.tdiv (aspirationDelta j) 2) := rfl
  rw [hda]
  generalize aspirationDelta j = dl at h hd1 hd2 hd3 ⊢
  have ht := tdiv_two dl
  rw [if_pos (by omega)] at ht
  unfold aspirationNext aspirationClamp at h
  simp only [VALUE_INFINITE] at h hr1 hr2
  by_cases c1 : r ≤ (if alpha < -3500 then -32001 else alpha)
  · rw [if_pos c1] at h
    simp only [Option.some.injEq, Prod.mk.injEq] at h
    obtain ⟨e1, e2, e3⟩ := h
    have hfa : ¬ alpha < -3500 := by
      intro hc
      rw [if_pos hc] at c1
      omega
    rw [if_neg hfa] at e1 e2
    have hj20 : j < 20 := by
      by_contra hc
      exact hfa (h20 (by omega)).1
    have t1 : toInt32 (alpha - dl) = alpha - dl := toInt32_of_range _ (by omega) (by omega)
    rw [t1] at e1
    have hmax : -32001 ≤ max (alpha - dl) (-32001) ∧ max (alpha - dl) (-32001) ≤ alpha := by
      simp only [max_def]
      split_ifs <;> omega
    have t2 : toInt16 (max (alpha - dl) (-32001)) = max (alpha - dl) (-32001) :=
      toInt16_of_range _ (by omega) (by omega)
    rw [t2] at e1
    have hb1r := toInt16_range (Int.tdiv (alpha + (if beta > 3500 then 32001 else beta)) 2)
    rw [e2] at hb1r
    have hbinf : beta > 3500 → b1 > 3500 := by
      intro hc
      rw [if_pos hc] at e2
      have hq := tdiv_two (alpha + 32001)
      rw [if_pos (by omega)] at hq
      rw [hq, toInt16_of_range _ (by omega) (by omega)] at e2
      omega
    have hlate : 18 ≤ j → a1 < -3500 := by
      intro hc
      have := hd3 hc
      rw [← e1]
      simp only [max_def]
      split_ifs <;> omega
    refine ⟨e3.symm, hj20, ⟨by omega, by omega⟩, hb1r, ?_, ?_⟩
    · intro _
      exact Or.inl (hlate (by omega))
    · intro hc
      refine ⟨hlate (by omega), hbinf ?_⟩
      rcases h19 (by omega) with h | h
      · exact absurd h hfa
      · exact h
  · rw [if_neg c1] at h
    by_cases c2 : r ≥ (if beta > 3500 then 32001 else beta)
    · rw [if_pos c2] at h
      simp only [Option.some.injEq, Prod.mk.injEq] at h
      obtain ⟨e1, e2, e3⟩ := h
      have hfb : ¬ beta > 3500 := by
        intro hc
        rw [if_pos hc] at c2
        omega
      rw [if_neg hfb] at e2
      have hj20 : j < 20 := by
        by_contra hc
        exact hfb (h20 (by omega)).2
      have t1 : toInt32 (beta + dl) = beta + dl := toInt32_of_range _ (by omega) (by omega)
      rw [t1] at e2
      have hmin : beta ≤ min (beta + dl) 32001 ∧ min (beta + dl) 32001 ≤ 32001 := by
        simp only [min_def]
        split_ifs <;> omega
      have t2 : toInt16 (min (beta + dl) 32001) = min (beta + dl) 32001 :=
        toInt16_of_range _ (by omega) (by omega)
      rw [t2] at e2
      have ha1r : (-32768 ≤ a1 ∧ a1 ≤ 32767) ∧ (alpha < -3500 → a1 < -3500) := by
        rw [← e1]
        split_ifs <;> omega
      have hlate : 18 ≤ j → b1 > 3500 := by
        intro hc
        have := hd3 hc
        rw [← e2]
        simp only [min_def]
        split_ifs <;> omega
      refine ⟨e3.symm, hj20, ha1r.1, ⟨by omega, by omega⟩, ?_, ?_⟩
      · intro _
        exact Or.inr (hlate (by omega))
      · intro hc
        refine ⟨ha1r.2 ?_, hlate (by omega)⟩
        rcases h19 (by omega) with h | h
        · exact h
        · exact absurd h hfb
    · rw [if_neg c2] at h
      cases h

/-- The first window of `aspirationSearch`, clamped, meets the invariant of
the loop: below depth 9 it is the full window, from depth 9 on it is
`prev_eval ± 30` for a previous score from `-VALUE_INFINITE` to
`VALUE_INFINITE`. -/
theorem aspInv_start (depth prev_eval : Int)
    (hp : 9 ≤ depth → -VALUE_INFINITE ≤ prev_eval ∧ prev_eval ≤ VALUE_INFINITE) :
    AspInv
      (aspirationClamp (if depth ≥ 9 then toInt16 (prev_eval - 30) else -VALUE_INFINITE)
        (if depth ≥ 9 then toInt16 (prev_eval + 30) else VALUE_INFINITE)).1
      (aspirationClamp (if depth ≥ 9 then toInt16 (prev_eval - 30) else -VALUE_INFINITE)
        (if depth ≥ 9 then toInt16 (prev_eval + 30) else VALUE_INFINITE)).2 30 := by
  by_cases hd : depth ≥ 9
  · obtain ⟨h1, h2⟩ := hp hd
    simp only [VALUE_INFINITE] at h1 h2
    have e1 : toInt16 (prev_eval - 30) = prev_eval - 30 :=
      toInt16_of_range _ (by omega) (by omega)
    have e2 : toInt16 (prev_eval + 30) = prev_eval + 30 :=
      toInt16_of_range _ (by omega) (by omega)
    rw [if_pos hd, if_pos hd, e1, e2]
    unfold AspInv aspirationClamp Window VALUE_INFINITE
    simp only []
    split_ifs <;> omega
  · rw [if_neg hd, if_neg hd]
    unfold AspInv aspirationClamp Window VALUE_INFINITE
    simp only []
    split_ifs <;> omega

/-- The loop of `aspirationSearch` returns within `21 - j` turns once `j`
searches have failed, if every root search on a window, started in a state
that meets `P`, returns a value of the band and leaves a state that meets
`P` after the read of the stop flag. -/
theorem aspirationLoop_finite (env : Env) (n : Nat) (depth ss : Int) (P : SearchState → Prop)
    (hret : ∀ a b s, Window a b → P s →
      ∃ r s2, search env n (.ab .ROOT depth a b ss) s = some (r, s2) ∧ Band r ∧
        P (readStop env s2).2) :
    ∀ (d j : Nat) (alpha beta : Int) (st : SearchState) (k : Nat), j + d = 20 →
      AspBound j alpha beta →
      AspInv (aspirationClamp alpha beta).1 (aspirationClamp alpha beta).2 (aspirationDelta j) →
      P st → d + 1 ≤ k →
      ∃ v st2, aspirationLoop env n depth ss k alpha beta (aspirationDelta j) st
        = some (v, st2) := by
  intro d
  induction d with
  | zero =>
    intro j alpha beta st k hj hb hinv hP hk
    obtain ⟨k1, rfl⟩ : ∃ k1, k = k1 + 1 := ⟨k - 1, by omega⟩
    obtain ⟨r, s2, hs, hr, _⟩ :=
      hret (aspirationClamp alpha beta).1 (aspirationClamp alpha beta).2 st hinv.1 hP
    unfold aspirationLoop
    simp only []
    rw [hs]
    simp only []
    split_ifs
    · exact ⟨_, _, rfl⟩
    · exact ⟨_, _, rfl⟩
    · cases hn : aspirationNext (aspirationClamp alpha beta).1 (aspirationClamp alpha beta).2
          (aspirationDelta j) r with
      | none => exact ⟨_, _, rfl⟩
      | some p =>
        obtain ⟨a1, b1, d1⟩ := p
        have := (aspirationNext_bound j (by omega) alpha beta r hb hr a1 b1 d1 hn).2.1
        omega
  | succ d ih =>
    intro j alpha beta st k hj hb hinv hP hk
    obtain ⟨k1, rfl⟩ : ∃ k1, k = k1 + 1 := ⟨k - 1, by omega⟩
    obtain ⟨r, s2, hs, hr, hP2⟩ :=
      hret (aspirationClamp alpha beta).1 (aspirationClamp alpha beta).2 st hinv.1 hP
    unfold aspirationLoop
    simp only []
    rw [hs]
    simp only []
    split_ifs
    · exact ⟨_, _, rfl⟩
    · exact ⟨_, _, rfl⟩
    · cases hn : aspirationNext (aspirationClamp alpha beta).1 (aspirationClamp alpha beta).2
          (aspirationDelta j) r with
      | none => exact ⟨_, _, rfl⟩
      | some p =>
        obtain ⟨a1, b1, d1⟩ := p
        obtain ⟨e1, _, hb1⟩ := aspirationNext_bound j (by omega) alpha beta r hb hr a1 b1 d1 hn
        have hinv1 := aspInv_next _ _ _ r a1 b1 d1 hinv hr hn
        simp only []
        rw [e1] at hinv1 ⊢
        exact ih (j + 1) a1 b1 _ k1 (by omega) hb1 hinv1 hP2 (by omega)

/-- C38: the aspiration loop terminates. For every depth and previous
score (from depth 9 on, where it is used, a score from `-VALUE_INFINITE` to
`VALUE_INFINITE`), and for every property `P` of states that holds at the
start: if each call of `absearch<ROOT>` on a window, started in a state with
`P`, returns a value strictly inside `(-VALUE_INFINITE, VALUE_INFINITE)` and
leaves a state with `P` once the stop flag is read, then `aspirationSearch`
returns after at most 21 root searches (with or without a stop): every
window it searches is a window, `delta` runs through a fixed sequence, a
bound that has become infinite stays infinite, no search fails low on
`alpha = -VALUE_INFINITE` or high on `beta = VALUE_INFINITE`, and from the
19th failed search on `delta` is at least 43606, so that each further
failure makes one more bound infinite. -/
theorem aspiration_terminates (env : Env) (n k : Nat) (depth prev_eval ss : Int)
    (st : SearchState) (P : SearchState → Prop) (hk : 21 ≤ k)
    (hp : 9 ≤ depth → -VALUE_INFINITE ≤ prev_eval ∧ prev_eval ≤ VALUE_INFINITE) (h0 : P st)
    (hret : ∀ a b s, Window a b → P s →
      ∃ r s2, search env n (.ab .ROOT depth a b ss) s = some (r, s2) ∧ Band r ∧
        P (readStop env s2).2) :
    (∃ v st2, aspirationSearch env n k depth prev_eval ss st = some (v, st2)) ∧
    43606 ≤ aspirationDelta 18 := by
  refine ⟨?_, by decide⟩
  have hinv := aspInv_start depth prev_eval hp
  unfold aspirationSearch
  simp only []
  refine aspirationLoop_finite env n depth ss P hret 20 0 _ _ st k rfl ?_ hinv h0 (by omega)
  have h1 := toInt16_range (prev_eval - 30)
  have h2 := toInt16_range (prev_eval + 30)
  refine ⟨?_, ?_, fun h => absurd h (by decide), fun h => absurd h (by decide)⟩
  · unfold VALUE_INFINITE
    split_ifs <;> omega
  · unfold VALUE_INFINITE
    split_ifs <;> omega

theorem terminalEnv_sane : terminalEnv.Sane where
  eval_band := by
    intro b
    show -VALUE_TB_WIN_IN_MAX_PLY < (if b.side_to_move = .White then (30 : Int) else -30) ∧
      (if b.side_to_move = .White then (30 : Int) else -30) < VALUE_TB_WIN_IN_MAX_PLY
    split_ifs <;> decide
  tt_band := fun _ _ => ⟨zero_band, le_refl 0, (by decide : (0 : Int) ≤ 255)⟩
  picker := by
    intro _ _ root _ i hi
    show (if root = false ∧ i = 0 then sampleQuiet else NO_MOVE) = NO_MOVE
    rw [if_neg]
    omega

/-- On a position without legal moves whose side to move is not in check,
`absearch<ROOT>` at depth 1 or more returns 0, whatever the window. -/
theorem root_without_moves (env : Env) (n : Nat) (depth alpha beta ss : Int)
    (st0 : SearchState) (hd : 1 ≤ depth) (hply : (st0.stack ss).ply < MAX_PLY)
    (hchk : env.inCheck st0.tb.board = false)
    (hexc : (st0.stack ss).excluded_move = NO_MOVE)
    (hnone : ∀ s ttm, env.nextMoveAB s ss true ttm 0 = NO_MOVE) :
    ∃ st2, search env (n + 2) (.ab .ROOT depth alpha beta ss) st0 = some (0, st2) := by
  cases hl : (limitReached env st0).1 with
  | true => exact ⟨_, search_ab_of_limit env (n + 1) .ROOT depth alpha beta ss st0 hl⟩
  | false =>
    obtain ⟨g, st1, hg, g1, g2, g3, g4, g5, g6, g7⟩ :=
      abEntry_root env depth alpha beta ss st0 hl hd hply hchk
    have hloop : search env (n + 1) (.abloop g) st1 = some (abFinish env g st1) := by
      simp only [search, searchStep, abLoop]
      rw [g1, g3, g7]
      simp only [decide_True, hnone, if_true]
    have hstep : search env (n + 2) (.ab .ROOT depth alpha beta ss) st0 =
        search env (n + 1) (.abloop g) st1 := by
      show searchStep env (search env (n + 1)) (.ab .ROOT depth alpha beta ss) st0 = _
      simp only [searchStep, hg]
    have hv : (abFinish env g st1).1 = 0 := by
      rw [abFinish_terminal env g st1 g2]
      unfold terminalValue
      rw [g4, hexc, g5, g1, g6]
      simp only [ne_eq, reduceCtorEq, not_false_eq_true, if_true, not_true_eq_false, if_false,
        Bool.false_eq_true]
      decide
    refine ⟨(abFinish env g st1).2, ?_⟩
    rw [hstep, hloop, ← hv]

/-- What `aspirationSearch` needs of a root search in a sane environment:
started on a window in a good state with no excluded move at the root, a
root search that returns does so with a value of the band, in a good state
with no excluded move at the root. -/
theorem root_search_band (env : Env) (hs : env.Sane) (n : Nat) (depth ss : Int) (hss : 0 ≤ ss)
    (a b : Int) (s : SearchState) (r : Int) (s2 : SearchState) (hw : Window a b)
    (hst : StateOK s) (hx : (s.stack ss).excluded_move = NO_MOVE)
    (h : search env n (.ab .ROOT depth a b ss) s = some (r, s2)) :
    Band r ∧ StateOK (readStop env s2).2 ∧
      ((readStop env s2).2.stack ss).excluded_move = NO_MOVE := by
  have hsound := search_sound env hs n (.ab .ROOT depth a b ss) s r s2 hst
    ⟨hw, hss, fun _ => hx⟩ h
  have hkeep : (s2.stack ss).excluded_move = (s.stack ss).excluded_move :=
    search_keeps env n (.ab .ROOT depth a b ss) s r s2 ss (Or.inr ⟨rfl, rfl⟩) h
  refine ⟨hsound.1, readStop_ok env s2 hsound.2, ?_⟩
  rw [← hx, ← hkeep]
  rfl

theorem abPrune_nonull (env : Env) (hnp : ∀ b c, env.nonPawnMat b c = false) (f : ABFrame)
    (st1 : SearchState) (ev : Int) (improving : Bool) (d2 : Int) :
    (abPrune env f st1 ev improving d2).NoNull := by
  have hno : ¬ (env.nonPawnMat st1.tb.board f.color = true ∧ f.excluded_move = NO_MOVE ∧
      (st1.stack (f.ss - 1)).currentmove ≠ NULL_MOVE ∧ d2 ≥ 3 ∧ ev ≥ f.beta) := by
    intro h
    rw [hnp] at h
    exact absurd h.1 (by decide)
  unfold abPrune
  simp only []
  rw [if_neg hno]
  split_ifs <;> trivial

theorem abStatic_nonull (env : Env) (hnp : ∀ b c, env.nonPawnMat b c = false) (f : ABFrame)
    (st : SearchState) : (abStatic env f st).NoNull := by
  unfold abStatic
  by_cases h1 : f.in_check = true
  · rw [if_pos h1]; trivial
  rw [if_neg h1]
  simp only []
  by_cases h2 : f.node = .ROOT
  · rw [if_pos h2]; trivial
  rw [if_neg h2]
  exact abPrune_nonull env hnp f _ _ _ _

theorem abTb_nonull (env : Env) (hnp : ∀ b c, env.nonPawnMat b c = false) (node : Node)
    (depth1 alpha2 beta2 : Int) (ss : Int) (color : Color) (in_check : Bool)
    (excluded_move : Move) (key : Nat) (tt_hit : Bool) (ttmove : Move) (tt_score : Int)
    (st4 : SearchState) :
    (abTb env node depth1 alpha2 beta2 ss color in_check excluded_move key tt_hit ttmove
      tt_score st4).NoNull := by
  unfold abTb
  simp only []
  generalize tbProbe env (decide (node = .ROOT)) (decide (node ≠ .NONPV)) depth1 alpha2
    beta2 (st4.stack ss).ply st4 = tb
  cases htb : tb.1.1 with
  | some v => trivial
  | none => exact abStatic_nonull env hnp _ tb.2

theorem abCut_nonull (env : Env) (hnp : ∀ b c, env.nonPawnMat b c = false) (node : Node)
    (depth1 alpha1 beta1 : Int) (ss : Int) (color : Color) (in_check : Bool)
    (excluded_move : Move) (key : Nat) (tt_hit : Bool) (ttmove : Move) (tte : TEntry)
    (tt_score : Int) (st4 : SearchState) :
    (abCut env node depth1 alpha1 beta1 ss color in_check excluded_move key tt_hit ttmove tte
      tt_score st4).NoNull := by
  unfold abCut
  simp only []
  split_ifs <;> first
    | trivial
    | exact abTb_nonull _ hnp _ _ _ _ _ _ _ _ _ _ _ _ _

theorem abProbe_nonull (env : Env) (hnp : ∀ b c, env.nonPawnMat b c = false) (node : Node)
    (depth0 alpha1 beta1 : Int) (ss : Int) (color : Color) (in_check : Bool)
    (excluded_move : Move) (st1 : SearchState) :
    (abProbe env node depth0 alpha1 beta1 ss color in_check excluded_move st1).NoNull := by
  unfold abProbe
  simp only []
  by_cases h1 : (if in_check = true then depth0 + 1 else depth0) ≤ 0
  · rw [if_pos h1]; trivial
  rw [if_neg h1]
  exact abCut_nonull _ hnp _ _ _ _ _ _ _ _ _ _ _ _ _ _

/-- Where no side ever has non-pawn material (as the null-move condition
reads it), `absearch` starts no null-move search. -/
theorem abEntry_nonull (env : Env) (hnp : ∀ b c, env.nonPawnMat b c = false) (node : Node)
    (depth0 alpha0 beta0 : Int) (ss : Int) (st0 : SearchState) :
    (abEntry env node depth0 alpha0 beta0 ss st0).NoNull := by
  unfold abEntry
  simp only []
  split_ifs <;> first
    | trivial
    | exact abProbe_nonull _ hnp _ _ _ _ _ _ _ _ _

/-- With move pickers that yield no move in `qsearch` and at the nodes of
`absearch` other than the root, and no null-move search, every call of
`absearch` at a node other than the root returns, with a fuel of 3. -/
theorem child_returns (env : Env) (hnp : ∀ b c, env.nonPawnMat b c = false)
    (hq : ∀ s ss ttm i, env.nextMoveQ s ss ttm i = NO_MOVE)
    (hab : ∀ s ss ttm i, env.nextMoveAB s ss false ttm i = NO_MOVE) (m : Nat) (node : Node)
    (hn : node ≠ .ROOT) (d a b ss : Int) (s : SearchState) :
    ∃ r s2, search env (m + 3) (.ab node d a b ss) s = some (r, s2) := by
  have hk := abEntry_kept env node d a b ss s
  have hnn := abEntry_nonull env hnp node d a b ss s
  show ∃ r s2, searchStep env (search env (m + 2)) (.ab node d a b ss) s = some (r, s2)
  simp only [searchStep]
  cases hst : abEntry env node d a b ss s with
  | ret v st1 => exact ⟨_, _, rfl⟩
  | tailQ node1 a1 b1 ss1 st1 =>
    show ∃ r s2, searchStep env (search env (m + 1)) (.q node1 a1 b1 ss1) st1 = some (r, s2)
    simp only [searchStep]
    cases hq1 : qEntry env node1 a1 b1 ss1 st1 with
    | inl r => exact ⟨_, _, rfl⟩
    | inr p =>
      obtain ⟨f, st2⟩ := p
      show ∃ r s2, searchStep env (search env m) (.qloop f) st2 = some (r, s2)
      simp only [searchStep, qLoop, hq, if_true]
      exact ⟨_, _, rfl⟩
  | moves f st1 =>
    rw [hst] at hk
    show ∃ r s2, searchStep env (search env (m + 1)) (.abloop f) st1 = some (r, s2)
    have hroot : decide (f.node = .ROOT) = false := by
      rw [hk.1.1]
      exact decide_eq_false hn
    simp only [searchStep, abLoop, hroot, hab, if_true]
    exact ⟨_, _, rfl⟩
  | nmp f R st1 =>
    rw [hst] at hnn
    exact absurd hnn id

theorem abUpdate_idx (env : Env) (f : ABFrame) (st : SearchState) (move : Move)
    (capture : Bool) (score : Int) (node_count : Nat) :
    (abUpdate env f st move capture score node_count).1.idx = f.idx := by
  unfold abUpdate
  simp only []
  generalize assertBand score (st.unmakeMove env move) = st1
  generalize (if env.id = 0 then
      { st1 with node_effort := fun a b =>
          if a = move.from ∧ b = move.to then
            (st1.node_effort a b + (st1.nodes + 2 ^ 64 - node_count) % 2 ^ 64) % 2 ^ 64
          else st1.node_effort a b }
    else st1) = st2
  by_cases c1 : score > f.best
  · rw [if_pos c1]
    by_cases c2 : score > f.alpha
    · rw [if_pos c2]
      by_cases c3 : score ≥ f.beta
      · rw [if_pos c3]
      · rw [if_neg c3]
        split_ifs <;> rfl
    · rw [if_neg c2]
      split_ifs <;> rfl
  · rw [if_neg c1]
    split_ifs <;> rfl

/-- On the sample worker (a helper thread, silent, with the one move e2-e4
at the root and no move elsewhere) every call of `absearch<ROOT>` at depth
1 or more with no excluded move at the root returns, with a fuel of 6:
the root searches its one move with the PVS search, and the child returns
without a move. -/
theorem sample_root_returns (m : Nat) (depth a b : Int) (s : SearchState) (hd : 1 ≤ depth)
    (hply : (s.stack 0).ply < MAX_PLY) (hexc : (s.stack 0).excluded_move = NO_MOVE) :
    ∃ r s2, search sampleEnv (m + 6) (.ab .ROOT depth a b 0) s = some (r, s2) := by
  have hl : (limitReached sampleEnv s).1 = false := by
    rw [limitReached_helper sampleEnv s (by decide)]
    rfl
  obtain ⟨g, st1, hg, g1, g2, g3, g4, g5, g6, g7⟩ :=
    abEntry_root sampleEnv depth a b 0 s hl hd hply rfl
  have hchild : ∀ node d a1 b1 ss1 s1, node ≠ .ROOT →
      ∃ r s2, search sampleEnv (m + 3) (.ab node d a1 b1 ss1) s1 = some (r, s2) :=
    fun node d a1 b1 ss1 s1 hn =>
      child_returns sampleEnv (fun _ _ => rfl) (fun _ _ _ _ => rfl) (fun _ _ _ _ => rfl) m
        node hn d a1 b1 ss1 s1
  show ∃ r s2, searchStep sampleEnv (search sampleEnv (m + 5)) (.ab .ROOT depth a b 0) s
    = some (r, s2)
  simp only [searchStep, hg]
  show ∃ r s2, searchStep sampleEnv (search sampleEnv (m + 4)) (.abloop g) st1 = some (r, s2)
  simp only [searchStep]
  have hmove : sampleEnv.nextMoveAB st1 g.ss (decide (g.node = .ROOT))
      (if g.tt_hit = true then g.ttmove else NO_MOVE) g.idx = sampleQuiet := by
    rw [g1, g3]
    rfl
  have hpr : ∀ f : ABFrame, f.node = .ROOT → ∀ st mv c, abPruned sampleEnv f st mv c = false := by
    intro f hf st mv c
    unfold abPruned
    simp only [hf, ne_eq, not_true_eq_false, false_and, decide_False]
  have hsg : ∀ f : ABFrame, f.node = .ROOT → ∀ mv, singularPre f mv = false := by
    intro f hf mv
    unfold singularPre
    simp only [hf, ne_eq, not_true_eq_false, false_and, decide_False]
  unfold abLoop
  simp only []
  rw [hmove, if_neg (by decide : ¬ sampleQuiet = NO_MOVE),
    if_neg (by rw [g4, hexc]; decide : ¬ sampleQuiet = g.excluded_move)]
  generalize hf1 : ({ g with made_moves := (g.made_moves + 1) % 256, idx := g.idx + 1 }
    : ABFrame) = f1
  have hf1n : f1.node = .ROOT := by rw [← hf1]; exact g1
  rw [hpr f1 hf1n, hsg f1 hf1n]
  simp only [Bool.false_eq_true, if_false]
  have hf1i : f1.idx = 1 := by rw [← hf1]; show g.idx + 1 = 1; rw [g3]
  have hf1m : 1 ≤ f1.made_moves := by
    rw [← hf1]
    show 1 ≤ (g.made_moves + 1) % 256
    rw [g2]
  generalize decide (st1.tb.board.pieceAtB sampleQuiet.to ≠ NONE) = capture
  show ∃ r s2, searchStep sampleEnv (search sampleEnv (m + 3)) (.abmove f1 sampleQuiet capture 0)
    st1 = some (r, s2)
  simp only [searchStep]
  rcases abMove_searched sampleEnv (search sampleEnv (m + 3)) f1 sampleQuiet capture 0 st1 hf1m
    with ⟨_, node, d, a1, b1, s1, hw, hnone⟩ | ⟨node, d, a1, b1, s1, r, st6, _, _, he⟩
  · exfalso
    have hn : node ≠ .ROOT := by
      rcases hw with h | h
      · rw [h.1]; decide
      · rw [h.1]; decide
    obtain ⟨r, s2, hr⟩ := hchild node d a1 b1 (f1.ss + 1) s1 hn
    rw [hr] at hnone
    cases hnone
  · rw [he]
    have hi := abUpdate_idx sampleEnv f1 st6 sampleQuiet capture (toInt16 (-r))
      (SearchState.makeMove sampleEnv { st1 with nodes := (st1.nodes + 1) % 2 ^ 64 }
        sampleQuiet).nodes
    generalize abUpdate sampleEnv f1 st6 sampleQuiet capture (toInt16 (-r))
      (SearchState.makeMove sampleEnv { st1 with nodes := (st1.nodes + 1) % 2 ^ 64 }
        sampleQuiet).nodes = u at hi
    by_cases hb : u.2.2 = true
    · rw [if_pos hb]
      exact ⟨_, _, rfl⟩
    · rw [if_neg hb]
      show ∃ r s2, searchStep sampleEnv (search sampleEnv (m + 2)) (.abloop u.1) u.2.1
        = some (r, s2)
      have hnm : sampleEnv.nextMoveAB u.2.1 u.1.ss (decide (u.1.node = .ROOT))
          (if u.1.tt_hit = true then u.1.ttmove else NO_MOVE) u.1.idx = NO_MOVE := by
        rw [hi, hf1i]
        show (if decide (u.1.node = .ROOT) = true ∧ (1 : Nat) = 0 then sampleQuiet else NO_MOVE)
          = NO_MOVE
        rw [if_neg (fun h => absurd h.2 (by decide))]
      simp only [searchStep, abLoop, hnm, if_true]
      exact ⟨_, _, rfl⟩

theorem haltEnv_limit (s : SearchState) : (limitReached haltEnv s).1 = true := by
  have h := limitReached_of_stop haltEnv s rfl (by
    unfold readStop
    exact Bool.or_true _)
  rw [h]

set_option maxRecDepth 1000000 in
/-- Witness for C38: workers whose stop flag stays clear, at depth 9 with
the previous score -2000. On the sample worker the root has the one move
e2-e4 and every root search returns 0; on a position without legal moves
every root search returns 0 at once. The first root searches fail high and
the window is widened each time: 9 turns of the loop are too few, and the
theorem gives the return within 21 turns; the run ends with the score 0 and
the stop flag clear. The property of states is that of C10 and C16: the
stack as set up, no failed assertion, no excluded move at the root. -/
theorem aspiration_terminates_witness :
    (∀ t, sampleEnv.stopAt t = false) ∧
    (∃ v st2, aspirationSearch sampleEnv 6 21 9 (-2000) 0 sampleState = some (v, st2)) ∧
    (aspirationSearch sampleEnv 6 9 9 (-2000) 0 sampleState).isNone = true ∧
    (aspirationSearch sampleEnv 6 21 9 (-2000) 0 sampleState).map
      (fun r => (r.1, r.2.stop)) = some (0, false) ∧
    (∃ v st2, aspirationSearch terminalEnv 2 21 9 (-2000) 0 sampleState = some (v, st2)) ∧
    (aspirationSearch terminalEnv 2 9 9 (-2000) 0 sampleState).isNone = true :=
  ⟨fun _ => rfl,
    (aspiration_terminates sampleEnv 6 21 9 (-2000) 0 sampleState
      (fun s => StateOK s ∧ (s.stack 0).excluded_move = NO_MOVE) (by decide)
      (fun _ => by decide) ⟨sampleState_ok, rfl⟩
      (fun a b s hw hs => by
        obtain ⟨r, s2, h2⟩ := sample_root_returns 0 9 a b s (by decide)
          (by rw [hs.1.1 0]; decide) hs.2
        exact ⟨r, s2, h2,
          root_search_band sampleEnv sampleEnv_sane 6 9 0 (le_refl 0) a b s r s2 hw
            hs.1 hs.2 h2⟩)).1,
    by decide, by decide,
    (aspiration_terminates terminalEnv 2 21 9 (-2000) 0 sampleState
      (fun s => StateOK s ∧ (s.stack 0).excluded_move = NO_MOVE) (by decide)
      (fun _ => by decide) ⟨sampleState_ok, rfl⟩
      (fun a b s hw hs => by
        obtain ⟨s2, h2⟩ := root_without_moves terminalEnv 0 9 a b 0 s (by decide)
          (by rw [hs.1.1 0]; decide) rfl hs.2 (fun _ _ => rfl)
        exact ⟨0, s2, h2,
          root_search_band terminalEnv terminalEnv_sane 2 9 0 (le_refl 0) a b s 0 s2 hw
            hs.1 hs.2 h2⟩)).1,
    by decide⟩

/-! ## Indices of the principal-variation tables (`search.cpp`, lines 228-230, 569-576) -/

set_option maxRecDepth 1000000 in
/-- C39 fails on the code: a frame at ply 127 passes the ply guard
(`127 < MAX_PLY`), its child at ply 128 returns at the guard, and its PV
update reads `pv_length_[ply + 1]` with `ply + 1 = MAX_PLY`: started with 0
or with 5 in that cell, `absearch<PV>` at ply 127 returns with that value
in `pv_length_[127]`. -/
theorem pv_update_reads_max_ply :
    (127 : Int) < MAX_PLY ∧ (127 : Int) + 1 = MAX_PLY ∧
    (pastEndState 0).pv_length_ 127 = (pastEndState 5).pv_length_ 127 ∧
    (search lineEnv 6 (.ab .PV 2 (-VALUE_INFINITE) VALUE_INFINITE 127) (pastEndState 0)).map
      (fun r => r.2.pv_length_ 127) = some 0 ∧
    (search lineEnv 6 (.ab .PV 2 (-VALUE_INFINITE) VALUE_INFINITE 127) (pastEndState 5)).map
      (fun r => r.2.pv_length_ 127) = some 5 := by
  decide

/-! ## Singular-extension search (`search.cpp`, lines 461-486) -/

theorem tdiv_half_lt (d : Int) (h : 8 ≤ d) : 0 ≤ Int.tdiv (d - 1) 2 ∧ Int.tdiv (d - 1) 2 < d := by
  have ht := tdiv_two (d - 1)
  rw [if_pos (by omega)] at ht
  omega

/-- The condition of the singular-extension search that does not read the
table entry: not at the root, no excluded move in the locals, depth at
least 8 (so the search depth `(depth - 1) / 2` is below `depth`). -/
theorem singularPre_spec (f : ABFrame) (m : Move) (h : singularPre f m = true) :
    f.node ≠ .ROOT ∧ f.excluded_move = NO_MOVE ∧ 8 ≤ f.depth ∧
    0 ≤ Int.tdiv (f.depth - 1) 2 ∧ Int.tdiv (f.depth - 1) 2 < f.depth ∧ f.ttmove = m := by
  obtain ⟨s1, s2, s3, s4, s5, s6⟩ := of_decide_eq_true h
  exact ⟨s1, s5, s2, (tdiv_half_lt f.depth s2).1, (tdiv_half_lt f.depth s2).2, s4⟩

/-- With an excluded move in the locals no singular-extension search is
started. -/
theorem singularPre_excluded (f : ABFrame) (m : Move) (h : f.excluded_move ≠ NO_MOVE) :
    singularPre f m = false := by
  cases hs : singularPre f m with
  | false => rfl
  | true => exact absurd (singularPre_spec f m hs).2.1 h

theorem setExcluded_same (s : Int → Stack) (i : Int) (m : Move) :
    (setExcluded s i m i).excluded_move = m := by
  unfold setExcluded
  rw [if_pos rfl]

/-- The singular-extension search is `absearch<NONPV>` at depth
`(depth - 1) / 2` on the window `(singular_beta - 1, singular_beta)` at the
same frame, with the move as the excluded move of that frame; the loop
body goes on in a state in which that excluded move is `NO_MOVE` again. -/
theorem abSingular_guard (env : Env) (hd : env.DepthByte)
    (rec : Call → SearchState → Option (Int × SearchState)) (f : ABFrame) (move : Move)
    (capture : Bool) (st : SearchState) (hsp : singularPre f move = true)
    (hte : (env.ttProbe st.tick f.key).2.2.flag.toNat &&& Flag.LOWERBOUND.toNat ≠ 0 ∧
      (env.ttProbe st.tick f.key).2.2.depth ≥ f.depth - 3) :
    abSingular env (singularGuard f move rec) f move capture st
      = abSingular env rec f move capture st := by
  obtain ⟨s1, s2, s3, s4, s5, s6⟩ := of_decide_eq_true hsp
  have htt := hd st.tick f.key
  unfold abSingular
  simp only []
  generalize (env.ttProbe st.tick f.key).2.2 = tte at htt hte
  by_cases h1 : tte.flag.toNat &&& Flag.LOWERBOUND.toNat ≠ 0 ∧ tte.depth ≥ f.depth - 3
  · simp only [if_pos h1]
    obtain ⟨h5, h6⟩ := abs_lt.mp s6
    have e1 : toInt16 (f.tt_score - 3 * f.depth - 1) = f.tt_score - 3 * f.depth - 1 :=
      toInt16_of_range _ (by omega) (by omega)
    have e2 : toInt16 (f.tt_score - 3 * f.depth) = f.tt_score - 3 * f.depth :=
      toInt16_of_range _ (by omega) (by omega)
    have hg : singularGuard f move rec
        (.ab .NONPV (Int.tdiv (f.depth - 1) 2) (toInt16 (f.tt_score - 3 * f.depth - 1))
          (toInt16 (f.tt_score - 3 * f.depth)) f.ss)
        { st with tick := st.tick + 1, stack := setExcluded st.stack f.ss move }
        = rec (.ab .NONPV (Int.tdiv (f.depth - 1) 2) (toInt16 (f.tt_score - 3 * f.depth - 1))
          (toInt16 (f.tt_score - 3 * f.depth)) f.ss)
        { st with tick := st.tick + 1, stack := setExcluded st.stack f.ss move } := by
      rw [singularGuard, if_pos ⟨rfl, rfl, e1, e2, rfl, setExcluded_same _ _ _⟩]
    rw [hg]
    cases rec (.ab .NONPV (Int.tdiv (f.depth - 1) 2) (toInt16 (f.tt_score - 3 * f.depth - 1))
        (toInt16 (f.tt_score - 3 * f.depth)) f.ss)
        { st with tick := st.tick + 1, stack := setExcluded st.stack f.ss move } with
    | none => rfl
    | some p =>
      obtain ⟨value, st3⟩ := p
      simp only []
      have hm : ∀ e, singularGuard f move rec (.abmove f move capture e)
          { st3 with stack := setExcluded st3.stack f.ss NO_MOVE }
          = rec (.abmove f move capture e)
            { st3 with stack := setExcluded st3.stack f.ss NO_MOVE } := by
        intro e
        rw [singularGuard, if_pos ⟨rfl, setExcluded_same _ _ _⟩]
      rw [hm 1, hm 0]
  · exact absurd hte h1

/-- With a runner that returns `value` from the singular-extension search
and does not go on with the loop body, the singular-extension step returns
only by the multicut: it returns `singular_beta`, which is at least `beta`
and at most `value`, in a state in which the excluded move of the frame is
`NO_MOVE` again. -/
theorem abSingular_multicut (env : Env) (hd : env.DepthByte) (f : ABFrame) (move : Move)
    (capture : Bool) (st : SearchState) (hsp : singularPre f move = true) (value v : Int)
    (st9 : SearchState)
    (h : abSingular env (fixedSearch value) f move capture st = some (v, st9)) :
    v = f.tt_score - 3 * f.depth ∧ f.beta ≤ v ∧ v ≤ value ∧
    (st9.stack f.ss).excluded_move = NO_MOVE := by
  obtain ⟨s1, s2, s3, s4, s5, s6⟩ := of_decide_eq_true hsp
  have htt := hd st.tick f.key
  unfold abSingular at h
  simp only [] at h
  generalize (env.ttProbe st.tick f.key).2.2 = tte at htt h
  by_cases h1 : tte.flag.toNat &&& Flag.LOWERBOUND.toNat ≠ 0 ∧ tte.depth ≥ f.depth - 3
  · rw [if_pos h1] at h
    obtain ⟨h5, h6⟩ := abs_lt.mp s6
    have e2 : toInt16 (f.tt_score - 3 * f.depth) = f.tt_score - 3 * f.depth :=
      toInt16_of_range _ (by omega) (by omega)
    simp only [fixedSearch] at h
    by_cases h2 : value < f.tt_score - 3 * f.depth
    · rw [if_pos h2] at h
      cases h
    rw [if_neg h2] at h
    by_cases h3 : f.tt_score - 3 * f.depth ≥ f.beta
    · rw [if_pos h3, e2] at h
      simp only [Option.some.injEq, Prod.mk.injEq] at h
      rw [← h.1, ← h.2]
      exact ⟨rfl, h3, by omega, setExcluded_same _ _ _⟩
    · rw [if_neg h3] at h
      cases h
  · rw [if_neg h1] at h
    simp only [fixedSearch] at h
    cases h

theorem abPrune_carries (env : Env) (f : ABFrame) (st1 : SearchState) (ev : Int)
    (improving : Bool) (d2 : Int) (ss : Int) (m : Move)
    (hf : f.ss = ss ∧ f.excluded_move = m) :
    (abPrune env f st1 ev improving d2).Carries ss m := by
  unfold abPrune
  simp only []
  split_ifs <;> first
    | exact hf.1
    | exact hf
    | trivial

theorem abStatic_carries (env : Env) (f : ABFrame) (st : SearchState) (ss : Int) (m : Move)
    (hf : f.ss = ss ∧ f.excluded_move = m) : (abStatic env f st).Carries ss m := by
  unfold abStatic
  by_cases h1 : f.in_check = true
  · rw [if_pos h1]; exact hf
  rw [if_neg h1]
  simp only []
  by_cases h2 : f.node = .ROOT
  · rw [if_pos h2]; exact hf
  rw [if_neg h2]
  exact abPrune_carries env f _ _ _ _ ss m hf

theorem abTb_carries (env : Env) (node : Node) (depth1 alpha2 beta2 : Int) (ss : Int)
    (color : Color) (in_check : Bool) (excluded_move : Move) (key : Nat) (tt_hit : Bool)
    (ttmove : Move) (tt_score : Int) (st4 : SearchState) :
    (abTb env node depth1 alpha2 beta2 ss color in_check excluded_move key tt_hit ttmove
      tt_score st4).Carries ss excluded_move := by
  unfold abTb
  simp only []
  generalize tbProbe env (decide (node = .ROOT)) (decide (node ≠ .NONPV)) depth1 alpha2
    beta2 (st4.stack ss).ply st4 = tb
  cases htb : tb.1.1 with
  | some v => trivial
  | none => exact abStatic_carries env _ tb.2 ss excluded_move ⟨rfl, rfl⟩

theorem abCut_carries (env : Env) (node : Node) (depth1 alpha1 beta1 : Int) (ss : Int)
    (color : Color) (in_check : Bool) (excluded_move : Move) (key : Nat) (tt_hit : Bool)
    (ttmove : Move) (tte : TEntry) (tt_score : Int) (st4 : SearchState) :
    (abCut env node depth1 alpha1 beta1 ss color in_check excluded_move key tt_hit ttmove tte
      tt_score st4).Carries ss excluded_move := by
  unfold abCut
  simp only []
  split_ifs <;> first
    | trivial
    | exact abTb_carries _ _ _ _ _ _ _ _ _ _ _ _ _ _

theorem abProbe_carries (env : Env) (node : Node) (depth0 alpha1 beta1 : Int) (ss : Int)
    (color : Color) (in_check : Bool) (excluded_move : Move) (st1 : SearchState) :
    (abProbe env node depth0 alpha1 beta1 ss color in_check excluded_move st1).Carries ss
      excluded_move := by
  unfold abProbe
  simp only []
  by_cases h1 : (if in_check = true then depth0 + 1 else depth0) ≤ 0
  · rw [if_pos h1]; exact rfl
  rw [if_neg h1]
  exact abCut_carries _ _ _ _ _ _ _ _ _ _ _ _ _ _ _

/-- The part of `absearch` before the move loop hands on its frame and, in
the locals, the excluded move it found in that frame. -/
theorem abEntry_carries (env : Env) (node : Node) (depth0 alpha0 beta0 : Int) (ss : Int)
    (st0 : SearchState) :
    (abEntry env node depth0 alpha0 beta0 ss st0).Carries ss (st0.stack ss).excluded_move := by
  have hl := limitReached_stack env st0
  unfold abEntry
  generalize limitReached env st0 = lr at hl
  simp only []
  rw [← hl]
  split_ifs <;> first
    | trivial
    | exact abProbe_carries _ _ _ _ _ _ _ _ _ _

theorem abUpdate_carries (env : Env) (f : ABFrame) (st : SearchState) (move : Move)
    (capture : Bool) (score : Int) (node_count : Nat) :
    (abUpdate env f st move capture score node_count).1.ss = f.ss ∧
    (abUpdate env f st move capture score node_count).1.excluded_move = f.excluded_move := by
  unfold abUpdate
  simp only []
  generalize assertBand score (st.unmakeMove env move) = st1
  generalize (if env.id = 0 then
      { st1 with node_effort := fun a b =>
          if a = move.from ∧ b = move.to then
            (st1.node_effort a b + (st1.nodes + 2 ^ 64 - node_count) % 2 ^ 64) % 2 ^ 64
          else st1.node_effort a b }
    else st1) = st2
  by_cases c1 : score > f.best
  · rw [if_pos c1]
    by_cases c2 : score > f.alpha
    · rw [if_pos c2]
      by_cases c3 : score ≥ f.beta
      · rw [if_pos c3]
        exact ⟨rfl, rfl⟩
      · rw [if_neg c3]
        split_ifs <;> exact ⟨rfl, rfl⟩
    · rw [if_neg c2]
      split_ifs <;> exact ⟨rfl, rfl⟩
  · rw [if_neg c1]
    split_ifs <;> exact ⟨rfl, rfl⟩

theorem under_ge {ss : Int} {m : Move} {f : ABFrame} (h : (Call.abloop f).Under ss m) :
    ss ≤ f.ss := by
  rcases h with h | h
  · exact le_of_lt h
  · exact le_of_eq h.1.symm

theorem underGuard_pos (ss : Int) (m : Move)
    (rec : Call → SearchState → Option (Int × SearchState)) (call : Call) (st : SearchState)
    (hu : call.Under ss m) : underGuard ss m rec call st = rec call st := by
  unfold underGuard
  rw [if_pos hu]

theorem qLoop_under (env : Env) (ss : Int) (m : Move)
    (r1 r2 : Call → SearchState → Option (Int × SearchState)) (hag : UnderAgree ss m r1 r2)
    (f : QFrame) (st : SearchState) (hu : ss ≤ f.ss) :
    qLoop env r1 f st = qLoop env r2 f st := by
  unfold qLoop
  simp only []
  generalize env.nextMoveQ st f.ss f.ttmove f.idx = move
  by_cases h1 : move = NO_MOVE
  · simp only [if_pos h1]
  simp only [if_neg h1]
  by_cases h2 : qPruned env f st move = true
  · simp only [if_pos h2]
    exact hag _ _ hu
  simp only [if_neg h2]
  rw [hag _ _ (show (Call.q f.node (toInt16 (-f.beta)) (toInt16 (-f.alpha)) (f.ss + 1)).Under ss m
    from (by show ss ≤ f.ss + 1; omega))]
  cases r2 (.q f.node (toInt16 (-f.beta)) (toInt16 (-f.alpha)) (f.ss + 1))
      (SearchState.makeMove env { st with nodes := (st.nodes + 1) % 2 ^ 64 } move) with
  | none => rfl
  | some p =>
    obtain ⟨r, st3⟩ := p
    simp only []
    by_cases h3 : toInt16 (-r) > f.best_value
    · simp only [if_pos h3]
      by_cases h4 : toInt16 (-r) > f.alpha
      · simp only [if_pos h4]
        by_cases h5 : toInt16 (-r) ≥ f.beta
        · simp only [if_pos h5]
        · simp only [if_neg h5]
          exact hag _ _ hu
      · simp only [if_neg h4]
        exact hag _ _ hu
    · simp only [if_neg h3]
      exact hag _ _ hu

theorem abNull_under (env : Env) (ss : Int) (m : Move)
    (r1 r2 : Call → SearchState → Option (Int × SearchState)) (hag : UnderAgree ss m r1 r2)
    (f : ABFrame) (R : Int) (st : SearchState) (hu : (Call.abloop f).Under ss m) :
    abNull env r1 f R st = abNull env r2 f R st := by
  have hge := under_ge hu
  unfold abNull
  simp only []
  rw [hag _ _ (show (Call.ab .NONPV (f.depth - R) (toInt16 (-f.beta)) (toInt16 (-f.beta + 1))
    (f.ss + 1)).Under ss m from (by show ss < f.ss + 1; omega))]
  cases r2 (.ab .NONPV (f.depth - R) (toInt16 (-f.beta)) (toInt16 (-f.beta + 1)) (f.ss + 1))
      { st with tb := { st.tb with board := env.makeNullMove st.tb.board }
                stack := setCurrent st.stack f.ss NULL_MOVE } with
  | none => rfl
  | some p =>
    obtain ⟨r, st3⟩ := p
    simp only []
    by_cases h3 : toInt16 (-r) ≥ f.beta
    · simp only [if_pos h3]
    · simp only [if_neg h3]
      exact hag _ _ hu

theorem abSingular_under (env : Env) (ss : Int) (m : Move)
    (r1 r2 : Call → SearchState → Option (Int × SearchState)) (hag : UnderAgree ss m r1 r2)
    (f : ABFrame) (move : Move) (capture : Bool) (st : SearchState) (hu : ss < f.ss) :
    abSingular env r1 f move capture st = abSingular env r2 f move capture st := by
  have hm : ∀ e, (Call.abmove f move capture e).Under ss m := fun _ => Or.inl hu
  unfold abSingular
  simp only []
  generalize (env.ttProbe st.tick f.key).2.2 = tte
  by_cases h1 : tte.flag.toNat &&& Flag.LOWERBOUND.toNat ≠ 0 ∧ tte.depth ≥ f.depth - 3
  · simp only [if_pos h1]
    rw [hag _ _ (show (Call.ab .NONPV (Int.tdiv (f.depth - 1) 2)
      (toInt16 (f.tt_score - 3 * f.depth - 1)) (toInt16 (f.tt_score - 3 * f.depth)) f.ss).Under
      ss m from hu)]
    cases r2 (.ab .NONPV (Int.tdiv (f.depth - 1) 2) (toInt16 (f.tt_score - 3 * f.depth - 1))
        (toInt16 (f.tt_score - 3 * f.depth)) f.ss)
        { st with tick := st.tick + 1, stack := setExcluded st.stack f.ss move } with
    | none => rfl
    | some p =>
      obtain ⟨value, st3⟩ := p
      simp only []
      by_cases h2 : value < f.tt_score - 3 * f.depth
      · simp only [if_pos h2]
        exact hag _ _ (hm 1)
      simp only [if_neg h2]
      by_cases h3 : f.tt_score - 3 * f.depth ≥ f.beta
      · simp only [if_pos h3]
      · simp only [if_neg h3]
        exact hag _ _ (hm 0)
  · simp only [if_neg h1]
    exact hag _ _ (hm 0)

/-- One turn of the move loop of a frame above `ss`, or of frame `ss` with
the excluded move `m` in its locals, starts no call of `absearch` at frame
`ss`: at frame `ss` the singular-extension search is not started. -/
theorem abLoop_under (env : Env) (ss : Int) (m : Move) (hm : m ≠ NO_MOVE)
    (r1 r2 : Call → SearchState → Option (Int × SearchState)) (hag : UnderAgree ss m r1 r2)
    (f : ABFrame) (st : SearchState) (hu : (Call.abloop f).Under ss m) :
    abLoop env r1 f st = abLoop env r2 f st := by
  unfold abLoop
  simp only []
  generalize env.nextMoveAB st f.ss (decide (f.node = .ROOT))
    (if f.tt_hit = true then f.ttmove else NO_MOVE) f.idx = move
  by_cases h1 : move = NO_MOVE
  · simp only [if_pos h1]
  simp only [if_neg h1]
  by_cases h2 : move = f.excluded_move
  · simp only [if_pos h2]
    exact hag _ _ hu
  simp only [if_neg h2]
  have hu1 : (Call.abloop { f with made_moves := (f.made_moves + 1) % 256, idx := f.idx + 1 }).Under
    ss m := hu
  have he1 : ({ f with made_moves := (f.made_moves + 1) % 256, idx := f.idx + 1 }
    : ABFrame).excluded_move = f.excluded_move := rfl
  have hs1 : ({ f with made_moves := (f.made_moves + 1) % 256, idx := f.idx + 1 }
    : ABFrame).ss = f.ss := rfl
  generalize ({ f with made_moves := (f.made_moves + 1) % 256, idx := f.idx + 1 } : ABFrame) = f1
    at hu1 he1 hs1
  by_cases h3 : abPruned env f1 st move (decide (st.tb.board.pieceAtB move.to ≠ NONE)) = true
  · simp only [if_pos h3]
    exact hag _ _ hu1
  simp only [if_neg h3]
  by_cases h4 : singularPre f1 move = true
  · simp only [if_pos h4]
    rcases hu1 with hlt | heq
    · exact abSingular_under env ss m r1 r2 hag f1 move _ st hlt
    · exfalso
      have := (singularPre_spec f1 move h4).2.1
      rw [heq.2] at this
      exact hm this
  · simp only [if_neg h4]
    exact hag _ _ hu1

theorem abLmr_under (env : Env) (ss : Int) (m : Move)
    (r1 r2 : Call → SearchState → Option (Int × SearchState)) (hag : UnderAgree ss m r1 r2)
    (f : ABFrame) (capture : Bool) (newDepth : Int) (st : SearchState)
    (hu : (Call.abloop f).Under ss m) :
    abLmr env r1 f capture newDepth st = abLmr env r2 f capture newDepth st := by
  have hge := under_ge hu
  unfold abLmr
  simp only []
  rw [hag _ _ (show (Call.ab .NONPV (lmrDepth env f capture newDepth) (toInt16 (-f.alpha - 1))
    (toInt16 (-f.alpha)) (f.ss + 1)).Under ss m from (by show ss < f.ss + 1; omega))]

theorem abFull_under (ss : Int) (m : Move)
    (r1 r2 : Call → SearchState → Option (Int × SearchState)) (hag : UnderAgree ss m r1 r2)
    (f : ABFrame) (newDepth : Int) (score1 : Int) (st : SearchState) (dfs : Bool)
    (hu : (Call.abloop f).Under ss m) :
    abFull r1 f newDepth score1 st dfs = abFull r2 f newDepth score1 st dfs := by
  have hge := under_ge hu
  unfold abFull
  rw [hag _ _ (show (Call.ab .NONPV newDepth (toInt16 (-f.alpha - 1))
    (toInt16 (-f.alpha)) (f.ss + 1)).Under ss m from (by show ss < f.ss + 1; omega))]

theorem abPvs_under (ss : Int) (m : Move)
    (r1 r2 : Call → SearchState → Option (Int × SearchState)) (hag : UnderAgree ss m r1 r2)
    (f : ABFrame) (newDepth : Int) (score2 : Int) (st : SearchState)
    (hu : (Call.abloop f).Under ss m) :
    abPvs r1 f newDepth score2 st = abPvs r2 f newDepth score2 st := by
  have hge := under_ge hu
  unfold abPvs
  simp only []
  rw [hag _ _ (show (Call.ab .PV newDepth (toInt16 (-f.beta)) (toInt16 (-f.alpha))
    (f.ss + 1)).Under ss m from (by show ss < f.ss + 1; omega))]

theorem abMove_under (env : Env) (ss : Int) (m : Move)
    (r1 r2 : Call → SearchState → Option (Int × SearchState)) (hag : UnderAgree ss m r1 r2)
    (f : ABFrame) (move : Move) (capture : Bool) (extension : Int) (st : SearchState)
    (hu : (Call.abloop f).Under ss m) :
    abMove env r1 f move capture extension st = abMove env r2 f move capture extension st := by
  unfold abMove
  simp only []
  generalize ({ SearchState.makeMove env { st with nodes := (st.nodes + 1) % 2 ^ 64 } move
      with stack := setCurrent (SearchState.makeMove env
        { st with nodes := (st.nodes + 1) % 2 ^ 64 } move).stack f.ss move } : SearchState) = st3
  rw [abLmr_under env ss m r1 r2 hag f capture _ st3 hu]
  cases abLmr env r2 f capture (f.depth - 1 + extension) st3 with
  | none => rfl
  | some p1 =>
    obtain ⟨score1, st4, dfs⟩ := p1
    simp only []
    rw [abFull_under ss m r1 r2 hag f _ score1 st4 dfs hu]
    cases abFull r2 f (f.depth - 1 + extension) score1 st4 dfs with
    | none => rfl
    | some p2 =>
      obtain ⟨score2, st5⟩ := p2
      simp only []
      rw [abPvs_under ss m r1 r2 hag f _ score2 st5 hu]
      cases abPvs r2 f (f.depth - 1 + extension) score2 st5 with
      | none => rfl
      | some p3 =>
        obtain ⟨score3, st6⟩ := p3
        simp only []
        have hc := abUpdate_carries env f st6 move capture score3
          (SearchState.makeMove env { st with nodes := (st.nodes + 1) % 2 ^ 64 } move).nodes
        generalize abUpdate env f st6 move capture score3
          (SearchState.makeMove env { st with nodes := (st.nodes + 1) % 2 ^ 64 } move).nodes = u
          at hc
        have huu : (Call.abloop u.1).Under ss m := by
          show ss < u.1.ss ∨ (u.1.ss = ss ∧ u.1.excluded_move = m)
          rw [hc.1, hc.2]
          exact hu
        cases hb : u.2.2 with
        | true => simp only [if_true]
        | false =>
          simp only [Bool.false_eq_true, if_false]
          exact hag _ _ huu

/-- The step of `absearch` entered at frame `ss` with the excluded move `m`
in that frame starts only computations that meet `Call.Under`. -/
theorem abStep_under (env : Env) (ss : Int) (m : Move)
    (r1 r2 : Call → SearchState → Option (Int × SearchState)) (hag : UnderAgree ss m r1 r2)
    (node : Node) (depth alpha beta s : Int) (st : SearchState)
    (hu : ss < s ∨ (s = ss ∧ (st.stack s).excluded_move = m)) :
    searchStep env r1 (.ab node depth alpha beta s) st
      = searchStep env r2 (.ab node depth alpha beta s) st := by
  simp only [searchStep]
  have hq := abEntry_carries env node depth alpha beta s st
  have hf : ∀ f : ABFrame, f.ss = s ∧ f.excluded_move = (st.stack s).excluded_move →
      (Call.abloop f).Under ss m := by
    intro f hf
    rcases hu with h | h
    · exact Or.inl (by rw [hf.1]; exact h)
    · exact Or.inr ⟨hf.1.trans h.1, hf.2.trans h.2⟩
  have hs : ss ≤ s := by
    rcases hu with h | h
    · exact le_of_lt h
    · exact le_of_eq h.1.symm
  cases hr : abEntry env node depth alpha beta s st with
  | ret v1 st1 => rfl
  | tailQ node1 a b ss1 st1 =>
    rw [hr] at hq
    exact hag _ _ (show ss ≤ ss1 from by rw [show ss1 = s from hq]; exact hs)
  | moves f st1 =>
    rw [hr] at hq
    exact hag _ _ (hf f hq)
  | nmp f R st1 =>
    rw [hr] at hq
    exact abNull_under env ss m r1 r2 hag f R st1 (hf f hq)

/-- One step of the search does not tell two runners apart that agree on
the computations that meet `Call.Under`. -/
theorem searchStep_under (env : Env) (ss : Int) (m : Move) (hm : m ≠ NO_MOVE)
    (r1 r2 : Call → SearchState → Option (Int × SearchState)) (hag : UnderAgree ss m r1 r2) :
    UnderAgree ss m (searchStep env r1) (searchStep env r2) := by
  intro call st hu
  cases call with
  | q node alpha beta s =>
    simp only [searchStep]
    have hq := qEntry_stack env node alpha beta s st
    cases hr : qEntry env node alpha beta s st with
    | inl r => rfl
    | inr r =>
      obtain ⟨f, st1⟩ := r
      rw [hr] at hq
      exact hag _ _ (show ss ≤ f.ss from by rw [hq.2]; exact hu)
  | qloop f =>
    simp only [searchStep]
    exact qLoop_under env ss m r1 r2 hag f st hu
  | ab node depth alpha beta s =>
    exact abStep_under env ss m r1 r2 hag node depth alpha beta s st (Or.inl hu)
  | abloop f =>
    simp only [searchStep]
    exact abLoop_under env ss m hm r1 r2 hag f st hu
  | abmove f move capture extension =>
    simp only [searchStep]
    exact abMove_under env ss m r1 r2 hag f move capture extension st hu

/-- The search of a computation that meets `Call.Under` is the search that
refuses all others, for every fuel. -/
theorem search_under (env : Env) (ss : Int) (m : Move) (hm : m ≠ NO_MOVE) :
    ∀ n, UnderAgree ss m (search env n) (searchU env ss m n)
  | 0 => fun _ _ _ => rfl
  | n + 1 => fun call st hu =>
    searchStep_under env ss m hm (search env n) (underGuard ss m (searchU env ss m n))
      (fun c s hc => (search_under env ss m hm n c s hc).trans
        (underGuard_pos ss m _ c s hc).symm)
      call st hu

/-- The multicut of the singular-extension step with any runner: where the
singular-extension search returns a value that is not below
`singular_beta`, and `singular_beta` is at least `beta`, the step returns
`singular_beta` in the state of that search with the excluded move of the
frame set to `NO_MOVE`. -/
theorem abSingular_cut (env : Env) (hd : env.DepthByte)
    (rec : Call → SearchState → Option (Int × SearchState)) (f : ABFrame) (move : Move)
    (capture : Bool) (st : SearchState) (hsp : singularPre f move = true)
    (hte : (env.ttProbe st.tick f.key).2.2.flag.toNat &&& Flag.LOWERBOUND.toNat ≠ 0 ∧
      (env.ttProbe st.tick f.key).2.2.depth ≥ f.depth - 3)
    (value : Int) (st3 : SearchState)
    (hrec : rec (.ab .NONPV (Int.tdiv (f.depth - 1) 2) (f.tt_score - 3 * f.depth - 1)
        (f.tt_score - 3 * f.depth) f.ss)
        { st with tick := st.tick + 1, stack := setExcluded st.stack f.ss move }
      = some (value, st3))
    (hv : f.tt_score - 3 * f.depth ≤ value) (hb : f.beta ≤ f.tt_score - 3 * f.depth) :
    abSingular env rec f move capture st
      = some (f.tt_score - 3 * f.depth,
          { st3 with stack := setExcluded st3.stack f.ss NO_MOVE }) := by
  obtain ⟨s1, s2, s3, s4, s5, s6⟩ := of_decide_eq_true hsp
  have htt := hd st.tick f.key
  unfold abSingular
  simp only []
  generalize (env.ttProbe st.tick f.key).2.2 = tte at htt hte
  obtain ⟨h5, h6⟩ := abs_lt.mp s6
  have e1 : toInt16 (f.tt_score - 3 * f.depth - 1) = f.tt_score - 3 * f.depth - 1 :=
    toInt16_of_range _ (by omega) (by omega)
  have e2 : toInt16 (f.tt_score - 3 * f.depth) = f.tt_score - 3 * f.depth :=
    toInt16_of_range _ (by omega) (by omega)
  rw [if_pos hte, e1, e2, hrec]
  simp only []
  rw [if_neg (show ¬ value < f.tt_score - 3 * f.depth from by omega),
    if_pos (show f.tt_score - 3 * f.depth ≥ f.beta from hb)]

/-- The search of `absearch` entered at frame `ss` whose excluded move is
`m` (not `NO_MOVE`) is one step over the search that refuses every
computation that does not meet `Call.Under`. -/
theorem search_ab_under (env : Env) (ss : Int) (m : Move) (hm : m ≠ NO_MOVE) (n : Nat)
    (node : Node) (depth alpha beta : Int) (st : SearchState)
    (hx : (st.stack ss).excluded_move = m) :
    search env (n + 1) (.ab node depth alpha beta ss) st
      = searchStep env (underGuard ss m (searchU env ss m n)) (.ab node depth alpha beta ss)
          st :=
  abStep_under env ss m (search env n) (underGuard ss m (searchU env ss m n))
    (fun c s hc => (search_under env ss m hm n c s hc).trans (underGuard_pos ss m _ c s hc).symm)
    node depth alpha beta ss st (Or.inr ⟨rfl, hx⟩)

/-- C40: the singular-extension verification search is well founded and
leaves the frame clean. Where the condition of lines 463-470 holds for the
move of the current turn of the loop (not `NO_MOVE`): the excluded move in
the locals is `NO_MOVE` and the search depth `(depth - 1) / 2` is at least
0 and below `depth`; the step is the step over the runner that refuses
every call of `absearch` other than `absearch<NONPV>` at depth
`(depth - 1) / 2` on the window `(singular_beta - 1, singular_beta)` at the
same frame with the move as the excluded move of that frame, and every
continuation of the loop body in a state in which the excluded move of the
frame is not `NO_MOVE`; `absearch` entered at that frame with the move as
its excluded move is the search that refuses every call of `absearch` at
that frame and every turn of the loop of that frame whose locals do not
hold the excluded move, so that no further singular-extension search is
started at that frame before it returns; and where the search returns a
value that is not below `singular_beta` and `singular_beta >= beta`, the
step returns `singular_beta` in a state in which the excluded move of the
frame is `NO_MOVE`. -/
theorem singular_search_well_founded (env : Env) (hd : env.DepthByte) (n : Nat) (f : ABFrame)
    (move : Move) (capture : Bool) (st : SearchState) (hmv : move ≠ NO_MOVE)
    (hsp : singularPre f move = true)
    (hte : (env.ttProbe st.tick f.key).2.2.flag.toNat &&& Flag.LOWERBOUND.toNat ≠ 0 ∧
      (env.ttProbe st.tick f.key).2.2.depth ≥ f.depth - 3) :
    (f.excluded_move = NO_MOVE ∧ 0 ≤ Int.tdiv (f.depth - 1) 2 ∧
      Int.tdiv (f.depth - 1) 2 < f.depth) ∧
    (∀ rec, abSingular env (singularGuard f move rec) f move capture st
      = abSingular env rec f move capture st) ∧
    (∀ node depth alpha beta st2, (st2.stack f.ss).excluded_move = move →
      search env (n + 1) (.ab node depth alpha beta f.ss) st2
        = searchStep env (underGuard f.ss move (searchU env f.ss move n))
            (.ab node depth alpha beta f.ss) st2) ∧
    (∀ rec node depth alpha beta st2,
      underGuard f.ss move rec (.ab node depth alpha beta f.ss) st2 = none) ∧
    (∀ rec g st2, g.ss = f.ss → g.excluded_move ≠ move →
      underGuard f.ss move rec (.abloop g) st2 = none) ∧
    (∀ g mv, g.excluded_move = move → singularPre g mv = false) ∧
    (∀ rec value st3,
      rec (.ab .NONPV (Int.tdiv (f.depth - 1) 2) (f.tt_score - 3 * f.depth - 1)
          (f.tt_score - 3 * f.depth) f.ss)
          { st with tick := st.tick + 1, stack := setExcluded st.stack f.ss move }
        = some (value, st3) →
      f.tt_score - 3 * f.depth ≤ value → f.beta ≤ f.tt_score - 3 * f.depth →
      ∃ st9, abSingular env rec f move capture st = some (f.tt_score - 3 * f.depth, st9) ∧
        (st9.stack f.ss).excluded_move = NO_MOVE) :=
  have hs := singularPre_spec f move hsp
  ⟨⟨hs.2.1, hs.2.2.2.1, hs.2.2.2.2.1⟩,
    fun rec => abSingular_guard env hd rec f move capture st hsp hte,
    fun node depth alpha beta st2 hx =>
      search_ab_under env f.ss move hmv n node depth alpha beta st2 hx,
    fun rec node depth alpha beta st2 => by
      unfold underGuard
      rw [if_neg (show ¬ (Call.ab node depth alpha beta f.ss).Under f.ss move from lt_irrefl _)],
    fun rec g st2 hg hx => by
      unfold underGuard
      rw [if_neg (show ¬ (Call.abloop g).Under f.ss move from fun h => by
        rcases h with h | h
        · rw [hg] at h; exact lt_irrefl _ h
        · exact hx h.2)],
    fun g mv hg => singularPre_excluded g mv (by rw [hg]; exact hmv),
    fun rec value st3 hrec hv hb =>
      ⟨_, abSingular_cut env hd rec f move capture st hsp hte value st3 hrec hv hb,
        setExcluded_same _ _ _⟩⟩

set_option maxRecDepth 100000 in
/-- Witness for C40: at `singularFrame` (depth 8, table score 100, window
(50, 60)) the singular-extension search of e2-e4 is `absearch<NONPV>` at
depth 3 on the window (75, 76) at frame 1; it returns, and is the guarded
search; with a search value of 80 the step returns `singular_beta = 76` by
the multicut, with a search value of 70 it goes on with the move (which
the runner of this sample does not run). -/
theorem singular_search_well_founded_witness :
    sampleQuiet ≠ NO_MOVE ∧ singularPre singularFrame sampleQuiet = true ∧
    (search boundEnv 40 (.ab .NONPV 3 75 76 1) singularState).isSome = true ∧
    search boundEnv 40 (.ab .NONPV 3 75 76 1) singularState
      = searchStep boundEnv (underGuard 1 sampleQuiet (searchU boundEnv 1 sampleQuiet 39))
          (.ab .NONPV 3 75 76 1) singularState ∧
    abSingular boundEnv (singularGuard singularFrame sampleQuiet (fixedSearch 80)) singularFrame
        sampleQuiet false sampleState
      = abSingular boundEnv (fixedSearch 80) singularFrame sampleQuiet false sampleState ∧
    (abSingular boundEnv (fixedSearch 80) singularFrame sampleQuiet false sampleState).map
      (fun r => (r.1, (r.2.stack 1).excluded_move)) = some (76, NO_MOVE) ∧
    (abSingular boundEnv (fixedSearch 70) singularFrame sampleQuiet false sampleState).map
      (fun r => r.1) = none :=
  have h := singular_search_well_founded boundEnv (fun _ _ => (by decide : (10 : Int) ≤ 255)) 39
    singularFrame sampleQuiet false sampleState (by decide) (by decide) (by decide)
  ⟨by decide, by decide, by decide,
    h.2.2.1 .NONPV 3 75 76 singularState (by decide), h.2.1 (fixedSearch 80), by decide,
    by decide⟩

end Smallbrain
